import Mathlib

/-!
# Kanji quiz bot: session registry, review store and round engine

A shallow embedding of the Go sources (`main.go`, `quizrun.go`, `utils.go`,
`quizload.go`, `quizvalidate.go`) and theorems about it.

Modelling conventions

* A Go `map[string]V` is an association list with pairwise distinct keys, kept in
  insertion order (`GoMap`).  Go leaves the iteration order of a map unspecified; the
  list order is one admissible order.
* A Go slice is a `List`; a Go `string` is a `String` (valid Unicode text), `len(s)` is
  `String.utf8ByteSize`.
* The events a round loop takes from its `select` statement (stop signal, timer,
  relayed message) are an explicit input list, in the order the loop takes them.
* The numbers drawn by `rand.Intn` are an explicit input: `draw i` is the raw number
  drawn at loop index `i`, reduced modulo `i + 1`.
* `unicode.ToLower` (the case table of the Go standard library) is a parameter
  `toLower : Char → Char`.
* Where the result of a function depends on the order in which Go ranges over a map
  (the validator), that order is a parameter, any permutation of the entries;
  `sort.Slice` is a sort by the given `less`, and strings are compared rune by rune.
* Concurrent calls of `startQuiz` are interleaved statement by statement by an explicit
  schedule; `Ongoing.Lock()` does not go on while the mutex is held.
* A Go `int` or `time.Duration` is an `Int`; where the value of a quiz file or of a
  session can take an expression out of the `int64` range (the round timer of the
  standard and the sequential quiz, the square of the gauntlet score), the result is
  wrapped with `wrapInt64`.
-/

namespace KanjiQuiz

/-! ## Go maps -/

/-- A Go `map[string]V`: association list in insertion order. -/
abbrev GoMap (V : Type) := List (String × V)

namespace GoMap

variable {V : Type}

/-- The lookup `v, ok := m[k]`. -/
def get : GoMap V → String → Option V
  | [], _ => none
  | (k', v) :: m, k => if k' = k then some v else get m k

/-- The test `_, exists := m[k]`. -/
def contains (m : GoMap V) (k : String) : Bool := (get m k).isSome

/-- The assignment `m[k] = v`. -/
def set : GoMap V → String → V → GoMap V
  | [], k, v => [(k, v)]
  | (k', v') :: m, k, v => if k' = k then (k', v) :: m else (k', v') :: set m k v

/-- The statement `delete(m, k)`. -/
def delete : GoMap V → String → GoMap V
  | [], _ => []
  | (k', v) :: m, k => if k' = k then delete m k else (k', v) :: delete m k

/-- The expression `len(m)`. -/
def len (m : GoMap V) : Nat := m.length

/-- The keys of the map, in insertion order. -/
def keys (m : GoMap V) : List String := m.map Prod.fst

/-- Well-formedness: every key occurs once. -/
def WF (m : GoMap V) : Prop := (keys m).Nodup

end GoMap

/-! ## Data model (`quizload.go`) -/

/-- Card struct to hold question-answer set. -/
structure Card where
  Question : String
  Answers : List String
  Comment : String
  deriving DecidableEq, Repr

/-- Quiz struct to hold entire quiz data. -/
structure Quiz where
  Description : String
  Type_ : String
  Timeout : Int
  Deck : List Card
  deriving DecidableEq, Repr

/-- The zero value of `Quiz`, which a map lookup returns for a missing key. -/
def Quiz.zero : Quiz := ⟨"", "", 0, []⟩

/-! ## Session registry (`main.go`) -/

/-- The status text computed from the number of running quizzes. -/
def statusText (count : Nat) : String :=
  if count = 1 then "1 quiz"
  else if count ≥ 2 then toString count ++ " quizzes"
  else ""

/-- Result of `startQuiz`: the registry afterwards, the returned error and the status
text handed to `UpdateGameStatus`. -/
structure StartResult where
  ongoing : GoMap Bool
  err : Option String
  status : String

/-- Start ongoing quiz in given channel. -/
def startQuiz (ongoing : GoMap Bool) (quizChannel : String) : StartResult :=
  let exists_ := GoMap.contains ongoing quizChannel
  let ongoing1 := if !exists_ then GoMap.set ongoing quizChannel true else ongoing
  let err := if !exists_ then none else some "Channel quiz already ongoing"
  ⟨ongoing1, err, statusText (GoMap.len ongoing1)⟩

/-- Stop ongoing quiz in given channel: the registry afterwards and the status text. -/
def stopQuiz (ongoing : GoMap Bool) (quizChannel : String) : GoMap Bool × String :=
  let ongoing1 := GoMap.delete ongoing quizChannel
  (ongoing1, statusText (GoMap.len ongoing1))

/-- Checks if given channel has ongoing quiz. -/
def hasQuiz (ongoing : GoMap Bool) (quizChannel : String) : Bool :=
  GoMap.contains ongoing quizChannel

/-! ## Shuffle (`utils.go`) -/

/-- The swap function `reflect.Swapper` returns: exchange the elements at `i` and `j`. -/
def swap {α : Type} (l : List α) (i j : Nat) : List α :=
  match l[i]?, l[j]? with
  | some a, some b => (l.set i b).set j a
  | _, _ => l

/-- The loop `for i := length - 1; i > 0; i-- { j := rand.Intn(i + 1); swap(i, j) }`,
entered with loop index `i`. -/
def shuffleLoop {α : Type} (draw : Nat → Nat) : Nat → List α → List α
  | 0, l => l
  | i + 1, l => shuffleLoop draw i (swap l (i + 1) (draw (i + 1) % (i + 2)))

/-- Shuffles any slice (Fisher-Yates), given the numbers drawn. -/
def shuffle {α : Type} (draw : Nat → Nat) (l : List α) : List α :=
  shuffleLoop draw (l.length - 1) l

/-! ## Review store (`main.go`) -/

/-- Get review quiz for given channel: the store afterwards and the quiz returned. -/
def getReview (review : GoMap Quiz) (quizChannel : String) (draw : Nat → Nat) :
    GoMap Quiz × Quiz :=
  let result := (GoMap.get review quizChannel).getD Quiz.zero
  let review1 := GoMap.delete review quizChannel
  (review1, { result with Deck := shuffle draw result.Deck })

/-- Insert quiz into Review for given channel. -/
def putReview (review : GoMap Quiz) (quizChannel : String) (quiz : Quiz) : GoMap Quiz :=
  GoMap.set review quizChannel quiz

/-! ## String helpers (`utils.go`) -/

/-- The expression `len(s)`: the number of bytes of the UTF-8 encoding. -/
def strLen (s : String) : Nat := s.utf8ByteSize

/-- The library function `strings.ToLower` on valid text: `unicode.ToLower` applied to
every rune. -/
def ToLower (toLower : Char → Char) (s : String) : String :=
  String.mk (s.data.map toLower)

/-- Helper function to find string in set. -/
def hasString (toLower : Char → Char) : List String → String → Bool
  | [], _ => false
  | str :: set, s =>
    if strLen s = strLen str ∧ (s = str ∨ ToLower toLower s = str) then true
    else hasString toLower set s

/-- The rune mapping inside `k2h`. -/
def katakana2hiragana (r : Char) : Char :=
  if 'ァ' ≤ r ∧ r ≤ 'ヶ' then Char.ofNat (r.toNat - 0x60)
  else if '０' ≤ r ∧ r ≤ '９' then Char.ofNat (r.toNat - '０'.toNat + '0'.toNat)
  else if r = '　' then ' '
  else r

/-- Helper function to force katakana to hiragana conversion (along with full-width
numbers and space). -/
def k2h (s : String) : String := String.mk (s.data.map katakana2hiragana)

/-! ## `strconv.Atoi` (Go standard library) -/

/-- The decimal value of a run of ASCII digits, `none` when another character occurs. -/
def parseDigits : List Char → Nat → Option Nat
  | [], n => some n
  | c :: cs, n => if c.isDigit then parseDigits cs (n * 10 + (c.toNat - 48)) else none

/-- The library function `strconv.Atoi` for 64-bit `int`: the value returned and whether
the error is nil.  A text that is not `[+-]?[0-9]+` gives `(0, false)`; a value outside
the `int64` range gives the nearest bound and `false`. -/
def Atoi (s : String) : Int × Bool :=
  let parse (neg : Bool) (ds : List Char) : Int × Bool :=
    if ds.isEmpty then (0, false)
    else match parseDigits ds 0 with
      | none => (0, false)
      | some n =>
        if neg then (if n > 2 ^ 63 then (-(2 ^ 63 : Int), false) else (-(n : Int), true))
        else (if n ≥ 2 ^ 63 then ((2 ^ 63 : Int) - 1, false) else ((n : Int), true))
  match s.data with
  | '-' :: ds => parse true ds
  | '+' :: ds => parse false ds
  | ds => parse false ds

/-! ## Deep copy through JSON (`utils.go`) -/

/-- A JSON document, as `encoding/json` produces and reads it. -/
inductive JSON where
  | null
  | num (n : Int)
  | str (s : String)
  | arr (xs : List JSON)
  | obj (fields : List (String × JSON))

/-- The encoding of a `Card`: `question`, `answers`, and `comment` unless empty. -/
def marshalCard (c : Card) : JSON :=
  JSON.obj ([("question", JSON.str c.Question),
             ("answers", JSON.arr (c.Answers.map JSON.str))] ++
            (if c.Comment = "" then [] else [("comment", JSON.str c.Comment)]))

/-- The encoding of a `Quiz`: `description`, `type` unless empty, `timeout` unless
zero, and `deck`. -/
def marshalQuiz (q : Quiz) : JSON :=
  JSON.obj ([("description", JSON.str q.Description)] ++
            (if q.Type_ = "" then [] else [("type", JSON.str q.Type_)]) ++
            (if q.Timeout = 0 then [] else [("timeout", JSON.num q.Timeout)]) ++
            [("deck", JSON.arr (q.Deck.map marshalCard))])

/-- Decoding of a string field; a missing field or `null` leaves the zero value. -/
def fieldString (fields : List (String × JSON)) (name : String) : Option String :=
  match GoMap.get fields name with
  | none => some ""
  | some JSON.null => some ""
  | some (JSON.str s) => some s
  | some _ => none

/-- Decoding of an integer field; a missing field or `null` leaves the zero value. -/
def fieldInt (fields : List (String × JSON)) (name : String) : Option Int :=
  match GoMap.get fields name with
  | none => some 0
  | some JSON.null => some 0
  | some (JSON.num n) => some n
  | some _ => none

/-- Decoding of an array field; a missing field or `null` leaves the nil slice. -/
def fieldArray (fields : List (String × JSON)) (name : String) : Option (List JSON) :=
  match GoMap.get fields name with
  | none => some []
  | some JSON.null => some []
  | some (JSON.arr xs) => some xs
  | some _ => none

/-- Decoding of the elements of an array, in order; an error on one element is an error
of the whole. -/
def decodeAll {α : Type} (f : JSON → Option α) : List JSON → Option (List α)
  | [] => some []
  | x :: xs =>
    match f x, decodeAll f xs with
    | some a, some rest => some (a :: rest)
    | _, _ => none

/-- Decoding of a JSON string. -/
def unmarshalString : JSON → Option String
  | JSON.str s => some s
  | JSON.null => some ""
  | _ => none

/-- Decoding of a `Card`; `none` is an unmarshalling error. -/
def unmarshalCard : JSON → Option Card
  | JSON.obj fields => do
    let question ← fieldString fields "question"
    let answers ← fieldArray fields "answers"
    let answers ← decodeAll unmarshalString answers
    let comment ← fieldString fields "comment"
    pure ⟨question, answers, comment⟩
  | JSON.null => some ⟨"", [], ""⟩
  | _ => none

/-- Decoding of a `Quiz`; `none` is an unmarshalling error. -/
def unmarshalQuiz : JSON → Option Quiz
  | JSON.obj fields => do
    let description ← fieldString fields "description"
    let type ← fieldString fields "type"
    let timeout ← fieldInt fields "timeout"
    let deck ← fieldArray fields "deck"
    let deck ← decodeAll unmarshalCard deck
    pure ⟨description, type, timeout, deck⟩
  | JSON.null => some Quiz.zero
  | _ => none

/-- Helper function to deep copy quiz structures: marshal to JSON and unmarshal into a
fresh value; on an unmarshalling error the zero value is returned. -/
def copyQuiz (q : Quiz) : Quiz :=
  match unmarshalQuiz (marshalQuiz q) with
  | some cp => cp
  | none => Quiz.zero

/-! ## Scoreboard (`utils.go`) -/

/-- Player type for ranking list. -/
structure Player where
  Name : String
  Score : Int
  deriving DecidableEq, Repr

/-- Sort the player ranking list: the entries of the map, sorted with the comparison
`result[i].Score > result[j].Score`. -/
def ranking (players : GoMap Int) : List Player :=
  (players.map (fun e => Player.mk e.1 e.2)).insertionSort (fun a b => a.Score > b.Score)

/-- Helper function to pick min value out of two ints. -/
def minint (a b : Int) : Int := if a < b then a else b

/-! ## Round engine: events and outputs (`quizrun.go`) -/

/-- The fields of a relayed `discordgo.MessageCreate` the round loops read. -/
structure Message where
  AuthorID : String
  Content : String
  deriving DecidableEq, Repr

/-- What the `select` of a round loop takes: a stop order from `quitChan`, the firing of
the round timer, or a relayed message. -/
inductive Event where
  | quit
  | timeout
  | msg (m : Message)
  deriving DecidableEq, Repr

/-- The fields of the final scoreboard embed.  `winners` and `participants` hold one
entry per line of the field text; `resuming` is the offset of the "Resuming" field and
`note` the count in the "Note" field, when the field is present. -/
structure Scoreboard where
  winners : List Player
  participants : List Player
  resuming : Option Int
  note : Option Nat
  footer : List String
  deriving DecidableEq, Repr

/-- A line of the "Scorers" field of a multi quiz round: the player, the points gained
in the round, the standing, and the answers given. -/
structure MultiLine where
  Name : String
  gained : Int
  total : Int
  given : List String
  deriving DecidableEq, Repr

/-- What a session sends to its channel.  The texts of the messages and embeds are left
to the rendering; an output records the data they are built from. -/
inductive Output where
  | notFound (quizname : String)
  | starting (quizname : String) (questions : Nat) (winLimit : Int)
  | question (current : Card)
  | puzzle (group : List String) (question : String)
  | timedOut (current : Card)
  | timedOutGroup (group : List String) (question : String)
  | correct (current : Card) (fastest : Option Player) (scorers : List Player)
  | correctGroup (group : List String) (fastest : Option Player) (scorers : List Player)
  | correctMulti (current : Card) (lines : List MultiLine)
  | tooManyTimeouts
  | scoreboard (sb : Scoreboard)
  deriving DecidableEq, Repr

/-- The value of a Go `int` or `time.Duration` expression on a 64-bit platform: the
result wraps around. -/
def wrapInt64 (x : Int) : Int := (x + 2 ^ 63) % 2 ^ 64 - 2 ^ 63

/-- One second, as a `time.Duration` (nanoseconds). -/
def Second : Int := 1000000000

/-- One millisecond, as a `time.Duration` (nanoseconds). -/
def Millisecond : Int := 1000000

/-- The constant `timeoutLimit`: count before aborting. -/
def timeoutLimit : Int := 5

/-! ## Standard and sequential quiz (`runQuiz`, `runQuizSequential`) -/

/-- The local variables of `runQuiz` and `runQuizSequential` while the outer loop runs.
`quiz.Deck` is the working deck; `timer` is the duration the round timer was last armed
with; `sent` is what was sent to the channel so far; `running` is false once the outer
loop has been left.  `idx` and `pointLimit` are used by `runQuizSequential` only,
`winLimit` by `runQuiz` only. -/
structure QuizState where
  quizname : String
  winLimit : Int
  idx : Int
  pointLimit : Int
  timeout : Int
  waitTime : Int
  quiz : Quiz
  quizHistory : List String
  failed : List Card
  players : GoMap Int
  timeoutCount : Int
  current : Card
  answers : List String
  scoreKeeper : GoMap Int
  timer : Int
  sent : List Output
  running : Bool
  deriving DecidableEq, Repr

/-- The entry appended to the quiz history for a card. -/
def historyEntry (type : String) (current : Card) : String :=
  match current.Answers with
  | a :: _ => if type = "text" ∨ type = "url" then a else current.Question
  | [] => current.Question

/-- The statement `quizHistory[len(quizHistory)-1] = "*" + quizHistory[len(quizHistory)-1]`. -/
def markFailed (quizHistory : List String) : List String :=
  match quizHistory.getLast? with
  | none => quizHistory
  | some h => quizHistory.dropLast ++ ["*" ++ h]

/-- The accumulator of the scoring loop over the round's score keeper. -/
structure Tally where
  players : GoMap Int
  fastest : Option Player
  scorers : List Player
  winnerExists : Bool

/-- One iteration of `for player, position := range scoreKeeper` in `runQuiz`. -/
def tallyStep (winLimit : Int) (t : Tally) (e : String × Int) : Tally :=
  let score := (GoMap.get t.players e.1).getD 0 + 1
  { players := GoMap.set t.players e.1 score
    fastest := if e.2 = 1 then some ⟨e.1, score⟩ else t.fastest
    scorers := if e.2 = 1 then t.scorers else t.scorers ++ [⟨e.1, score⟩]
    winnerExists := if score ≥ winLimit then true else t.winnerExists }

/-- The scoring loop of `runQuiz` over the round's score keeper. -/
def tally (winLimit : Int) (players : GoMap Int) (scoreKeeper : GoMap Int) : Tally :=
  scoreKeeper.foldl (tallyStep winLimit) ⟨players, none, [], false⟩

/-- One iteration of `for player, position := range scoreKeeper` in `runQuizSequential`,
which has no winner check. -/
def tallyStepSequential (t : Tally) (e : String × Int) : Tally :=
  let score := (GoMap.get t.players e.1).getD 0 + 1
  { players := GoMap.set t.players e.1 score
    fastest := if e.2 = 1 then some ⟨e.1, score⟩ else t.fastest
    scorers := if e.2 = 1 then t.scorers else t.scorers ++ [⟨e.1, score⟩]
    winnerExists := false }

/-- The scoring loop of `runQuizSequential`. -/
def tallySequential (players : GoMap Int) (scoreKeeper : GoMap Int) : Tally :=
  scoreKeeper.foldl tallyStepSequential ⟨players, none, [], false⟩

namespace QuizState

/-- Top of the outer loop of `runQuiz`, up to the `select`: leave the loop when the
working deck is empty, otherwise take the last card, send the question and arm the
timer with `time.Duration(timeout) * time.Second`, an `int64` product. -/
def present (s : QuizState) : QuizState :=
  match s.quiz.Deck.getLast? with
  | none => { s with running := false }
  | some current =>
    { s with
      current := current
      quiz := { s.quiz with Deck := s.quiz.Deck.dropLast }
      answers := current.Answers.map k2h
      quizHistory := s.quizHistory ++ [historyEntry s.quiz.Type_ current]
      scoreKeeper := []
      sent := s.sent ++ [Output.question current]
      timer := wrapInt64 (s.timeout * Second)
      running := true }

/-- The rest of the outer loop body of `runQuiz` after the inner loop: score the round
when somebody answered, leave the outer loop on a winner, otherwise go on with the next
card. -/
def closeRound (s : QuizState) : QuizState :=
  if GoMap.len s.scoreKeeper > 0 then
    let t := tally s.winLimit s.players s.scoreKeeper
    let s1 := { s with
      players := t.players
      sent := s.sent ++ [Output.correct s.current t.fastest t.scorers] }
    if t.winnerExists then { s1 with running := false } else present s1
  else present s

/-- The case `<-quitChan`, the same in `runQuiz` and `runQuizSequential`. -/
def onQuit (s : QuizState) : QuizState :=
  { s with
    failed :=
      if s.quizname = "review" then
        (if GoMap.len s.scoreKeeper = 0 then s.failed ++ [s.current] else s.failed)
          ++ s.quiz.Deck
      else s.failed
    running := false }

/-- The case `msg := <-c`, the same in `runQuiz` and `runQuizSequential`. -/
def onMessage (toLower : Char → Char) (s : QuizState) (m : Message) : QuizState :=
  if m.Content = ".." ∨ m.Content = "。。" then { s with timer := 0 }
  else if hasString toLower s.answers (k2h m.Content) then
    { s with
      timer := if GoMap.len s.scoreKeeper = 0 then s.waitTime else s.timer
      scoreKeeper :=
        if GoMap.contains s.scoreKeeper m.AuthorID then s.scoreKeeper
        else GoMap.set s.scoreKeeper m.AuthorID ((GoMap.len s.scoreKeeper : Int) + 1)
      timeoutCount := 0 }
  else s

/-- The part of the case `<-timeoutChan.C` after the check for scorers, up to the
check of the timeout count, the same in `runQuiz` and `runQuizSequential`. -/
def noteTimeout (s : QuizState) : QuizState :=
  { s with
    sent := s.sent ++ [Output.timedOut s.current]
    failed := s.failed ++ [s.current]
    quizHistory := markFailed s.quizHistory
    timeoutCount := s.timeoutCount + 1 }

/-- The abort after too many timeouts in a row, the same in `runQuiz` and
`runQuizSequential`. -/
def abort (s : QuizState) : QuizState :=
  { s with
    sent := s.sent ++ [Output.tooManyTimeouts]
    failed := if s.quizname = "review" then s.failed ++ s.quiz.Deck else s.failed
    running := false }

/-- One pass through the `select` of `runQuiz`, followed, when the inner loop is left,
by the rest of the outer loop body up to the next `select`. -/
def step (toLower : Char → Char) (s : QuizState) : Event → QuizState
  | Event.quit => onQuit s
  | Event.timeout =>
    if GoMap.len s.scoreKeeper > 0 then closeRound s
    else
      let s1 := noteTimeout s
      if s1.timeoutCount ≥ timeoutLimit then abort s1 else closeRound s1
  | Event.msg m => onMessage toLower s m

/-- The loop of `runQuiz` on the events it takes; events after the outer loop was left
are not taken. -/
def run (toLower : Char → Char) (s : QuizState) (events : List Event) : QuizState :=
  events.foldl (fun s e => if s.running then step toLower s e else s) s

/-- The final scoreboard of `runQuiz`. -/
def scoreboard (s : QuizState) : Scoreboard :=
  let r := ranking s.players
  { winners := r.filter (fun p => p.Score ≥ s.winLimit ∧ s.quizname ≠ "review")
    participants := r.filter (fun p => ¬ (p.Score ≥ s.winLimit ∧ s.quizname ≠ "review"))
    resuming := none
    note := if s.failed.length > 0 then some s.failed.length else none
    footer := s.quizHistory }

end QuizState

/-- The shared state: the registry of active channels and the review store. -/
structure Globals where
  Ongoing : GoMap Bool
  Review : GoMap Quiz
  deriving DecidableEq, Repr

/-- What a call of one of the `run...` functions has done once the given events are
used up.  `session` holds the local variables when the outer loop was set up; `sent` is
everything sent to the channel; `returned` is false while the loop still waits in its
`select`; `panicked` records a run-time panic. -/
structure Run (σ : Type) where
  globals : Globals
  session : Option σ
  sent : List Output
  returned : Bool
  panicked : Bool

/-- The outcome of `runQuiz` and `runQuizSequential`. -/
abbrev QuizRun := Run QuizState

/-- Parse provided winLimit with sane defaults. -/
def parseWinLimit (winLimit : Int) (deckLen : Nat) (winLimitGiven : String) : Int :=
  let r := Atoi winLimitGiven
  if r.2 then
    let i := if r.1 > deckLen then (deckLen : Int) else r.1
    if i > 100 then 100 else if i < 1 then 1 else i
  else winLimit

/-- The quiz `q` with its deck replaced: the statement `quiz.Deck = deck`. -/
def Quiz.withDeck (q : Quiz) (deck : List Card) : Quiz := { q with Deck := deck }

/-- The quiz a session of `runQuiz` or `runQuizSequential` plays: the review quiz of the
channel for the name `review`, the loaded quiz otherwise. -/
def sessionQuiz (g : Globals) (quizChannel quizname : String) (loaded : Quiz)
    (draw : Nat → Nat) : Quiz :=
  if quizname = "review" then (getReview g.Review quizChannel draw).2 else loaded

/-- The end of `runQuiz` and `runQuizSequential` after the scoreboard: store the failed
cards as the review quiz of the channel and release the channel. -/
def storeAndStop (g : Globals) (quizChannel : String) (s : QuizState) : Globals :=
  { Ongoing := (stopQuiz g.Ongoing quizChannel).1
    Review := putReview g.Review quizChannel (copyQuiz (Quiz.withDeck s.quiz s.failed)) }

/-- The local variables of `runQuiz` and `runQuizSequential` before the outer loop. -/
def QuizState.init (quizname : String) (winLimit idx pointLimit timeout waitTime : Int)
    (quiz : Quiz) : QuizState :=
  { quizname := quizname, winLimit := winLimit, idx := idx, pointLimit := pointLimit,
    timeout := timeout, waitTime := waitTime, quiz := quiz, quizHistory := [],
    failed := [], players := [], timeoutCount := 0, current := ⟨"", [], ""⟩,
    answers := [], scoreKeeper := [], timer := 0,
    sent := [Output.starting quizname quiz.Deck.length winLimit], running := true }

/-- What `runQuiz` and `runQuizSequential` have done when the loop is in state `s`: while
the loop runs the call has not returned; after it the scoreboard `sb` is sent, the
failed cards are stored and the channel is released. -/
def finishRun (g : Globals) (quizChannel : String) (s : QuizState) (sb : Scoreboard) :
    QuizRun :=
  if s.running then ⟨g, some s, s.sent, false, false⟩
  else ⟨storeAndStop g quizChannel s, some s, s.sent ++ [Output.scoreboard sb], true, false⟩

/-- Run kanji quiz loop in given channel.  `loaded` is what `LoadQuiz(quizname, true)`
returns, `draw` the numbers drawn by the shuffle of `getReview`, `events` what the
`select` takes.  The pause time only sets the length of the sleeps and is left out. -/
def runQuiz (toLower : Char → Char) (g : Globals) (quizChannel quizname : String)
    (winLimitGiven : String) (waitTimeGiven : Int) (loaded : Quiz) (draw : Nat → Nat)
    (events : List Event) : QuizRun :=
  let st := startQuiz g.Ongoing quizChannel
  if st.err.isSome then ⟨{ g with Ongoing := st.ongoing }, none, [], true, false⟩
  else
    let review1 :=
      if quizname = "review" then (getReview g.Review quizChannel draw).1 else g.Review
    let quiz := sessionQuiz g quizChannel quizname loaded draw
    let winLimit : Int := if quizname = "review" then (quiz.Deck.length : Int) else 15
    if quiz.Deck.length = 0 then
      ⟨⟨(stopQuiz st.ongoing quizChannel).1, review1⟩, none, [Output.notFound quizname],
        true, false⟩
    else
      let winLimit := parseWinLimit winLimit quiz.Deck.length winLimitGiven
      let timeout := if quiz.Timeout > 0 then quiz.Timeout else 20
      let s := QuizState.run toLower
        (QuizState.present
          (QuizState.init quizname winLimit 0 0 timeout (waitTimeGiven * Millisecond) quiz))
        events
      finishRun ⟨st.ongoing, review1⟩ quizChannel s (QuizState.scoreboard s)

namespace QuizState

/-- Top of the outer loop of `runQuizSequential`, up to the `select`: leave the loop
when the working deck is empty, otherwise take the first card, send the question and
arm the timer with `time.Duration(timeout) * time.Second`, an `int64` product. -/
def presentSequential (s : QuizState) : QuizState :=
  match s.quiz.Deck with
  | [] => { s with running := false }
  | current :: rest =>
    { s with
      current := current
      quiz := { s.quiz with Deck := rest }
      answers := current.Answers.map k2h
      quizHistory := s.quizHistory ++ [historyEntry s.quiz.Type_ current]
      scoreKeeper := []
      sent := s.sent ++ [Output.question current]
      timer := wrapInt64 (s.timeout * Second)
      running := true }

/-- The rest of the outer loop body of `runQuizSequential` after the inner loop: score
the round when somebody answered, increase the question index and go on with the next
card. -/
def closeRoundSequential (s : QuizState) : QuizState :=
  let s1 :=
    if GoMap.len s.scoreKeeper > 0 then
      let t := tallySequential s.players s.scoreKeeper
      { s with
        players := t.players
        sent := s.sent ++ [Output.correct s.current t.fastest t.scorers] }
    else s
  presentSequential { s1 with idx := s1.idx + 1 }

/-- One pass through the `select` of `runQuizSequential`, followed, when the inner loop
is left, by the rest of the outer loop body up to the next `select`. -/
def stepSequential (toLower : Char → Char) (s : QuizState) : Event → QuizState
  | Event.quit => onQuit s
  | Event.timeout =>
    if GoMap.len s.scoreKeeper > 0 then closeRoundSequential s
    else
      let s1 := noteTimeout s
      if s1.timeoutCount ≥ timeoutLimit then abort s1 else closeRoundSequential s1
  | Event.msg m => onMessage toLower s m

/-- The loop of `runQuizSequential` on the events it takes. -/
def runSequential (toLower : Char → Char) (s : QuizState) (events : List Event) :
    QuizState :=
  events.foldl (fun s e => if s.running then stepSequential toLower s e else s) s

/-- The final scoreboard of `runQuizSequential`. -/
def scoreboardSequential (s : QuizState) : Scoreboard :=
  { winners := []
    participants := ranking s.players
    resuming := if s.quiz.Deck.length > 0 then some s.idx else none
    note := if s.failed.length > 0 then some s.failed.length else none
    footer := s.quizHistory }

end QuizState

/-- The expression `startIndex[:strings.Index(startIndex, "-")]`; `none` when there is
no `-`, where the slice expression panics. -/
def startIndexText (startIndex : String) : Option String :=
  if '-' ∈ startIndex.data then some (String.mk (startIndex.data.takeWhile (· ≠ '-')))
  else none

/-- The local variables of `runQuizSequential` at the first `select`, for the start index
`idx`: the deck is flashed forward up to the index, the point limit and the timeout are
set, and the first card is presented. -/
def QuizState.startSequential (quizname : String) (waitTimeGiven : Int) (quiz : Quiz)
    (idx : Int) : QuizState :=
  let quiz := Quiz.withDeck quiz (quiz.Deck.drop idx.toNat)
  let timeout := if quiz.Timeout > 0 then quiz.Timeout else 20
  QuizState.presentSequential
    (QuizState.init quizname 0 idx (quiz.Deck.length : Int) timeout
      (waitTimeGiven * Millisecond) quiz)

/-- Parse provided start index: the parsed number, cut down to the length of the deck. -/
def startOffset (deckLen : Nat) (text : String) : Int :=
  let idx := (Atoi text).1
  if idx > deckLen then (deckLen : Int) else idx

/-- Run sequential kanji quiz loop in given channel.  `loaded` is what
`LoadQuiz(quizname, false)` returns. -/
def runQuizSequential (toLower : Char → Char) (g : Globals) (quizChannel quizname : String)
    (startIndex : String) (waitTimeGiven : Int) (loaded : Quiz) (draw : Nat → Nat)
    (events : List Event) : QuizRun :=
  let st := startQuiz g.Ongoing quizChannel
  if st.err.isSome then ⟨{ g with Ongoing := st.ongoing }, none, [], true, false⟩
  else
    let review1 :=
      if quizname = "review" then (getReview g.Review quizChannel draw).1 else g.Review
    let quiz := sessionQuiz g quizChannel quizname loaded draw
    if quiz.Deck.length = 0 then
      ⟨⟨(stopQuiz st.ongoing quizChannel).1, review1⟩, none, [Output.notFound quizname],
        true, false⟩
    else
      match startIndexText startIndex with
      | none => ⟨⟨st.ongoing, review1⟩, none, [], false, true⟩
      | some text =>
        let idx := startOffset quiz.Deck.length text
        if idx < 0 then ⟨⟨st.ongoing, review1⟩, none, [], false, true⟩
        else
          let s := QuizState.runSequential toLower
            (QuizState.startSequential quizname waitTimeGiven quiz idx) events
          finishRun ⟨st.ongoing, review1⟩ quizChannel s (QuizState.scoreboardSequential s)

/-! ## Multi quiz (`runMultiQuiz`) -/

/-- The constant `pointLimit` of `runMultiQuiz`: possible points per question. -/
def pointLimit : Int := 3

/-- What the `select` of `runMultiQuiz` takes.  A message comes with the reading `now`
of the clock (nanoseconds) that `time.Now()` and `time.Since` see while it is handled. -/
inductive MultiEvent where
  | quit
  | timeout
  | msg (m : Message) (now : Int)
  deriving DecidableEq, Repr

/-- The local variables of `runMultiQuiz` while the outer loop runs.  An entry `none` of
`answerMap` is the zero time. -/
structure MultiState where
  quizname : String
  winLimit : Int
  timeout : Int
  waitTime : Int
  quiz : Quiz
  quizHistory : List String
  players : GoMap Int
  timeoutCount : Int
  current : Card
  answerMap : GoMap (Option Int)
  answersLeft : Int
  scoreKeeper : GoMap Int
  scoreKeeperAnswers : GoMap (List String)
  timer : Int
  sent : List Output
  running : Bool
  deriving DecidableEq, Repr

/-- The accumulator of the scoring loop of `runMultiQuiz`. -/
structure MultiTally where
  players : GoMap Int
  winnerExists : Bool

/-- One iteration of `for player, score := range scoreKeeper` in `runMultiQuiz`. -/
def multiTallyStep (winLimit : Int) (t : MultiTally) (e : String × Int) : MultiTally :=
  let score := (GoMap.get t.players e.1).getD 0 + minint e.2 pointLimit
  { players := GoMap.set t.players e.1 score
    winnerExists := if score ≥ winLimit then true else t.winnerExists }

/-- The scoring loop of `runMultiQuiz` over the round's score keeper. -/
def multiTally (winLimit : Int) (players : GoMap Int) (scoreKeeper : GoMap Int) :
    MultiTally :=
  scoreKeeper.foldl (multiTallyStep winLimit) ⟨players, false⟩

namespace MultiState

/-- The key under which an answer is kept in `answerMap`. -/
def answerKey (toLower : Char → Char) (ans : String) : String := k2h (ToLower toLower ans)

/-- Top of the outer loop of `runMultiQuiz`, up to the `select`. -/
def present (toLower : Char → Char) (s : MultiState) : MultiState :=
  match s.quiz.Deck.getLast? with
  | none => { s with running := false }
  | some current =>
    let answerMap : GoMap (Option Int) :=
      current.Answers.foldl (fun m ans => GoMap.set m (answerKey toLower ans) none) []
    let bonusTime := minint ((current.Answers.length : Int) * 2) 12
    { s with
      current := current
      quiz := { s.quiz with Deck := s.quiz.Deck.dropLast }
      answerMap := answerMap
      answersLeft := (GoMap.len answerMap : Int)
      quizHistory := s.quizHistory ++ [historyEntry s.quiz.Type_ current]
      scoreKeeper := []
      scoreKeeperAnswers := []
      sent := s.sent ++ [Output.question current]
      timer := (s.timeout + bonusTime) * Second
      running := true }

/-- The rest of the outer loop body of `runMultiQuiz` after the inner loop. -/
def closeRound (toLower : Char → Char) (s : MultiState) : MultiState :=
  if GoMap.len s.scoreKeeper > 0 then
    let t := multiTally s.winLimit s.players s.scoreKeeper
    let lines := (ranking s.scoreKeeper).map (fun p =>
      MultiLine.mk p.Name (minint p.Score pointLimit) ((GoMap.get t.players p.Name).getD 0)
        ((GoMap.get s.scoreKeeperAnswers p.Name).getD []))
    let s1 := { s with
      players := t.players
      sent := s.sent ++ [Output.correctMulti s.current lines] }
    if t.winnerExists then { s1 with running := false } else present toLower s1
  else present toLower s

/-- The counting of an accepted answer: the last three statements of the case
`msg := <-c`. -/
def count (s : MultiState) (m : Message) : MultiState :=
  { s with
    scoreKeeper :=
      GoMap.set s.scoreKeeper m.AuthorID ((GoMap.get s.scoreKeeper m.AuthorID).getD 0 + 1)
    scoreKeeperAnswers :=
      GoMap.set s.scoreKeeperAnswers m.AuthorID
        ((GoMap.get s.scoreKeeperAnswers m.AuthorID).getD [] ++ [m.Content])
    timeoutCount := 0 }

/-- The case `msg := <-c` of `runMultiQuiz`. -/
def onMessage (toLower : Char → Char) (s : MultiState) (m : Message) (now : Int) :
    MultiState :=
  if m.Content = ".." ∨ m.Content = "。。" then { s with timer := 0 }
  else
    match GoMap.get s.answerMap (answerKey toLower m.Content) with
    | none => s
    | some none =>
      let answersLeft := s.answersLeft - 1
      count { s with
        answerMap := GoMap.set s.answerMap (answerKey toLower m.Content) (some now)
        answersLeft := answersLeft
        timer := if answersLeft ≤ 0 then s.waitTime else s.timer } m
    | some (some ts) => if now - ts > s.waitTime then s else count s m

/-- The part of the case `<-timeoutChan.C` of `runMultiQuiz` after the check for
scorers, up to the check of the timeout count. -/
def noteTimeout (s : MultiState) : MultiState :=
  { s with
    sent := s.sent ++ [Output.timedOut s.current]
    quizHistory := markFailed s.quizHistory
    timeoutCount := s.timeoutCount + 1 }

/-- The abort of `runMultiQuiz` after too many timeouts in a row. -/
def abort (s : MultiState) : MultiState :=
  { s with sent := s.sent ++ [Output.tooManyTimeouts], running := false }

/-- One pass through the `select` of `runMultiQuiz`, followed, when the inner loop is
left, by the rest of the outer loop body up to the next `select`. -/
def step (toLower : Char → Char) (s : MultiState) : MultiEvent → MultiState
  | MultiEvent.quit => { s with running := false }
  | MultiEvent.timeout =>
    if GoMap.len s.scoreKeeper > 0 then closeRound toLower s
    else
      let s1 := noteTimeout s
      if s1.timeoutCount ≥ timeoutLimit then abort s1 else closeRound toLower s1
  | MultiEvent.msg m now => onMessage toLower s m now

/-- The loop of `runMultiQuiz` on the events it takes. -/
def run (toLower : Char → Char) (s : MultiState) (events : List MultiEvent) : MultiState :=
  events.foldl (fun s e => if s.running then step toLower s e else s) s

/-- The final scoreboard of `runMultiQuiz`. -/
def scoreboard (s : MultiState) : Scoreboard :=
  let rankingList := ranking s.players
  let isWinner := fun (p : Player) =>
    p.Score ≥ s.winLimit ∧ rankingList.length > 0 ∧
      some p.Score = (rankingList.head?).map Player.Score
  { winners := rankingList.filter (fun p => isWinner p)
    participants := rankingList.filter (fun p => ¬ isWinner p)
    resuming := none
    note := none
    footer := s.quizHistory }

end MultiState

/-- Run multi quiz loop in given channel.  `loaded` is what `LoadQuiz(quizname, true)`
returns. -/
def runMultiQuiz (toLower : Char → Char) (g : Globals) (quizChannel quizname : String)
    (winLimitGiven : String) (waitTimeGiven : Int) (loaded : Quiz)
    (events : List MultiEvent) : Run MultiState :=
  let st := startQuiz g.Ongoing quizChannel
  if st.err.isSome then ⟨{ g with Ongoing := st.ongoing }, none, [], true, false⟩
  else
    let quiz := loaded
    if quiz.Deck.length = 0 then
      ⟨⟨(stopQuiz st.ongoing quizChannel).1, g.Review⟩, none, [Output.notFound quizname],
        true, false⟩
    else
      let winLimit := parseWinLimit 15 quiz.Deck.length winLimitGiven
      let s0 : MultiState :=
        { quizname := quizname, winLimit := winLimit, timeout := 13,
          waitTime := waitTimeGiven * Millisecond, quiz := quiz, quizHistory := [],
          players := [], timeoutCount := 0, current := ⟨"", [], ""⟩, answerMap := [],
          answersLeft := 0, scoreKeeper := [], scoreKeeperAnswers := [], timer := 0,
          sent := [Output.starting quizname quiz.Deck.length winLimit], running := true }
      let s := MultiState.run toLower (MultiState.present toLower s0) events
      if s.running then ⟨⟨st.ongoing, g.Review⟩, some s, s.sent, false, false⟩
      else
        ⟨⟨(stopQuiz st.ongoing quizChannel).1, g.Review⟩, some s,
          s.sent ++ [Output.scoreboard (MultiState.scoreboard s)], true, false⟩

/-! ## Scramble quiz (`runScramble`) -/

/-- The table `Settings.Difficulty`: shortest and longest word length. -/
def difficultyLevel (difficulty : String) : Option (Int × Int) :=
  if difficulty = "easy" then some (3, 5)
  else if difficulty = "normal" then some (3, 7)
  else if difficulty = "hard" then some (4, 9)
  else if difficulty = "insane" then some (5, 9999)
  else none

/-- The loop `for i := 0; i < 3; i++` of `runScramble` with `n` attempts left, entered
at attempt `i`: the value of `question` when the loop is left.  `draws i` are the
numbers drawn by the shuffle of attempt `i`. -/
def scrambleAttempts (toLower : Char → Char) (group : List String) (word : String)
    (draws : Nat → Nat → Nat) : Nat → Nat → String
  | 0, _ => ""
  | n + 1, i =>
    let shuffled := shuffle (draws i) word.data
    if !hasString toLower group (String.mk shuffled) then String.mk shuffled
    else scrambleAttempts toLower group word draws n (i + 1)

/-- Attempt to shuffle thrice to get something random enough. -/
def scrambleQuestion (toLower : Char → Char) (group : List String) (word : String)
    (draws : Nat → Nat → Nat) : String :=
  scrambleAttempts toLower group word draws 3 0

/-- The local variables of `runScramble` while the outer loop runs.  `order` holds the
indices the `range` loop has not reached yet; `panicked` records an index out of range. -/
structure ScrambleState where
  winLimit : Int
  minLength : Int
  maxLength : Int
  waitTime : Int
  order : List Nat
  group : List String
  word : String
  question : String
  quizHistory : List String
  players : GoMap Int
  timeoutCount : Int
  scoreKeeper : GoMap Int
  timer : Int
  sent : List Output
  running : Bool
  panicked : Bool
  deriving DecidableEq, Repr

namespace ScrambleState

/-- Top of the outer loop of `runScramble`, up to the `select`, over the indices left:
words that are too short or too long and words for which no question was found are
passed over; the first other word is presented.  `draws idx i` are the numbers drawn by
shuffle attempt `i` on the word of group `idx`. -/
def advance (toLower : Char → Char) (Dictionary : List (List String))
    (draws : Nat → Nat → Nat → Nat) (s : ScrambleState) : List Nat → ScrambleState
  | [] => { s with order := [], running := false }
  | idx :: rest =>
    match Dictionary[idx]? with
    | none => { s with order := rest, running := false, panicked := true }
    | some [] => { s with order := rest, running := false, panicked := true }
    | some (word :: others) =>
      let group := word :: others
      if (strLen word : Int) < s.minLength ∨ (strLen word : Int) > s.maxLength then
        advance toLower Dictionary draws s rest
      else
        let question := scrambleQuestion toLower group word (draws idx)
        if strLen question = 0 then advance toLower Dictionary draws s rest
        else
          { s with
            order := rest
            group := group
            word := word
            question := question
            quizHistory := s.quizHistory ++ [word]
            scoreKeeper := []
            sent := s.sent ++ [Output.puzzle group question]
            timer := 30 * Second
            running := true }

/-- The rest of the outer loop body of `runScramble` after the inner loop. -/
def closeRound (toLower : Char → Char) (Dictionary : List (List String))
    (draws : Nat → Nat → Nat → Nat) (s : ScrambleState) : ScrambleState :=
  if GoMap.len s.scoreKeeper > 0 then
    let t := tally s.winLimit s.players s.scoreKeeper
    let s1 := { s with
      players := t.players
      sent := s.sent ++ [Output.correctGroup s.group t.fastest t.scorers] }
    if t.winnerExists then { s1 with running := false }
    else advance toLower Dictionary draws s1 s1.order
  else advance toLower Dictionary draws s s.order

/-- The case `msg := <-c` of `runScramble`. -/
def onMessage (toLower : Char → Char) (s : ScrambleState) (m : Message) : ScrambleState :=
  if strLen m.Content ≠ strLen s.word then s
  else if !hasString toLower s.group (ToLower toLower m.Content) then s
  else
    { s with
      timer := if GoMap.len s.scoreKeeper = 0 then s.waitTime else s.timer
      scoreKeeper :=
        if GoMap.contains s.scoreKeeper m.AuthorID then s.scoreKeeper
        else GoMap.set s.scoreKeeper m.AuthorID ((GoMap.len s.scoreKeeper : Int) + 1)
      timeoutCount := 0 }

/-- The part of the case `<-timeoutChan.C` of `runScramble` after the check for scorers,
up to the check of the timeout count. -/
def noteTimeout (s : ScrambleState) : ScrambleState :=
  { s with
    sent := s.sent ++ [Output.timedOutGroup s.group s.question]
    quizHistory := markFailed s.quizHistory
    timeoutCount := s.timeoutCount + 1 }

/-- The abort of `runScramble` after too many timeouts in a row. -/
def abort (s : ScrambleState) : ScrambleState :=
  { s with sent := s.sent ++ [Output.tooManyTimeouts], running := false }

/-- One pass through the `select` of `runScramble`, followed, when the inner loop is
left, by the rest of the outer loop body up to the next `select`. -/
def step (toLower : Char → Char) (Dictionary : List (List String))
    (draws : Nat → Nat → Nat → Nat) (s : ScrambleState) : Event → ScrambleState
  | Event.quit => { s with running := false }
  | Event.timeout =>
    if GoMap.len s.scoreKeeper > 0 then closeRound toLower Dictionary draws s
    else
      let s1 := noteTimeout s
      if s1.timeoutCount ≥ timeoutLimit then abort s1
      else closeRound toLower Dictionary draws s1
  | Event.msg m => onMessage toLower s m

/-- The loop of `runScramble` on the events it takes. -/
def run (toLower : Char → Char) (Dictionary : List (List String))
    (draws : Nat → Nat → Nat → Nat) (s : ScrambleState) (events : List Event) :
    ScrambleState :=
  events.foldl (fun s e => if s.running then step toLower Dictionary draws s e else s) s

/-- The final scoreboard of `runScramble`. -/
def scoreboard (s : ScrambleState) : Scoreboard :=
  let r := ranking s.players
  { winners := r.filter (fun p => p.Score ≥ s.winLimit)
    participants := r.filter (fun p => ¬ (p.Score ≥ s.winLimit))
    resuming := none
    note := none
    footer := s.quizHistory }

end ScrambleState

/-- Scramble quiz.  `Dictionary` is the global word group list, `orderDraw` the numbers
drawn by the shuffle of the index order, `draws` those of the shuffles of the words. -/
def runScramble (toLower : Char → Char) (Dictionary : List (List String)) (g : Globals)
    (quizChannel difficulty : String) (orderDraw : Nat → Nat)
    (draws : Nat → Nat → Nat → Nat) (events : List Event) : Run ScrambleState :=
  let st := startQuiz g.Ongoing quizChannel
  if st.err.isSome then ⟨{ g with Ongoing := st.ongoing }, none, [], true, false⟩
  else
    let level := (difficultyLevel difficulty).getD (3, 7)
    let order := shuffle orderDraw (List.range Dictionary.length)
    let s0 : ScrambleState :=
      { winLimit := 10, minLength := level.1, maxLength := level.2,
        waitTime := 2000 * Millisecond, order := order, group := [], word := "",
        question := "", quizHistory := [], players := [], timeoutCount := 0,
        scoreKeeper := [], timer := 0,
        sent := [Output.starting "Scramble" Dictionary.length 10], running := true,
        panicked := false }
    let s := ScrambleState.run toLower Dictionary draws
      (ScrambleState.advance toLower Dictionary draws s0 order) events
    if s.panicked then ⟨⟨st.ongoing, g.Review⟩, some s, s.sent, false, true⟩
    else if s.running then ⟨⟨st.ongoing, g.Review⟩, some s, s.sent, false, false⟩
    else
      ⟨⟨(stopQuiz st.ongoing quizChannel).1, g.Review⟩, some s,
        s.sent ++ [Output.scoreboard (ScrambleState.scoreboard s)], true, false⟩

/-! ## Scramble dictionary (`utils.go`, `quizload.go`) -/

/-- Sort the unicode character set in a string. -/
def sortedChars (s : String) : String :=
  String.mk (s.data.insertionSort (fun a b => a ≤ b))

/-- One pass through the loop over the lines of the dictionary file: a line that is not
empty is appended to the group of its sorted character set. -/
def collectWord (dict : GoMap (List String)) (word : String) : GoMap (List String) :=
  if strLen word > 0 then
    GoMap.set dict (sortedChars word)
      ((GoMap.get dict (sortedChars word)).getD [] ++ [word])
  else dict

/-- Load up English dictionary for Scramble quiz.  `lines` are the lines of the dictionary
file.  The groups are listed in the order of insertion; Go ranges over the map in an
order that is not specified. -/
def loadScrambleDictionary (lines : List String) : List (List String) :=
  (lines.foldl collectWord []).map Prod.snd

/-! ## Gauntlet quiz (`runGauntlet`) -/

/-- What one call of `s.State.Channel(quizChannel)` gives: an error whose text starts
with `HTTP 5`, another error, or a channel of the given type. -/
inductive ChannelLookup where
  | serverError
  | otherError
  | channel (type : Nat)
  deriving DecidableEq, Repr

/-- The library constant `discordgo.ChannelTypeDM`. -/
def ChannelTypeDM : Nat := 1

/-- How the check for a private channel ends. -/
inductive ChannelCheck where
  | proceed
  | notPrivate
  | failed
  deriving DecidableEq, Repr

/-- The loop `for i := 0; i < 3; i++` at the top of `runGauntlet` with `n` attempts left,
entered at attempt `i`; `lookup i` is what attempt `i` gives. -/
def channelCheck (lookup : Nat → ChannelLookup) : Nat → Nat → ChannelCheck
  | 0, _ => ChannelCheck.failed
  | n + 1, i =>
    match lookup i with
    | ChannelLookup.serverError => channelCheck lookup n (i + 1)
    | ChannelLookup.otherError => ChannelCheck.failed
    | ChannelLookup.channel type =>
      if Nat.land type ChannelTypeDM = 0 then ChannelCheck.notPrivate
      else ChannelCheck.proceed

/-- What the `select` of `runGauntlet` takes.  The stop signal comes with the value of
`int(time.Since(startTime) / time.Second)` at that moment. -/
inductive GauntletEvent where
  | quit (elapsed : Int)
  | timeout
  | msg (m : Message)
  deriving DecidableEq, Repr

/-- What `runGauntlet` sends.  The score is the exact quotient of the operands of the
`float64` division; the rounding to `float64` and to two decimals is left out. -/
inductive GauntletOutput where
  | notPrivate
  | notFound (quizname : String)
  | starting (quizname : String) (questions : Nat) (description : String) (timeout : Int)
  | question (current : Card)
  | finalScore (quizname : String) (score : ℚ) (seconds : Int) (mistakes : List String)
  | publicScore (quizname : String) (author : String) (score : ℚ) (seconds : Int)

/-- The local variables of `runGauntlet` while the outer loop runs. -/
structure GauntletState where
  quizname : String
  timeout : Int
  quiz : Quiz
  current : Card
  answers : List String
  correct : Int
  total : Int
  quizHistory : List String
  sent : List GauntletOutput
  running : Bool

/-- Parse provided time limit with sane defaults. -/
def parseTimeLimit (timeLimitGiven : String) : Int :=
  let r := Atoi timeLimitGiven
  if r.2 then
    if r.1 > 20 then 20 * 60 else if r.1 > 0 then r.1 * 60 else 120
  else 120

namespace GauntletState

/-- Top of the outer loop of `runGauntlet`, up to the `select`: leave the loop when the
working deck is empty, otherwise take the last card and send the question. -/
def present (s : GauntletState) : GauntletState :=
  match s.quiz.Deck.getLast? with
  | none => { s with running := false }
  | some current =>
    { s with
      current := current
      quiz := { s.quiz with Deck := s.quiz.Deck.dropLast }
      answers := current.Answers.map k2h
      sent := s.sent ++ [GauntletOutput.question current]
      running := true }

/-- The case `msg := <-c` of `runGauntlet`: the message is counted, and is counted as
correct or entered in the quiz history as a mistake. -/
def onMessage (toLower : Char → Char) (s : GauntletState) (m : Message) : GauntletState :=
  let s1 := { s with total := wrapInt64 (s.total + 1) }
  if hasString toLower s1.answers (k2h m.Content) then
    { s1 with correct := wrapInt64 (s1.correct + 1) }
  else
    { s1 with
      quizHistory := s1.quizHistory ++
        [match s1.current.Answers with
          | a :: _ => if s1.quiz.Type_ = "text" then a else s1.current.Question
          | [] => s1.current.Question] }

/-- One pass through the `select` of `runGauntlet`; after a message the loop goes on with
the next card. -/
def step (toLower : Char → Char) (s : GauntletState) : GauntletEvent → GauntletState
  | GauntletEvent.quit elapsed => { s with timeout := elapsed, running := false }
  | GauntletEvent.timeout => { s with running := false }
  | GauntletEvent.msg m => present (onMessage toLower s m)

/-- The loop of `runGauntlet` on the events it takes; events after the loop was left are
not taken. -/
def run (toLower : Char → Char) (s : GauntletState) (events : List GauntletEvent) :
    GauntletState :=
  events.foldl (fun s e => if s.running then step toLower s e else s) s

/-- The score of `runGauntlet` after the loop. -/
def score (s : GauntletState) : ℚ :=
  if s.total > 0 then (wrapInt64 (s.correct * s.correct) : ℚ) / (s.total : ℚ) else 0

end GauntletState

/-- What a call of `runGauntlet` has done once the given events are used up. -/
structure GauntletRun where
  ongoing : GoMap Bool
  session : Option GauntletState
  sent : List GauntletOutput
  returned : Bool

/-- Run private gauntlet quiz.  `lookup` is what the channel look-ups give, `author` the
mention of the author of the command, `loaded` what `LoadQuiz(quizname, true)` returns,
`output` the value of `getStorage("output")`, `events` what the `select` takes. -/
def runGauntlet (toLower : Char → Char) (ongoing : GoMap Bool) (quizChannel author : String)
    (lookup : Nat → ChannelLookup) (quizname timeLimitGiven : String) (loaded : Quiz)
    (output : String) (events : List GauntletEvent) : GauntletRun :=
  match channelCheck lookup 3 0 with
  | ChannelCheck.notPrivate => ⟨ongoing, none, [GauntletOutput.notPrivate], true⟩
  | ChannelCheck.failed => ⟨ongoing, none, [], true⟩
  | ChannelCheck.proceed =>
    let st := startQuiz ongoing quizChannel
    if st.err.isSome then ⟨st.ongoing, none, [], true⟩
    else
      let quiz := loaded
      if quiz.Deck.length = 0 then
        ⟨(stopQuiz st.ongoing quizChannel).1, none, [GauntletOutput.notFound quizname], true⟩
      else
        let timeout := parseTimeLimit timeLimitGiven
        let s0 : GauntletState :=
          { quizname := quizname, timeout := timeout, quiz := quiz, current := ⟨"", [], ""⟩,
            answers := [], correct := 0, total := 0, quizHistory := [],
            sent := [GauntletOutput.starting quizname quiz.Deck.length quiz.Description
              timeout],
            running := true }
        let s := GauntletState.run toLower (GauntletState.present s0) events
        if s.running then ⟨st.ongoing, some s, s.sent, false⟩
        else
          let final := GauntletOutput.finalScore quizname (GauntletState.score s) s.timeout
            s.quizHistory
          let sent1 := s.sent ++ [final]
          ⟨(stopQuiz st.ongoing quizChannel).1, some s,
            if strLen output ≠ 0 ∧ timeLimitGiven = "" then
              sent1 ++ [GauntletOutput.publicScore quizname author (GauntletState.score s)
                s.timeout]
            else sent1,
            true⟩

/-! ## Truncation (`utils.go`) -/

/-- Helper function to truncate long strings (Discord field limit).  `s.length` is
`utf8.RuneCountInString(s)`; the result is `none` when the slice expression
`[]rune(s)[:n-6]` panics. -/
def truncate (s : String) (n : Int) : Option String :=
  if (s.length : Int) > n ∧ strLen s ≥ 6 then
    if 0 ≤ n - 6 ∧ n - 6 ≤ (s.length : Int) then
      some (String.mk (s.data.take (n - 6).toNat) ++ " [...]")
    else none
  else some s

/-! ## Quiz validation (`quizvalidate.go`) -/

/-- The comparison `a < b` of two Go strings, rune by rune; on valid UTF-8 this is the
byte-wise comparison of Go. -/
def runesLess : List Char → List Char → Bool
  | [], [] => false
  | [], _ :: _ => true
  | _ :: _, [] => false
  | a :: as, b :: bs => if a < b then true else if b < a then false else runesLess as bs

/-- The comparison `a < b` of two Go strings. -/
def goLess (a b : String) : Bool := runesLess a.data b.data

/-- The library function `sort.Slice` with the given `less`.  The sort of Go is not
stable; the model is the insertion sort, so that the order in which elements come out
that `less` does not tell apart depends on the order of the input. -/
def sortSlice {α : Type} (less : α → α → Bool) (l : List α) : List α :=
  l.insertionSort (fun a b => less b a = false)

/-- SortedStringSet: a set of strings, each with the index that gives its position. -/
structure SortedStringSet where
  content : GoMap Int
  deriving DecidableEq, Repr

/-- NewStringSet initializes set. -/
def NewStringSet : SortedStringSet := ⟨[]⟩

namespace SortedStringSet

/-- AddOrdered takes in a string and an integer to identify its position. -/
def AddOrdered (set : SortedStringSet) (s : String) (i : Int) : SortedStringSet × Bool :=
  (⟨GoMap.set set.content s i⟩, !GoMap.contains set.content s)

/-- Add inserts string into set and returns boolean for change. -/
def Add (set : SortedStringSet) (s : String) : SortedStringSet × Bool :=
  AddOrdered set s (GoMap.len set.content : Int)

/-- The loop `for i, s := range strs` of `AddAll`, entered at index `i` with the
duplicates found so far. -/
def addAllFrom : SortedStringSet → List String → Int → List String →
    SortedStringSet × List String
  | set, [], _, dups => (set, dups)
  | set, s :: rest, i, dups =>
    let r := AddOrdered set s i
    addAllFrom r.1 rest (i + 1) (if r.2 then dups else dups ++ [s])

/-- AddAll inserts multiple string elements into set.  Returns any strings that already
exist in set. -/
def AddAll (set : SortedStringSet) (strs : List String) : SortedStringSet × List String :=
  addAllFrom set strs 0 []

/-- Remove removes given string from set. -/
def Remove (set : SortedStringSet) (s : String) : SortedStringSet :=
  ⟨GoMap.delete set.content s⟩

/-- IsEmpty checks the set's emptiness. -/
def IsEmpty (set : SortedStringSet) : Bool := decide (GoMap.len set.content = 0)

/-- Values returns a slice of set members.  `iter` gives the order in which `range`
goes over the map, which Go does not specify. -/
def Values (iter : GoMap Int → GoMap Int) (set : SortedStringSet) : List String :=
  sortSlice
    (fun a b => decide ((GoMap.get set.content a).getD 0 < (GoMap.get set.content b).getD 0))
    ((iter set.content).map Prod.fst)

end SortedStringSet

/-- The value `cardDataSets` kept for a question: the set of answers and the set of
comments. -/
structure CardData where
  answers : SortedStringSet
  comments : SortedStringSet
  deriving DecidableEq, Repr

/-- One pass through the loop of `checkDuplicates` over the deck: the card is merged into
the entry of its question; the flag is `hasError`. -/
def mergeCard (acc : GoMap CardData × Bool) (card : Card) : GoMap CardData × Bool :=
  let found := GoMap.get acc.1 card.Question
  let cardDataSets := found.getD ⟨NewStringSet, NewStringSet⟩
  let comments := (cardDataSets.comments.Add card.Comment).1
  let r := cardDataSets.answers.AddAll card.Answers
  (GoMap.set acc.1 card.Question ⟨r.1, comments⟩,
    acc.2 || found.isSome || !r.2.isEmpty)

/-- The card `checkDuplicates` makes of an entry of its map. -/
def fixedCard (iterSet : GoMap Int → GoMap Int) (e : String × CardData) : Card :=
  { Question := e.1
    Answers := SortedStringSet.Values iterSet e.2.answers
    Comment := String.intercalate "\n" (SortedStringSet.Values iterSet e.2.comments) }

/-- Checks duplicate questions and answers in a given quiz.  Returns fixed quiz.
`iterSet` and `iterMap` give the order in which `range` goes over the maps. -/
def checkDuplicates (iterSet : GoMap Int → GoMap Int)
    (iterMap : GoMap CardData → GoMap CardData) (quiz : Quiz) : Quiz × Bool :=
  let r := quiz.Deck.foldl mergeCard ([], false)
  let fixedDeck := (iterMap r.1).map (fixedCard iterSet)
  ({ Description := quiz.Description
     Type_ := quiz.Type_
     Timeout := quiz.Timeout
     Deck := sortSlice (fun a b => goLess a.Question b.Question) fixedDeck }, r.2)

/-! ## Concurrent calls of `startQuiz` (`main.go`) -/

/-- The statement a call of `startQuiz` executes next: `Ongoing.Lock()`, the lookup
`_, exists := Ongoing.ChannelID[quizChannel]`, the `if !exists`, the assignment
`count = len(Ongoing.ChannelID)`, `Ongoing.Unlock()`, the status update, and the return. -/
inductive StartPc where
  | lock
  | lookup
  | branch
  | count
  | unlock
  | status
  | done
  deriving DecidableEq, Repr

/-- The local variables of one call of `startQuiz`; `status` is the text the call has
handed to `UpdateGameStatus`. -/
structure StartCall where
  quizChannel : String
  pc : StartPc
  exists_ : Bool
  err : Option String
  count : Nat
  status : String
  deriving DecidableEq, Repr

/-- The registry `Ongoing` with its mutex, and the calls of `startQuiz` under way. -/
structure StartSystem where
  ongoing : GoMap Bool
  locked : Bool
  calls : List StartCall
  deriving DecidableEq, Repr

/-- One statement of a call of `startQuiz`: the registry, the mutex and the local
variables afterwards.  `Ongoing.Lock()` does not go on while the mutex is held. -/
def StartCall.exec (ongoing : GoMap Bool) (locked : Bool) (c : StartCall) :
    GoMap Bool × Bool × StartCall :=
  match c.pc with
  | StartPc.lock =>
    if locked then (ongoing, locked, c)
    else (ongoing, true, { c with pc := StartPc.lookup })
  | StartPc.lookup =>
    (ongoing, locked,
      { c with exists_ := GoMap.contains ongoing c.quizChannel, pc := StartPc.branch })
  | StartPc.branch =>
    if !c.exists_ then
      (GoMap.set ongoing c.quizChannel true, locked, { c with pc := StartPc.count })
    else
      (ongoing, locked,
        { c with err := some "Channel quiz already ongoing", pc := StartPc.count })
  | StartPc.count =>
    (ongoing, locked, { c with count := GoMap.len ongoing, pc := StartPc.unlock })
  | StartPc.unlock => (ongoing, false, { c with pc := StartPc.status })
  | StartPc.status =>
    (ongoing, locked, { c with status := statusText c.count, pc := StartPc.done })
  | StartPc.done => (ongoing, locked, c)

namespace StartSystem

/-- The scheduler lets call number `i` execute its next statement. -/
def step (sys : StartSystem) (i : Nat) : StartSystem :=
  match sys.calls[i]? with
  | none => sys
  | some c =>
    { ongoing := (c.exec sys.ongoing sys.locked).1
      locked := (c.exec sys.ongoing sys.locked).2.1
      calls := sys.calls.set i (c.exec sys.ongoing sys.locked).2.2 }

/-- An interleaving: the calls execute one statement each in the order of the schedule. -/
def run (sys : StartSystem) (schedule : List Nat) : StartSystem :=
  schedule.foldl step sys

/-- Calls of `startQuiz` for the given channels, none of which has executed a statement,
on the registry `ongoing` with the mutex free. -/
def start (ongoing : GoMap Bool) (channels : List String) : StartSystem :=
  { ongoing := ongoing
    locked := false
    calls := channels.map (fun ch => ⟨ch, StartPc.lock, false, none, 0, ""⟩) }

end StartSystem

/-! ## Specification vocabulary for the round engine -/

/-! ### Acceptance and ranking by arrival -/

/-- The acceptance test of the case `msg := <-c` in `runQuiz` and `runQuizSequential`:
the message is not a pass and its text is found among the answers of the card. -/
def QuizState.accepts (toLower : Char → Char) (s : QuizState) (m : Message) : Bool :=
  !(decide (m.Content = ".." ∨ m.Content = "。。")) && hasString toLower s.answers (k2h m.Content)

/-- The acceptance test of the case `msg := <-c` in `runScramble`: the message has the
length of the word and its lower-case form is found in the group. -/
def ScrambleState.accepts (toLower : Char → Char) (s : ScrambleState) (m : Message) : Bool :=
  decide (strLen m.Content = strLen s.word) &&
    hasString toLower s.group (ToLower toLower m.Content)

/-- The number of distinct participants who sent an accepted message among `msgs`. -/
def distinctCorrect (acc : Message → Bool) (msgs : List Message) : Nat :=
  ((msgs.filter acc).map Message.AuthorID).dedup.length

/-- Ranking by arrival.  `keeper msgs` is the score keeper of a round after the messages
`msgs` were handled, `acc` the acceptance test of the round.
* A participant whose first accepted message comes after the messages `pre` has rank
  one plus the number of distinct participants with an accepted message in `pre`.
* A rank once held is held after any further messages.
* The keys are distinct, they are the senders of accepted messages, and the ranks read
  in insertion order are `1, 2, ..., k`.
* When some message was accepted, exactly one participant holds rank 1. -/
def RanksByArrival (acc : Message → Bool) (keeper : List Message → GoMap Int) : Prop :=
  (∀ (pre : List Message) (m : Message) (post : List Message), acc m = true →
      (∀ x ∈ pre, acc x = true → x.AuthorID ≠ m.AuthorID) →
      GoMap.get (keeper (pre ++ m :: post)) m.AuthorID
        = some (1 + (distinctCorrect acc pre : Int))) ∧
  (∀ (pre post : List Message) (a : String) (r : Int),
      GoMap.get (keeper pre) a = some r → GoMap.get (keeper (pre ++ post)) a = some r) ∧
  (∀ msgs : List Message,
      GoMap.WF (keeper msgs) ∧
      (∀ a, a ∈ GoMap.keys (keeper msgs) ↔ ∃ m ∈ msgs, acc m = true ∧ m.AuthorID = a) ∧
      GoMap.len (keeper msgs) = distinctCorrect acc msgs ∧
      (keeper msgs).map Prod.snd
        = (List.range' 1 (distinctCorrect acc msgs)).map (fun n => (n : Int))) ∧
  (∀ msgs : List Message, (∃ m ∈ msgs, acc m = true) →
      ∃ a, ∀ b, GoMap.get (keeper msgs) b = some 1 ↔ b = a)

/-- The participants with an accepted message, in the order of their first one, after
those already seen. -/
def firstFrom (acc : Message → Bool) (seen : List String) (msgs : List Message) :
    List String :=
  msgs.foldl (fun seen m =>
    if acc m = true ∧ m.AuthorID ∉ seen then seen ++ [m.AuthorID] else seen) seen

/-- The participants with an accepted message, in the order of their first one. -/
def firstCorrect (acc : Message → Bool) (msgs : List Message) : List String :=
  firstFrom acc [] msgs

/-- The score keeper that gives the participants `xs` the ranks `n + 1, n + 2, ...` in
order. -/
def rankFrom : Nat → List String → GoMap Int
  | _, [] => []
  | n, x :: xs => (x, (n : Int) + 1) :: rankFrom (n + 1) xs

/-- The score keeper that gives the participants `xs` the ranks `1, 2, ...` in order. -/
def rankList (xs : List String) : GoMap Int := rankFrom 0 xs

/-- The update of the score keeper by a message in a single-answer round with acceptance
test `acc`. -/
def recordStep (acc : Message → Bool) (sk : GoMap Int) (m : Message) : GoMap Int :=
  if acc m = true then
    (if GoMap.contains sk m.AuthorID then sk
     else GoMap.set sk m.AuthorID ((GoMap.len sk : Int) + 1))
  else sk

/-! ### Standings -/

/-- The expression `players[p]` read as a value: the standing of a participant, zero for
a participant who has none. -/
def standing (players : GoMap Int) (p : String) : Int := (GoMap.get players p).getD 0

/-- What the loop of `runQuiz` never changes, and what it keeps well-formed. -/
def QuizState.Stable (s t : QuizState) : Prop :=
  t.quizname = s.quizname ∧ t.winLimit = s.winLimit ∧ (GoMap.WF s.players → GoMap.WF t.players)

/-! ### The timeout counter -/

/-- What an event taken by the loop of `runQuiz` means for the timeout counter: an
accepted answer, a round that times out with no scorer, or anything else. -/
inductive Mark where
  | answered
  | timedOut
  | other
  deriving DecidableEq, Repr

/-- The mark of an event taken in state `s` of `runQuiz`. -/
def QuizState.mark (toLower : Char → Char) (s : QuizState) : Event → Mark
  | Event.msg m => if QuizState.accepts toLower s m then Mark.answered else Mark.other
  | Event.timeout => if GoMap.len s.scoreKeeper = 0 then Mark.timedOut else Mark.other
  | Event.quit => Mark.other

/-- The marks of the events the loop of `runQuiz` takes from state `s`, in order. -/
def QuizState.marks (toLower : Char → Char) : QuizState → List Event → List Mark
  | _, [] => []
  | s, e :: es =>
    if s.running then
      QuizState.mark toLower s e :: QuizState.marks toLower (QuizState.step toLower s e) es
    else []

/-- The number of rounds that timed out with no scorer since the last accepted answer,
or since the start when there is none. -/
def sinceLastAnswer (marks : List Mark) : Int :=
  (((marks.reverse.takeWhile (fun k => k ≠ Mark.answered)).filter
    (fun k => k = Mark.timedOut)).length : Int)

/-- The invariant of the loop of `runQuiz` on the timeout counter: while the loop runs
the counter is below the limit, it never exceeds the limit, and when it has reached the
limit the abort notice was the last thing sent. -/
def QuizState.CounterInv (s : QuizState) : Prop :=
  (s.running = true → s.timeoutCount < timeoutLimit) ∧
  s.timeoutCount ≤ timeoutLimit ∧
  (s.timeoutCount ≥ timeoutLimit → s.sent.getLast? = some Output.tooManyTimeouts)

/-! ### Cards presented -/

/-- The questions among the outputs sent. -/
def questionsSent (sent : List Output) : List Card :=
  sent.filterMap (fun o => match o with
    | Output.question current => some current
    | _ => none)

/-- The relation between the cards presented, the working deck and the question index of
`runQuizSequential` at the top of the outer loop: the cards presented so far followed by
the working deck are `deck`, and the index is the offset `k` plus the number of cards
presented. -/
def QuizState.SeqTop (deck : List Card) (k : Int) (s : QuizState) : Prop :=
  questionsSent s.sent ++ s.quiz.Deck = deck ∧
  s.idx = k + ((questionsSent s.sent).length : Int)

/-- The invariant of the loop of `runQuizSequential` at the `select`: the cards
presented so far followed by the working deck are `deck`, and while the loop runs the
card in play is the last one presented and its position is the question index. -/
def QuizState.SeqInv (deck : List Card) (k : Int) (s : QuizState) : Prop :=
  questionsSent s.sent ++ s.quiz.Deck = deck ∧
  (s.running = true →
    s.idx + 1 = k + ((questionsSent s.sent).length : Int) ∧
    (questionsSent s.sent).getLast? = some s.current)

/-- Every puzzle among the outputs is not a member of the group it was made from. -/
def PuzzlesOutsideGroup (toLower : Char → Char) (sent : List Output) : Prop :=
  ∀ (group : List String) (question : String),
    Output.puzzle group question ∈ sent → hasString toLower group question = false

/-! ### The win limit -/

/-- The invariant of the loop of `runQuiz` for the win limit: the limit is at least 1,
while the loop runs the score keeper has one entry for a participant and every standing
is below the limit, and no standing is ever above it. -/
def QuizState.LimitInv (s : QuizState) : Prop :=
  1 ≤ s.winLimit ∧
  (s.running = true →
    GoMap.WF s.scoreKeeper ∧ ∀ p, standing s.players p < s.winLimit) ∧
  ∀ p, standing s.players p ≤ s.winLimit

/-! ### Counted messages of a multi-answer round -/

/-- The test for the tokens that pass on a question. -/
def isPass (m : Message) : Bool := decide (m.Content = ".." ∨ m.Content = "。。")

/-- The reading of the clock at which the answer with key `k` was first given in the
round: that of the first message among `earlier` which is not a pass token and has the
key `k`. -/
def firstGiven (toLower : Char → Char) (k : String) (earlier : List (Message × Int)) :
    Option Int :=
  (earlier.find? (fun e => !isPass e.1 && MultiState.answerKey toLower e.1.Content == k)).map
    Prod.snd

/-- A message of a multi-answer round on the card with the given answers is counted when
it is not a pass token, its folded text is the folded form of one of the answers, and
that answer was not given before in the round or was first given no longer than
`waitTime` before. -/
def multiCounts (toLower : Char → Char) (answers : List String) (waitTime : Int)
    (earlier : List (Message × Int)) (e : Message × Int) : Bool :=
  !isPass e.1 &&
  (answers.map (MultiState.answerKey toLower)).contains
    (MultiState.answerKey toLower e.1.Content) &&
  match firstGiven toLower (MultiState.answerKey toLower e.1.Content) earlier with
  | none => true
  | some ts => decide (e.2 - ts ≤ waitTime)

/-- The number of counted messages of participant `p` among `msgs`, which come after the
messages `earlier` of the same round. -/
def multiCount (toLower : Char → Char) (answers : List String) (waitTime : Int) (p : String) :
    List (Message × Int) → List (Message × Int) → Nat
  | _, [] => 0
  | earlier, e :: rest =>
    (if e.1.AuthorID = p ∧ multiCounts toLower answers waitTime earlier e = true then 1 else 0)
      + multiCount toLower answers waitTime p (earlier ++ [e]) rest

/-- The number of distinct accepted answers participant `p` submitted among `msgs`. -/
def distinctAccepted (toLower : Char → Char) (answers : List String) (p : String)
    (msgs : List (Message × Int)) : Nat :=
  (((msgs.filter (fun e => decide (e.1.AuthorID = p) && !isPass e.1 &&
      (answers.map (MultiState.answerKey toLower)).contains
        (MultiState.answerKey toLower e.1.Content))).map
    (fun e => MultiState.answerKey toLower e.1.Content)).dedup).length

/-- The messages of a round as events of the loop of `runMultiQuiz`. -/
def multiMessages (msgs : List (Message × Int)) : List MultiEvent :=
  msgs.map (fun e => MultiEvent.msg e.1 e.2)

/-- The relation between the answer map of `runMultiQuiz` and the messages handled so far
in the round: the keys are those of the card's answers, and the entry of a key is the
time the answer was first given, the zero time when it was not given yet. -/
def MultiState.RoundInv (toLower : Char → Char) (answers : List String)
    (earlier : List (Message × Int)) (s : MultiState) : Prop :=
  ∀ k, GoMap.get s.answerMap k
    = if k ∈ answers.map (MultiState.answerKey toLower) then some (firstGiven toLower k earlier)
      else none

/-! ### Acceptance of a candidate answer -/

/-- A candidate answer `c` matches the answers of a card when it is not a pass token and,
for one of the answers, the script-folded candidate has the byte length of the
script-folded answer and is equal to it, as it stands or after lower-casing the
candidate. -/
def foldAccepts (toLower : Char → Char) (answers : List String) (c : String) : Bool :=
  !(decide (c = ".." ∨ c = "。。")) &&
  answers.any (fun a =>
    decide (strLen (k2h c) = strLen (k2h a)) &&
      (decide (k2h c = k2h a) || decide (ToLower toLower (k2h c) = k2h a)))

/-- The message is accepted in the round: after it is handled its author has an entry in
the score keeper. -/
def QuizState.accepted (toLower : Char → Char) (s : QuizState) (m : Message) : Bool :=
  GoMap.contains (QuizState.onMessage toLower s m).scoreKeeper m.AuthorID

/-! ### The start index -/

/-- The integer a text stands for as a start index: the decimal value of a text that is a
run of ASCII digits, with an optional `+` in front, and 0 for any other text. -/
def decimalValue (text : String) : Nat :=
  let digits := match text.data with
    | '+' :: ds => ds
    | ds => ds
  if digits ≠ [] ∧ digits.all Char.isDigit = true then
    digits.foldl (fun n c => n * 10 + (c.toNat - 48)) 0
  else 0

/-! ### Acceptance of a scramble answer -/

/-- The message is accepted in the scramble round: after it is handled its author has an
entry in the score keeper. -/
def ScrambleState.accepted (toLower : Char → Char) (s : ScrambleState) (m : Message) : Bool :=
  GoMap.contains (ScrambleState.onMessage toLower s m).scoreKeeper m.AuthorID

/-- The groups of the scramble dictionary while it is collected: no group is empty and
the words of a group have the sorted character set the group is kept under. -/
def GroupsSorted (dict : GoMap (List String)) : Prop :=
  ∀ e ∈ dict, e.2 ≠ [] ∧ ∀ w ∈ e.2, sortedChars w = e.1

/-- The relation between the round of `runScramble` in play and the dictionary: the group
is one of the dictionary and the word is its first member. -/
def ScrambleState.GroupInv (Dictionary : List (List String)) (s : ScrambleState) : Prop :=
  s.running = true → s.group ∈ Dictionary ∧ s.group.head? = some s.word

/-! ### The gauntlet -/

/-- The messages the loop of `runGauntlet` can take: those in front of the first stop
signal or timeout. -/
def leadingMessages : List GauntletEvent → List Message
  | GauntletEvent.msg m :: rest => m :: leadingMessages rest
  | _ => []

/-- The message is accepted by the answers of the card. -/
def gauntletAccepts (toLower : Char → Char) (p : Card × Message) : Bool :=
  hasString toLower (p.1.Answers.map k2h) (k2h p.2.Content)

/-- The cards shown among the outputs of `runGauntlet`. -/
def gauntletQuestions (sent : List GauntletOutput) : List Card :=
  sent.filterMap (fun o => match o with
    | GauntletOutput.question current => some current
    | _ => none)

/-! ### Quiz validation -/

/-- An order in which `range` may go over a map: some arrangement of its entries. -/
def IterationOrder {V : Type} (iter : GoMap V → GoMap V) : Prop :=
  ∀ m, (iter m).Perm m

/-- The strings `xs` with the indices `i`, `i + 1`, and so on. -/
def indexFrom : Int → List String → GoMap Int
  | _, [] => []
  | i, x :: xs => (x, i) :: indexFrom (i + 1) xs

/-- A call of a method of `SortedStringSet` that changes the set. -/
inductive SetOp where
  | add (s : String)
  | addAll (strs : List String)
  | addOrdered (s : String) (i : Int)
  | remove (s : String)
  deriving DecidableEq, Repr

/-- The set after the call. -/
def SetOp.apply (set : SortedStringSet) : SetOp → SortedStringSet
  | SetOp.add s => (set.Add s).1
  | SetOp.addAll strs => (set.AddAll strs).1
  | SetOp.addOrdered s i => (set.AddOrdered s i).1
  | SetOp.remove s => set.Remove s

/-- The set after a sequence of calls on a new set. -/
def applyOps (ops : List SetOp) : SortedStringSet :=
  ops.foldl SetOp.apply NewStringSet

/-- The string `s` was added by one of the calls and not removed afterwards. -/
def live (s : String) : List SetOp → Bool
  | [] => false
  | op :: ops =>
    live s ops ||
      (!ops.any (fun o => decide (o = SetOp.remove s)) &&
        match op with
        | SetOp.add t => decide (t = s)
        | SetOp.addAll strs => strs.contains s
        | SetOp.addOrdered t _ => decide (t = s)
        | SetOp.remove _ => false)

/-- The relation between the cards `cards` merged so far by `checkDuplicates` and its map:
every question has one entry, the questions of the map are those of the cards, and the
answer set of a question holds, each once, the answers of the cards with that question. -/
def MergedInv (cards : List Card) (cardMap : GoMap CardData) : Prop :=
  GoMap.WF cardMap ∧
  (∀ q, q ∈ GoMap.keys cardMap ↔ ∃ c ∈ cards, c.Question = q) ∧
  ∀ e ∈ cardMap, GoMap.WF e.2.answers.content ∧
    ∀ a, a ∈ GoMap.keys e.2.answers.content
      ↔ ∃ c ∈ cards, c.Question = e.1 ∧ a ∈ c.Answers

/-- The entry `checkDuplicates` keeps for a card whose question it has not seen before
and whose answers are pairwise distinct. -/
def freshEntry (c : Card) : String × CardData :=
  (c.Question, ⟨⟨indexFrom 0 c.Answers⟩, ⟨[(c.Comment, 0)]⟩⟩)

/-! ### Passing on a question -/

/-- The events of questions that are passed on one after the other: for each message the
message itself and the timer event that follows. -/
def skipRounds : List Message → List Event
  | [] => []
  | m :: ms => Event.msg m :: Event.timeout :: skipRounds ms

/-- A round of `runQuiz` or `runQuizSequential` in which nobody has scored yet, after `c`
timeouts in a row and with at least `k` cards left in the working deck. -/
def QuizState.FreshRound (c : Int) (k : Nat) (s : QuizState) : Prop :=
  s.running = true ∧ s.scoreKeeper = [] ∧ s.timeoutCount = c ∧ k ≤ s.quiz.Deck.length

/-! ### The cards of a review session -/

/-- The card an event brings its first correct answer to: the card in play, when the
event is an accepted message and nobody has scored in the round before. -/
def QuizState.firstAnswer (toLower : Char → Char) (s : QuizState) : Event → List Card
  | Event.msg m =>
    if QuizState.accepts toLower s m = true ∧ GoMap.len s.scoreKeeper = 0 then [s.current]
    else []
  | _ => []

/-- The cards for which some participant gave a correct answer while the loop of `runQuiz`
took the events, in the order of the first correct answers. -/
def QuizState.answered (toLower : Char → Char) : QuizState → List Event → List Card
  | _, [] => []
  | s, e :: es =>
    if s.running then
      QuizState.firstAnswer toLower s e
        ++ QuizState.answered toLower (QuizState.step toLower s e) es
    else []

/-- The invariant of a review session of `runQuiz` on the deck `deck` played to a win
limit of the size of the deck, where `done` are the cards that were answered: while the
loop runs, no standing is above the number of answered cards whose round is closed, and
the deck is made up of the answered cards, the failed cards, the card in play when it
is not answered yet, and the working deck; after the loop the deck is made up of the
answered cards and the failed cards. -/
def QuizState.ReviewInv (deck done : List Card) (s : QuizState) : Prop :=
  s.quizname = "review" ∧ s.winLimit = (deck.length : Int) ∧
  (s.running = true →
    GoMap.WF s.scoreKeeper ∧
    (∀ p, standing s.players p + (if GoMap.len s.scoreKeeper = 0 then 0 else 1)
      ≤ (done.length : Int)) ∧
    deck.Perm (done ++ s.failed ++
      (if GoMap.len s.scoreKeeper = 0 then [s.current] else []) ++ s.quiz.Deck)) ∧
  (s.running = false → deck.Perm (done ++ s.failed))

/-- The local variables of a review session of `runQuiz` started without a win limit,
when the first card is presented. -/
def reviewStart (g : Globals) (quizChannel : String) (waitTimeGiven : Int)
    (draw : Nat → Nat) : QuizState :=
  QuizState.present
    (QuizState.init "review" ((getReview g.Review quizChannel draw).2.Deck.length : Int) 0 0
      (if (getReview g.Review quizChannel draw).2.Timeout > 0
        then (getReview g.Review quizChannel draw).2.Timeout else 20)
      (waitTimeGiven * Millisecond) (getReview g.Review quizChannel draw).2)

/-! ### Concurrent calls of `startQuiz` -/

/-- The number of statements a call of `startQuiz` has executed. -/
def StartPc.rank : StartPc → Nat
  | StartPc.lock => 0
  | StartPc.lookup => 1
  | StartPc.branch => 2
  | StartPc.count => 3
  | StartPc.unlock => 4
  | StartPc.status => 5
  | StartPc.done => 6

/-- The call is between `Ongoing.Lock()` and `Ongoing.Unlock()`. -/
def StartCall.critical (c : StartCall) : Bool :=
  decide (1 ≤ c.pc.rank ∧ c.pc.rank ≤ 4)

/-- The call has passed the `if !exists` without an error: it has made its channel
active, and the session it starts is the active session of the channel. -/
def StartCall.claimed (c : StartCall) : Bool :=
  decide (3 ≤ c.pc.rank) && c.err.isNone

/-- The call has returned. -/
def StartCall.returned (c : StartCall) : Bool := decide (c.pc = StartPc.done)

/-- Every call has returned. -/
def StartSystem.allDone (sys : StartSystem) : Bool := sys.calls.all StartCall.returned

/-- The statements the calls of the system have still to execute. -/
def StartSystem.remaining (sys : StartSystem) : Nat :=
  (sys.calls.map (fun c => 6 - c.pc.rank)).sum

/-- The invariant of concurrent calls of `startQuiz` on a registry that was `R` at the
start: at most one call is between lock and unlock, and the mutex is held exactly then;
a call at the `if` has a valid `exists`; the registry holds the channels of `R` and the
channels the calls have claimed; a call has no error before the `if`, and after it either
none or the already-ongoing error, and its channel is in the registry; no channel of `R`
is claimed, and no channel is claimed twice; a call has an error only when its channel is
in `R` or claimed by another call. -/
structure StartSystem.Inv (R : GoMap Bool) (sys : StartSystem) : Prop where
  mutex : ∀ (i j : Nat) (ci cj : StartCall), sys.calls[i]? = some ci → sys.calls[j]? = some cj →
    ci.critical = true → cj.critical = true → i = j
  held : sys.locked = true ↔ ∃ (i : Nat) (c : StartCall), sys.calls[i]? = some c ∧ c.critical = true
  valid : ∀ (i : Nat) (c : StartCall), sys.calls[i]? = some c → c.pc = StartPc.branch →
    c.exists_ = GoMap.contains sys.ongoing c.quizChannel
  registry : ∀ ch, GoMap.contains sys.ongoing ch = true ↔
    (GoMap.contains R ch = true ∨
      ∃ (i : Nat) (c : StartCall), sys.calls[i]? = some c ∧ c.quizChannel = ch ∧ c.claimed = true)
  early : ∀ (i : Nat) (c : StartCall), sys.calls[i]? = some c → c.pc.rank ≤ 2 → c.err = none
  late : ∀ (i : Nat) (c : StartCall), sys.calls[i]? = some c → 3 ≤ c.pc.rank →
    (c.err = none ∨ c.err = some "Channel quiz already ongoing") ∧
    GoMap.contains sys.ongoing c.quizChannel = true
  fresh : ∀ (i : Nat) (c : StartCall), sys.calls[i]? = some c → c.claimed = true →
    GoMap.contains R c.quizChannel = false
  unique : ∀ (i j : Nat) (ci cj : StartCall), sys.calls[i]? = some ci → sys.calls[j]? = some cj →
    ci.quizChannel = cj.quizChannel → ci.claimed = true → cj.claimed = true → i = j
  refused : ∀ (i : Nat) (c : StartCall), sys.calls[i]? = some c → c.err ≠ none →
    (GoMap.contains R c.quizChannel = true ∨
      ∃ (j : Nat) (cj : StartCall), j ≠ i ∧ sys.calls[j]? = some cj ∧
        cj.quizChannel = c.quizChannel ∧ cj.claimed = true)

/-- The cards for which some participant gave a correct answer while the loop of
`runQuizSequential` took the events, in the order of the first correct answers. -/
def QuizState.answeredSequential (toLower : Char → Char) : QuizState → List Event → List Card
  | _, [] => []
  | s, e :: es =>
    if s.running then
      QuizState.firstAnswer toLower s e
        ++ QuizState.answeredSequential toLower (QuizState.stepSequential toLower s e) es
    else []

/-- The invariant of a review session of `runQuizSequential` on the cards `deck` left
after the start index, where `done` are the cards that were answered: while the loop runs
the cards are the answered cards, the failed cards, the card in play when it is not
answered yet, and the working deck; after the loop they are the answered cards and the
failed cards. -/
def QuizState.ReviewSeqInv (deck done : List Card) (s : QuizState) : Prop :=
  s.quizname = "review" ∧
  (s.running = true →
    deck.Perm (done ++ s.failed ++
      (if GoMap.len s.scoreKeeper = 0 then [s.current] else []) ++ s.quiz.Deck)) ∧
  (s.running = false → deck.Perm (done ++ s.failed))

/-- The local variables of a review session of `runQuizSequential` started at the index
`idx`, when the first card is presented. -/
def reviewStartSequential (g : Globals) (quizChannel : String) (waitTimeGiven : Int)
    (draw : Nat → Nat) (idx : Int) : QuizState :=
  QuizState.startSequential "review" waitTimeGiven (getReview g.Review quizChannel draw).2 idx

/-! ## Example inputs -/

/-- The quiz of the demo sessions: the cards `Q1` (answer `a`) and `Q2` (answer `b`). -/
def demoQuiz : Quiz := ⟨"d", "text", 0, [⟨"Q1", ["a"], ""⟩, ⟨"Q2", ["b"], ""⟩]⟩

/-- A session of `runQuiz` on `demoQuiz` with win limit 2, as set up before the outer
loop. -/
def demoSession : QuizState :=
  QuizState.init "demo" 2 0 0 20 (2000 * Millisecond) demoQuiz

/-- The first round of `demoSession`: the card `Q2` is shown and nobody has answered. -/
def demoRound : QuizState := QuizState.present demoSession

/-- The first round of a session of `runQuiz` on a deck of seven cards. -/
def demoSeven : QuizState :=
  QuizState.present
    { demoSession with
      winLimit := 7
      quiz := ⟨"d", "text", 0,
        [⟨"Q1", ["a"], ""⟩, ⟨"Q2", ["a"], ""⟩, ⟨"Q3", ["a"], ""⟩, ⟨"Q4", ["a"], ""⟩,
         ⟨"Q5", ["a"], ""⟩, ⟨"Q6", ["a"], ""⟩, ⟨"Q7", ["a"], ""⟩]⟩ }

/-- A session of `runMultiQuiz` on one card with five accepted answers, win limit 15, as
set up before the outer loop. -/
def demoMulti : MultiState :=
  { quizname := "demo", winLimit := 15, timeout := 13, waitTime := 1500 * Millisecond,
    quiz := ⟨"d", "text", 0, [⟨"Q", ["a", "b", "c", "d", "e"], ""⟩]⟩,
    quizHistory := [], players := [], timeoutCount := 0, current := ⟨"", [], ""⟩,
    answerMap := [], answersLeft := 0, scoreKeeper := [], scoreKeeperAnswers := [],
    timer := 0, sent := [], running := true }

/-- A shared state in which no channel is active and the review store holds an old deck
for the channel `ch`. -/
def demoGlobals : Globals :=
  ⟨[], [("ch", ⟨"old", "text", 0, [⟨"Q0", ["z"], ""⟩]⟩)]⟩

/-- A small scramble dictionary: two groups with anagram siblings, and the group of the
word `aaa`, every shuffle of which is the word itself. -/
def demoDictionary : List (List String) :=
  [["abc", "cab"], ["aaa"], ["listen", "silent"]]

/-- The numbers drawn by the shuffles of the demo runs: `i + 1` at loop index `i`. -/
def demoDraws : Nat → Nat → Nat → Nat := fun _ _ i => i + 1

/-- The local variables of `runScramble` before the outer loop, with the default
difficulty and nothing sent yet. -/
def demoScramble : ScrambleState :=
  { winLimit := 10, minLength := 3, maxLength := 7, waitTime := 2000 * Millisecond,
    order := [], group := [], word := "", question := "", quizHistory := [],
    players := [], timeoutCount := 0, scoreKeeper := [], timer := 0, sent := [],
    running := true, panicked := false }

/-- A quiz with a question that occurs twice and an answer that occurs twice. -/
def demoDuplicates : Quiz :=
  ⟨"Test quiz with duplicates", "text", 0,
    [⟨"q2", ["ccc", "ddd"], "c3"⟩, ⟨"q1", ["aaa", "bbb", "aaa"], "c1"⟩,
      ⟨"q2", ["ccc", "ddd", "eee"], "c3"⟩]⟩

/-! ## Theorems -/

namespace GoMap

variable {V : Type}

theorem get_set_self (m : GoMap V) (k : String) (v : V) : get (set m k v) k = some v := by
  induction m with
  | nil => simp [set, get]
  | cons e m ih =>
    obtain ⟨k', v'⟩ := e
    by_cases h : k' = k
    · simp [set, get, h]
    · simp [set, get, h, ih]

theorem get_set_ne (m : GoMap V) (k k2 : String) (v : V) (h : k2 ≠ k) :
    get (set m k v) k2 = get m k2 := by
  induction m with
  | nil => simp [set, get, h.symm]
  | cons e m ih =>
    obtain ⟨k', v'⟩ := e
    by_cases h1 : k' = k
    · subst h1
      simp [set, get, h.symm]
    · by_cases h2 : k' = k2
      · subst h2
        simp [set, get, h1]
      · simp [set, get, h1, h2, ih]

theorem get_delete_self (m : GoMap V) (k : String) : get (delete m k) k = none := by
  induction m with
  | nil => simp [delete, get]
  | cons e m ih =>
    obtain ⟨k', v'⟩ := e
    by_cases h : k' = k
    · simp [delete, h, ih]
    · simp [delete, get, h, ih]

theorem get_delete_ne (m : GoMap V) (k k2 : String) (h : k2 ≠ k) :
    get (delete m k) k2 = get m k2 := by
  induction m with
  | nil => simp [delete, get]
  | cons e m ih =>
    obtain ⟨k', v'⟩ := e
    by_cases h1 : k' = k
    · subst h1
      simp [delete, get, h.symm, ih]
    · by_cases h2 : k' = k2
      · subst h2
        simp [delete, get, h1]
      · simp [delete, get, h1, h2, ih]

theorem delete_of_get_none (m : GoMap V) (k : String) (h : get m k = none) :
    delete m k = m := by
  induction m with
  | nil => simp [delete]
  | cons e m ih =>
    obtain ⟨k', v'⟩ := e
    by_cases h1 : k' = k
    · simp [get, h1] at h
    · simp [get, h1] at h
      simp [delete, h1, ih h]

theorem set_of_get_none (m : GoMap V) (k : String) (v : V) (h : get m k = none) :
    set m k v = m ++ [(k, v)] := by
  induction m with
  | nil => simp [set]
  | cons e m ih =>
    obtain ⟨k', v'⟩ := e
    by_cases h1 : k' = k
    · simp [get, h1] at h
    · simp [get, h1] at h
      simp [set, h1, ih h]

theorem mem_keys_iff (m : GoMap V) (k : String) : k ∈ keys m ↔ (get m k).isSome := by
  induction m with
  | nil => simp [keys, get]
  | cons e m ih =>
    obtain ⟨k', v'⟩ := e
    by_cases h1 : k' = k
    · simp [keys, get, h1]
    · have h2 : ¬ k = k' := fun h => h1 h.symm
      simpa [keys, get, h1, h2] using ih

end GoMap

/-! ### Session registry -/

theorem hasQuiz_set_self (R : GoMap Bool) (ch : String) :
    hasQuiz (GoMap.set R ch true) ch = true := by
  simp [hasQuiz, GoMap.contains, GoMap.get_set_self]

theorem hasQuiz_set_ne (R : GoMap Bool) (ch c : String) (h : c ≠ ch) :
    hasQuiz (GoMap.set R ch true) c = hasQuiz R c := by
  simp [hasQuiz, GoMap.contains, GoMap.get_set_ne _ _ _ _ h]

/-- C1: `startQuiz` returns an error iff the channel is already in the registry; with an
error the registry is unchanged; without one the new registry is the old one plus the
channel: the channel is active and the membership of every other channel is as before. -/
theorem startQuiz_contract (R : GoMap Bool) (ch : String) :
    ((startQuiz R ch).err.isSome = true ↔ hasQuiz R ch = true) ∧
    ((startQuiz R ch).err.isSome = true → (startQuiz R ch).ongoing = R) ∧
    ((startQuiz R ch).err = none →
      (startQuiz R ch).ongoing = R ++ [(ch, true)] ∧
      hasQuiz (startQuiz R ch).ongoing ch = true ∧
      ∀ c, c ≠ ch → hasQuiz (startQuiz R ch).ongoing c = hasQuiz R c) := by
  by_cases h : GoMap.contains R ch = true
  · simp [startQuiz, hasQuiz, h]
  · have hn : GoMap.get R ch = none := by
      simpa [GoMap.contains] using h
    have hc : GoMap.contains R ch = false := by simpa using h
    refine ⟨by simp [startQuiz, hasQuiz, hc], by simp [startQuiz, hc], ?_⟩
    intro _
    refine ⟨by simp [startQuiz, hc, GoMap.set_of_get_none _ _ _ hn], ?_, ?_⟩
    · simpa [startQuiz, hc] using hasQuiz_set_self R ch
    · intro c hne
      simpa [startQuiz, hc] using hasQuiz_set_ne R ch c hne

/-- Witness for C1 on a registry with one active channel: starting the active channel is
refused, starting another one adds it. -/
theorem startQuiz_contract_witness :
    (startQuiz [("a", true)] "a").err.isSome = true ∧
    (startQuiz [("a", true)] "a").ongoing = [("a", true)] ∧
    (startQuiz [("a", true)] "b").ongoing = [("a", true), ("b", true)] :=
  ⟨(startQuiz_contract [("a", true)] "a").1.2 (by decide),
   (startQuiz_contract [("a", true)] "a").2.1 (by decide),
   ((startQuiz_contract [("a", true)] "b").2.2 (by decide)).1⟩

/-! ### Shuffle and review store -/

theorem swap_perm {α : Type} (l : List α) (i j : Nat) : (swap l i j).Perm l := by
  classical
  unfold swap
  cases hi : l[i]? with
  | none => simp
  | some a =>
    cases hj : l[j]? with
    | none => simp
    | some b =>
      simp only
      obtain ⟨hil, hia⟩ := List.getElem?_eq_some_iff.mp hi
      obtain ⟨hjl, hjb⟩ := List.getElem?_eq_some_iff.mp hj
      rw [List.perm_iff_count]
      intro c
      have hjl2 : j < (l.set i b).length := by simpa using hjl
      rw [List.count_set a c _ j hjl2, List.count_set b c l i hil]
      have hmem : (if l[i] == c then 1 else 0) ≤ l.count c := by
        split
        · rename_i h
          have : c ∈ l := by
            have h2 : l[i] = c := by simpa using h
            exact h2 ▸ List.getElem_mem hil
          exact List.count_pos_iff.mpr this
        · omega
      have hget : (l.set i b)[j] = b := by
        rw [List.getElem_set]
        split
        · rfl
        · exact hjb
      rw [hget, hia] at *
      split <;> split <;> simp_all

theorem shuffleLoop_perm {α : Type} (draw : Nat → Nat) (n : Nat) (l : List α) :
    (shuffleLoop draw n l).Perm l := by
  induction n generalizing l with
  | zero => simp [shuffleLoop]
  | succ n ih => exact (ih _).trans (swap_perm l _ _)

theorem shuffle_perm {α : Type} (draw : Nat → Nat) (l : List α) : (shuffle draw l).Perm l :=
  shuffleLoop_perm draw _ l

theorem shuffle_nil {α : Type} (draw : Nat → Nat) : shuffle draw ([] : List α) = [] := rfl

theorem getReview_store (review : GoMap Quiz) (ch : String) (draw : Nat → Nat) :
    (getReview review ch draw).1 = GoMap.delete review ch := rfl

theorem getReview_absent (review : GoMap Quiz) (ch : String) (draw : Nat → Nat)
    (h : GoMap.get review ch = none) :
    getReview review ch draw = (review, Quiz.zero) := by
  simp [getReview, h, GoMap.delete_of_get_none _ _ h, Quiz.zero, shuffle_nil]

/-- C5: `getReview` consumes the stored deck.  Afterwards the store holds nothing for
the channel and the entries of all other channels are as before; on a channel with no
stored deck it returns the zero quiz (empty deck) and leaves the store as it is, and so
does every further call after a first one, however many follow. -/
theorem getReview_consumes (review : GoMap Quiz) (ch : String) (draw : Nat → Nat) :
    GoMap.get (getReview review ch draw).1 ch = none ∧
    (∀ c, c ≠ ch → GoMap.get (getReview review ch draw).1 c = GoMap.get review c) ∧
    (GoMap.get review ch = none →
      (getReview review ch draw).2 = Quiz.zero ∧ (getReview review ch draw).2.Deck = [] ∧
      (getReview review ch draw).1 = review) ∧
    (∀ draw2 : Nat → Nat,
      (getReview (getReview review ch draw).1 ch draw2).2.Deck = [] ∧
      (getReview (getReview review ch draw).1 ch draw2).1 = (getReview review ch draw).1) ∧
    (∀ draws : List (Nat → Nat),
      draws.foldl (fun r d => (getReview r ch d).1) (getReview review ch draw).1
        = (getReview review ch draw).1) := by
  have h1 : GoMap.get (getReview review ch draw).1 ch = none := by
    rw [getReview_store]; exact GoMap.get_delete_self review ch
  refine ⟨h1, ?_, ?_, ?_, ?_⟩
  · intro c hc
    rw [getReview_store]; exact GoMap.get_delete_ne review ch c hc
  · intro h
    rw [getReview_absent review ch draw h]
    exact ⟨rfl, rfl, rfl⟩
  · intro draw2
    rw [getReview_absent _ ch draw2 h1]
    exact ⟨rfl, rfl⟩
  · intro draws
    induction draws with
    | nil => rfl
    | cons d ds ih =>
      rw [List.foldl_cons, getReview_absent _ ch d h1]
      exact ih

/-- Witness for C5 on a store that holds nothing for the channel. -/
theorem getReview_consumes_witness :
    (getReview [("a", Quiz.zero)] "b" (fun _ => 0)).2 = Quiz.zero ∧
    (getReview [("a", Quiz.zero)] "b" (fun _ => 0)).2.Deck = [] ∧
    (getReview [("a", Quiz.zero)] "b" (fun _ => 0)).1 = [("a", Quiz.zero)] :=
  (getReview_consumes [("a", Quiz.zero)] "b" (fun _ => 0)).2.2.1 (by decide)

/-- C6: whatever the store held for the channel, `putReview` followed by `getReview`
returns a quiz with the description, type and timeout of the quiz put, whose deck is a
permutation of the deck put, for every outcome of the random draws. -/
theorem putReview_getReview (review : GoMap Quiz) (ch : String) (q : Quiz)
    (draw : Nat → Nat) :
    (getReview (putReview review ch q) ch draw).2.Description = q.Description ∧
    (getReview (putReview review ch q) ch draw).2.Type_ = q.Type_ ∧
    (getReview (putReview review ch q) ch draw).2.Timeout = q.Timeout ∧
    ((getReview (putReview review ch q) ch draw).2.Deck).Perm q.Deck := by
  simp [getReview, putReview, GoMap.get_set_self, shuffle_perm]

/-! ### Ranking by arrival in a single-answer round -/

namespace GoMap
variable {V : Type}

theorem get_append (m1 m2 : GoMap V) (k : String) :
    get (m1 ++ m2) k = (get m1 k).orElse (fun _ => get m2 k) := by
  induction m1 with
  | nil => simp [get]
  | cons e m ih =>
    obtain ⟨k', v'⟩ := e
    by_cases h : k' = k
    · simp [get, h]
    · simp [get, h, ih]

theorem get_none_iff (m : GoMap V) (k : String) : get m k = none ↔ k ∉ keys m := by
  rw [mem_keys_iff]; cases get m k <;> simp

end GoMap

theorem rankFrom_append (n : Nat) (xs ys : List String) :
    rankFrom n (xs ++ ys) = rankFrom n xs ++ rankFrom (n + xs.length) ys := by
  induction xs generalizing n with
  | nil => simp [rankFrom]
  | cons x xs ih =>
    simp [rankFrom, ih, Nat.add_assoc, Nat.add_comm 1]

theorem keys_rankFrom (n : Nat) (xs : List String) : GoMap.keys (rankFrom n xs) = xs := by
  induction xs generalizing n with
  | nil => rfl
  | cons x xs ih =>
    have := ih (n + 1)
    simp only [GoMap.keys] at this ⊢
    simp [rankFrom, this]

theorem length_rankFrom (n : Nat) (xs : List String) : (rankFrom n xs).length = xs.length := by
  have := congrArg List.length (keys_rankFrom n xs)
  simpa [GoMap.keys] using this

theorem values_rankFrom (n : Nat) (xs : List String) :
    (rankFrom n xs).map Prod.snd = (List.range' (n + 1) xs.length).map (fun k => (k : Int)) := by
  induction xs generalizing n with
  | nil => rfl
  | cons x xs ih =>
    simp [rankFrom, ih, List.range'_succ]

theorem get_rankFrom_ge (n : Nat) (xs : List String) (a : String) (r : Int)
    (h : GoMap.get (rankFrom n xs) a = some r) : (n : Int) + 1 ≤ r := by
  induction xs generalizing n with
  | nil => simp [rankFrom, GoMap.get] at h
  | cons x xs ih =>
    by_cases hx : x = a
    · simp [rankFrom, GoMap.get, hx] at h
      omega
    · simp [rankFrom, GoMap.get, hx] at h
      have := ih _ h
      push_cast at this
      omega

theorem recordStep_rankList (acc : Message → Bool) (seen : List String) (m : Message) :
    recordStep acc (rankList seen) m
      = rankList (if acc m = true ∧ m.AuthorID ∉ seen then seen ++ [m.AuthorID] else seen) := by
  unfold recordStep
  by_cases ha : acc m = true
  · by_cases hs : m.AuthorID ∈ seen
    · have : GoMap.contains (rankList seen) m.AuthorID = true := by
        rw [GoMap.contains, ← GoMap.mem_keys_iff, rankList, keys_rankFrom]; exact hs
      simp [ha, hs, this]
    · have hn : GoMap.get (rankList seen) m.AuthorID = none := by
        rw [GoMap.get_none_iff, rankList, keys_rankFrom]; exact hs
      have : GoMap.contains (rankList seen) m.AuthorID = false := by
        simp [GoMap.contains, hn]
      simp only [ha, hs, this, not_false_eq_true, and_self, if_true, Bool.false_eq_true, if_false]
      rw [GoMap.set_of_get_none _ _ _ hn, rankList, rankList, rankFrom_append]
      simp [rankFrom, GoMap.len, length_rankFrom]
  · simp [ha]

theorem foldl_recordStep (acc : Message → Bool) (seen : List String) (msgs : List Message) :
    msgs.foldl (recordStep acc) (rankList seen) = rankList (firstFrom acc seen msgs) := by
  induction msgs generalizing seen with
  | nil => rfl
  | cons m msgs ih =>
    rw [List.foldl_cons, recordStep_rankList, ih]
    rfl

theorem firstFrom_append (acc : Message → Bool) (seen : List String) (pre post : List Message) :
    firstFrom acc seen (pre ++ post) = firstFrom acc (firstFrom acc seen pre) post := by
  simp [firstFrom]

theorem firstFrom_extends (acc : Message → Bool) (seen : List String) (msgs : List Message) :
    ∃ more, firstFrom acc seen msgs = seen ++ more := by
  induction msgs generalizing seen with
  | nil => exact ⟨[], by simp [firstFrom]⟩
  | cons m msgs ih =>
    simp only [firstFrom, List.foldl_cons]
    split
    · obtain ⟨more, h⟩ := ih (seen ++ [m.AuthorID])
      refine ⟨m.AuthorID :: more, ?_⟩
      simpa [firstFrom] using h
    · exact ih seen

theorem firstFrom_nodup (acc : Message → Bool) (seen : List String) (msgs : List Message)
    (h : seen.Nodup) : (firstFrom acc seen msgs).Nodup := by
  induction msgs generalizing seen with
  | nil => simpa [firstFrom] using h
  | cons m msgs ih =>
    simp only [firstFrom, List.foldl_cons]
    split
    · rename_i hc
      apply ih
      rw [List.nodup_append]
      refine ⟨h, by simp, ?_⟩
      intro a ha hb
      simp at hb
      subst hb
      exact hc.2 ha
    · exact ih seen h

theorem mem_firstFrom (acc : Message → Bool) (seen : List String) (msgs : List Message)
    (a : String) :
    a ∈ firstFrom acc seen msgs ↔ a ∈ seen ∨ ∃ m ∈ msgs, acc m = true ∧ m.AuthorID = a := by
  induction msgs generalizing seen with
  | nil => simp [firstFrom]
  | cons m msgs ih =>
    simp only [firstFrom, List.foldl_cons]
    split
    · rename_i hc
      have := ih (seen ++ [m.AuthorID])
      simp only [firstFrom] at this
      rw [this]
      simp only [List.mem_append, List.mem_singleton, List.mem_cons, exists_eq_or_imp,
        List.not_mem_nil, or_false]
      constructor
      · rintro ((h | h) | h)
        · exact Or.inl h
        · exact Or.inr (Or.inl ⟨hc.1, h.symm⟩)
        · exact Or.inr (Or.inr h)
      · rintro (h | ⟨_, h⟩ | h)
        · exact Or.inl (Or.inl h)
        · exact Or.inl (Or.inr h.symm)
        · exact Or.inr h
    · rename_i hc
      have := ih seen
      simp only [firstFrom] at this
      rw [this]
      simp only [List.mem_cons, exists_eq_or_imp]
      constructor
      · rintro (h | h)
        · exact Or.inl h
        · exact Or.inr (Or.inr h)
      · rintro (h | ⟨h1, h2⟩ | h)
        · exact Or.inl h
        · left
          by_contra hn
          exact hc ⟨h1, h2 ▸ hn⟩
        · exact Or.inr h

theorem length_firstCorrect (acc : Message → Bool) (msgs : List Message) :
    (firstCorrect acc msgs).length = distinctCorrect acc msgs := by
  unfold distinctCorrect
  apply List.Perm.length_eq
  show (firstFrom acc [] msgs).Perm _
  rw [List.perm_ext_iff_of_nodup (firstFrom_nodup acc [] msgs List.nodup_nil) (List.nodup_dedup _)]
  intro a
  simp [mem_firstFrom, and_assoc]

theorem foldl_recordStep_nil (acc : Message → Bool) (msgs : List Message) :
    msgs.foldl (recordStep acc) [] = rankList (firstCorrect acc msgs) :=
  foldl_recordStep acc [] msgs

theorem ranksByArrival_fold (acc : Message → Bool) :
    RanksByArrival acc (fun msgs => msgs.foldl (recordStep acc) []) := by
  refine ⟨?_, ?_, ?_, ?_⟩
  · intro pre m post hm hpre
    show GoMap.get (List.foldl (recordStep acc) [] (pre ++ m :: post)) m.AuthorID = _
    rw [foldl_recordStep_nil, firstCorrect, firstFrom_append]
    have hnot : m.AuthorID ∉ firstFrom acc [] pre := by
      rw [mem_firstFrom]
      rintro (h | ⟨x, hx, hax, hxa⟩)
      · simp at h
      · exact hpre x hx hax hxa
    have hstep : firstFrom acc (firstFrom acc [] pre) (m :: post)
        = firstFrom acc (firstFrom acc [] pre ++ [m.AuthorID]) post := by
      show firstFrom acc (if acc m = true ∧ m.AuthorID ∉ firstFrom acc [] pre
        then firstFrom acc [] pre ++ [m.AuthorID] else firstFrom acc [] pre) post = _
      rw [if_pos ⟨hm, hnot⟩]
    obtain ⟨more, hmore⟩ := firstFrom_extends acc (firstFrom acc [] pre ++ [m.AuthorID]) post
    rw [hstep, hmore, rankList, List.append_assoc, rankFrom_append, GoMap.get_append]
    have hn : GoMap.get (rankFrom 0 (firstFrom acc [] pre)) m.AuthorID = none := by
      rw [GoMap.get_none_iff, keys_rankFrom]; exact hnot
    rw [hn]
    have hl := length_firstCorrect acc pre
    simp only [firstCorrect] at hl
    simp [rankFrom, GoMap.get, hl]
    omega
  · intro pre post a r h
    show GoMap.get (List.foldl (recordStep acc) [] (pre ++ post)) a = _
    have h1 : GoMap.get (rankList (firstCorrect acc pre)) a = some r := by
      rw [← foldl_recordStep_nil]; exact h
    rw [foldl_recordStep_nil, firstCorrect, firstFrom_append]
    obtain ⟨more, hmore⟩ := firstFrom_extends acc (firstFrom acc [] pre) post
    rw [hmore, rankList, rankFrom_append, GoMap.get_append]
    simp only [rankList, firstCorrect] at h1
    simp [h1]
  · intro msgs
    show GoMap.WF (List.foldl (recordStep acc) [] msgs) ∧ _
    simp only [foldl_recordStep_nil]
    refine ⟨?_, ?_, ?_, ?_⟩
    · rw [GoMap.WF, rankList, keys_rankFrom]
      exact firstFrom_nodup acc [] msgs List.nodup_nil
    · intro a
      rw [rankList, keys_rankFrom, firstCorrect, mem_firstFrom]
      simp
    · rw [GoMap.len, rankList, length_rankFrom, length_firstCorrect]
    · rw [rankList, values_rankFrom, length_firstCorrect]
  · rintro msgs ⟨m, hm, hacc⟩
    show ∃ a, ∀ b, GoMap.get (List.foldl (recordStep acc) [] msgs) b = some 1 ↔ b = a
    simp only [foldl_recordStep_nil]
    have hmem : m.AuthorID ∈ firstCorrect acc msgs := by
      rw [firstCorrect, mem_firstFrom]
      exact Or.inr ⟨m, hm, hacc, rfl⟩
    cases hF : firstCorrect acc msgs with
    | nil => rw [hF] at hmem; simp at hmem
    | cons x0 rest =>
      refine ⟨x0, fun b => ?_⟩
      by_cases hb : x0 = b
      · simp [rankList, rankFrom, GoMap.get, hb]
      · have hb2 : ¬ b = x0 := fun h => hb h.symm
        simp only [rankList, rankFrom, GoMap.get, hb, hb2, if_false, iff_false]
        intro h
        have := get_rankFrom_ge _ _ _ _ h
        omega

namespace QuizState

theorem onMessage_spec (toLower : Char → Char) (s : QuizState) (m : Message) :
    (onMessage toLower s m).scoreKeeper = recordStep (accepts toLower s) s.scoreKeeper m ∧
    (onMessage toLower s m).answers = s.answers ∧
    (onMessage toLower s m).running = s.running := by
  unfold onMessage accepts recordStep
  by_cases h1 : m.Content = ".." ∨ m.Content = "。。"
  · simp [h1]
  · by_cases h2 : hasString toLower s.answers (k2h m.Content) = true
    · simp [h1, h2]
    · simp [h1, h2]

theorem accepts_congr (toLower : Char → Char) (s t : QuizState) (h : t.answers = s.answers) :
    accepts toLower t = accepts toLower s := by
  funext m
  simp [accepts, h]

theorem run_messages (toLower : Char → Char) (s : QuizState) (msgs : List Message)
    (hr : s.running = true) :
    (run toLower s (msgs.map Event.msg)).scoreKeeper
      = msgs.foldl (recordStep (accepts toLower s)) s.scoreKeeper := by
  induction msgs generalizing s with
  | nil => rfl
  | cons m msgs ih =>
    obtain ⟨h1, h2, h3⟩ := onMessage_spec toLower s m
    show (run toLower (if s.running = true then step toLower s (Event.msg m) else s)
      (msgs.map Event.msg)).scoreKeeper = _
    rw [if_pos hr]
    show (run toLower (onMessage toLower s m) (msgs.map Event.msg)).scoreKeeper = _
    rw [ih _ (h3.trans hr), h1, accepts_congr toLower _ _ h2]
    rfl

theorem runSequential_messages (toLower : Char → Char) (s : QuizState) (msgs : List Message)
    (hr : s.running = true) :
    (runSequential toLower s (msgs.map Event.msg)).scoreKeeper
      = msgs.foldl (recordStep (accepts toLower s)) s.scoreKeeper := by
  induction msgs generalizing s with
  | nil => rfl
  | cons m msgs ih =>
    obtain ⟨h1, h2, h3⟩ := onMessage_spec toLower s m
    show (runSequential toLower (if s.running = true then stepSequential toLower s (Event.msg m) else s)
      (msgs.map Event.msg)).scoreKeeper = _
    rw [if_pos hr]
    show (runSequential toLower (onMessage toLower s m) (msgs.map Event.msg)).scoreKeeper = _
    rw [ih _ (h3.trans hr), h1, accepts_congr toLower _ _ h2]
    rfl

end QuizState

namespace ScrambleState

theorem onMessage_scramble_spec (toLower : Char → Char) (s : ScrambleState) (m : Message) :
    (onMessage toLower s m).scoreKeeper = recordStep (accepts toLower s) s.scoreKeeper m ∧
    (onMessage toLower s m).group = s.group ∧ (onMessage toLower s m).word = s.word ∧
    (onMessage toLower s m).running = s.running := by
  unfold onMessage accepts recordStep
  by_cases h1 : strLen m.Content = strLen s.word
  · by_cases h2 : hasString toLower s.group (ToLower toLower m.Content) = true
    · simp [h1, h2]
    · simp [h1, h2]
  · simp [h1]

theorem accepts_scramble_congr (toLower : Char → Char) (s t : ScrambleState)
    (h : t.group = s.group) (hw : t.word = s.word) :
    accepts toLower t = accepts toLower s := by
  funext m
  simp [accepts, h, hw]

theorem run_scramble_messages (toLower : Char → Char) (Dictionary : List (List String))
    (draws : Nat → Nat → Nat → Nat) (s : ScrambleState) (msgs : List Message)
    (hr : s.running = true) :
    (run toLower Dictionary draws s (msgs.map Event.msg)).scoreKeeper
      = msgs.foldl (recordStep (accepts toLower s)) s.scoreKeeper := by
  induction msgs generalizing s with
  | nil => rfl
  | cons m msgs ih =>
    obtain ⟨h1, h2, h3, h4⟩ := onMessage_scramble_spec toLower s m
    show (run toLower Dictionary draws
      (if s.running = true then step toLower Dictionary draws s (Event.msg m) else s)
      (msgs.map Event.msg)).scoreKeeper = _
    rw [if_pos hr]
    show (run toLower Dictionary draws (onMessage toLower s m)
      (msgs.map Event.msg)).scoreKeeper = _
    rw [ih _ (h4.trans hr), h1, accepts_scramble_congr toLower _ _ h2 h3]
    rfl

end ScrambleState

/-- C2: in a single-answer round of `runQuiz`, `runQuizSequential` and `runScramble`,
for every sequence of incoming messages the score keeper ranks the participants by
arrival: a participant's rank is one plus the number of distinct participants with an
earlier accepted answer, a rank once held is never changed, the ranks are `1..k` without
gaps and exactly one participant holds rank 1 once an answer was accepted. -/
theorem scoreKeeper_ranks_by_arrival (toLower : Char → Char) :
    (∀ s : QuizState, s.running = true → s.scoreKeeper = [] →
      RanksByArrival (QuizState.accepts toLower s)
        (fun msgs => (QuizState.run toLower s (msgs.map Event.msg)).scoreKeeper)) ∧
    (∀ s : QuizState, s.running = true → s.scoreKeeper = [] →
      RanksByArrival (QuizState.accepts toLower s)
        (fun msgs => (QuizState.runSequential toLower s (msgs.map Event.msg)).scoreKeeper)) ∧
    (∀ (Dictionary : List (List String)) (draws : Nat → Nat → Nat → Nat) (s : ScrambleState),
      s.running = true → s.scoreKeeper = [] →
      RanksByArrival (ScrambleState.accepts toLower s)
        (fun msgs =>
          (ScrambleState.run toLower Dictionary draws s (msgs.map Event.msg)).scoreKeeper)) := by
  refine ⟨?_, ?_, ?_⟩
  · intro s hr hs
    have : (fun msgs : List Message => (QuizState.run toLower s (msgs.map Event.msg)).scoreKeeper)
        = (fun msgs : List Message => msgs.foldl (recordStep (QuizState.accepts toLower s)) []) := by
      funext msgs
      rw [QuizState.run_messages toLower s msgs hr, hs]
    rw [this]
    exact ranksByArrival_fold _
  · intro s hr hs
    have : (fun msgs : List Message => (QuizState.runSequential toLower s (msgs.map Event.msg)).scoreKeeper)
        = (fun msgs : List Message => msgs.foldl (recordStep (QuizState.accepts toLower s)) []) := by
      funext msgs
      rw [QuizState.runSequential_messages toLower s msgs hr, hs]
    rw [this]
    exact ranksByArrival_fold _
  · intro Dictionary draws s hr hs
    have : (fun msgs : List Message =>
          (ScrambleState.run toLower Dictionary draws s (msgs.map Event.msg)).scoreKeeper)
        = (fun msgs : List Message => msgs.foldl (recordStep (ScrambleState.accepts toLower s)) []) := by
      funext msgs
      rw [ScrambleState.run_scramble_messages toLower Dictionary draws s msgs hr, hs]
    rw [this]
    exact ranksByArrival_fold _

/-- Witness for C2 in the first round of `demoSession`: after an accepted answer of `A`
and a wrong one of `B`, the first accepted answer of `B` gets rank 2, and a later answer
of `A` changes nothing. -/
theorem scoreKeeper_ranks_by_arrival_witness :
    GoMap.get (QuizState.run Char.toLower demoRound
      ([⟨"A", "b"⟩, ⟨"B", "x"⟩, ⟨"B", "b"⟩, ⟨"A", "b"⟩].map Event.msg)).scoreKeeper "B"
      = some (1 + (distinctCorrect (QuizState.accepts Char.toLower demoRound)
          [⟨"A", "b"⟩, ⟨"B", "x"⟩] : Int)) ∧
    distinctCorrect (QuizState.accepts Char.toLower demoRound) [⟨"A", "b"⟩, ⟨"B", "x"⟩] = 1 :=
  ⟨((scoreKeeper_ranks_by_arrival Char.toLower).1 demoRound (by decide) (by decide)).1
    [⟨"A", "b"⟩, ⟨"B", "x"⟩] ⟨"B", "b"⟩ [⟨"A", "b"⟩] (by decide) (by decide), by decide⟩

/-! ### Multi quiz: the point cap -/

namespace GoMap
variable {V : Type}

theorem keys_set (m : GoMap V) (k : String) (v : V) :
    keys (set m k v) = if k ∈ keys m then keys m else keys m ++ [k] := by
  induction m with
  | nil => simp [set, keys]
  | cons e m ih =>
    obtain ⟨k', v'⟩ := e
    simp only [keys] at ih
    by_cases h : k' = k
    · simp [set, keys, h]
    · have h2 : ¬ k = k' := fun h3 => h h3.symm
      by_cases h3 : k ∈ List.map Prod.fst m
      · simp [set, keys, h, h2, ih, h3]
      · simp [set, keys, h, h2, ih, h3]

theorem WF_set (m : GoMap V) (k : String) (v : V) (h : WF m) : WF (set m k v) := by
  unfold WF at *
  rw [keys_set]
  split
  · exact h
  · rename_i hk
    rw [List.nodup_append]
    exact ⟨h, by simp, by
      intro a ha hb
      simp at hb
      subst hb
      exact hk ha⟩

theorem WF_nil : WF ([] : GoMap V) := List.nodup_nil

end GoMap

theorem minint_le_right (a b : Int) : minint a b ≤ b := by
  unfold minint; split <;> omega

theorem standing_set_self (m : GoMap Int) (k : String) (v : Int) :
    standing (GoMap.set m k v) k = v := by
  simp [standing, GoMap.get_set_self]

theorem standing_set_ne (m : GoMap Int) (k p : String) (v : Int) (h : p ≠ k) :
    standing (GoMap.set m k v) p = standing m p := by
  simp [standing, GoMap.get_set_ne _ _ _ _ h]

/-- The scoring loop of `runMultiQuiz` adds to each standing the capped score of the
participant in the round, and nothing for a participant without an entry. -/
theorem standing_multiTally (winLimit : Int) (players sk : GoMap Int) (h : GoMap.WF sk)
    (p : String) :
    standing (multiTally winLimit players sk).players p
      = standing players p +
        (match GoMap.get sk p with
         | some score => minint score pointLimit
         | none => 0) := by
  unfold multiTally
  generalize false = w
  induction sk generalizing players w with
  | nil => simp [GoMap.get]
  | cons e sk ih =>
    obtain ⟨k, v⟩ := e
    have hnd : k ∉ GoMap.keys sk ∧ GoMap.WF sk := by
      simpa [GoMap.WF, GoMap.keys] using h
    rw [List.foldl_cons]
    have := ih (multiTallyStep winLimit ⟨players, w⟩ (k, v)).players hnd.2
      (multiTallyStep winLimit ⟨players, w⟩ (k, v)).winnerExists
    rw [this]
    by_cases hk : k = p
    · subst hk
      have hn : GoMap.get sk k = none := (GoMap.get_none_iff sk k).mpr hnd.1
      simp [multiTallyStep, GoMap.get, hn, standing, GoMap.get_set_self]
    · have hk2 : p ≠ k := fun h3 => hk h3.symm
      simp [multiTallyStep, GoMap.get, hk, standing_set_ne _ _ _ _ hk2]

namespace MultiState

theorem players_present (toLower : Char → Char) (s : MultiState) :
    (present toLower s).players = s.players := by
  unfold present; split <;> rfl

theorem running_present_WF (toLower : Char → Char) (s : MultiState)
    (h : (present toLower s).running = true) : GoMap.WF (present toLower s).scoreKeeper := by
  unfold present at h ⊢
  split
  · rename_i hd
    simp [hd] at h
  · exact GoMap.WF_nil

theorem closeRound_bound (toLower : Char → Char) (s : MultiState) (h : GoMap.WF s.scoreKeeper)
    (p : String) :
    standing (closeRound toLower s).players p ≤ standing s.players p + 3 ∧
    ((closeRound toLower s).running = true → GoMap.WF (closeRound toLower s).scoreKeeper) := by
  have hb : standing (multiTally s.winLimit s.players s.scoreKeeper).players p
      ≤ standing s.players p + 3 := by
    rw [standing_multiTally _ _ _ h]
    cases GoMap.get s.scoreKeeper p with
    | none => simp
    | some sc =>
      have : minint sc pointLimit ≤ 3 := minint_le_right sc pointLimit
      simp only
      omega
  by_cases h1 : GoMap.len s.scoreKeeper > 0
  · by_cases h2 : (multiTally s.winLimit s.players s.scoreKeeper).winnerExists = true
    · simp only [closeRound, h1, h2, if_true]
      exact ⟨hb, by simp⟩
    · simp only [closeRound, h1, h2, if_true, if_false, Bool.false_eq_true]
      refine ⟨?_, running_present_WF toLower _⟩
      rw [players_present]
      exact hb
  · simp only [closeRound, h1, if_false]
    refine ⟨?_, running_present_WF toLower _⟩
    rw [players_present]
    omega

theorem onMessage_frame (toLower : Char → Char) (s : MultiState) (m : Message) (now : Int)
    (h : GoMap.WF s.scoreKeeper) :
    (onMessage toLower s m now).players = s.players ∧
    GoMap.WF (onMessage toLower s m now).scoreKeeper := by
  unfold onMessage
  split
  · exact ⟨rfl, h⟩
  · split
    · exact ⟨rfl, h⟩
    · exact ⟨rfl, GoMap.WF_set _ _ _ h⟩
    · split
      · exact ⟨rfl, h⟩
      · exact ⟨rfl, GoMap.WF_set _ _ _ h⟩

theorem step_bound (toLower : Char → Char) (s : MultiState) (e : MultiEvent)
    (h : GoMap.WF s.scoreKeeper) (p : String) :
    standing (step toLower s e).players p ≤ standing s.players p + 3 ∧
    ((step toLower s e).running = true → GoMap.WF (step toLower s e).scoreKeeper) := by
  cases e with
  | quit => exact ⟨by simp [step], by simp [step]⟩
  | timeout =>
    by_cases h1 : GoMap.len s.scoreKeeper > 0
    · simp only [step, h1, if_true]
      exact closeRound_bound toLower s h p
    · by_cases h2 : (noteTimeout s).timeoutCount ≥ timeoutLimit
      · simp only [step, h1, h2, if_true, if_false]
        exact ⟨by simp [abort, noteTimeout], by simp [abort]⟩
      · simp only [step, h1, h2, if_false]
        exact closeRound_bound toLower (noteTimeout s) h p
  | msg m now =>
    obtain ⟨h1, h2⟩ := onMessage_frame toLower s m now h
    simp only [step]
    rw [h1]
    exact ⟨by omega, fun _ => h2⟩

theorem run_snoc (toLower : Char → Char) (s : MultiState) (events : List MultiEvent)
    (e : MultiEvent) :
    run toLower s (events ++ [e])
      = if (run toLower s events).running = true then step toLower (run toLower s events) e
        else run toLower s events := by
  simp [run, List.foldl_append]

theorem run_WF (toLower : Char → Char) (s : MultiState) (events : List MultiEvent)
    (h : s.running = true → GoMap.WF s.scoreKeeper) :
    (run toLower s events).running = true → GoMap.WF (run toLower s events).scoreKeeper := by
  induction events using List.reverseRecOn with
  | nil => exact h
  | append_singleton es e ih =>
    rw [run_snoc]
    split
    · rename_i hr
      exact (step_bound toLower _ e (ih hr) "").2
    · exact ih

end MultiState

/-- C3: in multi-answer mode, from any set-up of the session and after any events, one
more event, which closes at most one round, raises the standing of any participant by at
most the cap of 3. -/
theorem multi_round_points_capped (toLower : Char → Char) (s0 : MultiState)
    (events : List MultiEvent) (e : MultiEvent) (p : String) :
    standing (MultiState.run toLower (MultiState.present toLower s0) (events ++ [e])).players p
      ≤ standing (MultiState.run toLower (MultiState.present toLower s0) events).players p
        + pointLimit := by
  rw [MultiState.run_snoc]
  split
  · rename_i hr
    have hwf := MultiState.run_WF toLower _ events
      (MultiState.running_present_WF toLower s0) hr
    exact (MultiState.step_bound toLower _ e hwf p).1
  · simp [pointLimit]

/-- Witness for C3 on `demoMulti`: a participant who gave four accepted answers in the
round has the score 4 in the round's score keeper and gains 3 points when the round is
closed. -/
theorem multi_round_points_capped_witness :
    standing (MultiState.run Char.toLower (MultiState.present Char.toLower demoMulti)
      ([MultiEvent.msg ⟨"A", "a"⟩ 1, MultiEvent.msg ⟨"A", "b"⟩ 2, MultiEvent.msg ⟨"A", "c"⟩ 3,
        MultiEvent.msg ⟨"A", "d"⟩ 4] ++ [MultiEvent.timeout])).players "A"
      ≤ standing (MultiState.run Char.toLower (MultiState.present Char.toLower demoMulti)
        [MultiEvent.msg ⟨"A", "a"⟩ 1, MultiEvent.msg ⟨"A", "b"⟩ 2, MultiEvent.msg ⟨"A", "c"⟩ 3,
          MultiEvent.msg ⟨"A", "d"⟩ 4]).players "A" + pointLimit ∧
    GoMap.get (MultiState.run Char.toLower (MultiState.present Char.toLower demoMulti)
        [MultiEvent.msg ⟨"A", "a"⟩ 1, MultiEvent.msg ⟨"A", "b"⟩ 2, MultiEvent.msg ⟨"A", "c"⟩ 3,
          MultiEvent.msg ⟨"A", "d"⟩ 4]).scoreKeeper "A" = some 4 ∧
    standing (MultiState.run Char.toLower (MultiState.present Char.toLower demoMulti)
      [MultiEvent.msg ⟨"A", "a"⟩ 1, MultiEvent.msg ⟨"A", "b"⟩ 2, MultiEvent.msg ⟨"A", "c"⟩ 3,
        MultiEvent.msg ⟨"A", "d"⟩ 4, MultiEvent.timeout]).players "A" = 3 :=
  ⟨multi_round_points_capped Char.toLower demoMulti _ MultiEvent.timeout "A",
    by decide, by decide⟩

/-! ### The timeout counter of `runQuiz` -/

theorem sinceLastAnswer_snoc (marks : List Mark) (k : Mark) :
    sinceLastAnswer (marks ++ [k]) =
      match k with
      | Mark.answered => 0
      | Mark.timedOut => sinceLastAnswer marks + 1
      | Mark.other => sinceLastAnswer marks := by
  cases k <;> simp [sinceLastAnswer, List.takeWhile_cons]

namespace QuizState

theorem quiz_run_snoc (toLower : Char → Char) (s : QuizState) (events : List Event)
    (e : Event) :
    run toLower s (events ++ [e])
      = if (run toLower s events).running = true then step toLower (run toLower s events) e
        else run toLower s events := by
  simp [run, List.foldl_append]

theorem run_cons (toLower : Char → Char) (s : QuizState) (e : Event) (events : List Event) :
    run toLower s (e :: events)
      = run toLower (if s.running = true then step toLower s e else s) events := rfl

theorem run_stopped (toLower : Char → Char) (s : QuizState) (events : List Event)
    (h : s.running = false) : run toLower s events = s := by
  induction events with
  | nil => rfl
  | cons e es ih => rw [run_cons]; simp [h, ih]

theorem run_append (toLower : Char → Char) (s : QuizState) (es more : List Event) :
    run toLower s (es ++ more) = run toLower (run toLower s es) more := by
  simp [run, List.foldl_append]

theorem marks_snoc (toLower : Char → Char) (s : QuizState) (events : List Event) (e : Event) :
    marks toLower s (events ++ [e])
      = marks toLower s events ++
        (if (run toLower s events).running = true then [mark toLower (run toLower s events) e]
         else []) := by
  induction events generalizing s with
  | nil =>
    by_cases h : s.running = true <;> simp [marks, run, h]
  | cons x xs ih =>
    by_cases h : s.running = true
    · have hm : marks toLower s ((x :: xs) ++ [e])
          = mark toLower s x :: marks toLower (step toLower s x) (xs ++ [e]) := by
        simp [marks, h]
      rw [hm, ih, run_cons]
      simp [marks, h]
    · have h2 : s.running = false := by simpa using h
      simp [marks, h, run_stopped toLower s _ h2]

theorem timeoutCount_present (s : QuizState) :
    (present s).timeoutCount = s.timeoutCount := by
  unfold present; split <;> rfl

theorem timeoutCount_closeRound (s : QuizState) :
    (closeRound s).timeoutCount = s.timeoutCount := by
  unfold closeRound
  split
  · simp only []
    split
    · rfl
    · rw [timeoutCount_present]
  · rw [timeoutCount_present]

theorem players_present_quiz (s : QuizState) : (present s).players = s.players := by
  unfold present; split <;> rfl

theorem sent_present (s : QuizState) :
    (present s).running = false → (present s).sent = s.sent := by
  unfold present; split <;> simp

/-- The effect of one event on the timeout counter, by the mark of the event. -/
theorem timeoutCount_step (toLower : Char → Char) (s : QuizState) (e : Event) :
    (step toLower s e).timeoutCount =
      match mark toLower s e with
      | Mark.answered => 0
      | Mark.timedOut => s.timeoutCount + 1
      | Mark.other => s.timeoutCount := by
  cases e with
  | quit => simp [step, mark, onQuit]
  | timeout =>
    by_cases h1 : GoMap.len s.scoreKeeper > 0
    · have h : ¬ GoMap.len s.scoreKeeper = 0 := by omega
      simp only [step, mark, if_pos h1, if_neg h]
      rw [timeoutCount_closeRound]
    · have h : GoMap.len s.scoreKeeper = 0 := by omega
      simp only [step, mark, if_neg h1, if_pos h]
      by_cases ha : (noteTimeout s).timeoutCount ≥ timeoutLimit
      · rw [if_pos ha]; simp [abort, noteTimeout]
      · rw [if_neg ha, timeoutCount_closeRound]; simp [noteTimeout]
  | msg m =>
    simp only [step, mark, accepts, onMessage]
    by_cases h1 : m.Content = ".." ∨ m.Content = "。。"
    · simp [h1]
    · by_cases h2 : hasString toLower s.answers (k2h m.Content) = true
      · simp [h1, h2]
      · simp [h1, h2]

theorem counterInv_step (toLower : Char → Char) (s : QuizState) (e : Event)
    (h : CounterInv s) (hr : s.running = true) : CounterInv (step toLower s e) := by
  obtain ⟨h1, h2, h3⟩ := h
  have hlt := h1 hr
  simp only [timeoutLimit] at hlt
  cases e with
  | quit =>
    refine ⟨by simp [step, onQuit], by simpa [step, onQuit] using h2, ?_⟩
    intro hge
    simp only [step, onQuit, timeoutLimit] at hge
    omega
  | timeout =>
    by_cases hs : GoMap.len s.scoreKeeper > 0
    · simp only [step, hs, if_true]
      have hc := timeoutCount_closeRound s
      refine ⟨fun _ => by rw [hc]; simpa [timeoutLimit] using hlt,
        by rw [hc]; exact h2, fun hge => ?_⟩
      rw [hc] at hge; simp only [timeoutLimit] at hge; omega
    · by_cases ha : (noteTimeout s).timeoutCount ≥ timeoutLimit
      · simp only [step, hs, ha, if_true, if_false]
        refine ⟨by simp [abort], ?_, by simp [abort]⟩
        simp only [abort, noteTimeout, timeoutLimit]
        omega
      · simp only [step, hs, ha, if_false]
        have hc := timeoutCount_closeRound (noteTimeout s)
        simp only [timeoutLimit] at ha
        refine ⟨fun _ => by rw [hc]; simp only [timeoutLimit]; omega,
          by rw [hc]; simp only [timeoutLimit]; omega, fun hge => ?_⟩
        rw [hc] at hge; simp only [timeoutLimit] at hge; omega
  | msg m =>
    have hm := timeoutCount_step toLower s (Event.msg m)
    have hr2 : (step toLower s (Event.msg m)).running = true := by
      rw [show step toLower s (Event.msg m) = onMessage toLower s m from rfl,
        (onMessage_spec toLower s m).2.2, hr]
    refine ⟨fun _ => ?_, ?_, fun hge => ?_⟩ <;>
      (cases hmk : mark toLower s (Event.msg m) <;> rw [hmk] at hm <;>
        simp only [timeoutLimit] at * <;> first | omega | (simp [mark] at hmk; done) | skip)
    all_goals (simp only [mark] at hmk; split at hmk <;> cases hmk)

theorem counterInv_run (toLower : Char → Char) (s : QuizState) (events : List Event)
    (h : CounterInv s) : CounterInv (run toLower s events) := by
  induction events using List.reverseRecOn with
  | nil => exact h
  | append_singleton es e ih =>
    rw [quiz_run_snoc]
    split
    · rename_i hr
      exact counterInv_step toLower _ e ih hr
    · exact ih

theorem timeoutCount_run (toLower : Char → Char) (s : QuizState) (events : List Event)
    (h0 : s.timeoutCount = 0) :
    (run toLower s events).timeoutCount = sinceLastAnswer (marks toLower s events) := by
  induction events using List.reverseRecOn with
  | nil => simp [run, marks, sinceLastAnswer, h0]
  | append_singleton es e ih =>
    rw [quiz_run_snoc, marks_snoc]
    split
    · rw [sinceLastAnswer_snoc, timeoutCount_step, ih]
    · simpa using ih

end QuizState

namespace QuizState

theorem players_timedOut (toLower : Char → Char) (s : QuizState) (e : Event)
    (h : mark toLower s e = Mark.timedOut) : (step toLower s e).players = s.players := by
  cases e with
  | quit => simp [mark] at h
  | msg m => simp only [mark] at h; split at h <;> cases h
  | timeout =>
    have h0 : GoMap.len s.scoreKeeper = 0 := by
      by_contra hne
      simp [mark, hne] at h
    have h1 : ¬ GoMap.len s.scoreKeeper > 0 := by omega
    have h2 : ¬ GoMap.len (noteTimeout s).scoreKeeper > 0 := h1
    simp only [step, if_neg h1]
    split
    · rfl
    · simp only [closeRound, if_neg h2]
      rw [players_present_quiz]
      rfl

end QuizState

/-- C4: in the loop of `runQuiz`, started with the counter at zero, after any events the
counter `timeoutCount` is the number of rounds that timed out with no scorer since the
last accepted answer (or since the start); while the loop runs it is below 5; once five
such rounds have passed the loop has been left, the abort notice was the last thing sent
and no further event changes anything, so no further question is presented; and a round
that times out with no scorer leaves the standings unchanged. -/
theorem timeoutCount_contract (toLower : Char → Char) (s0 : QuizState) (events : List Event)
    (h0 : s0.timeoutCount = 0) :
    (QuizState.run toLower s0 events).timeoutCount
      = sinceLastAnswer (QuizState.marks toLower s0 events) ∧
    ((QuizState.run toLower s0 events).running = true →
      (QuizState.run toLower s0 events).timeoutCount < 5) ∧
    (QuizState.run toLower s0 events).timeoutCount ≤ 5 ∧
    (sinceLastAnswer (QuizState.marks toLower s0 events) ≥ 5 →
      (QuizState.run toLower s0 events).running = false ∧
      (QuizState.run toLower s0 events).sent.getLast? = some Output.tooManyTimeouts ∧
      ∀ more, QuizState.run toLower s0 (events ++ more) = QuizState.run toLower s0 events) ∧
    (∀ e, (QuizState.run toLower s0 events).running = true →
      QuizState.mark toLower (QuizState.run toLower s0 events) e = Mark.timedOut →
      (QuizState.step toLower (QuizState.run toLower s0 events) e).players
        = (QuizState.run toLower s0 events).players) := by
  have hinv0 : QuizState.CounterInv s0 := by
    refine ⟨fun _ => by rw [h0]; decide, by rw [h0]; decide, fun h => ?_⟩
    rw [h0] at h
    exact absurd h (by decide)
  obtain ⟨i1, i2, i3⟩ := QuizState.counterInv_run toLower s0 events hinv0
  have hc := QuizState.timeoutCount_run toLower s0 events h0
  refine ⟨hc, i1, i2, ?_, fun e _ hm => QuizState.players_timedOut toLower _ e hm⟩
  intro h5
  rw [← hc] at h5
  have hstop : (QuizState.run toLower s0 events).running = false := by
    cases hr : (QuizState.run toLower s0 events).running with
    | false => rfl
    | true =>
      have := i1 hr
      simp only [timeoutLimit] at this
      omega
  refine ⟨hstop, i3 h5, fun more => ?_⟩
  rw [QuizState.run_append, QuizState.run_stopped toLower _ more hstop]

/-- Witness for C4 on a deck of seven cards: after five rounds in a row that time out
with no answer the counter is 5, the loop has been left, five questions were presented,
and further timer events present no sixth one. -/
theorem timeoutCount_contract_witness :
    (QuizState.run Char.toLower demoSeven (List.replicate 5 Event.timeout)).timeoutCount = 5 ∧
    (QuizState.run Char.toLower demoSeven (List.replicate 5 Event.timeout)).running = false ∧
    (questionsSent
      (QuizState.run Char.toLower demoSeven (List.replicate 5 Event.timeout)).sent).length = 5 ∧
    QuizState.run Char.toLower demoSeven
        (List.replicate 5 Event.timeout ++ [Event.timeout, Event.timeout])
      = QuizState.run Char.toLower demoSeven (List.replicate 5 Event.timeout) :=
  have h := timeoutCount_contract Char.toLower demoSeven (List.replicate 5 Event.timeout)
    (by decide)
  ⟨by decide, (h.2.2.2.1 (by decide)).1, by decide,
    (h.2.2.2.1 (by decide)).2.2 [Event.timeout, Event.timeout]⟩

/-! ### The review deck stored at the end of a session -/

theorem decodeAll_unmarshalString (xs : List String) :
    decodeAll unmarshalString (xs.map JSON.str) = some xs := by
  induction xs with
  | nil => rfl
  | cons x xs ih => simp [decodeAll, unmarshalString, ih]

theorem unmarshal_marshalCard (c : Card) : unmarshalCard (marshalCard c) = some c := by
  obtain ⟨q, a, cm⟩ := c
  by_cases h : cm = ""
  · subst h
    simp [marshalCard, unmarshalCard, fieldString, fieldArray, GoMap.get, decodeAll_unmarshalString]
  · simp [marshalCard, unmarshalCard, fieldString, fieldArray, GoMap.get, decodeAll_unmarshalString, h]

theorem decodeAll_unmarshalCard (deck : List Card) :
    decodeAll unmarshalCard (deck.map marshalCard) = some deck := by
  induction deck with
  | nil => rfl
  | cons c cs ih => simp [decodeAll, unmarshal_marshalCard, ih]

theorem unmarshal_marshalQuiz (q : Quiz) : unmarshalQuiz (marshalQuiz q) = some q := by
  obtain ⟨d, t, n, deck⟩ := q
  by_cases h1 : t = "" <;> by_cases h2 : n = 0 <;>
    simp [marshalQuiz, unmarshalQuiz, fieldString, fieldArray, fieldInt, GoMap.get,
      decodeAll_unmarshalCard, h1, h2]

/-- The deep copy through JSON gives back the quiz. -/
theorem copyQuiz_eq (q : Quiz) : copyQuiz q = q := by
  simp [copyQuiz, unmarshal_marshalQuiz]

namespace QuizState

theorem withDeck_present (s : QuizState) (d : List Card) :
    Quiz.withDeck (present s).quiz d = Quiz.withDeck s.quiz d := by
  unfold present; split <;> rfl

theorem failed_present (s : QuizState) : (present s).failed = s.failed := by
  unfold present; split <;> rfl

theorem withDeck_closeRound (s : QuizState) (d : List Card) :
    Quiz.withDeck (closeRound s).quiz d = Quiz.withDeck s.quiz d := by
  unfold closeRound
  split
  · simp only []
    split
    · rfl
    · rw [withDeck_present]
  · rw [withDeck_present]

theorem failed_closeRound (s : QuizState) : (closeRound s).failed = s.failed := by
  unfold closeRound
  split
  · simp only []
    split
    · rfl
    · rw [failed_present]
  · rw [failed_present]

theorem withDeck_presentSequential (s : QuizState) (d : List Card) :
    Quiz.withDeck (presentSequential s).quiz d = Quiz.withDeck s.quiz d := by
  unfold presentSequential; split <;> rfl

theorem failed_presentSequential (s : QuizState) : (presentSequential s).failed = s.failed := by
  unfold presentSequential; split <;> rfl

theorem withDeck_closeRoundSequential (s : QuizState) (d : List Card) :
    Quiz.withDeck (closeRoundSequential s).quiz d = Quiz.withDeck s.quiz d := by
  unfold closeRoundSequential
  rw [withDeck_presentSequential]
  split <;> rfl

theorem failed_closeRoundSequential (s : QuizState) :
    (closeRoundSequential s).failed = s.failed := by
  unfold closeRoundSequential
  rw [failed_presentSequential]
  split <;> rfl

theorem onMessage_frame_quiz (toLower : Char → Char) (s : QuizState) (m : Message) :
    (onMessage toLower s m).quiz = s.quiz ∧ (onMessage toLower s m).failed = s.failed := by
  unfold onMessage
  split
  · exact ⟨rfl, rfl⟩
  · split <;> exact ⟨rfl, rfl⟩

/-- One event of `runQuiz` leaves description, type and timeout of the quiz as they are
and only appends to the failed cards. -/
theorem step_keeps (toLower : Char → Char) (s : QuizState) (e : Event) (d : List Card) :
    Quiz.withDeck (step toLower s e).quiz d = Quiz.withDeck s.quiz d ∧
    s.failed <+: (step toLower s e).failed := by
  cases e with
  | quit =>
    refine ⟨rfl, ?_⟩
    simp only [step, onQuit]
    split
    · split
      · rw [List.append_assoc]; exact List.prefix_append _ _
      · exact List.prefix_append _ _
    · exact List.prefix_refl _
  | timeout =>
    simp only [step]
    split
    · rw [withDeck_closeRound, failed_closeRound]
      exact ⟨rfl, List.prefix_refl _⟩
    · split
      · refine ⟨rfl, ?_⟩
        simp only [abort, noteTimeout]
        split
        · rw [List.append_assoc]; exact List.prefix_append _ _
        · exact List.prefix_append _ _
      · rw [withDeck_closeRound, failed_closeRound]
        exact ⟨rfl, List.prefix_append _ _⟩
  | msg m =>
    obtain ⟨h1, h2⟩ := onMessage_frame_quiz toLower s m
    simp only [step]
    rw [h1, h2]
    exact ⟨rfl, List.prefix_refl _⟩

/-- One event of `runQuizSequential` leaves description, type and timeout of the quiz as
they are and only appends to the failed cards. -/
theorem stepSequential_keeps (toLower : Char → Char) (s : QuizState) (e : Event)
    (d : List Card) :
    Quiz.withDeck (stepSequential toLower s e).quiz d = Quiz.withDeck s.quiz d ∧
    s.failed <+: (stepSequential toLower s e).failed := by
  cases e with
  | quit =>
    refine ⟨rfl, ?_⟩
    simp only [stepSequential, onQuit]
    split
    · split
      · rw [List.append_assoc]; exact List.prefix_append _ _
      · exact List.prefix_append _ _
    · exact List.prefix_refl _
  | timeout =>
    simp only [stepSequential]
    split
    · rw [withDeck_closeRoundSequential, failed_closeRoundSequential]
      exact ⟨rfl, List.prefix_refl _⟩
    · split
      · refine ⟨rfl, ?_⟩
        simp only [abort, noteTimeout]
        split
        · rw [List.append_assoc]; exact List.prefix_append _ _
        · exact List.prefix_append _ _
      · rw [withDeck_closeRoundSequential, failed_closeRoundSequential]
        exact ⟨rfl, List.prefix_append _ _⟩
  | msg m =>
    obtain ⟨h1, h2⟩ := onMessage_frame_quiz toLower s m
    simp only [stepSequential]
    rw [h1, h2]
    exact ⟨rfl, List.prefix_refl _⟩

theorem run_keeps (toLower : Char → Char) (s : QuizState) (events : List Event)
    (d : List Card) :
    Quiz.withDeck (run toLower s events).quiz d = Quiz.withDeck s.quiz d ∧
    s.failed <+: (run toLower s events).failed := by
  induction events generalizing s with
  | nil => exact ⟨rfl, List.prefix_refl _⟩
  | cons e es ih =>
    rw [run_cons]
    split
    · obtain ⟨h1, h2⟩ := step_keeps toLower s e d
      obtain ⟨h3, h4⟩ := ih (step toLower s e)
      exact ⟨h3.trans h1, h2.trans h4⟩
    · exact ih s

theorem runSequential_cons (toLower : Char → Char) (s : QuizState) (e : Event)
    (events : List Event) :
    runSequential toLower s (e :: events)
      = runSequential toLower (if s.running = true then stepSequential toLower s e else s)
          events := rfl

theorem runSequential_append (toLower : Char → Char) (s : QuizState) (es more : List Event) :
    runSequential toLower s (es ++ more)
      = runSequential toLower (runSequential toLower s es) more := by
  simp [runSequential, List.foldl_append]

theorem runSequential_keeps (toLower : Char → Char) (s : QuizState) (events : List Event)
    (d : List Card) :
    Quiz.withDeck (runSequential toLower s events).quiz d = Quiz.withDeck s.quiz d ∧
    s.failed <+: (runSequential toLower s events).failed := by
  induction events generalizing s with
  | nil => exact ⟨rfl, List.prefix_refl _⟩
  | cons e es ih =>
    rw [runSequential_cons]
    split
    · obtain ⟨h1, h2⟩ := stepSequential_keeps toLower s e d
      obtain ⟨h3, h4⟩ := ih (stepSequential toLower s e)
      exact ⟨h3.trans h1, h2.trans h4⟩
    · exact ih s

end QuizState

theorem hasQuiz_delete (R : GoMap Bool) (ch : String) :
    hasQuiz (GoMap.delete R ch) ch = false := by
  simp [hasQuiz, GoMap.contains, GoMap.get_delete_self]

/-- What `finishRun` leaves behind once the call has returned. -/
theorem finishRun_returned (g : Globals) (ch : String) (s : QuizState) (sb : Scoreboard)
    (h : (finishRun g ch s sb).returned = true) :
    (finishRun g ch s sb).session = some s ∧
    GoMap.get (finishRun g ch s sb).globals.Review ch = some (Quiz.withDeck s.quiz s.failed) ∧
    hasQuiz (finishRun g ch s sb).globals.Ongoing ch = false := by
  unfold finishRun at h ⊢
  split
  · rename_i hr
    simp [hr] at h
  · refine ⟨rfl, ?_, ?_⟩
    · simp [storeAndStop, putReview, GoMap.get_set_self, copyQuiz_eq]
    · simp [storeAndStop, stopQuiz, hasQuiz_delete]

theorem finishRun_session (g : Globals) (ch : String) (s : QuizState) (sb : Scoreboard) :
    (finishRun g ch s sb).session = some s := by
  unfold finishRun; split <;> rfl

/-- What a call leaves in the review store and the registry once it has returned, in
terms of the state `s0` before the loop and the state `s` after it, when the loop keeps
description, type and timeout of the quiz. -/
theorem finishRun_contract (g : Globals) (ch : String) (s0 s : QuizState) (sb : Scoreboard)
    (hk : Quiz.withDeck s.quiz s.failed = Quiz.withDeck s0.quiz s.failed)
    (h : (finishRun g ch s sb).returned = true) :
    ∃ q, (finishRun g ch s sb).session = some s ∧
      GoMap.get (finishRun g ch s sb).globals.Review ch = some q ∧
      q.Description = s0.quiz.Description ∧ q.Type_ = s0.quiz.Type_ ∧
      q.Timeout = s0.quiz.Timeout ∧ q.Deck = s.failed ∧
      hasQuiz (finishRun g ch s sb).globals.Ongoing ch = false := by
  obtain ⟨h1, h2, h3⟩ := finishRun_returned g ch s sb h
  have hd := congrArg Quiz.Description hk
  have ht := congrArg Quiz.Type_ hk
  have hn := congrArg Quiz.Timeout hk
  exact ⟨_, h1, h2, hd, ht, hn, rfl, h3⟩

/-- C7: when a call of `runQuiz` or `runQuizSequential` that presented at least one card
has returned, the review store holds for the channel a quiz with the description, type
and timeout of the quiz played whose deck is the list of failed cards of the session
(whatever was stored before), the channel is no longer active, and the failed cards
recorded at any earlier point of the session are a prefix of the stored deck. -/
theorem review_replaced_on_end (toLower : Char → Char) (g : Globals) (ch quizname : String)
    (waitTimeGiven : Int) (loaded : Quiz) (draw : Nat → Nat) :
    (∀ (winLimitGiven : String) (events : List Event),
      (runQuiz toLower g ch quizname winLimitGiven waitTimeGiven loaded draw events).returned
        = true →
      questionsSent
        (runQuiz toLower g ch quizname winLimitGiven waitTimeGiven loaded draw events).sent
        ≠ [] →
      ∃ s q,
        (runQuiz toLower g ch quizname winLimitGiven waitTimeGiven loaded draw events).session
          = some s ∧
        GoMap.get (runQuiz toLower g ch quizname winLimitGiven waitTimeGiven loaded draw
          events).globals.Review ch = some q ∧
        q.Description = (sessionQuiz g ch quizname loaded draw).Description ∧
        q.Type_ = (sessionQuiz g ch quizname loaded draw).Type_ ∧
        q.Timeout = (sessionQuiz g ch quizname loaded draw).Timeout ∧
        q.Deck = s.failed ∧
        hasQuiz (runQuiz toLower g ch quizname winLimitGiven waitTimeGiven loaded draw
          events).globals.Ongoing ch = false ∧
        (∀ es more s1, events = es ++ more →
          (runQuiz toLower g ch quizname winLimitGiven waitTimeGiven loaded draw es).session
            = some s1 → s1.failed <+: s.failed)) ∧
    (∀ (startIndex : String) (events : List Event),
      (runQuizSequential toLower g ch quizname startIndex waitTimeGiven loaded draw
        events).returned = true →
      questionsSent (runQuizSequential toLower g ch quizname startIndex waitTimeGiven loaded
        draw events).sent ≠ [] →
      ∃ s q,
        (runQuizSequential toLower g ch quizname startIndex waitTimeGiven loaded draw
          events).session = some s ∧
        GoMap.get (runQuizSequential toLower g ch quizname startIndex waitTimeGiven loaded
          draw events).globals.Review ch = some q ∧
        q.Description = (sessionQuiz g ch quizname loaded draw).Description ∧
        q.Type_ = (sessionQuiz g ch quizname loaded draw).Type_ ∧
        q.Timeout = (sessionQuiz g ch quizname loaded draw).Timeout ∧
        q.Deck = s.failed ∧
        hasQuiz (runQuizSequential toLower g ch quizname startIndex waitTimeGiven loaded draw
          events).globals.Ongoing ch = false ∧
        (∀ es more s1, events = es ++ more →
          (runQuizSequential toLower g ch quizname startIndex waitTimeGiven loaded draw
            es).session = some s1 → s1.failed <+: s.failed)) := by
  constructor
  · intro winLimitGiven events hret hq
    by_cases herr : (startQuiz g.Ongoing ch).err.isSome = true
    · simp [runQuiz, herr, questionsSent] at hq
    by_cases hdeck : (sessionQuiz g ch quizname loaded draw).Deck.length = 0
    · simp [runQuiz, herr, hdeck, questionsSent] at hq
    simp only [runQuiz, herr, hdeck, if_false, Bool.false_eq_true] at hret ⊢
    obtain ⟨q, h1, h2, h3, h4, h5, h6, h7⟩ := finishRun_contract _ ch
      (QuizState.init quizname _ 0 0 _ (waitTimeGiven * Millisecond)
        (sessionQuiz g ch quizname loaded draw)) _ _
      (((QuizState.run_keeps toLower _ events _).1).trans (QuizState.withDeck_present _ _)) hret
    refine ⟨_, q, h1, h2, h3, h4, h5, h6, h7, ?_⟩
    · intro es more s1 hev hs1
      rw [finishRun_session] at hs1
      cases hs1
      subst hev
      rw [QuizState.run_append]
      exact (QuizState.run_keeps toLower _ more []).2
  · intro startIndex events hret hq
    by_cases herr : (startQuiz g.Ongoing ch).err.isSome = true
    · simp [runQuizSequential, herr, questionsSent] at hq
    by_cases hdeck : (sessionQuiz g ch quizname loaded draw).Deck.length = 0
    · simp [runQuizSequential, herr, hdeck, questionsSent] at hq
    cases htext : startIndexText startIndex with
    | none => simp [runQuizSequential, herr, hdeck, htext, questionsSent] at hq
    | some text =>
      by_cases hneg : startOffset (sessionQuiz g ch quizname loaded draw).Deck.length text < 0
      · simp [runQuizSequential, herr, hdeck, htext, hneg, questionsSent] at hq
      simp only [runQuizSequential, herr, hdeck, htext, hneg, if_false, Bool.false_eq_true] at hret ⊢
      obtain ⟨q, h1, h2, h3, h4, h5, h6, h7⟩ := finishRun_contract _ ch
        (QuizState.init quizname 0 _ _ _ (waitTimeGiven * Millisecond)
          (Quiz.withDeck (sessionQuiz g ch quizname loaded draw) _)) _ _
        (((QuizState.runSequential_keeps toLower
            (QuizState.startSequential quizname waitTimeGiven
              (sessionQuiz g ch quizname loaded draw)
              (startOffset (sessionQuiz g ch quizname loaded draw).Deck.length text))
            events _).1).trans
          (QuizState.withDeck_presentSequential _ _)) hret
      refine ⟨_, q, h1, h2, h3, h4, h5, h6, h7, ?_⟩
      · intro es more s1 hev hs1
        rw [finishRun_session] at hs1
        cases hs1
        subst hev
        rw [QuizState.runSequential_append]
        exact (QuizState.runSequential_keeps toLower _ more []).2

/-- Witness for C7: a session on `demoQuiz` in which `Q2` times out and `Q1` is answered
returns with the review deck `[Q2]` stored in place of the old deck and the channel
released. -/
theorem review_replaced_on_end_witness :
    (∃ s q,
      (runQuiz Char.toLower demoGlobals "ch" "deck" "2" 2000 demoQuiz (fun _ => 0)
        [Event.timeout, Event.msg ⟨"A", "a"⟩, Event.timeout]).session = some s ∧
      GoMap.get (runQuiz Char.toLower demoGlobals "ch" "deck" "2" 2000 demoQuiz (fun _ => 0)
        [Event.timeout, Event.msg ⟨"A", "a"⟩, Event.timeout]).globals.Review "ch" = some q ∧
      q.Description = (sessionQuiz demoGlobals "ch" "deck" demoQuiz (fun _ => 0)).Description ∧
      q.Type_ = (sessionQuiz demoGlobals "ch" "deck" demoQuiz (fun _ => 0)).Type_ ∧
      q.Timeout = (sessionQuiz demoGlobals "ch" "deck" demoQuiz (fun _ => 0)).Timeout ∧
      q.Deck = s.failed ∧
      hasQuiz (runQuiz Char.toLower demoGlobals "ch" "deck" "2" 2000 demoQuiz (fun _ => 0)
        [Event.timeout, Event.msg ⟨"A", "a"⟩, Event.timeout]).globals.Ongoing "ch" = false ∧
      (∀ es more s1, [Event.timeout, Event.msg ⟨"A", "a"⟩, Event.timeout] = es ++ more →
        (runQuiz Char.toLower demoGlobals "ch" "deck" "2" 2000 demoQuiz (fun _ => 0)
          es).session = some s1 → s1.failed <+: s.failed)) ∧
    (runQuiz Char.toLower demoGlobals "ch" "deck" "2" 2000 demoQuiz (fun _ => 0)
      [Event.timeout, Event.msg ⟨"A", "a"⟩, Event.timeout]).globals.Review
      = [("ch", ⟨"d", "text", 0, [⟨"Q2", ["b"], ""⟩]⟩)] :=
  ⟨(review_replaced_on_end Char.toLower demoGlobals "ch" "deck" 2000 demoQuiz (fun _ => 0)).1
    "2" [Event.timeout, Event.msg ⟨"A", "a"⟩, Event.timeout] (by decide) (by decide),
   by decide⟩

/-! ### Sequential mode: the resume offset -/

theorem questionsSent_append (a b : List Output) :
    questionsSent (a ++ b) = questionsSent a ++ questionsSent b := by
  simp [questionsSent, List.filterMap_append]

namespace QuizState

theorem seqInv_present (deck : List Card) (k : Int) (s : QuizState) (h : SeqTop deck k s) :
    SeqInv deck k (presentSequential s) := by
  obtain ⟨h1, h2⟩ := h
  unfold presentSequential
  split
  · rename_i hd
    exact ⟨by simpa [hd] using h1, by simp⟩
  · rename_i current rest hd
    refine ⟨?_, fun _ => ⟨?_, ?_⟩⟩
    · simp only [questionsSent_append]
      rw [hd] at h1
      simpa [questionsSent] using h1
    · simp only [questionsSent_append]
      simp [questionsSent, h2]
      omega
    · simp only [questionsSent_append]
      simp [questionsSent]

theorem seqInv_closeRound (deck : List Card) (k : Int) (s : QuizState)
    (h : SeqInv deck k s) (hr : s.running = true) :
    SeqInv deck k (closeRoundSequential s) := by
  obtain ⟨h1, h2⟩ := h
  obtain ⟨h3, _⟩ := h2 hr
  unfold closeRoundSequential
  apply seqInv_present
  split
  · refine ⟨?_, ?_⟩
    · simpa [questionsSent_append, questionsSent] using h1
    · simp only [questionsSent_append]
      simpa [questionsSent] using h3
  · exact ⟨h1, h3⟩

theorem seqInv_noteTimeout (deck : List Card) (k : Int) (s : QuizState)
    (h : SeqInv deck k s) : SeqInv deck k (noteTimeout s) := by
  obtain ⟨h1, h2⟩ := h
  refine ⟨?_, fun hr => ?_⟩
  · simpa [noteTimeout, questionsSent_append, questionsSent] using h1
  · simpa [noteTimeout, questionsSent_append, questionsSent] using h2 hr

theorem seqInv_step (toLower : Char → Char) (deck : List Card) (k : Int) (s : QuizState)
    (e : Event) (h : SeqInv deck k s) (hr : s.running = true) :
    SeqInv deck k (stepSequential toLower s e) := by
  cases e with
  | quit => exact ⟨h.1, by simp [stepSequential, onQuit]⟩
  | timeout =>
    simp only [stepSequential]
    split
    · exact seqInv_closeRound deck k s h hr
    · split
      · refine ⟨?_, by simp [abort]⟩
        simpa [abort, questionsSent_append, questionsSent] using (seqInv_noteTimeout deck k s h).1
      · exact seqInv_closeRound deck k _ (seqInv_noteTimeout deck k s h) hr
  | msg m =>
    simp only [stepSequential, onMessage]
    split
    · exact h
    · split
      · exact h
      · exact h

theorem seqInv_run (toLower : Char → Char) (deck : List Card) (k : Int) (s : QuizState)
    (events : List Event) (h : SeqInv deck k s) :
    SeqInv deck k (runSequential toLower s events) := by
  induction events generalizing s with
  | nil => exact h
  | cons e es ih =>
    rw [runSequential_cons]
    split
    · rename_i hr
      exact ih _ (seqInv_step toLower deck k s e h hr)
    · exact ih s h

end QuizState

theorem startOffset_le (n : Nat) (text : String) : startOffset n text ≤ n := by
  unfold startOffset
  simp only []
  split <;> omega

theorem seqInv_start (quizname : String) (waitTimeGiven : Int) (quiz : Quiz) (idx : Int) :
    QuizState.SeqInv (quiz.Deck.drop idx.toNat) idx
      (QuizState.startSequential quizname waitTimeGiven quiz idx) := by
  unfold QuizState.startSequential
  apply QuizState.seqInv_present
  exact ⟨by simp [QuizState.init, questionsSent, Quiz.withDeck],
    by simp [QuizState.init, questionsSent]⟩

/-- The main path of `runQuizSequential`: the channel is free, the deck is not empty and
the start index has a `-` and is not negative. -/
theorem runQuizSequential_main (toLower : Char → Char) (g : Globals) (ch quizname : String)
    (startIndex : String) (waitTimeGiven : Int) (loaded : Quiz) (draw : Nat → Nat)
    (events : List Event) (s : QuizState)
    (h : (runQuizSequential toLower g ch quizname startIndex waitTimeGiven loaded draw
      events).session = some s) :
    ∃ text, startIndexText startIndex = some text ∧
      0 ≤ startOffset (sessionQuiz g ch quizname loaded draw).Deck.length text ∧
      ∀ evs, runQuizSequential toLower g ch quizname startIndex waitTimeGiven loaded draw evs
        = finishRun
            ⟨(startQuiz g.Ongoing ch).ongoing,
              if quizname = "review" then (getReview g.Review ch draw).1 else g.Review⟩ ch
            (QuizState.runSequential toLower
              (QuizState.startSequential quizname waitTimeGiven
                (sessionQuiz g ch quizname loaded draw)
                (startOffset (sessionQuiz g ch quizname loaded draw).Deck.length text)) evs)
            (QuizState.scoreboardSequential
              (QuizState.runSequential toLower
                (QuizState.startSequential quizname waitTimeGiven
                  (sessionQuiz g ch quizname loaded draw)
                  (startOffset (sessionQuiz g ch quizname loaded draw).Deck.length text))
                evs)) := by
  by_cases herr : (startQuiz g.Ongoing ch).err.isSome = true
  · simp [runQuizSequential, herr] at h
  by_cases hdeck : (sessionQuiz g ch quizname loaded draw).Deck.length = 0
  · simp [runQuizSequential, herr, hdeck] at h
  cases htext : startIndexText startIndex with
  | none => simp [runQuizSequential, herr, hdeck, htext] at h
  | some text =>
    by_cases hneg : startOffset (sessionQuiz g ch quizname loaded draw).Deck.length text < 0
    · simp [runQuizSequential, herr, hdeck, htext, hneg] at h
    refine ⟨text, rfl, by omega, fun evs => ?_⟩
    simp only [runQuizSequential, herr, hdeck, htext, hneg, if_false, Bool.false_eq_true]

theorem getElem?_of_getLast? {α : Type} (xs ys : List α) (a : α)
    (h : xs.getLast? = some a) : (xs ++ ys)[xs.length - 1]? = some a := by
  have hne : xs ≠ [] := by
    rintro rfl
    simp at h
  have hlt : xs.length - 1 < xs.length := by
    have := List.length_pos.mpr hne
    omega
  rw [List.getElem?_append_left hlt]
  rw [List.getLast?_eq_getElem?] at h
  exact h

namespace QuizState

theorem runSequential_snoc (toLower : Char → Char) (s : QuizState) (events : List Event)
    (e : Event) :
    runSequential toLower s (events ++ [e])
      = if (runSequential toLower s events).running = true
        then stepSequential toLower (runSequential toLower s events) e
        else runSequential toLower s events := by
  simp [runSequential, List.foldl_append]

end QuizState

/-- C8, as amended: in a sequential session on a deck of `n` cards, a stop signal taken
while the round on the card at index `j` is in progress ends the session with a final
scoreboard that announces the resume offset `j` when a card is left after that one
(`j + 1 < n`) and no offset when the stop comes during the last card; and a sequential
session started with offset `j` works through the cards at the positions `j, ..., n - 1`
in deck order: at any point the cards it has presented followed by its working deck are
exactly those cards. -/
theorem sequential_resume (toLower : Char → Char) (g : Globals) (ch quizname : String)
    (waitTimeGiven : Int) (loaded : Quiz) (draw : Nat → Nat) :
    (∀ (startIndex : String) (es : List Event) (s : QuizState),
      (runQuizSequential toLower g ch quizname startIndex waitTimeGiven loaded draw
        es).session = some s →
      s.running = true →
      0 ≤ s.idx ∧
      (sessionQuiz g ch quizname loaded draw).Deck[s.idx.toNat]? = some s.current ∧
      (runQuizSequential toLower g ch quizname startIndex waitTimeGiven loaded draw
        (es ++ [Event.quit])).returned = true ∧
      ∃ sb,
        (runQuizSequential toLower g ch quizname startIndex waitTimeGiven loaded draw
          (es ++ [Event.quit])).sent.getLast? = some (Output.scoreboard sb) ∧
        sb.resuming =
          if s.idx + 1 < ((sessionQuiz g ch quizname loaded draw).Deck.length : Int)
          then some s.idx else none) ∧
    (∀ (startIndex text : String) (j : Nat) (events : List Event) (s : QuizState),
      startIndexText startIndex = some text →
      startOffset (sessionQuiz g ch quizname loaded draw).Deck.length text = (j : Int) →
      (runQuizSequential toLower g ch quizname startIndex waitTimeGiven loaded draw
        events).session = some s →
      questionsSent s.sent ++ s.quiz.Deck = (sessionQuiz g ch quizname loaded draw).Deck.drop j) := by
  constructor
  · intro startIndex es s hs hr
    obtain ⟨text, _, hk0, hmain⟩ :=
      runQuizSequential_main toLower g ch quizname startIndex waitTimeGiven loaded draw es s hs
    rw [hmain es, finishRun_session] at hs
    cases hs
    have hinv := QuizState.seqInv_run toLower _ _ _ es
      (seqInv_start quizname waitTimeGiven (sessionQuiz g ch quizname loaded draw)
        (startOffset (sessionQuiz g ch quizname loaded draw).Deck.length text))
    obtain ⟨hdeck, hrun⟩ := hinv
    obtain ⟨hidx, hlast⟩ := hrun hr
    have hle := startOffset_le (sessionQuiz g ch quizname loaded draw).Deck.length text
    generalize hk : startOffset (sessionQuiz g ch quizname loaded draw).Deck.length text = k
      at hk0 hle hdeck hidx hlast hr hmain ⊢
    generalize hst : QuizState.runSequential toLower
      (QuizState.startSequential quizname waitTimeGiven
        (sessionQuiz g ch quizname loaded draw) k) es = s at hdeck hidx hlast hr ⊢
    have hne : questionsSent s.sent ≠ [] := by
      intro h0
      rw [h0] at hlast
      simp at hlast
    have hpos := List.length_pos.mpr hne
    have hlen := congrArg List.length hdeck
    simp only [List.length_append, List.length_drop] at hlen
    have hget := getElem?_of_getLast? _ s.quiz.Deck _ hlast
    rw [hdeck, List.getElem?_drop] at hget
    have hi : s.idx.toNat = k.toNat + ((questionsSent s.sent).length - 1) := by omega
    refine ⟨by omega, by rw [hi]; exact hget, ?_, ?_⟩
    · rw [hmain, QuizState.runSequential_snoc, hst, if_pos hr]
      simp [finishRun, QuizState.stepSequential, QuizState.onQuit]
    · rw [hmain, QuizState.runSequential_snoc, hst, if_pos hr]
      refine ⟨QuizState.scoreboardSequential (QuizState.stepSequential toLower s Event.quit),
        by simp [finishRun, QuizState.stepSequential, QuizState.onQuit], ?_⟩
      simp only [QuizState.scoreboardSequential, QuizState.stepSequential, QuizState.onQuit]
      by_cases hd : s.quiz.Deck.length > 0
      · rw [if_pos hd, if_pos (by omega)]
      · rw [if_neg hd, if_neg (by omega)]
  · intro startIndex text j events s htext hj hs
    obtain ⟨text2, htext2, _, hmain⟩ :=
      runQuizSequential_main toLower g ch quizname startIndex waitTimeGiven loaded draw
        events s hs
    rw [htext] at htext2
    cases htext2
    rw [hmain events, finishRun_session] at hs
    cases hs
    have hinv := QuizState.seqInv_run toLower _ _ _ events
      (seqInv_start quizname waitTimeGiven (sessionQuiz g ch quizname loaded draw)
        (startOffset (sessionQuiz g ch quizname loaded draw).Deck.length text))
    rw [hinv.1, hj]
    simp

/-- Counterexample to C8 as stated: on the two-card deck `demoQuiz`, a sequential session
started with offset 1 is stopped while the round with index 1 is in progress; the final
scoreboard has no "Resuming" field. -/
theorem sequential_resume_counterexample :
    ((runQuizSequential Char.toLower ⟨[], []⟩ "ch" "deck" "1-" 2000 demoQuiz (fun _ => 0)
      []).session.map (fun s => (s.running, s.idx, s.current))) =
      some (true, 1, ⟨"Q2", ["b"], ""⟩) ∧
    (runQuizSequential Char.toLower ⟨[], []⟩ "ch" "deck" "1-" 2000 demoQuiz (fun _ => 0)
      [Event.quit]).sent.getLast? =
      some (Output.scoreboard ⟨[], [], none, none, ["b"]⟩) := by
  decide

/-- Witness for C8 as amended: on `demoQuiz`, a sequential session started with offset 0
and stopped during the round with index 0 announces the resume offset 0, and a session
started with offset 1 that runs into a timeout has presented the card at position 1 and
nothing else. -/
theorem sequential_resume_witness :
    (0 ≤ (QuizState.startSequential "deck" 2000 demoQuiz 0).idx ∧
      (sessionQuiz ⟨[], []⟩ "ch" "deck" demoQuiz (fun _ => 0)).Deck[
        (QuizState.startSequential "deck" 2000 demoQuiz 0).idx.toNat]?
        = some (QuizState.startSequential "deck" 2000 demoQuiz 0).current ∧
      (runQuizSequential Char.toLower ⟨[], []⟩ "ch" "deck" "0-" 2000 demoQuiz (fun _ => 0)
        ([] ++ [Event.quit])).returned = true ∧
      ∃ sb,
        (runQuizSequential Char.toLower ⟨[], []⟩ "ch" "deck" "0-" 2000 demoQuiz (fun _ => 0)
          ([] ++ [Event.quit])).sent.getLast? = some (Output.scoreboard sb) ∧
        sb.resuming =
          if (QuizState.startSequential "deck" 2000 demoQuiz 0).idx + 1
              < ((sessionQuiz ⟨[], []⟩ "ch" "deck" demoQuiz (fun _ => 0)).Deck.length : Int)
          then some (QuizState.startSequential "deck" 2000 demoQuiz 0).idx else none) ∧
    questionsSent
        (QuizState.runSequential Char.toLower
          (QuizState.startSequential "deck" 2000 demoQuiz 1) [Event.timeout]).sent ++
      (QuizState.runSequential Char.toLower
          (QuizState.startSequential "deck" 2000 demoQuiz 1) [Event.timeout]).quiz.Deck
      = (sessionQuiz ⟨[], []⟩ "ch" "deck" demoQuiz (fun _ => 0)).Deck.drop 1 :=
  ⟨(sequential_resume Char.toLower ⟨[], []⟩ "ch" "deck" 2000 demoQuiz (fun _ => 0)).1
      "0-" [] (QuizState.startSequential "deck" 2000 demoQuiz 0) (by decide) (by decide),
   (sequential_resume Char.toLower ⟨[], []⟩ "ch" "deck" 2000 demoQuiz (fun _ => 0)).2
      "1-" "1" 1 [Event.timeout] _ (by decide) (by decide) (by decide)⟩

/-! ### Scramble mode: the puzzle is not a member of its group -/

theorem strLen_eq_zero (s : String) (h : s = "") : strLen s = 0 := by
  subst h; rfl

/-- The loop of shuffle attempts ends with the empty text or with a text that is not a
member of the group. -/
theorem scrambleAttempts_spec (toLower : Char → Char) (group : List String) (word : String)
    (draws : Nat → Nat → Nat) (n i : Nat) :
    scrambleAttempts toLower group word draws n i = "" ∨
    hasString toLower group (scrambleAttempts toLower group word draws n i) = false := by
  induction n generalizing i with
  | zero => exact Or.inl rfl
  | succ n ih =>
    simp only [scrambleAttempts]
    split
    · rename_i h
      right
      simpa using h
    · exact ih (i + 1)

/-- When every attempt left gives a member of the group, the loop ends with the empty
text. -/
theorem scrambleAttempts_all_members (toLower : Char → Char) (group : List String)
    (word : String) (draws : Nat → Nat → Nat) (n i : Nat)
    (h : ∀ a, i ≤ a → a < i + n →
      hasString toLower group (String.mk (shuffle (draws a) word.data)) = true) :
    scrambleAttempts toLower group word draws n i = "" := by
  induction n generalizing i with
  | zero => rfl
  | succ n ih =>
    simp only [scrambleAttempts]
    rw [h i (Nat.le_refl i) (by omega)]
    simp only [Bool.not_true, Bool.false_eq_true, if_false]
    exact ih (i + 1) (fun a h1 h2 => h a (by omega) (by omega))

theorem puzzlesOutsideGroup_append (toLower : Char → Char) (sent : List Output) (o : Output)
    (h : PuzzlesOutsideGroup toLower sent)
    (ho : ∀ group question, o = Output.puzzle group question →
      hasString toLower group question = false) :
    PuzzlesOutsideGroup toLower (sent ++ [o]) := by
  intro group question hm
  rw [List.mem_append] at hm
  rcases hm with hm | hm
  · exact h group question hm
  · rw [List.mem_singleton] at hm
    exact ho group question hm.symm

namespace ScrambleState

theorem advance_puzzles (toLower : Char → Char) (Dictionary : List (List String))
    (draws : Nat → Nat → Nat → Nat) (s : ScrambleState) (order : List Nat)
    (h : PuzzlesOutsideGroup toLower s.sent) :
    PuzzlesOutsideGroup toLower (advance toLower Dictionary draws s order).sent := by
  induction order with
  | nil => exact h
  | cons idx rest ih =>
    simp only [advance]
    split
    · exact h
    · exact h
    · rename_i word others _
      split
      · exact ih
      · split
        · exact ih
        · rename_i hq
          apply puzzlesOutsideGroup_append toLower _ _ h
          intro group question heq
          cases heq
          rcases scrambleAttempts_spec toLower (word :: others) word (draws idx) 3 0 with h0 | h0
          · exact absurd (strLen_eq_zero _ h0) hq
          · exact h0

theorem closeRound_puzzles (toLower : Char → Char) (Dictionary : List (List String))
    (draws : Nat → Nat → Nat → Nat) (s : ScrambleState)
    (h : PuzzlesOutsideGroup toLower s.sent) :
    PuzzlesOutsideGroup toLower (closeRound toLower Dictionary draws s).sent := by
  have h1 : PuzzlesOutsideGroup toLower
      (s.sent ++ [Output.correctGroup s.group
        (tally s.winLimit s.players s.scoreKeeper).fastest
        (tally s.winLimit s.players s.scoreKeeper).scorers]) :=
    puzzlesOutsideGroup_append toLower _ _ h (fun _ _ hc => by cases hc)
  unfold closeRound
  split
  · simp only []
    split
    · exact h1
    · exact advance_puzzles toLower Dictionary draws _ _ h1
  · exact advance_puzzles toLower Dictionary draws _ _ h

theorem step_puzzles (toLower : Char → Char) (Dictionary : List (List String))
    (draws : Nat → Nat → Nat → Nat) (s : ScrambleState) (e : Event)
    (h : PuzzlesOutsideGroup toLower s.sent) :
    PuzzlesOutsideGroup toLower (step toLower Dictionary draws s e).sent := by
  have h1 : PuzzlesOutsideGroup toLower (noteTimeout s).sent :=
    puzzlesOutsideGroup_append toLower _ _ h (fun _ _ hc => by cases hc)
  cases e with
  | quit => exact h
  | timeout =>
    simp only [step]
    split
    · exact closeRound_puzzles toLower Dictionary draws s h
    · split
      · exact puzzlesOutsideGroup_append toLower _ _ h1 (fun _ _ hc => by cases hc)
      · exact closeRound_puzzles toLower Dictionary draws _ h1
  | msg m =>
    simp only [step, onMessage]
    split
    · exact h
    · split
      · exact h
      · exact h

theorem run_puzzles (toLower : Char → Char) (Dictionary : List (List String))
    (draws : Nat → Nat → Nat → Nat) (s : ScrambleState) (events : List Event)
    (h : PuzzlesOutsideGroup toLower s.sent) :
    PuzzlesOutsideGroup toLower (run toLower Dictionary draws s events).sent := by
  induction events generalizing s with
  | nil => exact h
  | cons e es ih =>
    show PuzzlesOutsideGroup toLower (run toLower Dictionary draws
      (if s.running = true then step toLower Dictionary draws s e else s) es).sent
    split
    · exact ih _ (step_puzzles toLower Dictionary draws s e h)
    · exact ih s h

end ScrambleState

/-- C9: every puzzle `runScramble` presents is not a member of the anagram group it was
made from, for every outcome of the shuffles; and a word whose three shuffle attempts
all give a member of its group is passed over: the loop goes on with the next index and
nothing is presented for the word. -/
theorem scramble_puzzle_outside_group (toLower : Char → Char)
    (Dictionary : List (List String)) (draws : Nat → Nat → Nat → Nat) :
    (∀ (g : Globals) (ch difficulty : String) (orderDraw : Nat → Nat) (events : List Event),
      PuzzlesOutsideGroup toLower
        (runScramble toLower Dictionary g ch difficulty orderDraw draws events).sent) ∧
    (∀ (s : ScrambleState) (idx : Nat) (rest : List Nat) (word : String)
      (others : List String),
      Dictionary[idx]? = some (word :: others) →
      (∀ i, i < 3 → hasString toLower (word :: others)
        (String.mk (shuffle (draws idx i) word.data)) = true) →
      ScrambleState.advance toLower Dictionary draws s (idx :: rest)
        = ScrambleState.advance toLower Dictionary draws s rest) := by
  constructor
  · intro g ch difficulty orderDraw events
    have hstart : ∀ o : Output, (∀ group question, o ≠ Output.puzzle group question) →
        PuzzlesOutsideGroup toLower [o] := by
      intro o ho group question hm
      rw [List.mem_singleton] at hm
      exact absurd hm.symm (ho group question)
    have hst : ∀ group question,
        Output.starting "Scramble" Dictionary.length 10 ≠ Output.puzzle group question :=
      fun _ _ hc => by cases hc
    unfold runScramble
    simp only []
    split
    · intro group question hm
      simp at hm
    · split
      · exact ScrambleState.run_puzzles toLower Dictionary draws _ events
          (ScrambleState.advance_puzzles toLower Dictionary draws _ _ (hstart _ hst))
      · split
        · exact ScrambleState.run_puzzles toLower Dictionary draws _ events
            (ScrambleState.advance_puzzles toLower Dictionary draws _ _ (hstart _ hst))
        · exact puzzlesOutsideGroup_append toLower _ _
            (ScrambleState.run_puzzles toLower Dictionary draws _ events
              (ScrambleState.advance_puzzles toLower Dictionary draws _ _ (hstart _ hst)))
            (fun _ _ hc => by cases hc)
  · intro s idx rest word others hd hall
    have hq : scrambleQuestion toLower (word :: others) word (draws idx) = "" :=
      scrambleAttempts_all_members toLower _ word (draws idx) 3 0
        (fun a _ h2 => hall a (by omega))
    simp only [ScrambleState.advance, hd]
    split
    · rfl
    · have h0 : strLen "" = 0 := rfl
      simp [hq, h0]

/-- Witness for C9 on `demoDictionary`: the run presents the puzzles `istenl` and `bca`,
neither a member of its group, and the word `aaa` is passed over. -/
theorem scramble_puzzle_outside_group_witness :
    PuzzlesOutsideGroup Char.toLower
      (runScramble Char.toLower demoDictionary ⟨[], []⟩ "ch" "" (fun _ => 0) demoDraws
        [Event.timeout, Event.timeout]).sent ∧
    (runScramble Char.toLower demoDictionary ⟨[], []⟩ "ch" "" (fun _ => 0) demoDraws
        [Event.timeout, Event.timeout]).sent.filter
        (fun o => match o with
          | Output.puzzle _ _ => true
          | _ => false)
      = [Output.puzzle ["listen", "silent"] "istenl", Output.puzzle ["abc", "cab"] "bca"] ∧
    ScrambleState.advance Char.toLower demoDictionary demoDraws demoScramble [1, 0]
      = ScrambleState.advance Char.toLower demoDictionary demoDraws demoScramble [0] :=
  ⟨(scramble_puzzle_outside_group Char.toLower demoDictionary demoDraws).1
      ⟨[], []⟩ "ch" "" (fun _ => 0) [Event.timeout, Event.timeout],
   by decide,
   (scramble_puzzle_outside_group Char.toLower demoDictionary demoDraws).2
      demoScramble 1 [0] "aaa" [] (by decide) (by decide)⟩

/-! ### The final scoreboard of `runQuiz` -/

namespace GoMap
variable {V : Type}

theorem get_of_mem (m : GoMap V) (h : WF m) (k : String) (v : V) (hm : (k, v) ∈ m) :
    get m k = some v := by
  induction m with
  | nil => simp at hm
  | cons e m ih =>
    obtain ⟨k', v'⟩ := e
    have hnd : k' ∉ keys m ∧ WF m := by simpa [WF, keys] using h
    rcases List.mem_cons.mp hm with heq | hin
    · cases heq
      simp [get]
    · have hne : k' ≠ k := by
        rintro rfl
        exact hnd.1 (List.mem_map.mpr ⟨(k', v), hin, rfl⟩)
      simp [get, hne, ih hnd.2 hin]

end GoMap

theorem tally_WF (winLimit : Int) (players sk : GoMap Int) (h : GoMap.WF players) :
    GoMap.WF (tally winLimit players sk).players := by
  unfold tally
  generalize (none : Option Player) = f
  generalize ([] : List Player) = sc
  generalize false = w
  induction sk generalizing players f sc w with
  | nil => exact h
  | cons e sk ih =>
    rw [List.foldl_cons]
    exact ih _ (GoMap.WF_set _ _ _ h) _ _ _

namespace QuizState

theorem stable_refl (s : QuizState) : Stable s s := ⟨rfl, rfl, id⟩

theorem stable_trans (s t u : QuizState) (h1 : Stable s t) (h2 : Stable t u) : Stable s u :=
  ⟨h2.1.trans h1.1, h2.2.1.trans h1.2.1, fun h => h2.2.2 (h1.2.2 h)⟩

theorem stable_present (s : QuizState) : Stable s (present s) := by
  unfold present; split <;> exact ⟨rfl, rfl, id⟩

theorem stable_closeRound (s : QuizState) : Stable s (closeRound s) := by
  unfold closeRound
  split
  · simp only []
    split
    · exact ⟨rfl, rfl, fun h => tally_WF _ _ _ h⟩
    · refine stable_trans _ _ _ ?_ (stable_present _)
      exact ⟨rfl, rfl, fun h => tally_WF _ _ _ h⟩
  · exact stable_present s

theorem stable_step (toLower : Char → Char) (s : QuizState) (e : Event) :
    Stable s (step toLower s e) := by
  cases e with
  | quit => exact ⟨rfl, rfl, id⟩
  | timeout =>
    simp only [step]
    split
    · exact stable_closeRound s
    · split
      · exact ⟨rfl, rfl, id⟩
      · exact stable_trans s (noteTimeout s) _ ⟨rfl, rfl, id⟩ (stable_closeRound _)
  | msg m =>
    simp only [step, onMessage]
    split
    · exact ⟨rfl, rfl, id⟩
    · split <;> exact ⟨rfl, rfl, id⟩

theorem stable_run (toLower : Char → Char) (s : QuizState) (events : List Event) :
    Stable s (run toLower s events) := by
  induction events generalizing s with
  | nil => exact stable_refl s
  | cons e es ih =>
    rw [run_cons]
    split
    · exact stable_trans _ _ _ (stable_step toLower s e) (ih _)
    · exact ih s

/-- The final scoreboard of `runQuiz` lists every participant with a standing once, with
the standing as score, the winners at or above the win limit and, outside review mode,
the participants below it. -/
theorem scoreboard_partition (s : QuizState) (h : GoMap.WF s.players)
    (hq : s.quizname ≠ "review") :
    (((scoreboard s).winners ++ (scoreboard s).participants).map Player.Name).Perm
      (GoMap.keys s.players) ∧
    (∀ p ∈ (scoreboard s).winners ++ (scoreboard s).participants,
      GoMap.get s.players p.Name = some p.Score) ∧
    (∀ p ∈ (scoreboard s).winners, p.Score ≥ s.winLimit) ∧
    (∀ p ∈ (scoreboard s).participants, p.Score < s.winLimit) := by
  have hr : (ranking s.players).Perm (s.players.map (fun e => Player.mk e.1 e.2)) :=
    List.perm_insertionSort _ _
  have hsplit : ((scoreboard s).winners ++ (scoreboard s).participants).Perm
      (ranking s.players) := by
    simp only [scoreboard]
    have := List.filter_append_perm
      (fun p : Player => decide (p.Score ≥ s.winLimit ∧ s.quizname ≠ "review"))
      (ranking s.players)
    simpa using this
  refine ⟨?_, ?_, ?_, ?_⟩
  · have := (hsplit.trans hr).map Player.Name
    simpa [GoMap.keys, List.map_map, Function.comp_def] using this
  · intro p hp
    have hp2 := (hsplit.trans hr).mem_iff.mp hp
    obtain ⟨e, he, rfl⟩ := List.mem_map.mp hp2
    exact GoMap.get_of_mem _ h e.1 e.2 he
  · intro p hp
    simp only [scoreboard, List.mem_filter, decide_eq_true_eq] at hp
    exact hp.2.1
  · intro p hp
    simp only [scoreboard, List.mem_filter, decide_eq_true_eq] at hp
    have := hp.2
    by_contra hlt
    exact this ⟨by omega, hq⟩

end QuizState

theorem finishRun_sent (g : Globals) (ch : String) (s : QuizState) (sb : Scoreboard)
    (h : (finishRun g ch s sb).returned = true) :
    (finishRun g ch s sb).sent.getLast? = some (Output.scoreboard sb) := by
  unfold finishRun at h ⊢
  split
  · rename_i hr
    simp [hr] at h
  · simp

/-- C10: when a call of `runQuiz` on a deck other than the review deck has returned after
a session, the last thing sent is the final scoreboard, and every participant with a
standing is listed in it exactly once, with the standing as score: under Winner when
the standing is at least the win limit, under Participants otherwise. -/
theorem final_scoreboard_lists_once (toLower : Char → Char) (g : Globals)
    (ch quizname winLimitGiven : String) (waitTimeGiven : Int) (loaded : Quiz)
    (draw : Nat → Nat) (events : List Event) (s : QuizState)
    (hq : quizname ≠ "review")
    (hret : (runQuiz toLower g ch quizname winLimitGiven waitTimeGiven loaded draw
      events).returned = true)
    (hs : (runQuiz toLower g ch quizname winLimitGiven waitTimeGiven loaded draw
      events).session = some s) :
    s.winLimit = parseWinLimit 15 loaded.Deck.length winLimitGiven ∧
    ∃ sb,
      (runQuiz toLower g ch quizname winLimitGiven waitTimeGiven loaded draw
        events).sent.getLast? = some (Output.scoreboard sb) ∧
      ((sb.winners ++ sb.participants).map Player.Name).Perm (GoMap.keys s.players) ∧
      (GoMap.keys s.players).Nodup ∧
      (∀ p ∈ sb.winners ++ sb.participants, GoMap.get s.players p.Name = some p.Score) ∧
      (∀ p ∈ sb.winners, p.Score ≥ s.winLimit) ∧
      (∀ p ∈ sb.participants, p.Score < s.winLimit) := by
  by_cases herr : (startQuiz g.Ongoing ch).err.isSome = true
  · simp [runQuiz, herr] at hs
  by_cases hdeck : (sessionQuiz g ch quizname loaded draw).Deck.length = 0
  · simp [runQuiz, herr, hdeck] at hs
  have hsq : sessionQuiz g ch quizname loaded draw = loaded := by
    simp [sessionQuiz, hq]
  rw [hsq] at hdeck
  simp only [runQuiz, herr, hdeck, if_false, Bool.false_eq_true, hq, hsq] at hret hs ⊢
  rw [finishRun_session] at hs
  cases hs
  obtain ⟨h1, h2, h3⟩ := QuizState.stable_trans _ _ _
    (QuizState.stable_present
      (QuizState.init quizname (parseWinLimit 15 loaded.Deck.length winLimitGiven) 0 0
        (if loaded.Timeout > 0 then loaded.Timeout else 20) (waitTimeGiven * Millisecond)
        loaded))
    (QuizState.stable_run toLower _ events)
  have hwf := h3 GoMap.WF_nil
  have hname : (QuizState.run toLower (QuizState.present
      (QuizState.init quizname (parseWinLimit 15 loaded.Deck.length winLimitGiven) 0 0
        (if loaded.Timeout > 0 then loaded.Timeout else 20) (waitTimeGiven * Millisecond)
        loaded)) events).quizname ≠ "review" := by
    rw [h1]; exact hq
  obtain ⟨p1, p2, p3, p4⟩ := QuizState.scoreboard_partition _ hwf hname
  exact ⟨h2, _, finishRun_sent _ _ _ _ hret, p1, hwf, p2, p3, p4⟩

/-- Witness for C10: on the two-card deck `demoQuiz` with win limit 2, the participants
`B` and `A` answer one round each; both are listed under Participants with one point and
nobody is listed under Winner. -/
theorem final_scoreboard_lists_once_witness :
    ((QuizState.run Char.toLower demoRound
        [Event.msg ⟨"B", "b"⟩, Event.timeout, Event.msg ⟨"A", "a"⟩, Event.timeout]).winLimit
      = parseWinLimit 15 demoQuiz.Deck.length "2" ∧
    ∃ sb,
      (runQuiz Char.toLower ⟨[], []⟩ "ch" "demo" "2" 2000 demoQuiz (fun _ => 0)
        [Event.msg ⟨"B", "b"⟩, Event.timeout, Event.msg ⟨"A", "a"⟩,
          Event.timeout]).sent.getLast? = some (Output.scoreboard sb) ∧
      ((sb.winners ++ sb.participants).map Player.Name).Perm
        (GoMap.keys (QuizState.run Char.toLower demoRound
          [Event.msg ⟨"B", "b"⟩, Event.timeout, Event.msg ⟨"A", "a"⟩,
            Event.timeout]).players) ∧
      (GoMap.keys (QuizState.run Char.toLower demoRound
          [Event.msg ⟨"B", "b"⟩, Event.timeout, Event.msg ⟨"A", "a"⟩,
            Event.timeout]).players).Nodup ∧
      (∀ p ∈ sb.winners ++ sb.participants,
        GoMap.get (QuizState.run Char.toLower demoRound
          [Event.msg ⟨"B", "b"⟩, Event.timeout, Event.msg ⟨"A", "a"⟩,
            Event.timeout]).players p.Name = some p.Score) ∧
      (∀ p ∈ sb.winners, p.Score ≥ (QuizState.run Char.toLower demoRound
          [Event.msg ⟨"B", "b"⟩, Event.timeout, Event.msg ⟨"A", "a"⟩,
            Event.timeout]).winLimit) ∧
      (∀ p ∈ sb.participants, p.Score < (QuizState.run Char.toLower demoRound
          [Event.msg ⟨"B", "b"⟩, Event.timeout, Event.msg ⟨"A", "a"⟩,
            Event.timeout]).winLimit)) ∧
    (runQuiz Char.toLower ⟨[], []⟩ "ch" "demo" "2" 2000 demoQuiz (fun _ => 0)
        [Event.msg ⟨"B", "b"⟩, Event.timeout, Event.msg ⟨"A", "a"⟩,
          Event.timeout]).sent.getLast?
      = some (Output.scoreboard ⟨[], [⟨"A", 1⟩, ⟨"B", 1⟩], none, none, ["b", "a"]⟩) :=
  ⟨final_scoreboard_lists_once Char.toLower ⟨[], []⟩ "ch" "demo" "2" 2000 demoQuiz
      (fun _ => 0) [Event.msg ⟨"B", "b"⟩, Event.timeout, Event.msg ⟨"A", "a"⟩, Event.timeout]
      _ (by decide) (by decide) (by decide),
   by decide⟩

/-! ### Scoring of a single-answer round -/

/-- The scoring loop of a single-answer round, from any accumulator: a participant of
the score keeper gets one point more, everybody else keeps the entry, and a winner
exists when one was found before or a participant of the score keeper reaches the win
limit. -/
theorem foldl_tallyStep (winLimit : Int) (sk : GoMap Int) (h : GoMap.WF sk) (t : Tally) :
    (∀ p, GoMap.get (sk.foldl (tallyStep winLimit) t).players p
      = if p ∈ GoMap.keys sk then some (standing t.players p + 1) else GoMap.get t.players p) ∧
    ((sk.foldl (tallyStep winLimit) t).winnerExists = true ↔
      t.winnerExists = true ∨ ∃ p ∈ GoMap.keys sk, standing t.players p + 1 ≥ winLimit) := by
  induction sk generalizing t with
  | nil => simp [GoMap.keys]
  | cons e sk ih =>
    obtain ⟨k, v⟩ := e
    have hnd : k ∉ GoMap.keys sk ∧ GoMap.WF sk := by
      simpa [GoMap.WF, GoMap.keys] using h
    obtain ⟨ih1, ih2⟩ := ih hnd.2 (tallyStep winLimit t (k, v))
    have hst : ∀ p, p ≠ k → standing (tallyStep winLimit t (k, v)).players p
        = standing t.players p := fun p hp => by
      simp [tallyStep, standing, GoMap.get_set_ne _ _ _ _ hp]
    rw [List.foldl_cons]
    constructor
    · intro p
      rw [ih1 p]
      by_cases hk : p = k
      · subst hk
        rw [if_neg hnd.1, if_pos (by simp [GoMap.keys])]
        simp [tallyStep, GoMap.get_set_self, standing]
      · have hmem : p ∈ GoMap.keys ((k, v) :: sk) ↔ p ∈ GoMap.keys sk := by
          simp [GoMap.keys, hk]
        by_cases hp : p ∈ GoMap.keys sk
        · rw [if_pos hp, if_pos (hmem.mpr hp), hst p hk]
        · rw [if_neg hp, if_neg (fun hc => hp (hmem.mp hc))]
          simp [tallyStep, GoMap.get_set_ne _ _ _ _ hk]
    · rw [ih2]
      constructor
      · rintro (hw | ⟨p, hp, hge⟩)
        · by_cases hs : standing t.players k + 1 ≥ winLimit
          · exact Or.inr ⟨k, by simp [GoMap.keys], hs⟩
          · left
            have hs2 : ¬ (t.players.get k).getD 0 + 1 ≥ winLimit := hs
            simpa [tallyStep, hs2] using hw
        · have hpk : p ≠ k := fun hc => hnd.1 (hc ▸ hp)
          rw [hst p hpk] at hge
          refine Or.inr ⟨p, ?_, hge⟩
          simp only [GoMap.keys, List.map_cons, List.mem_cons]
          exact Or.inr hp
      · rintro (hw | ⟨p, hp, hge⟩)
        · left
          simp [tallyStep, hw]
        · by_cases hpk : p = k
          · subst hpk
            left
            have : (t.players.get p).getD 0 + 1 ≥ winLimit := hge
            simp [tallyStep, this]
          · right
            have hp2 : p ∈ GoMap.keys sk := by
              simp only [GoMap.keys, List.map_cons, List.mem_cons] at hp
              rcases hp with hp | hp
              · exact absurd hp hpk
              · exact hp
            exact ⟨p, hp2, by rw [hst p hpk]; exact hge⟩

/-- The scoring loop of `runQuiz`: the entries of the standings afterwards and when a
winner exists. -/
theorem tally_spec (winLimit : Int) (players sk : GoMap Int) (h : GoMap.WF sk) :
    (∀ p, GoMap.get (tally winLimit players sk).players p
      = if p ∈ GoMap.keys sk then some (standing players p + 1) else GoMap.get players p) ∧
    ((tally winLimit players sk).winnerExists = true ↔
      ∃ p ∈ GoMap.keys sk, standing players p + 1 ≥ winLimit) := by
  obtain ⟨h1, h2⟩ := foldl_tallyStep winLimit sk h ⟨players, none, [], false⟩
  exact ⟨h1, by simpa [tally] using h2⟩

/-- The scoring loop of `runQuizSequential` changes the standings like that of `runQuiz`. -/
theorem tallySequential_players (winLimit : Int) (players sk : GoMap Int) :
    (tallySequential players sk).players = (tally winLimit players sk).players := by
  unfold tallySequential tally
  generalize (⟨players, none, [], false⟩ : Tally) = t
  have key : ∀ (t u : Tally), t.players = u.players →
      (sk.foldl tallyStepSequential t).players = (sk.foldl (tallyStep winLimit) u).players := by
    induction sk with
    | nil => intro t u h; exact h
    | cons e sk ih =>
      intro t u h
      rw [List.foldl_cons, List.foldl_cons]
      apply ih
      simp [tallyStepSequential, tallyStep, h]
  exact key t t rfl

theorem standing_of_get (players : GoMap Int) (p : String) (v : Int)
    (h : GoMap.get players p = some v) : standing players p = v := by
  simp [standing, h]

/-- In terms of standings: a participant of the score keeper gains one point, everybody
else none. -/
theorem standing_tally (winLimit : Int) (players sk : GoMap Int) (h : GoMap.WF sk)
    (p : String) :
    standing (tally winLimit players sk).players p
      = standing players p + if p ∈ GoMap.keys sk then 1 else 0 := by
  have := (tally_spec winLimit players sk h).1 p
  by_cases hp : p ∈ GoMap.keys sk
  · rw [if_pos hp] at this
    rw [if_pos hp, standing_of_get _ _ _ this]
  · rw [if_neg hp] at this
    rw [if_neg hp]
    simp [standing, this]

namespace QuizState

theorem keeper_present (s : QuizState) (h : (present s).running = true) :
    GoMap.WF (present s).scoreKeeper := by
  unfold present at h ⊢
  split
  · rename_i hd
    simp [hd] at h
  · exact GoMap.WF_nil

theorem keeper_presentSequential (s : QuizState) (h : (presentSequential s).running = true) :
    GoMap.WF (presentSequential s).scoreKeeper := by
  unfold presentSequential at h ⊢
  split
  · rename_i hd
    simp [hd] at h
  · exact GoMap.WF_nil

theorem keeper_closeRound (s : QuizState) (h : (closeRound s).running = true) :
    GoMap.WF (closeRound s).scoreKeeper := by
  by_cases h1 : GoMap.len s.scoreKeeper > 0
  · by_cases h2 : (tally s.winLimit s.players s.scoreKeeper).winnerExists = true
    · simp [closeRound, h1, h2] at h
    · simp only [closeRound, h1, h2, if_true, if_false, Bool.false_eq_true] at h ⊢
      exact keeper_present _ h
  · simp only [closeRound, h1, if_false] at h ⊢
    exact keeper_present _ h

theorem keeper_closeRoundSequential (s : QuizState)
    (h : (closeRoundSequential s).running = true) :
    GoMap.WF (closeRoundSequential s).scoreKeeper :=
  keeper_presentSequential _ h

theorem keeper_onMessage (toLower : Char → Char) (s : QuizState) (m : Message)
    (h : GoMap.WF s.scoreKeeper) : GoMap.WF (onMessage toLower s m).scoreKeeper := by
  unfold onMessage
  split
  · exact h
  · split
    · simp only []
      split
      · exact h
      · exact GoMap.WF_set _ _ _ h
    · exact h

theorem keeper_step (toLower : Char → Char) (s : QuizState) (e : Event)
    (h : GoMap.WF s.scoreKeeper) (hr : (step toLower s e).running = true) :
    GoMap.WF (step toLower s e).scoreKeeper := by
  cases e with
  | quit => simp [step, onQuit] at hr
  | timeout =>
    by_cases h1 : GoMap.len s.scoreKeeper > 0
    · simp only [step, if_pos h1] at hr ⊢
      exact keeper_closeRound s hr
    · by_cases h2 : (noteTimeout s).timeoutCount ≥ timeoutLimit
      · simp [step, h1, h2, abort] at hr
      · simp only [step, if_neg h1, if_neg h2] at hr ⊢
        exact keeper_closeRound _ hr
  | msg m => exact keeper_onMessage toLower s m h

theorem keeper_stepSequential (toLower : Char → Char) (s : QuizState) (e : Event)
    (h : GoMap.WF s.scoreKeeper) (hr : (stepSequential toLower s e).running = true) :
    GoMap.WF (stepSequential toLower s e).scoreKeeper := by
  cases e with
  | quit => simp [stepSequential, onQuit] at hr
  | timeout =>
    by_cases h1 : GoMap.len s.scoreKeeper > 0
    · simp only [stepSequential, if_pos h1] at hr ⊢
      exact keeper_closeRoundSequential s hr
    · by_cases h2 : (noteTimeout s).timeoutCount ≥ timeoutLimit
      · simp [stepSequential, h1, h2, abort] at hr
      · simp only [stepSequential, if_neg h1, if_neg h2] at hr ⊢
        exact keeper_closeRoundSequential _ hr
  | msg m => exact keeper_onMessage toLower s m h

/-- While the loop of `runQuiz` runs, the keys of the round's score keeper are distinct. -/
theorem keeper_run (toLower : Char → Char) (s : QuizState) (events : List Event)
    (h : s.running = true → GoMap.WF s.scoreKeeper) :
    (run toLower s events).running = true → GoMap.WF (run toLower s events).scoreKeeper := by
  induction events using List.reverseRecOn with
  | nil => exact h
  | append_singleton es e ih =>
    rw [quiz_run_snoc]
    split
    · rename_i hr
      exact keeper_step toLower _ e (ih hr)
    · exact ih

/-- While the loop of `runQuizSequential` runs, the keys of the round's score keeper are
distinct. -/
theorem keeper_runSequential (toLower : Char → Char) (s : QuizState) (events : List Event)
    (h : s.running = true → GoMap.WF s.scoreKeeper) :
    (runSequential toLower s events).running = true →
      GoMap.WF (runSequential toLower s events).scoreKeeper := by
  induction events using List.reverseRecOn with
  | nil => exact h
  | append_singleton es e ih =>
    rw [runSequential_snoc]
    split
    · rename_i hr
      exact keeper_stepSequential toLower _ e (ih hr)
    · exact ih

end QuizState

namespace ScrambleState

theorem keeper_advance (toLower : Char → Char) (Dictionary : List (List String))
    (draws : Nat → Nat → Nat → Nat) (s : ScrambleState) (order : List Nat)
    (h : (advance toLower Dictionary draws s order).running = true) :
    GoMap.WF (advance toLower Dictionary draws s order).scoreKeeper := by
  induction order with
  | nil => simp [advance] at h
  | cons idx rest ih =>
    simp only [advance] at h ⊢
    split at h
    · simp at h
    · simp at h
    · split at h
      · rename_i h1
        simp only [if_pos h1]
        exact ih h
      · rename_i h1
        simp only [if_neg h1]
        split at h
        · rename_i h2
          simp only [if_pos h2]
          exact ih h
        · rename_i h2
          simp only [if_neg h2]
          exact GoMap.WF_nil

theorem keeper_closeRound_scramble (toLower : Char → Char) (Dictionary : List (List String))
    (draws : Nat → Nat → Nat → Nat) (s : ScrambleState)
    (h : (closeRound toLower Dictionary draws s).running = true) :
    GoMap.WF (closeRound toLower Dictionary draws s).scoreKeeper := by
  by_cases h1 : GoMap.len s.scoreKeeper > 0
  · by_cases h2 : (tally s.winLimit s.players s.scoreKeeper).winnerExists = true
    · simp [closeRound, h1, h2] at h
    · simp only [closeRound, h1, h2, if_true, if_false, Bool.false_eq_true] at h ⊢
      exact keeper_advance toLower Dictionary draws _ _ h
  · simp only [closeRound, h1, if_false] at h ⊢
    exact keeper_advance toLower Dictionary draws _ _ h

theorem keeper_step_scramble (toLower : Char → Char) (Dictionary : List (List String))
    (draws : Nat → Nat → Nat → Nat) (s : ScrambleState) (e : Event)
    (h : GoMap.WF s.scoreKeeper)
    (hr : (step toLower Dictionary draws s e).running = true) :
    GoMap.WF (step toLower Dictionary draws s e).scoreKeeper := by
  cases e with
  | quit => simp [step] at hr
  | timeout =>
    by_cases h1 : GoMap.len s.scoreKeeper > 0
    · simp only [step, if_pos h1] at hr ⊢
      exact keeper_closeRound_scramble toLower Dictionary draws s hr
    · by_cases h2 : (noteTimeout s).timeoutCount ≥ timeoutLimit
      · simp [step, h1, h2, abort] at hr
      · simp only [step, if_neg h1, if_neg h2] at hr ⊢
        exact keeper_closeRound_scramble toLower Dictionary draws _ hr
  | msg m =>
    simp only [step, onMessage]
    split
    · exact h
    · split
      · exact h
      · simp only []
        split
        · exact h
        · exact GoMap.WF_set _ _ _ h

theorem run_scramble_snoc (toLower : Char → Char) (Dictionary : List (List String))
    (draws : Nat → Nat → Nat → Nat) (s : ScrambleState) (events : List Event) (e : Event) :
    run toLower Dictionary draws s (events ++ [e])
      = if (run toLower Dictionary draws s events).running = true
        then step toLower Dictionary draws (run toLower Dictionary draws s events) e
        else run toLower Dictionary draws s events := by
  simp [run, List.foldl_append]

/-- While the loop of `runScramble` runs, the keys of the round's score keeper are
distinct. -/
theorem keeper_run_scramble (toLower : Char → Char) (Dictionary : List (List String))
    (draws : Nat → Nat → Nat → Nat) (s : ScrambleState) (events : List Event)
    (h : s.running = true → GoMap.WF s.scoreKeeper) :
    (run toLower Dictionary draws s events).running = true →
      GoMap.WF (run toLower Dictionary draws s events).scoreKeeper := by
  induction events using List.reverseRecOn with
  | nil => exact h
  | append_singleton es e ih =>
    rw [run_scramble_snoc]
    split
    · rename_i hr
      exact keeper_step_scramble toLower Dictionary draws _ e (ih hr)
    · exact ih

end ScrambleState

namespace QuizState

theorem players_presentSequential (s : QuizState) :
    (presentSequential s).players = s.players := by
  unfold presentSequential; split <;> rfl

theorem players_closeRound (s : QuizState) (h : GoMap.len s.scoreKeeper > 0) :
    (closeRound s).players = (tally s.winLimit s.players s.scoreKeeper).players := by
  by_cases h2 : (tally s.winLimit s.players s.scoreKeeper).winnerExists = true
  · simp [closeRound, h, h2]
  · simp only [closeRound, h, h2, if_true, if_false, Bool.false_eq_true]
    rw [players_present_quiz]

theorem players_closeRoundSequential (s : QuizState) (h : GoMap.len s.scoreKeeper > 0) :
    (closeRoundSequential s).players = (tally 0 s.players s.scoreKeeper).players := by
  simp only [closeRoundSequential, h, if_true]
  rw [players_presentSequential]
  exact tallySequential_players 0 _ _

end QuizState

namespace ScrambleState

theorem players_advance (toLower : Char → Char) (Dictionary : List (List String))
    (draws : Nat → Nat → Nat → Nat) (s : ScrambleState) (order : List Nat) :
    (advance toLower Dictionary draws s order).players = s.players := by
  induction order with
  | nil => rfl
  | cons idx rest ih =>
    simp only [advance]
    split
    · rfl
    · rfl
    · split
      · exact ih
      · split
        · exact ih
        · rfl

theorem players_closeRound_scramble (toLower : Char → Char)
    (Dictionary : List (List String)) (draws : Nat → Nat → Nat → Nat) (s : ScrambleState)
    (h : GoMap.len s.scoreKeeper > 0) :
    (closeRound toLower Dictionary draws s).players
      = (tally s.winLimit s.players s.scoreKeeper).players := by
  by_cases h2 : (tally s.winLimit s.players s.scoreKeeper).winnerExists = true
  · simp [closeRound, h, h2]
  · simp only [closeRound, h, h2, if_true, if_false, Bool.false_eq_true]
    rw [players_advance]

end ScrambleState

/-- C13 (amended): in `runQuiz`, `runQuizSequential` and `runScramble`, when the timer
closes a round in which somebody has answered correctly, the standing of every
participant in the round's score keeper grows by exactly 1, whatever the rank, and the
standing of everybody else stays as it is; when the stop signal ends the round, no
standing changes. -/
theorem single_round_awards_one (toLower : Char → Char) :
    (∀ (s0 : QuizState) (es : List Event) (p : String),
      (QuizState.run toLower (QuizState.present s0) es).running = true →
      GoMap.len (QuizState.run toLower (QuizState.present s0) es).scoreKeeper > 0 →
      standing (QuizState.step toLower (QuizState.run toLower (QuizState.present s0) es)
          Event.timeout).players p
        = standing (QuizState.run toLower (QuizState.present s0) es).players p +
          if p ∈ GoMap.keys (QuizState.run toLower (QuizState.present s0) es).scoreKeeper
          then 1 else 0) ∧
    (∀ (s0 : QuizState) (es : List Event) (p : String),
      (QuizState.runSequential toLower (QuizState.presentSequential s0) es).running = true →
      GoMap.len
        (QuizState.runSequential toLower (QuizState.presentSequential s0) es).scoreKeeper > 0 →
      standing (QuizState.stepSequential toLower
          (QuizState.runSequential toLower (QuizState.presentSequential s0) es)
          Event.timeout).players p
        = standing (QuizState.runSequential toLower (QuizState.presentSequential s0)
            es).players p +
          if p ∈ GoMap.keys
            (QuizState.runSequential toLower (QuizState.presentSequential s0) es).scoreKeeper
          then 1 else 0) ∧
    (∀ (Dictionary : List (List String)) (draws : Nat → Nat → Nat → Nat)
      (s0 : ScrambleState) (order : List Nat) (es : List Event) (p : String),
      (ScrambleState.run toLower Dictionary draws
        (ScrambleState.advance toLower Dictionary draws s0 order) es).running = true →
      GoMap.len (ScrambleState.run toLower Dictionary draws
        (ScrambleState.advance toLower Dictionary draws s0 order) es).scoreKeeper > 0 →
      standing (ScrambleState.step toLower Dictionary draws
          (ScrambleState.run toLower Dictionary draws
            (ScrambleState.advance toLower Dictionary draws s0 order) es)
          Event.timeout).players p
        = standing (ScrambleState.run toLower Dictionary draws
            (ScrambleState.advance toLower Dictionary draws s0 order) es).players p +
          if p ∈ GoMap.keys (ScrambleState.run toLower Dictionary draws
            (ScrambleState.advance toLower Dictionary draws s0 order) es).scoreKeeper
          then 1 else 0) ∧
    (∀ s : QuizState,
      (QuizState.step toLower s Event.quit).players = s.players ∧
      (QuizState.step toLower s Event.quit).running = false ∧
      (QuizState.stepSequential toLower s Event.quit).players = s.players ∧
      (QuizState.stepSequential toLower s Event.quit).running = false) ∧
    (∀ (Dictionary : List (List String)) (draws : Nat → Nat → Nat → Nat) (s : ScrambleState),
      (ScrambleState.step toLower Dictionary draws s Event.quit).players = s.players ∧
      (ScrambleState.step toLower Dictionary draws s Event.quit).running = false) := by
  refine ⟨?_, ?_, ?_, fun s => ⟨rfl, rfl, rfl, rfl⟩, fun _ _ s => ⟨rfl, rfl⟩⟩
  · intro s0 es p hr hlen
    have hwf := QuizState.keeper_run toLower _ es (QuizState.keeper_present s0) hr
    simp only [QuizState.step, if_pos hlen]
    rw [QuizState.players_closeRound _ hlen]
    exact standing_tally _ _ _ hwf p
  · intro s0 es p hr hlen
    have hwf := QuizState.keeper_runSequential toLower _ es
      (QuizState.keeper_presentSequential s0) hr
    simp only [QuizState.stepSequential, if_pos hlen]
    rw [QuizState.players_closeRoundSequential _ hlen]
    exact standing_tally _ _ _ hwf p
  · intro Dictionary draws s0 order es p hr hlen
    have hwf := ScrambleState.keeper_run_scramble toLower Dictionary draws _ es
      (ScrambleState.keeper_advance toLower Dictionary draws s0 order) hr
    simp only [ScrambleState.step, if_pos hlen]
    rw [ScrambleState.players_closeRound_scramble toLower Dictionary draws _ hlen]
    exact standing_tally _ _ _ hwf p

/-- Counterexample for C13: in the first round of `demoSession`, `A` answers correctly
and the stop signal ends the round before the timer does; `A` is in the score keeper of
the round, and the standing of `A` stays at 0. -/
theorem single_round_awards_one_counterexample :
    (QuizState.run Char.toLower (QuizState.present demoSession)
      [Event.msg ⟨"A", "b"⟩]).running = true ∧
    GoMap.keys (QuizState.run Char.toLower (QuizState.present demoSession)
      [Event.msg ⟨"A", "b"⟩]).scoreKeeper = ["A"] ∧
    standing (QuizState.run Char.toLower (QuizState.present demoSession)
      [Event.msg ⟨"A", "b"⟩]).players "A" = 0 ∧
    (QuizState.run Char.toLower (QuizState.present demoSession)
      [Event.msg ⟨"A", "b"⟩, Event.quit]).running = false ∧
    standing (QuizState.run Char.toLower (QuizState.present demoSession)
      [Event.msg ⟨"A", "b"⟩, Event.quit]).players "A" = 0 ∧
    ¬ standing (QuizState.run Char.toLower (QuizState.present demoSession)
        [Event.msg ⟨"A", "b"⟩, Event.quit]).players "A"
      = standing (QuizState.run Char.toLower (QuizState.present demoSession)
        [Event.msg ⟨"A", "b"⟩]).players "A" + 1 := by
  decide

/-- Witness for C13 in the first round of `demoSession`: `A` and `B` answer in this order
and the timer closes the round; both gain one point, `C`, who did not answer, none.  The
same in the first round of a sequential session on `demoSession` and in the scramble
round on the group of `abc`. -/
theorem single_round_awards_one_witness :
    standing (QuizState.step Char.toLower
        (QuizState.run Char.toLower (QuizState.present demoSession)
          [Event.msg ⟨"A", "b"⟩, Event.msg ⟨"B", "b"⟩]) Event.timeout).players "B"
      = standing (QuizState.run Char.toLower (QuizState.present demoSession)
          [Event.msg ⟨"A", "b"⟩, Event.msg ⟨"B", "b"⟩]).players "B" +
        (if "B" ∈ GoMap.keys (QuizState.run Char.toLower (QuizState.present demoSession)
          [Event.msg ⟨"A", "b"⟩, Event.msg ⟨"B", "b"⟩]).scoreKeeper then 1 else 0) ∧
    (QuizState.step Char.toLower
        (QuizState.run Char.toLower (QuizState.present demoSession)
          [Event.msg ⟨"A", "b"⟩, Event.msg ⟨"B", "b"⟩]) Event.timeout).players
      = [("A", 1), ("B", 1)] ∧
    standing (QuizState.stepSequential Char.toLower
        (QuizState.runSequential Char.toLower (QuizState.presentSequential demoSession)
          [Event.msg ⟨"A", "a"⟩, Event.msg ⟨"B", "a"⟩]) Event.timeout).players "B"
      = standing (QuizState.runSequential Char.toLower
          (QuizState.presentSequential demoSession)
          [Event.msg ⟨"A", "a"⟩, Event.msg ⟨"B", "a"⟩]).players "B" +
        (if "B" ∈ GoMap.keys (QuizState.runSequential Char.toLower
          (QuizState.presentSequential demoSession)
          [Event.msg ⟨"A", "a"⟩, Event.msg ⟨"B", "a"⟩]).scoreKeeper then 1 else 0) ∧
    (QuizState.stepSequential Char.toLower
        (QuizState.runSequential Char.toLower (QuizState.presentSequential demoSession)
          [Event.msg ⟨"A", "a"⟩, Event.msg ⟨"B", "a"⟩]) Event.timeout).players
      = [("A", 1), ("B", 1)] ∧
    standing (ScrambleState.step Char.toLower demoDictionary demoDraws
        (ScrambleState.run Char.toLower demoDictionary demoDraws
          (ScrambleState.advance Char.toLower demoDictionary demoDraws demoScramble [0])
          [Event.msg ⟨"A", "cab"⟩, Event.msg ⟨"B", "abc"⟩]) Event.timeout).players "B"
      = standing (ScrambleState.run Char.toLower demoDictionary demoDraws
          (ScrambleState.advance Char.toLower demoDictionary demoDraws demoScramble [0])
          [Event.msg ⟨"A", "cab"⟩, Event.msg ⟨"B", "abc"⟩]).players "B" +
        (if "B" ∈ GoMap.keys (ScrambleState.run Char.toLower demoDictionary demoDraws
          (ScrambleState.advance Char.toLower demoDictionary demoDraws demoScramble [0])
          [Event.msg ⟨"A", "cab"⟩, Event.msg ⟨"B", "abc"⟩]).scoreKeeper then 1 else 0) ∧
    GoMap.keys (ScrambleState.run Char.toLower demoDictionary demoDraws
        (ScrambleState.advance Char.toLower demoDictionary demoDraws demoScramble [0])
        [Event.msg ⟨"A", "cab"⟩, Event.msg ⟨"B", "abc"⟩]).scoreKeeper = ["A", "B"] :=
  ⟨(single_round_awards_one Char.toLower).1 demoSession
      [Event.msg ⟨"A", "b"⟩, Event.msg ⟨"B", "b"⟩] "B" (by decide) (by decide),
   by decide,
   (single_round_awards_one Char.toLower).2.1 demoSession
      [Event.msg ⟨"A", "a"⟩, Event.msg ⟨"B", "a"⟩] "B" (by decide) (by decide),
   by decide,
   (single_round_awards_one Char.toLower).2.2.1 demoDictionary demoDraws demoScramble [0]
      [Event.msg ⟨"A", "cab"⟩, Event.msg ⟨"B", "abc"⟩] "B" (by decide) (by decide),
   by decide⟩

/-! ### The win limit of `runQuiz` -/

theorem parseWinLimit_pos (winLimit : Int) (deckLen : Nat) (winLimitGiven : String)
    (h : 1 ≤ winLimit) : 1 ≤ parseWinLimit winLimit deckLen winLimitGiven := by
  unfold parseWinLimit
  simp only []
  split_ifs <;> omega

namespace QuizState

theorem winLimit_present (s : QuizState) : (present s).winLimit = s.winLimit := by
  unfold present; split <;> rfl

theorem players_onMessage (toLower : Char → Char) (s : QuizState) (m : Message) :
    (onMessage toLower s m).players = s.players := by
  unfold onMessage
  split
  · rfl
  · split <;> rfl

theorem limitInv_present (s : QuizState) (h1 : 1 ≤ s.winLimit)
    (h2 : ∀ p, standing s.players p < s.winLimit) : LimitInv (present s) := by
  refine ⟨by rw [winLimit_present]; exact h1, ?_, ?_⟩
  · intro hr
    refine ⟨keeper_present s hr, fun p => ?_⟩
    rw [winLimit_present, players_present_quiz]; exact h2 p
  · intro p
    rw [winLimit_present, players_present_quiz]; exact le_of_lt (h2 p)

theorem limitInv_closeRound (s : QuizState) (h : LimitInv s) (hr : s.running = true) :
    LimitInv (closeRound s) := by
  obtain ⟨h1, h2, _⟩ := h
  obtain ⟨hwf, hlt⟩ := h2 hr
  by_cases hlen : GoMap.len s.scoreKeeper > 0
  · have hst := standing_tally s.winLimit s.players s.scoreKeeper hwf
    have hw := (tally_spec s.winLimit s.players s.scoreKeeper hwf).2
    by_cases hwin : (tally s.winLimit s.players s.scoreKeeper).winnerExists = true
    · simp only [closeRound, hlen, hwin, if_true]
      refine ⟨h1, fun hf => by simp at hf, fun p => ?_⟩
      show standing (tally s.winLimit s.players s.scoreKeeper).players p ≤ s.winLimit
      rw [hst p]
      have := hlt p
      split <;> omega
    · simp only [closeRound, hlen, hwin, if_true, if_false, Bool.false_eq_true]
      apply limitInv_present
      · exact h1
      · intro p
        show standing (tally s.winLimit s.players s.scoreKeeper).players p < s.winLimit
        rw [hst p]
        by_cases hp : p ∈ GoMap.keys s.scoreKeeper
        · rw [if_pos hp]
          by_contra hge
          exact hwin (hw.2 ⟨p, hp, by omega⟩)
        · rw [if_neg hp]
          have := hlt p
          omega
  · simp only [closeRound, hlen, if_false]
    exact limitInv_present s h1 hlt

theorem limitInv_step (toLower : Char → Char) (s : QuizState) (e : Event) (h : LimitInv s)
    (hr : s.running = true) : LimitInv (step toLower s e) := by
  cases e with
  | quit => exact ⟨h.1, fun hf => by simp [step, onQuit] at hf, h.2.2⟩
  | timeout =>
    simp only [step]
    split
    · exact limitInv_closeRound s h hr
    · split
      · exact ⟨h.1, fun hf => by simp [abort] at hf, h.2.2⟩
      · exact limitInv_closeRound (noteTimeout s) ⟨h.1, fun _ => h.2.1 hr, h.2.2⟩ hr
  | msg m =>
    refine ⟨?_, fun hr2 => ⟨keeper_step toLower s (Event.msg m) (h.2.1 hr).1 hr2, ?_⟩, ?_⟩
    · rw [(stable_step toLower s (Event.msg m)).2.1]; exact h.1
    · intro p
      rw [(stable_step toLower s (Event.msg m)).2.1]
      show standing (onMessage toLower s m).players p < s.winLimit
      rw [players_onMessage]
      exact (h.2.1 hr).2 p
    · intro p
      rw [(stable_step toLower s (Event.msg m)).2.1]
      show standing (onMessage toLower s m).players p ≤ s.winLimit
      rw [players_onMessage]
      exact h.2.2 p

theorem limitInv_run (toLower : Char → Char) (s : QuizState) (events : List Event)
    (h : LimitInv s) : LimitInv (run toLower s events) := by
  induction events using List.reverseRecOn with
  | nil => exact h
  | append_singleton es e ih =>
    rw [quiz_run_snoc]
    split
    · rename_i hr
      exact limitInv_step toLower _ e ih hr
    · exact ih

end QuizState

theorem runQuiz_limitInv (toLower : Char → Char) (g : Globals) (quizChannel quizname : String)
    (winLimitGiven : String) (waitTimeGiven : Int) (loaded : Quiz) (draw : Nat → Nat)
    (events : List Event) (s : QuizState)
    (h : (runQuiz toLower g quizChannel quizname winLimitGiven waitTimeGiven loaded draw
      events).session = some s) : QuizState.LimitInv s := by
  unfold runQuiz at h
  simp only [] at h
  split at h
  · cases h
  · split at h
    · cases h
    · rename_i hlen
      rw [finishRun_session] at h
      cases h
      apply QuizState.limitInv_run
      apply QuizState.limitInv_present
      · apply parseWinLimit_pos
        split
        · have : 0 < (sessionQuiz g quizChannel quizname loaded draw).Deck.length :=
            Nat.pos_of_ne_zero hlen
          omega
        · decide
      · intro p
        have := parseWinLimit_pos
          (if quizname = "review" then
            ((sessionQuiz g quizChannel quizname loaded draw).Deck.length : Int) else 15)
          (sessionQuiz g quizChannel quizname loaded draw).Deck.length winLimitGiven
          (by
            split
            · have : 0 < (sessionQuiz g quizChannel quizname loaded draw).Deck.length :=
                Nat.pos_of_ne_zero hlen
              omega
            · decide)
        simp only [QuizState.init, standing, GoMap.get, Option.getD]
        omega

/-- C12: in every state `runQuiz` reaches, while the loop runs (a question has been
presented and is open) every standing is below `winLimit`; no standing is ever above
`winLimit`, in particular at the end of the session; and when the timer closes a round
in which the total of some scorer becomes at least `winLimit`, the loop is left at once
and no further question is sent. -/
theorem winLimit_ends_session (toLower : Char → Char) (g : Globals)
    (quizChannel quizname : String) (winLimitGiven : String) (waitTimeGiven : Int)
    (loaded : Quiz) (draw : Nat → Nat) (events : List Event) (s : QuizState)
    (h : (runQuiz toLower g quizChannel quizname winLimitGiven waitTimeGiven loaded draw
      events).session = some s) :
    (s.running = true → ∀ p, standing s.players p < s.winLimit) ∧
    (∀ p, standing s.players p ≤ s.winLimit) ∧
    (s.running = true → GoMap.len s.scoreKeeper > 0 →
      (∃ p ∈ GoMap.keys s.scoreKeeper, standing s.players p + 1 ≥ s.winLimit) →
      (QuizState.step toLower s Event.timeout).running = false ∧
      questionsSent (QuizState.step toLower s Event.timeout).sent = questionsSent s.sent) := by
  have hinv := runQuiz_limitInv toLower g quizChannel quizname winLimitGiven waitTimeGiven
    loaded draw events s h
  refine ⟨fun hr => (hinv.2.1 hr).2, hinv.2.2, ?_⟩
  intro hr hlen hex
  have hwin : (tally s.winLimit s.players s.scoreKeeper).winnerExists = true :=
    (tally_spec s.winLimit s.players s.scoreKeeper (hinv.2.1 hr).1).2.2 hex
  simp only [QuizState.step, QuizState.closeRound, hlen, hwin, if_true]
  refine ⟨trivial, ?_⟩
  rw [questionsSent_append]
  simp [questionsSent]

/-- Witness for C12: the quiz `demoQuiz` played to a win limit of 1; `A` answers the first
card, and when the timer closes the round the session ends with a standing of 1. -/
theorem winLimit_ends_session_witness :
    (runQuiz Char.toLower ⟨[], []⟩ "ch" "demo" "1" 2000 demoQuiz (fun _ => 0)
        [Event.msg ⟨"A", "b"⟩]).session
      = some (QuizState.run Char.toLower (QuizState.present
          (QuizState.init "demo" 1 0 0 20 (2000 * Millisecond) demoQuiz))
          [Event.msg ⟨"A", "b"⟩]) ∧
    ((runQuiz Char.toLower ⟨[], []⟩ "ch" "demo" "1" 2000 demoQuiz (fun _ => 0)
      [Event.msg ⟨"A", "b"⟩, Event.timeout]).session.map
        (fun s => (s.running, s.players, questionsSent s.sent)))
      = some (false, [("A", 1)], [⟨"Q2", ["b"], ""⟩]) ∧
    (QuizState.step Char.toLower (QuizState.run Char.toLower (QuizState.present
          (QuizState.init "demo" 1 0 0 20 (2000 * Millisecond) demoQuiz))
          [Event.msg ⟨"A", "b"⟩]) Event.timeout).running = false :=
  ⟨by decide, by decide,
    ((winLimit_ends_session Char.toLower ⟨[], []⟩ "ch" "demo" "1" 2000 demoQuiz (fun _ => 0)
      [Event.msg ⟨"A", "b"⟩] _ (by decide)).2.2 (by decide) (by decide)
      ⟨"A", by decide, by decide⟩).1⟩

/-! ### Points of a multi-answer round -/

theorem firstGiven_snoc (toLower : Char → Char) (k : String) (earlier : List (Message × Int))
    (e : Message × Int) :
    firstGiven toLower k (earlier ++ [e])
      = match firstGiven toLower k earlier with
        | some ts => some ts
        | none =>
          if isPass e.1 = false ∧ MultiState.answerKey toLower e.1.Content = k then some e.2
          else none := by
  unfold firstGiven
  rw [List.find?_append]
  cases h : List.find? (fun e => !isPass e.1 && MultiState.answerKey toLower e.1.Content == k)
      earlier with
  | some x => simp
  | none =>
    by_cases hc : isPass e.1 = false ∧ MultiState.answerKey toLower e.1.Content = k
    · simp [List.find?, hc.1, hc.2]
    · have : (!isPass e.1 && MultiState.answerKey toLower e.1.Content == k) = false := by
        by_cases h1 : isPass e.1 = false
        · have h2 : ¬ MultiState.answerKey toLower e.1.Content = k := fun h2 => hc ⟨h1, h2⟩
          simp [h1, h2]
        · simp at h1; simp [h1]
      simp [List.find?, this, hc]

theorem foldl_answerMap (toLower : Char → Char) (answers : List String) (k : String) :
    GoMap.get (answers.foldl
        (fun (m : GoMap (Option Int)) ans => GoMap.set m (MultiState.answerKey toLower ans) none)
        []) k
      = if k ∈ answers.map (MultiState.answerKey toLower) then some none else none := by
  induction answers using List.reverseRecOn with
  | nil => simp [GoMap.get]
  | append_singleton as a ih =>
    rw [List.foldl_append, List.foldl_cons, List.foldl_nil]
    by_cases hk : k = MultiState.answerKey toLower a
    · subst hk
      rw [GoMap.get_set_self]
      simp
    · rw [GoMap.get_set_ne _ _ _ _ hk, ih]
      simp [hk]

theorem firstGiven_snoc_other (toLower : Char → Char) (k : String)
    (earlier : List (Message × Int)) (e : Message × Int)
    (h : ¬ (isPass e.1 = false ∧ MultiState.answerKey toLower e.1.Content = k)) :
    firstGiven toLower k (earlier ++ [e]) = firstGiven toLower k earlier := by
  rw [firstGiven_snoc]
  cases firstGiven toLower k earlier with
  | some ts => rfl
  | none => simp only [if_neg h]

theorem firstGiven_snoc_some (toLower : Char → Char) (k : String)
    (earlier : List (Message × Int)) (e : Message × Int) (ts : Int)
    (h : firstGiven toLower k earlier = some ts) :
    firstGiven toLower k (earlier ++ [e]) = some ts := by
  rw [firstGiven_snoc, h]

namespace MultiState

theorem standing_count (s : MultiState) (m : Message) (p : String) :
    standing (count s m).scoreKeeper p
      = standing s.scoreKeeper p + if m.AuthorID = p then 1 else 0 := by
  by_cases hp : m.AuthorID = p
  · subst hp
    simp only [count, if_true]
    rw [standing_set_self]
    rfl
  · have hp2 : p ≠ m.AuthorID := fun h => hp h.symm
    simp only [count, if_neg hp]
    rw [standing_set_ne _ _ _ _ hp2]
    simp

/-- What one message does in a round of `runMultiQuiz`: the answer map keeps its relation
to the messages handled, and the score keeper counts the message when it is a counted
one. -/
theorem onMessage_round (toLower : Char → Char) (answers : List String)
    (earlier : List (Message × Int)) (s : MultiState) (m : Message) (now : Int)
    (h : RoundInv toLower answers earlier s) (p : String) :
    RoundInv toLower answers (earlier ++ [(m, now)]) (onMessage toLower s m now) ∧
    standing (onMessage toLower s m now).scoreKeeper p
      = standing s.scoreKeeper p +
        (if m.AuthorID = p ∧ multiCounts toLower answers s.waitTime earlier (m, now) = true
         then 1 else 0) ∧
    (onMessage toLower s m now).waitTime = s.waitTime ∧
    (onMessage toLower s m now).running = s.running := by
  by_cases hpass : m.Content = ".." ∨ m.Content = "。。"
  · have hp : isPass m = true := by simp [isPass, hpass]
    have hmc : multiCounts toLower answers s.waitTime earlier (m, now) = false := by
      unfold multiCounts; dsimp only; rw [hp]; rfl
    have heq : onMessage toLower s m now = { s with timer := 0 } := by
      simp only [onMessage, if_pos hpass]
    rw [heq, hmc]
    refine ⟨fun k => ?_, ?_, rfl, rfl⟩
    · rw [firstGiven_snoc_other toLower k earlier (m, now) (by simp [hp])]
      exact h k
    · simp
  · have hp : isPass m = false := by simp [isPass, hpass]
    simp only [onMessage, if_neg hpass]
    have hk := h (answerKey toLower m.Content)
    cases hg : GoMap.get s.answerMap (answerKey toLower m.Content) with
    | none =>
      have hnot : answerKey toLower m.Content ∉ answers.map (answerKey toLower) := by
        intro hin
        rw [hg, if_pos hin] at hk
        cases hk
      refine ⟨fun k => ?_, ?_, rfl, rfl⟩
      · by_cases hkk : k ∈ answers.map (answerKey toLower)
        · have hne : ¬ answerKey toLower m.Content = k := fun h2 => hnot (h2 ▸ hkk)
          rw [firstGiven_snoc_other toLower k earlier (m, now) (fun h3 => hne h3.2)]
          exact h k
        · have := h k
          rw [if_neg hkk] at this ⊢
          exact this
      · have : (answers.map (answerKey toLower)).contains (answerKey toLower m.Content)
            = false := by
          simpa using hnot
        have hmc : multiCounts toLower answers s.waitTime earlier (m, now) = false := by
          unfold multiCounts; dsimp only; rw [hp, this]; rfl
        rw [hmc]; simp
    | some v =>
      have hin : answerKey toLower m.Content ∈ answers.map (answerKey toLower) := by
        by_contra hnot
        rw [hg, if_neg hnot] at hk
        cases hk
      have hc : (answers.map (answerKey toLower)).contains (answerKey toLower m.Content)
          = true := by
        simpa using hin
      rw [hg, if_pos hin] at hk
      have hfg : firstGiven toLower (answerKey toLower m.Content) earlier = v :=
        (Option.some.inj hk).symm
      cases v with
      | none =>
        simp only []
        refine ⟨fun k => ?_, ?_, rfl, rfl⟩
        · show GoMap.get (GoMap.set s.answerMap (answerKey toLower m.Content) (some now)) k = _
          by_cases hkk : k = answerKey toLower m.Content
          · subst hkk
            rw [GoMap.get_set_self, if_pos hin, firstGiven_snoc, hfg]
            simp [hp]
          · rw [GoMap.get_set_ne _ _ _ _ hkk]
            rw [firstGiven_snoc_other toLower k earlier (m, now)
              (fun h3 => hkk h3.2.symm)]
            exact h k
        · have hmc : multiCounts toLower answers s.waitTime earlier (m, now) = true := by
            unfold multiCounts; dsimp only; rw [hp, hc, hfg]; rfl
          rw [standing_count, hmc]
          simp
      | some ts =>
        simp only []
        have hinv : RoundInv toLower answers (earlier ++ [(m, now)]) s := by
          intro k
          by_cases hkk : k = answerKey toLower m.Content
          · subst hkk
            rw [firstGiven_snoc_some toLower _ earlier (m, now) ts hfg, ← hfg]
            exact h _
          · rw [firstGiven_snoc_other toLower k earlier (m, now)
              (fun h3 => hkk h3.2.symm)]
            exact h k
        by_cases hlate : now - ts > s.waitTime
        · rw [if_pos hlate]
          refine ⟨hinv, ?_, rfl, rfl⟩
          have hmc : multiCounts toLower answers s.waitTime earlier (m, now) = false := by
            unfold multiCounts; dsimp only; rw [hp, hc, hfg]
            have : ¬ now - ts ≤ s.waitTime := by omega
            simp [this]
          rw [hmc]; simp
        · rw [if_neg hlate]
          refine ⟨hinv, ?_, rfl, rfl⟩
          have hmc : multiCounts toLower answers s.waitTime earlier (m, now) = true := by
            unfold multiCounts; dsimp only; rw [hp, hc, hfg]
            have : now - ts ≤ s.waitTime := by omega
            simp [this]
          rw [standing_count, hmc]
          simp

end MultiState

namespace MultiState

theorem run_multi_cons (toLower : Char → Char) (s : MultiState) (e : MultiEvent)
    (events : List MultiEvent) :
    run toLower s (e :: events)
      = run toLower (if s.running = true then step toLower s e else s) events := rfl

/-- The messages of a round of `runMultiQuiz` leave the loop running and the standings as
they are, and raise the entry of a participant in the score keeper by the number of the
participant's counted messages. -/
theorem run_round (toLower : Char → Char) (answers : List String) (w : Int) (p : String)
    (msgs : List (Message × Int)) :
    ∀ (earlier : List (Message × Int)) (s : MultiState),
      RoundInv toLower answers earlier s → s.running = true → s.waitTime = w →
      GoMap.WF s.scoreKeeper →
      standing (run toLower s (multiMessages msgs)).scoreKeeper p
        = standing s.scoreKeeper p + (multiCount toLower answers w p earlier msgs : Nat) ∧
      (run toLower s (multiMessages msgs)).running = true ∧
      (run toLower s (multiMessages msgs)).players = s.players ∧
      (run toLower s (multiMessages msgs)).winLimit = s.winLimit ∧
      GoMap.WF (run toLower s (multiMessages msgs)).scoreKeeper := by
  induction msgs with
  | nil =>
    intro earlier s _ hr _ hwf
    exact ⟨by simp [multiMessages, run, multiCount], hr, rfl, rfl, hwf⟩
  | cons e rest ih =>
    intro earlier s hinv hr hw hwf
    obtain ⟨m, now⟩ := e
    have hstep := onMessage_round toLower answers earlier s m now hinv p
    have hfr := onMessage_frame toLower s m now hwf
    have hwl : (onMessage toLower s m now).winLimit = s.winLimit := by
      unfold onMessage
      split
      · rfl
      · split
        · rfl
        · rfl
        · split <;> rfl
    have hrun : run toLower s (multiMessages ((m, now) :: rest))
        = run toLower (onMessage toLower s m now) (multiMessages rest) := by
      show run toLower s (MultiEvent.msg m now :: multiMessages rest) = _
      rw [run_multi_cons, if_pos hr]
      rfl
    have h2 := ih (earlier ++ [(m, now)]) (onMessage toLower s m now) hstep.1
      (by rw [hstep.2.2.2]; exact hr) (by rw [hstep.2.2.1]; exact hw) hfr.2
    rw [hrun]
    refine ⟨?_, h2.2.1, by rw [h2.2.2.1, hfr.1], by rw [h2.2.2.2.1, hwl], h2.2.2.2.2⟩
    rw [h2.1, hstep.2.1, hw]
    simp only [multiCount]
    push_cast
    split <;> omega

end MultiState

namespace MultiState

theorem present_round (toLower : Char → Char) (s : MultiState)
    (h : (present toLower s).running = true) :
    RoundInv toLower (present toLower s).current.Answers [] (present toLower s) ∧
    (present toLower s).scoreKeeper = [] ∧
    (present toLower s).waitTime = s.waitTime := by
  unfold present at h ⊢
  split
  · rename_i hd
    simp [hd] at h
  · refine ⟨fun k => ?_, rfl, rfl⟩
    simp only []
    rw [foldl_answerMap]
    rfl

theorem players_timeout (toLower : Char → Char) (s : MultiState) (hwf : GoMap.WF s.scoreKeeper)
    (p : String) :
    standing (step toLower s MultiEvent.timeout).players p
      = standing s.players p + minint (standing s.scoreKeeper p) pointLimit := by
  by_cases hlen : GoMap.len s.scoreKeeper > 0
  · have hp : (step toLower s MultiEvent.timeout).players
        = (multiTally s.winLimit s.players s.scoreKeeper).players := by
      by_cases hwin : (multiTally s.winLimit s.players s.scoreKeeper).winnerExists = true
      · simp only [step, closeRound, hlen, hwin, if_true]
      · simp only [step, closeRound, hlen, hwin, if_true, if_false, Bool.false_eq_true]
        rw [players_present]
    rw [hp, standing_multiTally _ _ _ hwf]
    cases hg : GoMap.get s.scoreKeeper p with
    | none => simp [standing, hg, minint, pointLimit]
    | some sc => simp [standing, hg]
  · have hnil : s.scoreKeeper = [] := by
      cases hsk : s.scoreKeeper with
      | nil => rfl
      | cons a b => simp [GoMap.len, hsk] at hlen
    have hp : (step toLower s MultiEvent.timeout).players = s.players := by
      by_cases h2 : (noteTimeout s).timeoutCount ≥ timeoutLimit
      · simp only [step, hlen, h2, if_true, if_false]
        rfl
      · have hlen2 : ¬ GoMap.len (noteTimeout s).scoreKeeper > 0 := hlen
        simp only [step, closeRound, hlen, hlen2, h2, if_false]
        rw [players_present]
        rfl
    rw [hp, hnil]
    simp [standing, GoMap.get, minint, pointLimit]

end MultiState

/-- C11 (amended): in a round of `runMultiQuiz` that its timer closes, the points a
participant receives are min(c, 3), where c is the number of the participant's counted
messages in the round: those which are not a pass token, whose folded text is the folded
form of one of the card's answers, and which come when that answer was not given before
in the round or was first given no longer than `waitTime` before. -/
theorem multi_points_counted (toLower : Char → Char) (s : MultiState)
    (msgs : List (Message × Int)) (p : String)
    (h : (MultiState.present toLower s).running = true) :
    standing (MultiState.step toLower
        (MultiState.run toLower (MultiState.present toLower s) (multiMessages msgs))
        MultiEvent.timeout).players p
      = standing s.players p +
        minint (multiCount toLower (MultiState.present toLower s).current.Answers s.waitTime p
          [] msgs : Nat) pointLimit := by
  obtain ⟨hinv, hsk, hw⟩ := MultiState.present_round toLower s h
  have hwf : GoMap.WF (MultiState.present toLower s).scoreKeeper := by
    rw [hsk]; exact GoMap.WF_nil
  have hr := MultiState.run_round toLower (MultiState.present toLower s).current.Answers
    s.waitTime p msgs [] (MultiState.present toLower s) hinv h hw hwf
  rw [MultiState.players_timeout toLower _ hr.2.2.2.2 p, hr.1, hr.2.2.1,
    MultiState.players_present, hsk]
  simp [standing, GoMap.get]

/-- Counterexample for C11 on `demoMulti`: participant `A` gives the answer `a` twice
within the window; the round brings 2 points, while `A` submitted one distinct accepted
answer. -/
theorem multi_points_counted_counterexample :
    distinctAccepted Char.toLower (MultiState.present Char.toLower demoMulti).current.Answers
        "A" [(⟨"A", "a"⟩, 1), (⟨"A", "a"⟩, 2)] = 1 ∧
    standing (MultiState.step Char.toLower
        (MultiState.run Char.toLower (MultiState.present Char.toLower demoMulti)
          (multiMessages [(⟨"A", "a"⟩, 1), (⟨"A", "a"⟩, 2)]))
        MultiEvent.timeout).players "A" = standing demoMulti.players "A" + 2 ∧
    ¬ standing (MultiState.step Char.toLower
        (MultiState.run Char.toLower (MultiState.present Char.toLower demoMulti)
          (multiMessages [(⟨"A", "a"⟩, 1), (⟨"A", "a"⟩, 2)]))
        MultiEvent.timeout).players "A"
      = standing demoMulti.players "A" +
        minint (distinctAccepted Char.toLower
          (MultiState.present Char.toLower demoMulti).current.Answers "A"
          [(⟨"A", "a"⟩, 1), (⟨"A", "a"⟩, 2)] : Nat) pointLimit := by
  decide

/-- Witness for C11 on `demoMulti`: `A` gives `a` twice within the window and `b` once,
`B` gives `a` after the window has closed; `A` has three counted messages and gains 3
points. -/
theorem multi_points_counted_witness :
    multiCount Char.toLower (MultiState.present Char.toLower demoMulti).current.Answers
        demoMulti.waitTime "A" []
        [(⟨"A", "a"⟩, 1), (⟨"A", "a"⟩, 2), (⟨"A", "b"⟩, 3), (⟨"B", "a"⟩, 2000000000)] = 3 ∧
    multiCount Char.toLower (MultiState.present Char.toLower demoMulti).current.Answers
        demoMulti.waitTime "B" []
        [(⟨"A", "a"⟩, 1), (⟨"A", "a"⟩, 2), (⟨"A", "b"⟩, 3), (⟨"B", "a"⟩, 2000000000)] = 0 ∧
    standing (MultiState.step Char.toLower
        (MultiState.run Char.toLower (MultiState.present Char.toLower demoMulti)
          (multiMessages
            [(⟨"A", "a"⟩, 1), (⟨"A", "a"⟩, 2), (⟨"A", "b"⟩, 3), (⟨"B", "a"⟩, 2000000000)]))
        MultiEvent.timeout).players "A"
      = standing demoMulti.players "A" +
        minint (multiCount Char.toLower
          (MultiState.present Char.toLower demoMulti).current.Answers demoMulti.waitTime "A"
          [] [(⟨"A", "a"⟩, 1), (⟨"A", "a"⟩, 2), (⟨"A", "b"⟩, 3), (⟨"B", "a"⟩, 2000000000)]
          : Nat) pointLimit :=
  ⟨by decide, by decide,
    multi_points_counted Char.toLower demoMulti
      [(⟨"A", "a"⟩, 1), (⟨"A", "a"⟩, 2), (⟨"A", "b"⟩, 3), (⟨"B", "a"⟩, 2000000000)] "A"
      (by decide)⟩

/-! ### A stop signal in review mode -/

theorem finishRun_stopped (g : Globals) (ch : String) (s : QuizState) (sb : Scoreboard)
    (h : s.running = false) :
    (finishRun g ch s sb).returned = true ∧
    GoMap.get (finishRun g ch s sb).globals.Review ch
      = some (Quiz.withDeck s.quiz s.failed) := by
  have hret : (finishRun g ch s sb).returned = true := by
    unfold finishRun; simp [h]
  exact ⟨hret, (finishRun_returned g ch s sb hret).2.1⟩

/-- One more event taken by a running session of `runQuiz`: the session state makes one
step. -/
theorem runQuiz_snoc (toLower : Char → Char) (g : Globals) (quizChannel quizname : String)
    (winLimitGiven : String) (waitTimeGiven : Int) (loaded : Quiz) (draw : Nat → Nat)
    (events : List Event) (e : Event) (s : QuizState)
    (h : (runQuiz toLower g quizChannel quizname winLimitGiven waitTimeGiven loaded draw
      events).session = some s) (hr : s.running = true) :
    (runQuiz toLower g quizChannel quizname winLimitGiven waitTimeGiven loaded draw
      (events ++ [e])).session = some (QuizState.step toLower s e) ∧
    ((QuizState.step toLower s e).running = false →
      (runQuiz toLower g quizChannel quizname winLimitGiven waitTimeGiven loaded draw
        (events ++ [e])).returned = true ∧
      GoMap.get (runQuiz toLower g quizChannel quizname winLimitGiven waitTimeGiven loaded draw
        (events ++ [e])).globals.Review quizChannel
        = some (Quiz.withDeck (QuizState.step toLower s e).quiz
            (QuizState.step toLower s e).failed)) := by
  unfold runQuiz at h ⊢
  simp only [] at h ⊢
  split at h
  · cases h
  · rename_i h1
    rw [if_neg h1]
    split at h
    · cases h
    · rename_i h2
      rw [if_neg h2]
      rw [finishRun_session] at h
      cases h
      rw [QuizState.quiz_run_snoc, if_pos hr]
      exact ⟨finishRun_session _ _ _ _, fun hs => finishRun_stopped _ _ _ _ hs⟩

/-- One more event taken by a running session of `runQuizSequential`: the session state
makes one step. -/
theorem runQuizSequential_snoc (toLower : Char → Char) (g : Globals)
    (quizChannel quizname : String) (startIndex : String) (waitTimeGiven : Int)
    (loaded : Quiz) (draw : Nat → Nat) (events : List Event) (e : Event) (s : QuizState)
    (h : (runQuizSequential toLower g quizChannel quizname startIndex waitTimeGiven loaded draw
      events).session = some s) (hr : s.running = true) :
    (runQuizSequential toLower g quizChannel quizname startIndex waitTimeGiven loaded draw
      (events ++ [e])).session = some (QuizState.stepSequential toLower s e) ∧
    ((QuizState.stepSequential toLower s e).running = false →
      (runQuizSequential toLower g quizChannel quizname startIndex waitTimeGiven loaded draw
        (events ++ [e])).returned = true ∧
      GoMap.get (runQuizSequential toLower g quizChannel quizname startIndex waitTimeGiven
        loaded draw (events ++ [e])).globals.Review quizChannel
        = some (Quiz.withDeck (QuizState.stepSequential toLower s e).quiz
            (QuizState.stepSequential toLower s e).failed)) := by
  unfold runQuizSequential at h ⊢
  simp only [] at h ⊢
  split at h
  · cases h
  · rename_i h1
    rw [if_neg h1]
    split at h
    · cases h
    · rename_i h2
      rw [if_neg h2]
      split at h
      · cases h
      · split at h
        · cases h
        · rename_i h3
          rw [if_neg h3]
          rw [finishRun_session] at h
          cases h
          rw [QuizState.runSequential_snoc, if_pos hr]
          exact ⟨finishRun_session _ _ _ _, fun hs => finishRun_stopped _ _ _ _ hs⟩

namespace QuizState

theorem quizname_presentSequential (s : QuizState) :
    (presentSequential s).quizname = s.quizname := by
  unfold presentSequential; split <;> rfl

theorem quizname_closeRoundSequential (s : QuizState) :
    (closeRoundSequential s).quizname = s.quizname := by
  unfold closeRoundSequential
  rw [quizname_presentSequential]
  simp only []
  split <;> rfl

theorem quizname_stepSequential (toLower : Char → Char) (s : QuizState) (e : Event) :
    (stepSequential toLower s e).quizname = s.quizname := by
  cases e with
  | quit => rfl
  | timeout =>
    simp only [stepSequential]
    split
    · exact quizname_closeRoundSequential s
    · split
      · rfl
      · exact quizname_closeRoundSequential (noteTimeout s)
  | msg m =>
    simp only [stepSequential, onMessage]
    split
    · rfl
    · split <;> rfl

theorem quizname_runSequential (toLower : Char → Char) (s : QuizState) (events : List Event) :
    (runSequential toLower s events).quizname = s.quizname := by
  induction events using List.reverseRecOn with
  | nil => rfl
  | append_singleton es e ih =>
    rw [runSequential_snoc]
    split
    · rw [quizname_stepSequential, ih]
    · exact ih

end QuizState

/-- C14 (amended): when a running review-mode session of `runQuiz` or `runQuizSequential`
takes a stop signal, the call returns, and the failure set afterwards, which is stored as
the review deck of the channel, consists of the cards that had already failed, followed
by the current card when nobody has answered it in this round (the score keeper is
empty), followed by all cards remaining in the working deck. -/
theorem review_stop_failure_set (toLower : Char → Char) (g : Globals) (quizChannel : String)
    (waitTimeGiven : Int) (loaded : Quiz) (draw : Nat → Nat) (events : List Event)
    (s : QuizState) (hr : s.running = true) :
    (∀ winLimitGiven : String,
      (runQuiz toLower g quizChannel "review" winLimitGiven waitTimeGiven loaded draw
        events).session = some s →
      (runQuiz toLower g quizChannel "review" winLimitGiven waitTimeGiven loaded draw
        (events ++ [Event.quit])).returned = true ∧
      ((runQuiz toLower g quizChannel "review" winLimitGiven waitTimeGiven loaded draw
        (events ++ [Event.quit])).session.map (fun t => t.failed))
        = some (s.failed ++ (if GoMap.len s.scoreKeeper = 0 then [s.current] else [])
            ++ s.quiz.Deck) ∧
      GoMap.get (runQuiz toLower g quizChannel "review" winLimitGiven waitTimeGiven loaded draw
        (events ++ [Event.quit])).globals.Review quizChannel
        = some (Quiz.withDeck s.quiz
            (s.failed ++ (if GoMap.len s.scoreKeeper = 0 then [s.current] else [])
              ++ s.quiz.Deck))) ∧
    (∀ startIndex : String,
      (runQuizSequential toLower g quizChannel "review" startIndex waitTimeGiven loaded draw
        events).session = some s →
      (runQuizSequential toLower g quizChannel "review" startIndex waitTimeGiven loaded draw
        (events ++ [Event.quit])).returned = true ∧
      ((runQuizSequential toLower g quizChannel "review" startIndex waitTimeGiven loaded draw
        (events ++ [Event.quit])).session.map (fun t => t.failed))
        = some (s.failed ++ (if GoMap.len s.scoreKeeper = 0 then [s.current] else [])
            ++ s.quiz.Deck) ∧
      GoMap.get (runQuizSequential toLower g quizChannel "review" startIndex waitTimeGiven
        loaded draw (events ++ [Event.quit])).globals.Review quizChannel
        = some (Quiz.withDeck s.quiz
            (s.failed ++ (if GoMap.len s.scoreKeeper = 0 then [s.current] else [])
              ++ s.quiz.Deck))) := by
  have hname : s.quizname = "review" →
      (QuizState.onQuit s).failed
        = s.failed ++ (if GoMap.len s.scoreKeeper = 0 then [s.current] else [])
            ++ s.quiz.Deck := by
    intro hn
    simp only [QuizState.onQuit, hn, if_true]
    split <;> simp
  constructor
  · intro winLimitGiven h
    have hn : s.quizname = "review" := by
      have hs := h
      unfold runQuiz at hs
      simp only [] at hs
      split at hs
      · cases hs
      · split at hs
        · cases hs
        · rw [finishRun_session] at hs
          cases hs
          rw [(QuizState.stable_run toLower _ _).1, (QuizState.stable_present _).1]
          rfl
    obtain ⟨h1, h2⟩ := runQuiz_snoc toLower g quizChannel "review" winLimitGiven waitTimeGiven
      loaded draw events Event.quit s h hr
    obtain ⟨h3, h4⟩ := h2 rfl
    refine ⟨h3, ?_, ?_⟩
    · rw [h1]
      exact congrArg some (hname hn)
    · rw [h4]
      show some (Quiz.withDeck s.quiz (QuizState.onQuit s).failed) = _
      rw [hname hn]
  · intro startIndex h
    have hn : s.quizname = "review" := by
      have hs := h
      unfold runQuizSequential at hs
      simp only [] at hs
      split at hs
      · cases hs
      · split at hs
        · cases hs
        · split at hs
          · cases hs
          · split at hs
            · cases hs
            · rw [finishRun_session] at hs
              cases hs
              rw [QuizState.quizname_runSequential]
              unfold QuizState.startSequential
              simp only []
              rw [QuizState.quizname_presentSequential]
              rfl
    obtain ⟨h1, h2⟩ := runQuizSequential_snoc toLower g quizChannel "review" startIndex
      waitTimeGiven loaded draw events Event.quit s h hr
    obtain ⟨h3, h4⟩ := h2 rfl
    refine ⟨h3, ?_, ?_⟩
    · rw [h1]
      exact congrArg some (hname hn)
    · rw [h4]
      show some (Quiz.withDeck s.quiz (QuizState.onQuit s).failed) = _
      rw [hname hn]

/-- Counterexample for C14: in a review session on the stored deck of `demoGlobals`, `A`
answers the card `Q0` and the stop signal comes before the round is closed; the failure
set stays empty, although `Q0` is the current card. -/
theorem review_stop_failure_set_counterexample :
    ((runQuiz Char.toLower demoGlobals "ch" "review" "" 2000 Quiz.zero (fun _ => 0)
        [Event.msg ⟨"A", "z"⟩]).session.map
        (fun s => (s.running, s.failed, s.current, s.quiz.Deck)))
      = some (true, [], ⟨"Q0", ["z"], ""⟩, []) ∧
    ((runQuiz Char.toLower demoGlobals "ch" "review" "" 2000 Quiz.zero (fun _ => 0)
        [Event.msg ⟨"A", "z"⟩, Event.quit]).session.map (fun s => s.failed)) = some [] ∧
    ¬ ((runQuiz Char.toLower demoGlobals "ch" "review" "" 2000 Quiz.zero (fun _ => 0)
        [Event.msg ⟨"A", "z"⟩, Event.quit]).session.map (fun s => s.failed))
      = some (([] : List Card) ++ [⟨"Q0", ["z"], ""⟩] ++ []) := by
  decide

/-- Witness for C14: a review session on the stored deck of `demoGlobals` is stopped while
the first card `Q0` is open and unanswered; the card goes to the failure set and is
stored as the review deck of the channel. -/
theorem review_stop_failure_set_witness :
    ((runQuiz Char.toLower demoGlobals "ch" "review" "" 2000 Quiz.zero (fun _ => 0)
        ([] ++ [Event.quit])).session.map (fun t => t.failed))
      = some [⟨"Q0", ["z"], ""⟩] ∧
    (runQuiz Char.toLower demoGlobals "ch" "review" "" 2000 Quiz.zero (fun _ => 0)
        ([] ++ [Event.quit])).returned = true :=
  ⟨((review_stop_failure_set Char.toLower demoGlobals "ch" 2000 Quiz.zero (fun _ => 0) []
      (QuizState.present (QuizState.init "review" 1 0 0 20 (2000 * Millisecond)
        ⟨"old", "text", 0, [⟨"Q0", ["z"], ""⟩]⟩))
      (by decide)).1 "" (by decide)).2.1,
   ((review_stop_failure_set Char.toLower demoGlobals "ch" 2000 Quiz.zero (fun _ => 0) []
      (QuizState.present (QuizState.init "review" 1 0 0 20 (2000 * Millisecond)
        ⟨"old", "text", 0, [⟨"Q0", ["z"], ""⟩]⟩))
      (by decide)).1 "" (by decide)).1⟩

/-! ### The win limit of a review session -/

/-- C15 (amended): in a review session of `runQuiz` on a review deck of `n` cards the win
limit is `n` when the win-limit argument is not an integer, as when it is absent; when
the argument is the integer `i` the win limit is the smaller of `i` and `n`, brought into
the range from 1 to 100. -/
theorem review_winLimit (toLower : Char → Char) (g : Globals) (quizChannel : String)
    (winLimitGiven : String) (waitTimeGiven : Int) (loaded : Quiz) (draw : Nat → Nat)
    (events : List Event) (s : QuizState)
    (h : (runQuiz toLower g quizChannel "review" winLimitGiven waitTimeGiven loaded draw
      events).session = some s) :
    0 < (getReview g.Review quizChannel draw).2.Deck.length ∧
    ((Atoi winLimitGiven).2 = false →
      s.winLimit = ((getReview g.Review quizChannel draw).2.Deck.length : Int)) ∧
    ((Atoi winLimitGiven).2 = true →
      s.winLimit = max 1 (min 100 (min (Atoi winLimitGiven).1
        ((getReview g.Review quizChannel draw).2.Deck.length : Int)))) := by
  unfold runQuiz at h
  simp only [] at h
  split at h
  · cases h
  · split at h
    · cases h
    · rename_i hlen
      rw [finishRun_session] at h
      cases h
      rw [(QuizState.stable_run toLower _ _).2.1, (QuizState.stable_present _).2.1]
      have hq : sessionQuiz g quizChannel "review" loaded draw
          = (getReview g.Review quizChannel draw).2 := by
        simp [sessionQuiz]
      rw [hq] at hlen ⊢
      refine ⟨Nat.pos_of_ne_zero hlen, ?_, ?_⟩
      · intro hf
        simp [QuizState.init, parseWinLimit, hf]
      · intro ht
        simp only [QuizState.init, parseWinLimit, ht, if_true]
        split_ifs <;> omega

/-- Counterexample for C15: a review session on a stored deck of two cards, started with
the win-limit argument `1`, plays to a win limit of 1. -/
theorem review_winLimit_counterexample :
    (getReview [("ch", demoQuiz)] "ch" (fun _ => 0)).2.Deck.length = 2 ∧
    ((runQuiz Char.toLower ⟨[], [("ch", demoQuiz)]⟩ "ch" "review" "1" 2000 Quiz.zero
        (fun _ => 0) []).session.map (fun s => s.winLimit)) = some 1 ∧
    ¬ ((runQuiz Char.toLower ⟨[], [("ch", demoQuiz)]⟩ "ch" "review" "1" 2000 Quiz.zero
        (fun _ => 0) []).session.map (fun s => s.winLimit))
      = some (((getReview [("ch", demoQuiz)] "ch" (fun _ => 0)).2.Deck.length : Nat) : Int) := by
  decide

/-- Witness for C15: a review session on a stored deck of two cards, started without a
win-limit argument, plays to a win limit of 2. -/
theorem review_winLimit_witness :
    (Atoi "").2 = false ∧
    (QuizState.present (QuizState.init "review" 2 0 0 20 (2000 * Millisecond)
      (getReview [("ch", demoQuiz)] "ch" (fun _ => 0)).2)).winLimit
      = ((getReview [("ch", demoQuiz)] "ch" (fun _ => 0)).2.Deck.length : Int) :=
  ⟨by decide,
    (review_winLimit Char.toLower ⟨[], [("ch", demoQuiz)]⟩ "ch" "" 2000 Quiz.zero (fun _ => 0) []
      (QuizState.present (QuizState.init "review" 2 0 0 20 (2000 * Millisecond)
        (getReview [("ch", demoQuiz)] "ch" (fun _ => 0)).2))
      (by decide)).2.1 (by decide)⟩

/-! ### The round timer -/

theorem wrapInt64_id (x : Int) (h1 : -(2 ^ 63) ≤ x) (h2 : x < 2 ^ 63) : wrapInt64 x = x := by
  unfold wrapInt64
  omega

namespace QuizState

theorem timer_present (s : QuizState) :
    (present s).timeout = s.timeout ∧
    (questionsSent (present s).sent = questionsSent s.sent ∨
      (present s).timer = wrapInt64 (s.timeout * Second)) := by
  unfold present
  split
  · exact ⟨rfl, Or.inl rfl⟩
  · exact ⟨rfl, Or.inr rfl⟩

theorem timer_presentSequential (s : QuizState) :
    (presentSequential s).timeout = s.timeout ∧
    (questionsSent (presentSequential s).sent = questionsSent s.sent ∨
      (presentSequential s).timer = wrapInt64 (s.timeout * Second)) := by
  unfold presentSequential
  split
  · exact ⟨rfl, Or.inl rfl⟩
  · exact ⟨rfl, Or.inr rfl⟩

theorem questionsSent_snoc_other (sent : List Output) (o : Output)
    (h : ∀ c, o ≠ Output.question c) : questionsSent (sent ++ [o]) = questionsSent sent := by
  rw [questionsSent_append]
  cases o <;> simp [questionsSent] at h ⊢

theorem timer_closeRound (s : QuizState) :
    (closeRound s).timeout = s.timeout ∧
    (questionsSent (closeRound s).sent = questionsSent s.sent ∨
      (closeRound s).timer = wrapInt64 (s.timeout * Second)) := by
  unfold closeRound
  split
  · simp only []
    split
    · exact ⟨rfl, Or.inl (questionsSent_snoc_other _ _ (by intro c hc; cases hc))⟩
    · refine ⟨(timer_present _).1, ?_⟩
      rcases (timer_present
        { s with
          players := (tally s.winLimit s.players s.scoreKeeper).players
          sent := s.sent ++ [Output.correct s.current
            (tally s.winLimit s.players s.scoreKeeper).fastest
            (tally s.winLimit s.players s.scoreKeeper).scorers] }).2 with h | h
      · left
        rw [h]
        exact questionsSent_snoc_other _ _ (by intro c hc; cases hc)
      · right; exact h
  · exact timer_present s

theorem timer_closeRoundSequential (s : QuizState) :
    (closeRoundSequential s).timeout = s.timeout ∧
    (questionsSent (closeRoundSequential s).sent = questionsSent s.sent ∨
      (closeRoundSequential s).timer = wrapInt64 (s.timeout * Second)) := by
  unfold closeRoundSequential
  simp only []
  split
  · refine ⟨(timer_presentSequential _).1, ?_⟩
    rcases (timer_presentSequential
      { s with
        players := (tallySequential s.players s.scoreKeeper).players
        sent := s.sent ++ [Output.correct s.current
          (tallySequential s.players s.scoreKeeper).fastest
          (tallySequential s.players s.scoreKeeper).scorers]
        idx := s.idx + 1 }).2 with h | h
    · left
      rw [h]
      exact questionsSent_snoc_other _ _ (by intro c hc; cases hc)
    · right; exact h
  · exact timer_presentSequential { s with idx := s.idx + 1 }

theorem timer_step (toLower : Char → Char) (s : QuizState) (e : Event) :
    (step toLower s e).timeout = s.timeout ∧
    (questionsSent (step toLower s e).sent = questionsSent s.sent ∨
      (step toLower s e).timer = wrapInt64 (s.timeout * Second)) := by
  cases e with
  | quit => exact ⟨rfl, Or.inl rfl⟩
  | timeout =>
    simp only [step]
    split
    · exact timer_closeRound s
    · split
      · refine ⟨rfl, Or.inl ?_⟩
        show questionsSent ((s.sent ++ [Output.timedOut s.current]) ++ [Output.tooManyTimeouts])
          = questionsSent s.sent
        rw [questionsSent_snoc_other _ _ (by intro c hc; cases hc),
          questionsSent_snoc_other _ _ (by intro c hc; cases hc)]
      · refine ⟨(timer_closeRound (noteTimeout s)).1, ?_⟩
        rcases (timer_closeRound (noteTimeout s)).2 with h | h
        · left
          rw [h]
          exact questionsSent_snoc_other _ _ (by intro c hc; cases hc)
        · right; exact h
  | msg m =>
    simp only [step, onMessage]
    split
    · exact ⟨rfl, Or.inl rfl⟩
    · split <;> exact ⟨rfl, Or.inl rfl⟩

theorem timer_stepSequential (toLower : Char → Char) (s : QuizState) (e : Event) :
    (stepSequential toLower s e).timeout = s.timeout ∧
    (questionsSent (stepSequential toLower s e).sent = questionsSent s.sent ∨
      (stepSequential toLower s e).timer = wrapInt64 (s.timeout * Second)) := by
  cases e with
  | quit => exact ⟨rfl, Or.inl rfl⟩
  | timeout =>
    simp only [stepSequential]
    split
    · exact timer_closeRoundSequential s
    · split
      · refine ⟨rfl, Or.inl ?_⟩
        show questionsSent ((s.sent ++ [Output.timedOut s.current]) ++ [Output.tooManyTimeouts])
          = questionsSent s.sent
        rw [questionsSent_snoc_other _ _ (by intro c hc; cases hc),
          questionsSent_snoc_other _ _ (by intro c hc; cases hc)]
      · refine ⟨(timer_closeRoundSequential (noteTimeout s)).1, ?_⟩
        rcases (timer_closeRoundSequential (noteTimeout s)).2 with h | h
        · left
          rw [h]
          exact questionsSent_snoc_other _ _ (by intro c hc; cases hc)
        · right; exact h
  | msg m =>
    simp only [stepSequential, onMessage]
    split
    · exact ⟨rfl, Or.inl rfl⟩
    · split <;> exact ⟨rfl, Or.inl rfl⟩

theorem timeout_run (toLower : Char → Char) (s : QuizState) (events : List Event) :
    (run toLower s events).timeout = s.timeout := by
  induction events using List.reverseRecOn with
  | nil => rfl
  | append_singleton es e ih =>
    rw [quiz_run_snoc]
    split
    · rw [(timer_step toLower _ e).1, ih]
    · exact ih

theorem timeout_runSequential (toLower : Char → Char) (s : QuizState) (events : List Event) :
    (runSequential toLower s events).timeout = s.timeout := by
  induction events using List.reverseRecOn with
  | nil => rfl
  | append_singleton es e ih =>
    rw [runSequential_snoc]
    split
    · rw [(timer_stepSequential toLower _ e).1, ih]
    · exact ih

end QuizState

namespace MultiState

theorem timer_present_multi (toLower : Char → Char) (s : MultiState) :
    (present toLower s).timeout = s.timeout ∧
    (questionsSent (present toLower s).sent = questionsSent s.sent ∨
      (present toLower s).timer
        = (s.timeout + minint (((present toLower s).current.Answers.length : Int) * 2) 12)
          * Second) := by
  unfold present
  split
  · exact ⟨rfl, Or.inl rfl⟩
  · exact ⟨rfl, Or.inr rfl⟩

theorem timer_closeRound_multi (toLower : Char → Char) (s : MultiState) :
    (closeRound toLower s).timeout = s.timeout ∧
    (questionsSent (closeRound toLower s).sent = questionsSent s.sent ∨
      (closeRound toLower s).timer
        = (s.timeout + minint (((closeRound toLower s).current.Answers.length : Int) * 2) 12)
          * Second) := by
  unfold closeRound
  split
  · simp only []
    split
    · exact ⟨rfl, Or.inl (QuizState.questionsSent_snoc_other _ _ (by intro c hc; cases hc))⟩
    · refine ⟨(timer_present_multi toLower _).1, ?_⟩
      rcases (timer_present_multi toLower
        { s with
          players := (multiTally s.winLimit s.players s.scoreKeeper).players
          sent := s.sent ++ [Output.correctMulti s.current
            ((ranking s.scoreKeeper).map (fun p =>
              MultiLine.mk p.Name (minint p.Score pointLimit)
                ((GoMap.get (multiTally s.winLimit s.players s.scoreKeeper).players
                  p.Name).getD 0)
                ((GoMap.get s.scoreKeeperAnswers p.Name).getD [])))] }).2 with h | h
      · left
        rw [h]
        exact QuizState.questionsSent_snoc_other _ _ (by intro c hc; cases hc)
      · right; exact h
  · exact timer_present_multi toLower s

theorem timer_step_multi (toLower : Char → Char) (s : MultiState) (e : MultiEvent) :
    (step toLower s e).timeout = s.timeout ∧
    (questionsSent (step toLower s e).sent = questionsSent s.sent ∨
      (step toLower s e).timer
        = (s.timeout + minint (((step toLower s e).current.Answers.length : Int) * 2) 12)
          * Second) := by
  cases e with
  | quit => exact ⟨rfl, Or.inl rfl⟩
  | timeout =>
    simp only [step]
    split
    · exact timer_closeRound_multi toLower s
    · split
      · refine ⟨rfl, Or.inl ?_⟩
        show questionsSent ((s.sent ++ [Output.timedOut s.current]) ++ [Output.tooManyTimeouts])
          = questionsSent s.sent
        rw [QuizState.questionsSent_snoc_other _ _ (by intro c hc; cases hc),
          QuizState.questionsSent_snoc_other _ _ (by intro c hc; cases hc)]
      · refine ⟨(timer_closeRound_multi toLower (noteTimeout s)).1, ?_⟩
        rcases (timer_closeRound_multi toLower (noteTimeout s)).2 with h | h
        · left
          rw [h]
          exact QuizState.questionsSent_snoc_other _ _ (by intro c hc; cases hc)
        · right; exact h
  | msg m now =>
    simp only [step, onMessage]
    split
    · exact ⟨rfl, Or.inl rfl⟩
    · split
      · exact ⟨rfl, Or.inl rfl⟩
      · exact ⟨rfl, Or.inl rfl⟩
      · split <;> exact ⟨rfl, Or.inl rfl⟩

theorem timeout_run_multi (toLower : Char → Char) (s : MultiState) (events : List MultiEvent) :
    (run toLower s events).timeout = s.timeout := by
  induction events using List.reverseRecOn with
  | nil => rfl
  | append_singleton es e ih =>
    rw [run_snoc]
    split
    · rw [(timer_step_multi toLower _ e).1, ih]
    · exact ih

end MultiState

theorem timer_first (s : QuizState) (h : (QuizState.present s).running = true) :
    (QuizState.present s).timer = wrapInt64 (s.timeout * Second) := by
  unfold QuizState.present at h ⊢
  split
  · rename_i hd
    simp [hd] at h
  · rfl

theorem timer_firstSequential (s : QuizState)
    (h : (QuizState.presentSequential s).running = true) :
    (QuizState.presentSequential s).timer = wrapInt64 (s.timeout * Second) := by
  unfold QuizState.presentSequential at h ⊢
  split
  · rename_i hd
    simp [hd] at h
  · rfl

theorem timer_first_multi (toLower : Char → Char) (s : MultiState)
    (h : (MultiState.present toLower s).running = true) :
    (MultiState.present toLower s).timer
      = (s.timeout +
          minint (((MultiState.present toLower s).current.Answers.length : Int) * 2) 12)
        * Second := by
  unfold MultiState.present at h ⊢
  split
  · rename_i hd
    simp [hd] at h
  · rfl

/-- The duration of a timeout of at most 9223372036 seconds fits `int64`. -/
theorem timer_fits (t : Int) (h : t ≤ 9223372036) :
    wrapInt64 ((if t > 0 then t else 20) * Second) = (if t > 0 then t else 20) * Second := by
  apply wrapInt64_id
  · unfold Second
    split <;> omega
  · unfold Second
    split <;> omega

/-- C16 (amended): for a quiz with `quiz.Timeout` at most 9223372036, so that the
duration in nanoseconds fits `int64`, the timer armed when `runQuiz` or
`runQuizSequential` presents a question, the first one or a later one, runs
`quiz.Timeout` seconds when `quiz.Timeout` is positive and 20 seconds otherwise; the
timer armed when `runMultiQuiz` presents a
question of a quiz with `quiz.Timeout` at most 13 runs max(quiz.Timeout, 13) = 13 seconds
plus a bonus of min(2 x number of answers of the card, 12) seconds. -/
theorem round_timer (toLower : Char → Char) (g : Globals) (quizChannel quizname : String)
    (waitTimeGiven : Int) (loaded : Quiz) (draw : Nat → Nat) :
    (∀ (winLimitGiven : String) (events : List Event) (s : QuizState),
      (sessionQuiz g quizChannel quizname loaded draw).Timeout ≤ 9223372036 →
      (runQuiz toLower g quizChannel quizname winLimitGiven waitTimeGiven loaded draw
        events).session = some s →
      (events = [] → s.running = true →
        s.timer = (if (sessionQuiz g quizChannel quizname loaded draw).Timeout > 0
          then (sessionQuiz g quizChannel quizname loaded draw).Timeout else 20) * Second) ∧
      ∀ e, s.running = true →
        questionsSent (QuizState.step toLower s e).sent ≠ questionsSent s.sent →
        (QuizState.step toLower s e).timer
          = (if (sessionQuiz g quizChannel quizname loaded draw).Timeout > 0
            then (sessionQuiz g quizChannel quizname loaded draw).Timeout else 20) * Second) ∧
    (∀ (startIndex : String) (events : List Event) (s : QuizState),
      (sessionQuiz g quizChannel quizname loaded draw).Timeout ≤ 9223372036 →
      (runQuizSequential toLower g quizChannel quizname startIndex waitTimeGiven loaded draw
        events).session = some s →
      (events = [] → s.running = true →
        s.timer = (if (sessionQuiz g quizChannel quizname loaded draw).Timeout > 0
          then (sessionQuiz g quizChannel quizname loaded draw).Timeout else 20) * Second) ∧
      ∀ e, s.running = true →
        questionsSent (QuizState.stepSequential toLower s e).sent ≠ questionsSent s.sent →
        (QuizState.stepSequential toLower s e).timer
          = (if (sessionQuiz g quizChannel quizname loaded draw).Timeout > 0
            then (sessionQuiz g quizChannel quizname loaded draw).Timeout else 20) * Second) ∧
    (∀ (winLimitGiven : String) (events : List MultiEvent) (s : MultiState),
      loaded.Timeout ≤ 13 →
      (runMultiQuiz toLower g quizChannel quizname winLimitGiven waitTimeGiven loaded
        events).session = some s →
      (events = [] → s.running = true →
        s.timer = (max loaded.Timeout 13 + minint ((s.current.Answers.length : Int) * 2) 12)
          * Second) ∧
      ∀ e, s.running = true →
        questionsSent (MultiState.step toLower s e).sent ≠ questionsSent s.sent →
        (MultiState.step toLower s e).timer
          = (max loaded.Timeout 13 +
              minint (((MultiState.step toLower s e).current.Answers.length : Int) * 2) 12)
            * Second) := by
  have hfit := timer_fits (sessionQuiz g quizChannel quizname loaded draw).Timeout
  refine ⟨?_, ?_, ?_⟩
  · intro winLimitGiven events s hT h
    unfold runQuiz at h
    simp only [] at h
    split at h
    · cases h
    · split at h
      · cases h
      · rw [finishRun_session] at h
        cases h
        have ht := QuizState.timeout_run toLower
          (QuizState.present (QuizState.init quizname
            (parseWinLimit
              (if quizname = "review" then
                ((sessionQuiz g quizChannel quizname loaded draw).Deck.length : Int) else 15)
              (sessionQuiz g quizChannel quizname loaded draw).Deck.length winLimitGiven)
            0 0
            (if (sessionQuiz g quizChannel quizname loaded draw).Timeout > 0
              then (sessionQuiz g quizChannel quizname loaded draw).Timeout else 20)
            (waitTimeGiven * Millisecond) (sessionQuiz g quizChannel quizname loaded draw)))
          events
        rw [(QuizState.timer_present _).1] at ht
        constructor
        · intro he hr
          subst he
          exact (timer_first _ hr).trans (hfit hT)
        · intro e _ hq
          rcases (QuizState.timer_step toLower _ e).2 with h1 | h1
          · exact absurd h1 hq
          · rw [h1, ht]
            exact hfit hT
  · intro startIndex events s hT h
    unfold runQuizSequential at h
    simp only [] at h
    split at h
    · cases h
    · split at h
      · cases h
      · split at h
        · cases h
        · split at h
          · cases h
          · rw [finishRun_session] at h
            cases h
            rename_i text _ _
            have ht := QuizState.timeout_runSequential toLower
              (QuizState.startSequential quizname waitTimeGiven
                (sessionQuiz g quizChannel quizname loaded draw)
                (startOffset (sessionQuiz g quizChannel quizname loaded draw).Deck.length text))
              events
            have ht0 : (QuizState.startSequential quizname waitTimeGiven
                (sessionQuiz g quizChannel quizname loaded draw)
                (startOffset (sessionQuiz g quizChannel quizname loaded draw).Deck.length
                  text)).timeout
                = if (sessionQuiz g quizChannel quizname loaded draw).Timeout > 0
                  then (sessionQuiz g quizChannel quizname loaded draw).Timeout else 20 := by
              unfold QuizState.startSequential
              simp only []
              rw [(QuizState.timer_presentSequential _).1]
              rfl
            constructor
            · intro he hr
              subst he
              have := timer_firstSequential _ hr
              exact this.trans (hfit hT)
            · intro e _ hq
              rcases (QuizState.timer_stepSequential toLower _ e).2 with h1 | h1
              · exact absurd h1 hq
              · rw [h1, ht, ht0]
                exact hfit hT
  · intro winLimitGiven events s hT h
    have hmax : max loaded.Timeout 13 = 13 := max_eq_right hT
    rw [hmax]
    unfold runMultiQuiz at h
    simp only [] at h
    split at h
    · cases h
    · split at h
      · cases h
      · have hs : s = MultiState.run toLower (MultiState.present toLower
            { quizname := quizname,
              winLimit := parseWinLimit 15 loaded.Deck.length winLimitGiven, timeout := 13,
              waitTime := waitTimeGiven * Millisecond, quiz := loaded, quizHistory := [],
              players := [], timeoutCount := 0, current := ⟨"", [], ""⟩, answerMap := [],
              answersLeft := 0, scoreKeeper := [], scoreKeeperAnswers := [], timer := 0,
              sent := [Output.starting quizname loaded.Deck.length
                (parseWinLimit 15 loaded.Deck.length winLimitGiven)],
              running := true }) events := by
          split at h <;> exact (Option.some.inj h).symm
        have ht := MultiState.timeout_run_multi toLower
          (MultiState.present toLower
            { quizname := quizname,
              winLimit := parseWinLimit 15 loaded.Deck.length winLimitGiven, timeout := 13,
              waitTime := waitTimeGiven * Millisecond, quiz := loaded, quizHistory := [],
              players := [], timeoutCount := 0, current := ⟨"", [], ""⟩, answerMap := [],
              answersLeft := 0, scoreKeeper := [], scoreKeeperAnswers := [], timer := 0,
              sent := [Output.starting quizname loaded.Deck.length
                (parseWinLimit 15 loaded.Deck.length winLimitGiven)],
              running := true }) events
        rw [(MultiState.timer_present_multi toLower _).1, ← hs] at ht
        constructor
        · intro he hr
          subst he
          rw [hs] at hr ⊢
          exact timer_first_multi toLower _ hr
        · intro e _ hq
          rcases (MultiState.timer_step_multi toLower s e).2 with h1 | h1
          · exact absurd h1 hq
          · rw [h1, ht]

/-- Counterexample for C16: a standard session on a quiz with a custom timeout of 5
seconds arms the timer of the first question with 5 seconds, not with max(5, 20) = 20;
and on a quiz with a timeout of 9223372037 seconds the duration wraps around in `int64`
and the timer is armed with a negative duration. -/
theorem round_timer_counterexample :
    ((runQuiz Char.toLower ⟨[], []⟩ "ch" "demo" "" 2000
        ⟨"d", "text", 5, [⟨"Q1", ["a"], ""⟩]⟩ (fun _ => 0) []).session.map
        (fun s => (questionsSent s.sent, s.timer)))
      = some ([⟨"Q1", ["a"], ""⟩], 5 * Second) ∧
    ¬ ((runQuiz Char.toLower ⟨[], []⟩ "ch" "demo" "" 2000
        ⟨"d", "text", 5, [⟨"Q1", ["a"], ""⟩]⟩ (fun _ => 0) []).session.map
        (fun s => s.timer)) = some (max 5 20 * Second) ∧
    ((runQuiz Char.toLower ⟨[], []⟩ "ch" "demo" "" 2000
        ⟨"d", "text", 9223372037, [⟨"Q1", ["a"], ""⟩]⟩ (fun _ => 0) []).session.map
        (fun s => (questionsSent s.sent, s.timer)))
      = some ([⟨"Q1", ["a"], ""⟩], -9223372036709551616) ∧
    ¬ ((runQuiz Char.toLower ⟨[], []⟩ "ch" "demo" "" 2000
        ⟨"d", "text", 9223372037, [⟨"Q1", ["a"], ""⟩]⟩ (fun _ => 0) []).session.map
        (fun s => s.timer)) = some (max 9223372037 20 * Second) := by
  decide

/-- Witness for C16: a multi-answer session on a quiz without custom timeout whose card
has five answers arms the timer of the first question with 13 + 10 seconds. -/
theorem round_timer_witness :
    ((runMultiQuiz Char.toLower ⟨[], []⟩ "ch" "demo" "" 1500
        ⟨"d", "text", 0, [⟨"Q", ["a", "b", "c", "d", "e"], ""⟩]⟩ []).session.map
        (fun s => s.timer)) = some (23 * Second) ∧
    ((runQuiz Char.toLower ⟨[], []⟩ "ch" "demo" "" 2000
        ⟨"d", "text", 30, [⟨"Q1", ["a"], ""⟩]⟩ (fun _ => 0) []).session.map
        (fun s => s.timer)) = some (30 * Second) ∧
    (QuizState.present (QuizState.init "demo" 15 0 0 30 (2000 * Millisecond)
        ⟨"d", "text", 30, [⟨"Q1", ["a"], ""⟩]⟩)).timer = 30 * Second :=
  ⟨by decide, by decide,
    (((round_timer Char.toLower ⟨[], []⟩ "ch" "demo" 2000
        ⟨"d", "text", 30, [⟨"Q1", ["a"], ""⟩]⟩ (fun _ => 0)).1 "" []
      (QuizState.present (QuizState.init "demo" 15 0 0 30 (2000 * Millisecond)
        ⟨"d", "text", 30, [⟨"Q1", ["a"], ""⟩]⟩)) (by decide) (by decide)).1 rfl (by decide))⟩

/-! ### Acceptance of a candidate answer -/

theorem hasString_map_k2h (toLower : Char → Char) (answers : List String) (c : String) :
    hasString toLower (answers.map k2h) (k2h c)
      = answers.any (fun a =>
          decide (strLen (k2h c) = strLen (k2h a)) &&
            (decide (k2h c = k2h a) || decide (ToLower toLower (k2h c) = k2h a))) := by
  induction answers with
  | nil => rfl
  | cons a rest ih =>
    simp only [List.map_cons, hasString, List.any_cons]
    rw [ih]
    by_cases h : strLen (k2h c) = strLen (k2h a) ∧
        (k2h c = k2h a ∨ ToLower toLower (k2h c) = k2h a)
    · rw [if_pos h]
      rcases h with ⟨h1, h2 | h2⟩ <;> simp [h1, h2]
    · rw [if_neg h]
      have : (decide (strLen (k2h c) = strLen (k2h a)) &&
          (decide (k2h c = k2h a) || decide (ToLower toLower (k2h c) = k2h a))) = false := by
        by_contra hne
        simp only [Bool.not_eq_false, Bool.and_eq_true, Bool.or_eq_true,
          decide_eq_true_eq] at hne
        exact h hne
      rw [this]
      simp

namespace QuizState

theorem answers_present (s : QuizState) (h : (present s).running = true) :
    (present s).answers = (present s).current.Answers.map k2h := by
  unfold present at h ⊢
  split
  · rename_i hd
    simp [hd] at h
  · rfl

theorem answers_closeRound (s : QuizState) (h : (closeRound s).running = true) :
    (closeRound s).answers = (closeRound s).current.Answers.map k2h := by
  by_cases hlen : GoMap.len s.scoreKeeper > 0
  · by_cases hwin : (tally s.winLimit s.players s.scoreKeeper).winnerExists = true
    · simp only [closeRound, hlen, hwin, if_true] at h
      simp at h
    · simp only [closeRound, hlen, hwin, if_true, if_false, Bool.false_eq_true] at h ⊢
      exact answers_present _ h
  · simp only [closeRound, hlen, if_false] at h ⊢
    exact answers_present _ h

theorem answers_step (toLower : Char → Char) (s : QuizState) (e : Event)
    (hs : s.answers = s.current.Answers.map k2h) (h : (step toLower s e).running = true) :
    (step toLower s e).answers = (step toLower s e).current.Answers.map k2h := by
  cases e with
  | quit => simp [step, onQuit] at h
  | timeout =>
    simp only [step] at h ⊢
    split
    · rename_i hl
      simp only [hl, if_true] at h
      exact answers_closeRound s h
    · rename_i hl
      simp only [hl, if_false] at h
      split
      · rename_i ha
        simp only [ha, if_true] at h
        simp [abort] at h
      · rename_i ha
        simp only [ha, if_false] at h
        exact answers_closeRound _ h
  | msg m =>
    simp only [step, onMessage]
    split
    · exact hs
    · split <;> exact hs

theorem answers_run (toLower : Char → Char) (s : QuizState) (events : List Event)
    (hs : s.running = true → s.answers = s.current.Answers.map k2h)
    (h : (run toLower s events).running = true) :
    (run toLower s events).answers = (run toLower s events).current.Answers.map k2h := by
  induction events using List.reverseRecOn with
  | nil => exact hs h
  | append_singleton es e ih =>
    rw [quiz_run_snoc] at h ⊢
    split
    · rename_i hr
      rw [if_pos hr] at h
      exact answers_step toLower _ e (ih hr) h
    · rename_i hr
      rw [if_neg hr] at h
      exact absurd h hr

theorem accepted_eq (toLower : Char → Char) (s : QuizState) (m : Message)
    (hnew : GoMap.contains s.scoreKeeper m.AuthorID = false) :
    accepted toLower s m
      = (!(decide (m.Content = ".." ∨ m.Content = "。。")) &&
          hasString toLower s.answers (k2h m.Content)) := by
  unfold accepted onMessage
  by_cases h1 : m.Content = ".." ∨ m.Content = "。。"
  · simp [h1, hnew]
  · by_cases h2 : hasString toLower s.answers (k2h m.Content) = true
    · have hn : ¬ (GoMap.get s.scoreKeeper m.AuthorID).isSome = true := by
        simpa [GoMap.contains] using hnew
      simp [h1, h2, GoMap.contains, hn, GoMap.get_set_self]
    · simp [h1, h2, hnew]

end QuizState

theorem hasString_iff (toLower : Char → Char) (set : List String) (s : String) :
    hasString toLower set s = true
      ↔ ∃ str ∈ set, strLen s = strLen str ∧ (s = str ∨ ToLower toLower s = str) := by
  induction set with
  | nil => simp [hasString]
  | cons a rest ih =>
    simp only [hasString, List.mem_cons, exists_eq_or_imp]
    by_cases h : strLen s = strLen a ∧ (s = a ∨ ToLower toLower s = a)
    · simp [h]
    · rw [if_neg h, ih]
      exact ⟨fun hx => Or.inr hx, fun hx => hx.elim (fun h2 => absurd h2 h) id⟩

theorem foldAccepts_eq (toLower : Char → Char) (answers : List String) (c : String) :
    foldAccepts toLower answers c
      = (!(decide (c = ".." ∨ c = "。。")) && hasString toLower (answers.map k2h) (k2h c)) := by
  rw [hasString_map_k2h]
  rfl

theorem hasString_lower (toLower : Char → Char) (set : List String) (s : String)
    (hset : ∀ str ∈ set, ToLower toLower str = str) :
    hasString toLower set s = true
      ↔ ∃ str ∈ set, strLen s = strLen str ∧ ToLower toLower s = str := by
  rw [hasString_iff]
  constructor
  · rintro ⟨str, hm, hl, h | h⟩
    · exact ⟨str, hm, hl, by rw [h]; exact hset str hm⟩
    · exact ⟨str, hm, hl, h⟩
  · rintro ⟨str, hm, hl, h⟩
    exact ⟨str, hm, hl, Or.inr h⟩

/-- C17 (amended): in a round of `runQuiz`, the message of a participant who has no entry
in the score keeper yet is accepted iff it is not a pass token and, for one of the
answers of the card, the script-folded text has the byte length of the script-folded
answer and equals it as it stands or after lower-casing the text; the answer itself is
not lower-cased.  Acceptance is the same for two texts with the same script-folded form
and for two answer lists with the same script-folded forms; it is the same for two texts
of the same folded length and the same lower-cased folded form when lower-casing changes
none of the folded answers. -/
theorem candidate_acceptance (toLower : Char → Char) (s : QuizState) (events : List Event)
    (m : Message)
    (hr : (QuizState.run toLower (QuizState.present s) events).running = true)
    (hnew : GoMap.contains
      (QuizState.run toLower (QuizState.present s) events).scoreKeeper m.AuthorID = false) :
    QuizState.accepted toLower (QuizState.run toLower (QuizState.present s) events) m
      = foldAccepts toLower
          (QuizState.run toLower (QuizState.present s) events).current.Answers m.Content ∧
    (∀ (A : List String) (c : String),
      ¬ (c = ".." ∨ c = "。。") → ¬ (m.Content = ".." ∨ m.Content = "。。") →
      k2h c = k2h m.Content → foldAccepts toLower A c = foldAccepts toLower A m.Content) ∧
    (∀ (A B : List String), B.map k2h = A.map k2h →
      foldAccepts toLower B m.Content = foldAccepts toLower A m.Content) ∧
    (∀ (A : List String) (c : String), (∀ a ∈ A, ToLower toLower (k2h a) = k2h a) →
      ¬ (c = ".." ∨ c = "。。") → ¬ (m.Content = ".." ∨ m.Content = "。。") →
      ToLower toLower (k2h c) = ToLower toLower (k2h m.Content) →
      strLen (k2h c) = strLen (k2h m.Content) →
      foldAccepts toLower A c = foldAccepts toLower A m.Content) := by
  refine ⟨?_, ?_, ?_, ?_⟩
  · rw [QuizState.accepted_eq toLower _ m hnew, foldAccepts_eq,
      QuizState.answers_run toLower _ events (QuizState.answers_present s) hr]
  · intro A c hc hm hk
    rw [foldAccepts_eq, foldAccepts_eq, hk]
    simp [hc, hm]
  · intro A B hAB
    rw [foldAccepts_eq, foldAccepts_eq, hAB]
  · intro A c hA hc hm hlow hlen
    rw [foldAccepts_eq, foldAccepts_eq]
    have hset : ∀ str ∈ A.map k2h, ToLower toLower str = str := by
      intro str hstr
      obtain ⟨a, ha, rfl⟩ := List.mem_map.mp hstr
      exact hA a ha
    have : hasString toLower (A.map k2h) (k2h c)
        = hasString toLower (A.map k2h) (k2h m.Content) := by
      rw [Bool.eq_iff_iff, hasString_lower toLower _ _ hset, hasString_lower toLower _ _ hset,
        hlow, hlen]
    rw [this]
    simp [hc, hm]

/-- Counterexample for C17: on a card with the answer `Tokyo` the text `tokyo` is not
accepted, although both have the same case- and script-folded form, while the text
`Tokyo` is accepted: acceptance depends on the letter case of the reference answer and
of the input. -/
theorem candidate_acceptance_counterexample :
    ToLower Char.toLower (k2h "tokyo") = ToLower Char.toLower (k2h "Tokyo") ∧
    QuizState.accepted Char.toLower
      (QuizState.present (QuizState.init "demo" 15 0 0 20 (2000 * Millisecond)
        ⟨"d", "text", 0, [⟨"Q", ["Tokyo"], ""⟩]⟩)) ⟨"A", "tokyo"⟩ = false ∧
    QuizState.accepted Char.toLower
      (QuizState.present (QuizState.init "demo" 15 0 0 20 (2000 * Millisecond)
        ⟨"d", "text", 0, [⟨"Q", ["Tokyo"], ""⟩]⟩)) ⟨"A", "Tokyo"⟩ = true := by
  decide

/-- Witness for C17: on a card with the answer `カタ1` the text `かた１`, with hiragana
and a full-width digit, is accepted in the first round. -/
theorem candidate_acceptance_witness :
    QuizState.accepted Char.toLower
      (QuizState.run Char.toLower
        (QuizState.present (QuizState.init "demo" 15 0 0 20 (2000 * Millisecond)
          ⟨"d", "text", 0, [⟨"Q", ["カタ1"], ""⟩]⟩)) []) ⟨"A", "かた１"⟩
      = foldAccepts Char.toLower
          (QuizState.run Char.toLower
            (QuizState.present (QuizState.init "demo" 15 0 0 20 (2000 * Millisecond)
              ⟨"d", "text", 0, [⟨"Q", ["カタ1"], ""⟩]⟩)) []).current.Answers "かた１" ∧
    foldAccepts Char.toLower ["カタ1"] "かた１" = true ∧
    foldAccepts Char.toLower ["abc"] "ABC" = true :=
  ⟨(candidate_acceptance Char.toLower
      (QuizState.init "demo" 15 0 0 20 (2000 * Millisecond)
        ⟨"d", "text", 0, [⟨"Q", ["カタ1"], ""⟩]⟩) [] ⟨"A", "かた１"⟩ (by decide) (by decide)).1,
    by decide, by decide⟩

/-! ### The start index of `runQuizSequential` -/

theorem parseDigits_eq (ds : List Char) (n : Nat) :
    parseDigits ds n
      = if ds.all Char.isDigit = true then
          some (ds.foldl (fun n c => n * 10 + (c.toNat - 48)) n)
        else none := by
  induction ds generalizing n with
  | nil => simp [parseDigits]
  | cons c cs ih =>
    by_cases hc : c.isDigit = true
    · simp only [parseDigits, hc, if_true, ih, List.all_cons, Bool.true_and, List.foldl_cons]
    · simp [parseDigits, hc]

theorem atoi_parse_value (ds : List Char) :
    (if ds.isEmpty = true then ((0 : Int), false)
      else match parseDigits ds 0 with
        | none => (0, false)
        | some n =>
          if n ≥ 2 ^ 63 then ((2 ^ 63 : Int) - 1, false) else ((n : Int), true)).1
      = ((min (if ds ≠ [] ∧ ds.all Char.isDigit = true then
            ds.foldl (fun n c => n * 10 + (c.toNat - 48)) 0 else 0) (2 ^ 63 - 1) : Nat) : Int) := by
  cases ds with
  | nil => simp
  | cons c cs =>
    rw [parseDigits_eq]
    by_cases hall : (c :: cs).all Char.isDigit = true
    · simp only [List.isEmpty_cons, Bool.false_eq_true, if_false, hall, if_true, ne_eq,
        reduceCtorEq, not_false_eq_true, and_self]
      split <;> omega
    · simp [hall]

theorem atoi_value (text : String) (h : '-' ∉ text.data) :
    (Atoi text).1 = ((min (decimalValue text) (2 ^ 63 - 1) : Nat) : Int) := by
  unfold Atoi decimalValue
  simp only []
  split
  · rename_i ds hd
    rw [hd] at h
    simp at h
  · rename_i ds hd
    simp only [Bool.false_eq_true, if_false, hd]
    exact atoi_parse_value ds
  · simp only [Bool.false_eq_true, if_false]
    exact atoi_parse_value text.data

theorem startOffset_value (n : Nat) (text : String) (h : '-' ∉ text.data) (hn : n < 2 ^ 63) :
    startOffset n text = ((min (decimalValue text) n : Nat) : Int) := by
  unfold startOffset
  simp only []
  rw [atoi_value text h]
  split <;> omega

theorem startIndexText_append (text rest : String) (h : '-' ∉ text.data) :
    startIndexText (text ++ "-" ++ rest) = some text := by
  unfold startIndexText
  have hd : (text ++ "-" ++ rest).data = text.data ++ '-' :: rest.data := by
    simp [String.data_append]
  rw [hd]
  have htw : ∀ (l : List Char), '-' ∉ l →
      List.takeWhile (fun x => decide (x ≠ '-')) (l ++ '-' :: rest.data) = l := by
    intro l hl
    induction l with
    | nil => simp
    | cons a l ih =>
      have ha : a ≠ '-' := fun hh => hl (by simp [hh])
      have hl2 : '-' ∉ l := fun hh => hl (by simp [hh])
      have := ih hl2
      simpa [List.takeWhile_cons, ha] using this
  rw [if_pos (by simp), htw text.data h]

theorem finishRun_panicked (g : Globals) (ch : String) (s : QuizState) (sb : Scoreboard) :
    (finishRun g ch s sb).panicked = false := by
  unfold finishRun; split <;> rfl

/-- C18: for a start index with a `-`, of which `text` is the part before the first `-`,
and a deck of `n` cards (`n` below 2^63, as every Go length), `runQuizSequential` does not
panic; and when the channel is free and the deck is not empty, the session is set up with
the offset min(v, n), where `v` is the integer `text` stands for (0 when `text` is not an
integer): at any point the cards presented followed by the working deck are the loaded
deck without its first min(v, n) cards. -/
theorem start_index_clamped (toLower : Char → Char) (g : Globals) (ch quizname : String)
    (text rest : String) (waitTimeGiven : Int) (loaded : Quiz) (draw : Nat → Nat)
    (events : List Event) (hdash : '-' ∉ text.data)
    (hn : (sessionQuiz g ch quizname loaded draw).Deck.length < 2 ^ 63) :
    (runQuizSequential toLower g ch quizname (text ++ "-" ++ rest) waitTimeGiven loaded draw
      events).panicked = false ∧
    (hasQuiz g.Ongoing ch = false →
      (sessionQuiz g ch quizname loaded draw).Deck.length ≠ 0 →
      ∃ s, (runQuizSequential toLower g ch quizname (text ++ "-" ++ rest) waitTimeGiven loaded
          draw events).session = some s ∧
        s = QuizState.runSequential toLower
          (QuizState.startSequential quizname waitTimeGiven
            (sessionQuiz g ch quizname loaded draw)
            ((min (decimalValue text) (sessionQuiz g ch quizname loaded draw).Deck.length
              : Nat) : Int)) events ∧
        questionsSent s.sent ++ s.quiz.Deck
          = (sessionQuiz g ch quizname loaded draw).Deck.drop
              (min (decimalValue text) (sessionQuiz g ch quizname loaded draw).Deck.length)) := by
  have hoff := startOffset_value (sessionQuiz g ch quizname loaded draw).Deck.length text hdash hn
  have hnonneg : ¬ startOffset (sessionQuiz g ch quizname loaded draw).Deck.length text < 0 := by
    rw [hoff]; omega
  constructor
  · unfold runQuizSequential
    simp only [startIndexText_append text rest hdash]
    split
    · rfl
    · split
      · rfl
      · exact finishRun_panicked _ _ _ _
  · intro hfree hdeck
    have herr : ¬ (startQuiz g.Ongoing ch).err.isSome = true := by
      have : GoMap.contains g.Ongoing ch = false := hfree
      simp [startQuiz, this]
    refine ⟨_, ?_, rfl, ?_⟩
    · unfold runQuizSequential
      simp only [startIndexText_append text rest hdash, if_neg herr, if_neg hdeck,
        if_neg hnonneg]
      rw [finishRun_session, hoff]
    · have hinv := QuizState.seqInv_run toLower _ _ _ events
        (seqInv_start quizname waitTimeGiven (sessionQuiz g ch quizname loaded draw)
          ((min (decimalValue text) (sessionQuiz g ch quizname loaded draw).Deck.length
            : Nat) : Int))
      exact hinv.1

/-- Witness for C18 on the two-card deck `demoQuiz`: the start index `1-` begins at the
second card, the start indices `7-2` and `99999999999999999999-` are cut down to the
length of the deck, and `x-1` and `-3` begin at the first card. -/
theorem start_index_clamped_witness :
    questionsSent (QuizState.runSequential Char.toLower
        (QuizState.startSequential "demo" 2000 demoQuiz
          ((min (decimalValue "1") demoQuiz.Deck.length : Nat) : Int)) []).sent
      = [⟨"Q2", ["b"], ""⟩] ∧
    min (decimalValue "7") demoQuiz.Deck.length = 2 ∧
    min (decimalValue "99999999999999999999") demoQuiz.Deck.length = 2 ∧
    min (decimalValue "x") demoQuiz.Deck.length = 0 ∧
    min (decimalValue "") demoQuiz.Deck.length = 0 ∧
    (runQuizSequential Char.toLower ⟨[], []⟩ "ch" "demo" ("1" ++ "-" ++ "") 2000 demoQuiz
      (fun _ => 0) []).panicked = false :=
  ⟨by decide, by decide, by decide, by decide, by decide,
    (start_index_clamped Char.toLower ⟨[], []⟩ "ch" "demo" "1" "" 2000 demoQuiz (fun _ => 0) []
      (by decide) (by decide)).1⟩

/-! ### Anagram groups -/

theorem utf8Len_perm (l1 l2 : List Char) (h : l1.Perm l2) :
    String.utf8Len l1 = String.utf8Len l2 := by
  induction h with
  | nil => rfl
  | cons x _ ih => simp only [String.utf8Len_cons, ih]
  | swap x y l => simp only [String.utf8Len_cons]; omega
  | trans _ _ ih1 ih2 => exact ih1.trans ih2

theorem strLen_perm (s t : String) (h : s.data.Perm t.data) : strLen s = strLen t := by
  obtain ⟨l1⟩ := s
  obtain ⟨l2⟩ := t
  have := utf8Len_perm l1 l2 h
  simpa [strLen, String.utf8ByteSize] using this

theorem strLen_sortedChars (s : String) : strLen (sortedChars s) = strLen s :=
  strLen_perm _ _ (List.perm_insertionSort _ _)

theorem strLen_of_sortedChars (s t : String) (h : sortedChars s = sortedChars t) :
    strLen s = strLen t := by
  rw [← strLen_sortedChars s, ← strLen_sortedChars t, h]

namespace GoMap

theorem mem_set (m : GoMap V) (k : String) (v : V) (e : String × V)
    (h : e ∈ set m k v) : e ∈ m ∨ e = (k, v) := by
  induction m with
  | nil => simpa [set] using h
  | cons x m ih =>
    obtain ⟨k', v'⟩ := x
    by_cases hk : k' = k
    · simp only [set, hk, if_true, List.mem_cons] at h
      rcases h with h | h
      · exact Or.inr h
      · exact Or.inl (List.mem_cons_of_mem _ h)
    · simp only [set, hk, if_false, List.mem_cons] at h
      rcases h with h | h
      · exact Or.inl (by rw [h]; exact List.mem_cons_self _ _)
      · rcases ih h with h2 | h2
        · exact Or.inl (List.mem_cons_of_mem _ h2)
        · exact Or.inr h2

theorem mem_of_get (m : GoMap V) (k : String) (v : V) (h : get m k = some v) :
    (k, v) ∈ m := by
  induction m with
  | nil => simp [get] at h
  | cons x m ih =>
    obtain ⟨k', v'⟩ := x
    by_cases hk : k' = k
    · simp only [get, hk, if_true] at h
      cases h
      rw [hk]
      exact List.mem_cons_self _ _
    · simp only [get, hk, if_false] at h
      exact List.mem_cons_of_mem _ (ih h)

end GoMap

theorem groupsSorted_collectWord (dict : GoMap (List String)) (word : String)
    (h : GroupsSorted dict) : GroupsSorted (collectWord dict word) := by
  unfold collectWord
  split
  · intro e he
    rcases GoMap.mem_set _ _ _ e he with h1 | h1
    · exact h e h1
    · subst h1
      refine ⟨by simp, ?_⟩
      intro w hw
      rcases List.mem_append.mp hw with h2 | h2
      · cases hg : GoMap.get dict (sortedChars word) with
        | none => simp [hg] at h2
        | some g =>
          simp only [hg, Option.getD_some] at h2
          exact (h _ (GoMap.mem_of_get _ _ _ hg)).2 w h2
      · simp only [List.mem_singleton] at h2
        rw [h2]
  · exact h

theorem groupsSorted_foldl (lines : List String) (dict : GoMap (List String))
    (h : GroupsSorted dict) : GroupsSorted (lines.foldl collectWord dict) := by
  induction lines generalizing dict with
  | nil => exact h
  | cons w ws ih => exact ih _ (groupsSorted_collectWord dict w h)

/-- The groups of the scramble dictionary: no group is empty, and the words of a group
have the same sorted character set, so the same length in bytes. -/
theorem loadScrambleDictionary_groups (lines : List String) (group : List String)
    (h : group ∈ loadScrambleDictionary lines) :
    group ≠ [] ∧ ∀ w ∈ group, ∀ v ∈ group,
      sortedChars w = sortedChars v ∧ strLen w = strLen v := by
  unfold loadScrambleDictionary at h
  obtain ⟨e, he, rfl⟩ := List.mem_map.mp h
  have hs := groupsSorted_foldl lines [] (fun e he => by simp at he) e he
  refine ⟨hs.1, fun w hw v hv => ?_⟩
  have hwv : sortedChars w = sortedChars v := by rw [hs.2 w hw, hs.2 v hv]
  exact ⟨hwv, strLen_of_sortedChars w v hwv⟩

namespace ScrambleState

theorem groupInv_advance (toLower : Char → Char) (Dictionary : List (List String))
    (draws : Nat → Nat → Nat → Nat) (s : ScrambleState) (order : List Nat) :
    GroupInv Dictionary (advance toLower Dictionary draws s order) := by
  induction order with
  | nil => intro h; simp [advance] at h
  | cons idx rest ih =>
    simp only [advance]
    split
    · intro h; simp at h
    · intro h; simp at h
    · rename_i word others hd
      split
      · exact ih
      · split
        · exact ih
        · intro _
          exact ⟨List.getElem?_mem hd, rfl⟩

theorem groupInv_closeRound (toLower : Char → Char) (Dictionary : List (List String))
    (draws : Nat → Nat → Nat → Nat) (s : ScrambleState) :
    GroupInv Dictionary (closeRound toLower Dictionary draws s) := by
  by_cases hlen : GoMap.len s.scoreKeeper > 0
  · by_cases hwin : (tally s.winLimit s.players s.scoreKeeper).winnerExists = true
    · simp only [closeRound, hlen, hwin, if_true]
      intro h; simp at h
    · simp only [closeRound, hlen, hwin, if_true, if_false, Bool.false_eq_true]
      exact groupInv_advance toLower Dictionary draws _ _
  · simp only [closeRound, hlen, if_false]
    exact groupInv_advance toLower Dictionary draws _ _

theorem groupInv_step (toLower : Char → Char) (Dictionary : List (List String))
    (draws : Nat → Nat → Nat → Nat) (s : ScrambleState) (e : Event)
    (h : GroupInv Dictionary s) (hr : s.running = true) :
    GroupInv Dictionary (step toLower Dictionary draws s e) := by
  cases e with
  | quit => intro h2; simp [step] at h2
  | timeout =>
    simp only [step]
    split
    · exact groupInv_closeRound toLower Dictionary draws s
    · split
      · intro h2; simp [abort] at h2
      · exact groupInv_closeRound toLower Dictionary draws _
  | msg m =>
    have hs := onMessage_scramble_spec toLower s m
    intro _
    show (onMessage toLower s m).group ∈ Dictionary ∧
      (onMessage toLower s m).group.head? = some (onMessage toLower s m).word
    rw [hs.2.1, hs.2.2.1]
    exact h hr

theorem groupInv_run (toLower : Char → Char) (Dictionary : List (List String))
    (draws : Nat → Nat → Nat → Nat) (s : ScrambleState) (events : List Event)
    (h : GroupInv Dictionary s) :
    GroupInv Dictionary (run toLower Dictionary draws s events) := by
  induction events using List.reverseRecOn with
  | nil => exact h
  | append_singleton es e ih =>
    rw [run_scramble_snoc]
    split
    · rename_i hr
      exact groupInv_step toLower Dictionary draws _ e ih hr
    · exact ih

theorem accepted_scramble_eq (toLower : Char → Char) (s : ScrambleState) (m : Message)
    (hnew : GoMap.contains s.scoreKeeper m.AuthorID = false) :
    accepted toLower s m
      = (decide (strLen m.Content = strLen s.word) &&
          hasString toLower s.group (ToLower toLower m.Content)) := by
  unfold accepted onMessage
  by_cases h1 : strLen m.Content = strLen s.word
  · by_cases h2 : hasString toLower s.group (ToLower toLower m.Content) = true
    · have hn : ¬ (GoMap.get s.scoreKeeper m.AuthorID).isSome = true := by
        simpa [GoMap.contains] using hnew
      simp [h1, h2, GoMap.contains, hn, GoMap.get_set_self]
    · simp [h1, h2, hnew]
  · simp [h1, hnew]

end ScrambleState

/-- C20 (amended): in a round of `runScramble` on a dictionary made by
`loadScrambleDictionary`, the group in play is one of the dictionary; every member `w`
of it has the length of the representative word, so a message with the text `w` passes
the length check; and when lower-casing leaves `w` as it is, the message of a participant
without an entry in the score keeper passes the membership test and is accepted. -/
theorem scramble_member_accepted (toLower : Char → Char) (lines : List String)
    (draws : Nat → Nat → Nat → Nat) (s0 : ScrambleState) (order : List Nat)
    (events : List Event) (w : String)
    (hr : (ScrambleState.run toLower (loadScrambleDictionary lines) draws
      (ScrambleState.advance toLower (loadScrambleDictionary lines) draws s0 order)
      events).running = true)
    (hw : w ∈ (ScrambleState.run toLower (loadScrambleDictionary lines) draws
      (ScrambleState.advance toLower (loadScrambleDictionary lines) draws s0 order)
      events).group) :
    (ScrambleState.run toLower (loadScrambleDictionary lines) draws
      (ScrambleState.advance toLower (loadScrambleDictionary lines) draws s0 order)
      events).group ∈ loadScrambleDictionary lines ∧
    strLen w = strLen (ScrambleState.run toLower (loadScrambleDictionary lines) draws
      (ScrambleState.advance toLower (loadScrambleDictionary lines) draws s0 order)
      events).word ∧
    (ToLower toLower w = w → ∀ author : String,
      GoMap.contains (ScrambleState.run toLower (loadScrambleDictionary lines) draws
        (ScrambleState.advance toLower (loadScrambleDictionary lines) draws s0 order)
        events).scoreKeeper author = false →
      hasString toLower (ScrambleState.run toLower (loadScrambleDictionary lines) draws
        (ScrambleState.advance toLower (loadScrambleDictionary lines) draws s0 order)
        events).group (ToLower toLower w) = true ∧
      ScrambleState.accepted toLower
        (ScrambleState.run toLower (loadScrambleDictionary lines) draws
          (ScrambleState.advance toLower (loadScrambleDictionary lines) draws s0 order)
          events) ⟨author, w⟩ = true) := by
  have hinv := ScrambleState.groupInv_run toLower (loadScrambleDictionary lines) draws _ events
    (ScrambleState.groupInv_advance toLower (loadScrambleDictionary lines) draws s0 order) hr
  have hword : (ScrambleState.run toLower (loadScrambleDictionary lines) draws
      (ScrambleState.advance toLower (loadScrambleDictionary lines) draws s0 order)
      events).word ∈ (ScrambleState.run toLower (loadScrambleDictionary lines) draws
      (ScrambleState.advance toLower (loadScrambleDictionary lines) draws s0 order)
      events).group := List.mem_of_mem_head? hinv.2
  have hlen := ((loadScrambleDictionary_groups lines _ hinv.1).2 w hw _ hword).2
  refine ⟨hinv.1, hlen, ?_⟩
  intro hlow author hnew
  have hmem : hasString toLower (ScrambleState.run toLower (loadScrambleDictionary lines) draws
      (ScrambleState.advance toLower (loadScrambleDictionary lines) draws s0 order)
      events).group (ToLower toLower w) = true := by
    rw [hlow, hasString_iff]
    exact ⟨w, hw, rfl, Or.inl rfl⟩
  refine ⟨hmem, ?_⟩
  rw [ScrambleState.accepted_scramble_eq toLower _ ⟨author, w⟩ hnew]
  simp [hlen, hmem]

/-- Counterexample for C20: the dictionary made from the single line `Abc` has the group
of the word `Abc`; in the round on this group the message `Abc` is not accepted, because
its lower-case form `abc` is not a member of the group. -/
theorem scramble_member_accepted_counterexample :
    loadScrambleDictionary ["Abc"] = [["Abc"]] ∧
    (ScrambleState.advance Char.toLower (loadScrambleDictionary ["Abc"]) demoDraws
      demoScramble [0]).running = true ∧
    (ScrambleState.advance Char.toLower (loadScrambleDictionary ["Abc"]) demoDraws
      demoScramble [0]).group = ["Abc"] ∧
    ScrambleState.accepted Char.toLower
      (ScrambleState.advance Char.toLower (loadScrambleDictionary ["Abc"]) demoDraws
        demoScramble [0]) ⟨"A", "Abc"⟩ = false := by
  decide

/-- Witness for C20: the dictionary made from the lines `abc`, `listen`, `cab`, `silent`
has the groups of `abc` and of `listen`; in the round on the group of `abc` the message
`cab` is accepted. -/
theorem scramble_member_accepted_witness :
    loadScrambleDictionary ["abc", "listen", "", "cab", "silent"]
      = [["abc", "cab"], ["listen", "silent"]] ∧
    ScrambleState.accepted Char.toLower
      (ScrambleState.run Char.toLower
        (loadScrambleDictionary ["abc", "listen", "", "cab", "silent"]) demoDraws
        (ScrambleState.advance Char.toLower
          (loadScrambleDictionary ["abc", "listen", "", "cab", "silent"]) demoDraws
          demoScramble [0]) []) ⟨"A", "cab"⟩ = true :=
  ⟨by decide,
    (((scramble_member_accepted Char.toLower ["abc", "listen", "", "cab", "silent"] demoDraws
      demoScramble [0] [] "cab" (by decide) (by decide)).2.2 (by decide) "A"
      (by decide))).2⟩

/-! ### The gauntlet -/

namespace GauntletState

theorem gauntlet_run_cons (toLower : Char → Char) (s : GauntletState) (e : GauntletEvent)
    (events : List GauntletEvent) :
    run toLower s (e :: events)
      = run toLower (if s.running = true then step toLower s e else s) events := rfl

theorem gauntlet_run_stopped (toLower : Char → Char) (s : GauntletState)
    (events : List GauntletEvent) (h : s.running = false) : run toLower s events = s := by
  induction events with
  | nil => rfl
  | cons e es ih => rw [gauntlet_run_cons]; simp [h, ih]

/-- What the loop of `runGauntlet` does from a card that is shown: the leading messages
are counted, one for each card as long as cards are left, each message is checked against
the card shown when it comes, and a further card is shown after each message as long as
cards are left. -/
theorem gauntlet_run_spec (toLower : Char → Char) (events : List GauntletEvent) :
    ∀ s : GauntletState, s.running = true → s.answers = s.current.Answers.map k2h →
      0 ≤ s.correct → s.correct ≤ s.total →
      s.total + (s.quiz.Deck.length : Int) + 1 < 2 ^ 63 →
      (run toLower s events).total
        = s.total + ((min (leadingMessages events).length (s.quiz.Deck.length + 1) : Nat) : Int) ∧
      (run toLower s events).correct
        = s.correct + ((((s.current :: s.quiz.Deck.reverse).zip (leadingMessages events)).countP
            (gauntletAccepts toLower) : Nat) : Int) ∧
      gauntletQuestions (run toLower s events).sent
        = gauntletQuestions s.sent ++
          s.quiz.Deck.reverse.take (leadingMessages events).length := by
  induction events with
  | nil =>
    intro s _ _ _ _ _
    simp [run, leadingMessages]
  | cons e rest ih =>
    intro s hr ha hc0 hct hb
    rw [gauntlet_run_cons, if_pos hr]
    cases e with
    | quit elapsed =>
      rw [gauntlet_run_stopped toLower _ rest rfl]
      simp [step, leadingMessages]
    | timeout =>
      rw [gauntlet_run_stopped toLower _ rest rfl]
      simp [step, leadingMessages]
    | msg m =>
      have htot : (onMessage toLower s m).total = s.total + 1 := by
        have : wrapInt64 (s.total + 1) = s.total + 1 := wrapInt64_id _ (by omega) (by omega)
        unfold onMessage
        simp only []
        split <;> exact this
      have hcor : (onMessage toLower s m).correct
          = s.correct + if gauntletAccepts toLower (s.current, m) = true then 1 else 0 := by
        have hw : wrapInt64 (s.correct + 1) = s.correct + 1 :=
          wrapInt64_id _ (by omega) (by omega)
        unfold onMessage gauntletAccepts
        simp only [← ha]
        split
        · rename_i h1
          simp only [h1, if_true]
          exact hw
        · rename_i h1
          simp only [h1]
          simp
      have hfr : (onMessage toLower s m).quiz = s.quiz ∧
          (onMessage toLower s m).sent = s.sent := by
        unfold onMessage
        simp only []
        split <;> exact ⟨rfl, rfl⟩
      rcases List.eq_nil_or_concat s.quiz.Deck with hd | ⟨init, last, hd0⟩
      · have hp : present (onMessage toLower s m)
            = { onMessage toLower s m with running := false } := by
          unfold present
          rw [hfr.1, hd]
          simp [hfr.1]
        simp only [step]
        rw [hp, gauntlet_run_stopped toLower _ rest rfl]
        simp only [htot, hcor, hfr.2, hd, leadingMessages]
        refine ⟨by simp, ?_, by simp⟩
        simp only [List.reverse_nil, List.zip_cons_cons, List.zip_nil_left, List.countP_cons,
          List.countP_nil]
        split <;> simp
      · have hd : s.quiz.Deck = init ++ [last] := by rw [hd0, List.concat_eq_append]
        have hp : present (onMessage toLower s m)
            = { onMessage toLower s m with
                current := last
                quiz := { s.quiz with Deck := init }
                answers := last.Answers.map k2h
                sent := s.sent ++ [GauntletOutput.question last]
                running := true } := by
          unfold present
          rw [hfr.1, hfr.2, hd]
          simp
        simp only [step]
        rw [hp]
        have hlen : (s.quiz.Deck.length : Int) = init.length + 1 := by
          rw [hd]; simp
        have h2 := ih
          { onMessage toLower s m with
            current := last
            quiz := { s.quiz with Deck := init }
            answers := last.Answers.map k2h
            sent := s.sent ++ [GauntletOutput.question last]
            running := true }
          rfl rfl
          (by
            show 0 ≤ (onMessage toLower s m).correct
            rw [hcor]; split <;> omega)
          (by
            show (onMessage toLower s m).correct ≤ (onMessage toLower s m).total
            rw [hcor, htot]; split <;> omega)
          (by
            show (onMessage toLower s m).total + (init.length : Int) + 1 < 2 ^ 63
            rw [htot]; omega)
        obtain ⟨h3, h4, h5⟩ := h2
        simp only [] at h3 h4 h5
        refine ⟨?_, ?_, ?_⟩
        · rw [h3, htot, hd]
          simp only [leadingMessages, List.length_cons, List.length_append, List.length_nil]
          omega
        · rw [h4, hcor, hd]
          simp only [leadingMessages, List.reverse_append, List.reverse_cons, List.reverse_nil,
            List.nil_append, List.singleton_append, List.zip_cons_cons, List.countP_cons]
          push_cast
          split <;> omega
        · rw [h5, hd]
          simp [leadingMessages, gauntletQuestions, List.filterMap_append]

end GauntletState

theorem runGauntlet_session (toLower : Char → Char) (ongoing : GoMap Bool)
    (quizChannel author : String) (lookup : Nat → ChannelLookup)
    (quizname timeLimitGiven : String) (loaded : Quiz) (output : String)
    (events : List GauntletEvent) (s : GauntletState)
    (h : (runGauntlet toLower ongoing quizChannel author lookup quizname timeLimitGiven loaded
      output events).session = some s) :
    loaded.Deck.length ≠ 0 ∧
    s = GauntletState.run toLower
      (GauntletState.present
        { quizname := quizname, timeout := parseTimeLimit timeLimitGiven, quiz := loaded,
          current := ⟨"", [], ""⟩, answers := [], correct := 0, total := 0, quizHistory := [],
          sent := [GauntletOutput.starting quizname loaded.Deck.length loaded.Description
            (parseTimeLimit timeLimitGiven)],
          running := true }) events := by
  unfold runGauntlet at h
  split at h
  · cases h
  · cases h
  · simp only [] at h
    split at h
    · cases h
    · split at h
      · cases h
      · rename_i hlen
        refine ⟨hlen, ?_⟩
        split at h <;> exact (Option.some.inj h).symm

/-- C19: in a gauntlet on a deck of fewer than 2^31 cards, the messages in front of the
first stop signal or timeout are taken one for each card as long as cards are left;
`total` is the number of messages taken, `correct` the number of those accepted by the
answers of the card shown when they came, the cards being shown in the order they are
taken from the deck, one more after each message; so `correct <= total <= deck size`, and
the score is `correct^2 / total`, and 0 when `total` is 0. -/
theorem gauntlet_score (toLower : Char → Char) (ongoing : GoMap Bool)
    (quizChannel author : String) (lookup : Nat → ChannelLookup)
    (quizname timeLimitGiven : String) (loaded : Quiz) (output : String)
    (events : List GauntletEvent) (s : GauntletState)
    (hn : loaded.Deck.length < 2 ^ 31)
    (h : (runGauntlet toLower ongoing quizChannel author lookup quizname timeLimitGiven loaded
      output events).session = some s) :
    s.total = ((min (leadingMessages events).length loaded.Deck.length : Nat) : Int) ∧
    s.correct = (((loaded.Deck.reverse.zip (leadingMessages events)).countP
      (gauntletAccepts toLower) : Nat) : Int) ∧
    gauntletQuestions s.sent
      = loaded.Deck.reverse.take ((leadingMessages events).length + 1) ∧
    s.correct ≤ s.total ∧ s.total ≤ (loaded.Deck.length : Int) ∧
    GauntletState.score s
      = if s.total = 0 then 0 else (s.correct : ℚ) ^ 2 / (s.total : ℚ) := by
  obtain ⟨hlen, hs⟩ := runGauntlet_session toLower ongoing quizChannel author lookup quizname
    timeLimitGiven loaded output events s h
  rcases List.eq_nil_or_concat loaded.Deck with hd | ⟨init, last, hd0⟩
  · rw [hd] at hlen
    exact absurd rfl hlen
  have hd : loaded.Deck = init ++ [last] := by rw [hd0, List.concat_eq_append]
  have hp : GauntletState.present
      { quizname := quizname, timeout := parseTimeLimit timeLimitGiven, quiz := loaded,
        current := ⟨"", [], ""⟩, answers := [], correct := 0, total := 0, quizHistory := [],
        sent := [GauntletOutput.starting quizname loaded.Deck.length loaded.Description
          (parseTimeLimit timeLimitGiven)],
        running := true }
      = { quizname := quizname, timeout := parseTimeLimit timeLimitGiven,
          quiz := { loaded with Deck := init },
          current := last, answers := last.Answers.map k2h, correct := 0, total := 0,
          quizHistory := [],
          sent := [GauntletOutput.starting quizname loaded.Deck.length loaded.Description
            (parseTimeLimit timeLimitGiven)] ++ [GauntletOutput.question last],
          running := true } := by
    unfold GauntletState.present
    simp [hd]
  rw [hp] at hs
  have hlenI : (loaded.Deck.length : Int) = init.length + 1 := by rw [hd]; simp
  have hn2 : (loaded.Deck.length : Int) < 2 ^ 31 := by exact_mod_cast hn
  have hspec := GauntletState.gauntlet_run_spec toLower events
    { quizname := quizname, timeout := parseTimeLimit timeLimitGiven,
      quiz := { loaded with Deck := init },
      current := last, answers := last.Answers.map k2h, correct := 0, total := 0,
      quizHistory := [],
      sent := [GauntletOutput.starting quizname loaded.Deck.length loaded.Description
        (parseTimeLimit timeLimitGiven)] ++ [GauntletOutput.question last],
      running := true }
    rfl rfl (le_refl 0) (le_refl 0)
    (by
      show (0 : Int) + (init.length : Int) + 1 < 2 ^ 63
      omega)
  rw [← hs] at hspec
  obtain ⟨h1, h2, h3⟩ := hspec
  simp only [zero_add] at h1 h2
  have hrev : loaded.Deck.reverse = last :: init.reverse := by rw [hd]; simp
  have htotal : s.total
      = ((min (leadingMessages events).length loaded.Deck.length : Nat) : Int) := by
    rw [h1, hd]; simp
  have hcorrect : s.correct = (((loaded.Deck.reverse.zip (leadingMessages events)).countP
      (gauntletAccepts toLower) : Nat) : Int) := by
    rw [h2, hrev]
  have hle : s.correct ≤ s.total := by
    rw [hcorrect, htotal]
    have := List.countP_le_length (gauntletAccepts toLower)
      (l := loaded.Deck.reverse.zip (leadingMessages events))
    rw [List.length_zip, List.length_reverse] at this
    have h4 : List.countP (gauntletAccepts toLower)
        (loaded.Deck.reverse.zip (leadingMessages events))
        ≤ min (leadingMessages events).length loaded.Deck.length := by
      rw [Nat.min_comm]; exact this
    exact_mod_cast h4
  have htn : s.total ≤ (loaded.Deck.length : Int) := by
    rw [htotal]
    exact_mod_cast Nat.min_le_right _ _
  have hc0 : 0 ≤ s.correct := by rw [hcorrect]; exact Int.natCast_nonneg _
  refine ⟨htotal, hcorrect, ?_, hle, htn, ?_⟩
  · rw [h3, hrev]
    simp [gauntletQuestions]
  · have hcb : s.correct < 2 ^ 31 := by omega
    have hsq : s.correct * s.correct < 2 ^ 63 := by nlinarith
    have hsq0 : 0 ≤ s.correct * s.correct := mul_nonneg hc0 hc0
    have hw : wrapInt64 (s.correct * s.correct) = s.correct * s.correct :=
      wrapInt64_id _ (by omega) hsq
    unfold GauntletState.score
    rw [hw]
    by_cases ht : s.total = 0
    · have : ¬ s.total > 0 := by omega
      rw [if_neg this, if_pos ht]
    · have : s.total > 0 := by
        have : 0 ≤ s.total := le_trans hc0 hle
        omega
      rw [if_pos this, if_neg ht]
      push_cast
      ring

/-- Witness for C19: a gauntlet on the two cards of `demoQuiz`; the first message is right
for the card shown first, the second is wrong for the next card, and the third comes when
no card is left; two messages are counted, one of them as correct. -/
theorem gauntlet_score_witness :
    ((runGauntlet Char.toLower [] "dm" "A" (fun _ => ChannelLookup.channel 1) "demo" ""
        demoQuiz "" [GauntletEvent.msg ⟨"A", "b"⟩, GauntletEvent.msg ⟨"A", "x"⟩,
          GauntletEvent.msg ⟨"A", "a"⟩]).session.map
        (fun s => (s.total, s.correct, s.running, s.quizHistory)))
      = some (2, 1, false, ["a"]) ∧
    (GauntletState.run Char.toLower
      (GauntletState.present
        { quizname := "demo", timeout := 120, quiz := demoQuiz,
          current := ⟨"", [], ""⟩, answers := [], correct := 0, total := 0, quizHistory := [],
          sent := [GauntletOutput.starting "demo" 2 "d" 120],
          running := true })
      [GauntletEvent.msg ⟨"A", "b"⟩, GauntletEvent.msg ⟨"A", "x"⟩,
        GauntletEvent.msg ⟨"A", "a"⟩]).total
      = ((min (leadingMessages [GauntletEvent.msg ⟨"A", "b"⟩, GauntletEvent.msg ⟨"A", "x"⟩,
          GauntletEvent.msg ⟨"A", "a"⟩]).length demoQuiz.Deck.length : Nat) : Int) :=
  ⟨by decide,
    (gauntlet_score Char.toLower [] "dm" "A" (fun _ => ChannelLookup.channel 1) "demo" ""
      demoQuiz "" [GauntletEvent.msg ⟨"A", "b"⟩, GauntletEvent.msg ⟨"A", "x"⟩,
        GauntletEvent.msg ⟨"A", "a"⟩]
      (GauntletState.run Char.toLower
        (GauntletState.present
          { quizname := "demo", timeout := 120, quiz := demoQuiz,
            current := ⟨"", [], ""⟩, answers := [], correct := 0, total := 0,
            quizHistory := [],
            sent := [GauntletOutput.starting "demo" 2 "d" 120],
            running := true })
        [GauntletEvent.msg ⟨"A", "b"⟩, GauntletEvent.msg ⟨"A", "x"⟩,
          GauntletEvent.msg ⟨"A", "a"⟩])
      (by decide) rfl).1⟩

/-! ### Stopping a quiz -/

/-- C25: `stopQuiz` removes the channel whatever the registry holds: afterwards `hasQuiz`
is false for the channel and as before for every other channel; a second `stopQuiz` for
the same channel gives the registry and the status of the first one again; and on a
registry without the channel `stopQuiz` changes nothing. -/
theorem stopQuiz_idempotent (R : GoMap Bool) (ch : String) :
    hasQuiz (stopQuiz R ch).1 ch = false ∧
    (∀ c, c ≠ ch → hasQuiz (stopQuiz R ch).1 c = hasQuiz R c) ∧
    stopQuiz (stopQuiz R ch).1 ch = stopQuiz R ch ∧
    (hasQuiz R ch = false → (stopQuiz R ch).1 = R) := by
  have hdd : GoMap.delete (GoMap.delete R ch) ch = GoMap.delete R ch :=
    GoMap.delete_of_get_none _ _ (GoMap.get_delete_self R ch)
  refine ⟨hasQuiz_delete R ch, ?_, ?_, ?_⟩
  · intro c hc
    simp [stopQuiz, hasQuiz, GoMap.contains, GoMap.get_delete_ne _ _ _ hc]
  · simp only [stopQuiz]
    rw [hdd]
  · intro h
    have hn : GoMap.get R ch = none := by
      simpa [hasQuiz, GoMap.contains] using h
    exact GoMap.delete_of_get_none R ch hn

/-! ### Truncation -/

theorem length_le_utf8Len (l : List Char) : l.length ≤ String.utf8Len l := by
  induction l with
  | nil => simp
  | cons c cs ih =>
    rw [String.utf8Len_cons, List.length_cons]
    have := Char.utf8Size_pos c
    omega

theorem length_le_strLen (s : String) : s.length ≤ strLen s := by
  obtain ⟨l⟩ := s
  have := length_le_utf8Len l
  simpa [strLen, String.utf8ByteSize, String.length] using this

/-- C28: for every string `s` and every `n >= 6`, `truncate s n` does not panic and gives
a string of at most `n` runes: `s` itself when `s` has at most `n` runes, and otherwise
the first `n - 6` runes of `s` followed by ` [...]`, which are exactly `n` runes. -/
theorem truncate_spec (s : String) (n : Int) (hn : 6 ≤ n) :
    ∃ r, truncate s n = some r ∧ (r.length : Int) ≤ n ∧
      ((s.length : Int) ≤ n → r = s) ∧
      ((s.length : Int) > n →
        r = String.mk (s.data.take (n - 6).toNat) ++ " [...]" ∧ (r.length : Int) = n) := by
  by_cases hlong : (s.length : Int) > n
  · have hbytes : strLen s ≥ 6 := by
      have := length_le_strLen s
      omega
    have hb : 0 ≤ n - 6 ∧ n - 6 ≤ (s.length : Int) := by omega
    have hlen : ((String.mk (s.data.take (n - 6).toNat) ++ " [...]").length : Int) = n := by
      rw [String.length_append]
      have h1 : (String.mk (s.data.take (n - 6).toNat)).length = (n - 6).toNat := by
        show (s.data.take (n - 6).toNat).length = (n - 6).toNat
        rw [List.length_take]
        have : (n - 6).toNat ≤ s.data.length := by
          have h2 : s.data.length = s.length := rfl
          omega
        omega
      have h3 : (" [...]" : String).length = 6 := by decide
      rw [h1, h3]
      omega
    refine ⟨String.mk (s.data.take (n - 6).toNat) ++ " [...]", ?_, ?_, ?_, ?_⟩
    · simp only [truncate, hlong, hbytes, hb, and_self, if_true]
    · omega
    · intro h; omega
    · intro _; exact ⟨rfl, hlen⟩
  · refine ⟨s, ?_, by omega, fun _ => rfl, fun h => absurd h hlong⟩
    simp [truncate, hlong]

/-- Witness for C28: a text of ten runes cut to eight, a text of two runes of three bytes
each left as it is, and a text of ten such runes cut to eight runes. -/
theorem truncate_spec_witness :
    truncate "abcdefghij" 8 = some "ab [...]" ∧
    truncate "漢字" 6 = some "漢字" ∧
    truncate "一二三四五六七八九十" 8 = some "一二 [...]" ∧
    ∃ r, truncate "abcdefghij" 8 = some r ∧ (r.length : Int) ≤ 8 ∧
      ((("abcdefghij" : String).length : Int) ≤ 8 → r = "abcdefghij") ∧
      ((("abcdefghij" : String).length : Int) > 8 →
        r = String.mk (("abcdefghij" : String).data.take ((8 : Int) - 6).toNat) ++ " [...]" ∧
        (r.length : Int) = 8) :=
  ⟨by decide, by decide, by decide, truncate_spec "abcdefghij" 8 (by decide)⟩

/-! ### Sorting with `sort.Slice` -/

theorem sortSlice_perm {α : Type} (less : α → α → Bool) (l : List α) :
    (sortSlice less l).Perm l :=
  List.perm_insertionSort _ l

theorem sortSlice_sorted {α : Type} (less : α → α → Bool) (l : List α)
    (htotal : ∀ a b, less b a = false ∨ less a b = false)
    (htrans : ∀ a b c, less b a = false → less c b = false → less c a = false) :
    (sortSlice less l).Pairwise (fun a b => less b a = false) := by
  haveI : IsTotal α (fun a b => less b a = false) := ⟨htotal⟩
  haveI : IsTrans α (fun a b => less b a = false) := ⟨fun a b c => htrans a b c⟩
  exact List.sorted_insertionSort (fun a b => less b a = false) l

/-- A list without two elements that `less` does not tell apart has one sorted
arrangement: sorting any arrangement of a list that is in strict order gives that
list. -/
theorem sortSlice_eq_of_perm {α : Type} (less : α → α → Bool) (l sorted : List α)
    (htotal : ∀ a b, less b a = false ∨ less a b = false)
    (htrans : ∀ a b c, less b a = false → less c b = false → less c a = false)
    (hperm : l.Perm sorted) (hs : sorted.Pairwise (fun a b => less a b = true)) :
    sortSlice less l = sorted := by
  have hirr : ∀ a, less a a = false := fun a => (htotal a a).elim id id
  have hnd : sorted.Nodup := by
    refine hs.imp ?_
    intro a b hab heq
    subst heq
    rw [hirr a] at hab
    cases hab
  have hp : (sortSlice less l).Perm sorted := (sortSlice_perm less l).trans hperm
  have hnd2 : (sortSlice less l).Nodup := hp.nodup_iff.mpr hnd
  have hsym : sorted.Pairwise (fun a b => less a b = true ∨ less b a = true) :=
    hs.imp (fun h => Or.inl h)
  have hall : ∀ a ∈ sorted, ∀ b ∈ sorted, a ≠ b → (less a b = true ∨ less b a = true) :=
    List.Pairwise.forall (fun a b h => h.symm) hsym
  have hstrict : (sortSlice less l).Pairwise (fun a b => less a b = true) := by
    have h1 := (sortSlice_sorted less l htotal htrans).and hnd2
    refine h1.imp_of_mem ?_
    intro a b ha hb hab
    rcases hall a (hp.subset ha) b (hp.subset hb) hab.2 with h | h
    · exact h
    · rw [hab.1] at h
      cases h
  haveI : IsAntisymm α (fun a b => less a b = true) :=
    ⟨fun a b h1 h2 => by
      rcases htotal a b with h | h
      · rw [h] at h2; cases h2
      · rw [h] at h1; cases h1⟩
  exact List.eq_of_perm_of_sorted hp hstrict hs

/-! ### The order of Go strings -/

theorem runesLess_total (a : List Char) :
    ∀ b, runesLess b a = false ∨ runesLess a b = false := by
  induction a with
  | nil =>
    intro b
    cases b <;> simp [runesLess]
  | cons x as ih =>
    intro b
    cases b with
    | nil => simp [runesLess]
    | cons y bs =>
      rcases lt_trichotomy x y with h | h | h
      · have h2 : ¬ y < x := lt_asymm h
        simp [runesLess, h, h2]
      · subst h
        simpa [runesLess, lt_irrefl] using ih bs
      · have h2 : ¬ x < y := lt_asymm h
        simp [runesLess, h, h2]

theorem runesLess_trans (a : List Char) :
    ∀ b c, runesLess b a = false → runesLess c b = false → runesLess c a = false := by
  induction a with
  | nil =>
    intro b c _ _
    cases c <;> simp [runesLess]
  | cons x as ih =>
    intro b c hab hbc
    cases b with
    | nil => simp [runesLess] at hab
    | cons y bs =>
      cases c with
      | nil => simp [runesLess] at hbc
      | cons z cs =>
        rcases lt_trichotomy x y with h1 | h1 | h1
        · rcases lt_trichotomy y z with h2 | h2 | h2
          · have h3 : x < z := lt_trans h1 h2
            have h4 : ¬ z < x := lt_asymm h3
            simp [runesLess, h3, h4]
          · subst h2
            have h4 : ¬ y < x := lt_asymm h1
            simp [runesLess, h1, h4]
          · have h4 : ¬ y < z := lt_asymm h2
            simp [runesLess, h2, h4] at hbc
        · subst h1
          rcases lt_trichotomy x z with h2 | h2 | h2
          · have h4 : ¬ z < x := lt_asymm h2
            simp [runesLess, h2, h4]
          · subst h2
            simp only [runesLess, lt_irrefl, if_false] at hab hbc ⊢
            exact ih bs cs hab hbc
          · have h4 : ¬ x < z := lt_asymm h2
            simp [runesLess, h2, h4] at hbc
        · have h4 : ¬ x < y := lt_asymm h1
          simp [runesLess, h1, h4] at hab

theorem runesLess_connex (a : List Char) :
    ∀ b, runesLess a b = false → runesLess b a = false → a = b := by
  induction a with
  | nil =>
    intro b h1 _
    cases b with
    | nil => rfl
    | cons y bs => simp [runesLess] at h1
  | cons x as ih =>
    intro b h1 h2
    cases b with
    | nil => simp [runesLess] at h2
    | cons y bs =>
      rcases lt_trichotomy x y with h | h | h
      · simp [runesLess, h] at h1
      · subst h
        simp only [runesLess, lt_irrefl, if_false] at h1 h2
        rw [ih bs h1 h2]
      · simp [runesLess, h] at h2

theorem goLess_total (a b : String) : goLess b a = false ∨ goLess a b = false :=
  runesLess_total a.data b.data

theorem goLess_trans (a b c : String) (h1 : goLess b a = false) (h2 : goLess c b = false) :
    goLess c a = false :=
  runesLess_trans a.data b.data c.data h1 h2

theorem goLess_connex (a b : String) (h1 : goLess a b = false) (h2 : goLess b a = false) :
    a = b := by
  have := runesLess_connex a.data b.data h1 h2
  obtain ⟨x⟩ := a
  obtain ⟨y⟩ := b
  exact congrArg String.mk this

/-! ### The string set of the validator -/

namespace GoMap

theorem mem_keys_set (m : GoMap V) (k x : String) (v : V) :
    x ∈ keys (set m k v) ↔ x = k ∨ x ∈ keys m := by
  rw [keys_set]
  split
  · rename_i h
    constructor
    · exact fun hx => Or.inr hx
    · rintro (hx | hx)
      · rw [hx]; exact h
      · exact hx
  · simp [or_comm]

theorem mem_keys_delete (m : GoMap V) (k x : String) :
    x ∈ keys (delete m k) ↔ x ≠ k ∧ x ∈ keys m := by
  rw [mem_keys_iff, mem_keys_iff]
  by_cases h : x = k
  · subst h
    simp [get_delete_self]
  · rw [get_delete_ne _ _ _ h]
    simp [h]

theorem keys_delete_sublist (m : GoMap V) (k : String) :
    (keys (delete m k)).Sublist (keys m) := by
  induction m with
  | nil => simp [delete, keys]
  | cons e m ih =>
    obtain ⟨k', v'⟩ := e
    by_cases h : k' = k
    · simp only [delete, h, if_true]
      exact List.Sublist.cons _ ih
    · simp only [delete, h, if_false]
      exact List.Sublist.cons₂ _ ih

theorem WF_delete (m : GoMap V) (k : String) (h : WF m) : WF (delete m k) :=
  List.Nodup.sublist (keys_delete_sublist m k) h

end GoMap

namespace SortedStringSet

/-- The values of a set are its members in some order. -/
theorem values_perm (iter : GoMap Int → GoMap Int) (hiter : IterationOrder iter)
    (set : SortedStringSet) : (Values iter set).Perm (GoMap.keys set.content) :=
  (sortSlice_perm _ _).trans ((hiter set.content).map Prod.fst)

/-- The values of a set come in the order of their indices. -/
theorem values_sorted (iter : GoMap Int → GoMap Int) (set : SortedStringSet) :
    (Values iter set).Pairwise (fun a b =>
      (GoMap.get set.content a).getD 0 ≤ (GoMap.get set.content b).getD 0) := by
  have h := sortSlice_sorted
    (fun a b => decide ((GoMap.get set.content a).getD 0 < (GoMap.get set.content b).getD 0))
    ((iter set.content).map Prod.fst)
    (fun a b => by
      by_cases h : (GoMap.get set.content b).getD 0 < (GoMap.get set.content a).getD 0
      · right; simp only [decide_eq_false_iff_not]; omega
      · left; simp only [decide_eq_false_iff_not]; exact h)
    (fun a b c h1 h2 => by
      simp only [decide_eq_false_iff_not] at h1 h2 ⊢
      omega)
  refine h.imp ?_
  intro a b hab
  simp only [decide_eq_false_iff_not] at hab
  omega

/-- When the members can be listed with strictly growing indices, that list is the list
of values, whatever the order in which the map is gone over. -/
theorem values_eq (iter : GoMap Int → GoMap Int) (hiter : IterationOrder iter)
    (set : SortedStringSet) (xs : List String) (hperm : (GoMap.keys set.content).Perm xs)
    (hs : xs.Pairwise (fun a b =>
      (GoMap.get set.content a).getD 0 < (GoMap.get set.content b).getD 0)) :
    Values iter set = xs := by
  unfold Values
  apply sortSlice_eq_of_perm
  · intro a b
    by_cases h : (GoMap.get set.content b).getD 0 < (GoMap.get set.content a).getD 0
    · right; simp only [decide_eq_false_iff_not]; omega
    · left; simp only [decide_eq_false_iff_not]; exact h
  · intro a b c h1 h2
    simp only [decide_eq_false_iff_not] at h1 h2 ⊢
    omega
  · exact ((hiter set.content).map Prod.fst).trans hperm
  · exact hs.imp (fun h => by simpa using h)

theorem addAllFrom_keys (strs : List String) :
    ∀ (set : SortedStringSet) (i : Int) (dups : List String) (x : String),
      x ∈ GoMap.keys (addAllFrom set strs i dups).1.content
        ↔ x ∈ strs ∨ x ∈ GoMap.keys set.content := by
  induction strs with
  | nil => intro set i dups x; simp [addAllFrom]
  | cons s rest ih =>
    intro set i dups x
    simp only [addAllFrom]
    rw [ih]
    simp only [AddOrdered, GoMap.mem_keys_set, List.mem_cons]
    tauto

theorem addAllFrom_WF (strs : List String) :
    ∀ (set : SortedStringSet) (i : Int) (dups : List String),
      GoMap.WF set.content → GoMap.WF (addAllFrom set strs i dups).1.content := by
  induction strs with
  | nil => intro set i dups h; exact h
  | cons s rest ih =>
    intro set i dups h
    simp only [addAllFrom]
    exact ih _ _ _ (GoMap.WF_set _ _ _ h)

end SortedStringSet

/-- The part of `live` that looks at one call: the call adds the string. -/
theorem live_cons (s : String) (op : SetOp) (ops : List SetOp) :
    live s (op :: ops)
      = (live s ops ||
          (!ops.any (fun o => decide (o = SetOp.remove s)) &&
            match op with
            | SetOp.add t => decide (t = s)
            | SetOp.addAll strs => strs.contains s
            | SetOp.addOrdered t _ => decide (t = s)
            | SetOp.remove _ => false)) := rfl

theorem live_snoc (s : String) (ops : List SetOp) (op : SetOp) :
    live s (ops ++ [op])
      = match op with
        | SetOp.add t => live s ops || decide (t = s)
        | SetOp.addAll strs => live s ops || strs.contains s
        | SetOp.addOrdered t _ => live s ops || decide (t = s)
        | SetOp.remove t => live s ops && !decide (t = s) := by
  induction ops with
  | nil => cases op <;> simp [live]
  | cons o os ih =>
    rw [List.cons_append, live_cons, ih, live_cons]
    generalize live s os = A
    generalize (match o with
      | SetOp.add t => decide (t = s)
      | SetOp.addAll strs => strs.contains s
      | SetOp.addOrdered t _ => decide (t = s)
      | SetOp.remove _ => false) = C
    rw [List.any_append]
    generalize os.any (fun o => decide (o = SetOp.remove s)) = B
    cases op with
    | add t => cases A <;> cases B <;> cases C <;> simp
    | addAll strs => cases A <;> cases B <;> cases C <;> simp
    | addOrdered t i => cases A <;> cases B <;> cases C <;> simp
    | remove t =>
      by_cases hts : t = s
      · subst hts
        cases A <;> cases B <;> cases C <;> simp
      · have hne : ¬ SetOp.remove t = SetOp.remove s := fun h => hts (SetOp.remove.inj h)
        cases A <;> cases B <;> cases C <;> simp [hts, hne]

theorem applyOps_snoc (ops : List SetOp) (op : SetOp) :
    applyOps (ops ++ [op]) = SetOp.apply (applyOps ops) op := by
  simp [applyOps, List.foldl_append]

/-- The members of the set after a sequence of calls are the strings that were added and
not removed afterwards, and each is kept once. -/
theorem applyOps_keys (ops : List SetOp) :
    GoMap.WF (applyOps ops).content ∧
    ∀ s, s ∈ GoMap.keys (applyOps ops).content ↔ live s ops = true := by
  induction ops using List.reverseRecOn with
  | nil => exact ⟨GoMap.WF_nil, fun s => by simp [applyOps, NewStringSet, GoMap.keys, live]⟩
  | append_singleton ops op ih =>
    obtain ⟨hwf, hk⟩ := ih
    rw [applyOps_snoc]
    cases op with
    | add t =>
      refine ⟨GoMap.WF_set _ _ _ hwf, fun s => ?_⟩
      rw [live_snoc]
      simp only [SetOp.apply, SortedStringSet.Add, SortedStringSet.AddOrdered,
        GoMap.mem_keys_set, hk, Bool.or_eq_true, decide_eq_true_eq]
      constructor
      · rintro (h | h)
        · exact Or.inr h.symm
        · exact Or.inl h
      · rintro (h | h)
        · exact Or.inr h
        · exact Or.inl h.symm
    | addAll strs =>
      refine ⟨SortedStringSet.addAllFrom_WF _ _ _ _ hwf, fun s => ?_⟩
      rw [live_snoc]
      simp only [SetOp.apply, SortedStringSet.AddAll, SortedStringSet.addAllFrom_keys, hk,
        Bool.or_eq_true]
      have hc : strs.contains s = true ↔ s ∈ strs := by simp
      rw [hc]
      tauto
    | addOrdered t i =>
      refine ⟨GoMap.WF_set _ _ _ hwf, fun s => ?_⟩
      rw [live_snoc]
      simp only [SetOp.apply, SortedStringSet.AddOrdered,
        GoMap.mem_keys_set, hk, Bool.or_eq_true, decide_eq_true_eq]
      constructor
      · rintro (h | h)
        · exact Or.inr h.symm
        · exact Or.inl h
      · rintro (h | h)
        · exact Or.inr h
        · exact Or.inl h.symm
    | remove t =>
      refine ⟨GoMap.WF_delete _ _ hwf, fun s => ?_⟩
      rw [live_snoc]
      simp only [SetOp.apply, SortedStringSet.Remove, GoMap.mem_keys_delete, hk,
        Bool.and_eq_true, Bool.not_eq_true', decide_eq_false_iff_not]
      constructor
      · rintro ⟨h1, h2⟩
        exact ⟨h2, fun h => h1 h.symm⟩
      · rintro ⟨h1, h2⟩
        exact ⟨fun h => h2 h.symm, h1⟩

/-- C23: after every sequence of `Add`, `AddAll`, `AddOrdered` and `Remove` calls on a new
`SortedStringSet`, and for every order in which Go ranges over the map, `Values()` has no
string twice, holds exactly the strings that were added and not removed afterwards, and
is empty iff `IsEmpty()` is true. -/
theorem stringSet_values (iter : GoMap Int → GoMap Int) (hiter : IterationOrder iter)
    (ops : List SetOp) :
    (SortedStringSet.Values iter (applyOps ops)).Nodup ∧
    (∀ s, s ∈ SortedStringSet.Values iter (applyOps ops) ↔ live s ops = true) ∧
    (SortedStringSet.IsEmpty (applyOps ops) = true
      ↔ SortedStringSet.Values iter (applyOps ops) = []) := by
  have hp := SortedStringSet.values_perm iter hiter (applyOps ops)
  obtain ⟨hwf, hk⟩ := applyOps_keys ops
  refine ⟨hp.nodup_iff.mpr hwf, fun s => ?_, ?_⟩
  · rw [hp.mem_iff, hk]
  · simp only [SortedStringSet.IsEmpty, decide_eq_true_eq, GoMap.len]
    constructor
    · intro h
      have h0 : (applyOps ops).content = [] := List.length_eq_zero.mp h
      have : (GoMap.keys (applyOps ops).content) = [] := by rw [h0]; rfl
      rw [this] at hp
      exact hp.eq_nil
    · intro h
      rw [h] at hp
      have : GoMap.keys (applyOps ops).content = [] := hp.symm.eq_nil
      have h0 : (applyOps ops).content = [] := by
        simpa [GoMap.keys] using this
      rw [h0]; rfl

/-- Witness for C23, the calls of the repository's test `TestStringSet`: after
`AddAll("a", "a", "b")`, `Add("c")`, `Add("c")` the values are `a`, `b`, `c`; after
`Remove("c")` they are `a`, `b`; after the removal of `a` and `b` the set is empty. -/
theorem stringSet_values_witness :
    IterationOrder (List.reverse : GoMap Int → GoMap Int) ∧
    SortedStringSet.Values List.reverse
      (applyOps [SetOp.addAll ["a", "a", "b"], SetOp.add "c", SetOp.add "c"])
      = ["a", "b", "c"] ∧
    SortedStringSet.Values List.reverse
      (applyOps [SetOp.addAll ["a", "a", "b"], SetOp.add "c", SetOp.add "c",
        SetOp.remove "c"]) = ["a", "b"] ∧
    SortedStringSet.IsEmpty
      (applyOps [SetOp.addAll ["a", "a", "b"], SetOp.add "c", SetOp.add "c",
        SetOp.remove "c", SetOp.remove "a", SetOp.remove "b"]) = true ∧
    (SortedStringSet.Values List.reverse
      (applyOps [SetOp.addAll ["a", "a", "b"], SetOp.add "c", SetOp.add "c",
        SetOp.remove "c"])).Nodup :=
  ⟨fun m => List.reverse_perm m, by decide, by decide, by decide,
    (stringSet_values List.reverse (fun m => List.reverse_perm m)
      [SetOp.addAll ["a", "a", "b"], SetOp.add "c", SetOp.add "c", SetOp.remove "c"]).1⟩

/-! ### The order of the values of a string set -/

theorem keys_indexFrom (xs : List String) : ∀ i, GoMap.keys (indexFrom i xs) = xs := by
  induction xs with
  | nil => intro i; rfl
  | cons x xs ih =>
    intro i
    simp only [indexFrom, GoMap.keys, List.map_cons]
    exact congrArg _ (ih (i + 1))

theorem get_indexFrom_ge (xs : List String) :
    ∀ (i : Int) (x : String), x ∈ xs → ∃ v, GoMap.get (indexFrom i xs) x = some v ∧ i ≤ v := by
  induction xs with
  | nil => intro i x hx; simp at hx
  | cons y ys ih =>
    intro i x hx
    by_cases h : y = x
    · exact ⟨i, by simp [indexFrom, GoMap.get, h], le_refl i⟩
    · have hx2 : x ∈ ys := by
        rcases List.mem_cons.mp hx with h2 | h2
        · exact absurd h2.symm h
        · exact h2
      obtain ⟨v, hv, hle⟩ := ih (i + 1) x hx2
      exact ⟨v, by simp [indexFrom, GoMap.get, h, hv], by omega⟩

theorem indexFrom_strict (xs : List String) (hnd : xs.Nodup) :
    ∀ i : Int, xs.Pairwise (fun a b =>
      (GoMap.get (indexFrom i xs) a).getD 0 < (GoMap.get (indexFrom i xs) b).getD 0) := by
  induction xs with
  | nil => intro i; exact List.Pairwise.nil
  | cons x xs ih =>
    intro i
    have hx : x ∉ xs := (List.nodup_cons.mp hnd).1
    have hnd2 : xs.Nodup := (List.nodup_cons.mp hnd).2
    rw [List.pairwise_cons]
    constructor
    · intro b hb
      have hbx : ¬ x = b := fun h => hx (h ▸ hb)
      obtain ⟨v, hv, hle⟩ := get_indexFrom_ge xs (i + 1) b hb
      simp only [indexFrom, GoMap.get, if_true, if_neg hbx, hv, Option.getD_some]
      omega
    · refine (ih hnd2 (i + 1)).imp_of_mem ?_
      intro a b ha hb hab
      have hax : ¬ x = a := fun h => hx (h ▸ ha)
      have hbx : ¬ x = b := fun h => hx (h ▸ hb)
      simpa [indexFrom, GoMap.get, hax, hbx] using hab

namespace SortedStringSet

theorem addAllFrom_fresh (xs : List String) :
    ∀ (set : SortedStringSet) (i : Int) (dups : List String), xs.Nodup →
      (∀ x ∈ xs, x ∉ GoMap.keys set.content) →
      addAllFrom set xs i dups = (⟨set.content ++ indexFrom i xs⟩, dups) := by
  induction xs with
  | nil => intro set i dups _ _; simp [addAllFrom, indexFrom]
  | cons x xs ih =>
    intro set i dups hnd hfresh
    have hx : x ∉ xs := (List.nodup_cons.mp hnd).1
    have hnd2 : xs.Nodup := (List.nodup_cons.mp hnd).2
    have hnone : GoMap.get set.content x = none :=
      (GoMap.get_none_iff _ _).mpr (hfresh x (List.mem_cons_self _ _))
    have hc : GoMap.contains set.content x = false := by simp [GoMap.contains, hnone]
    simp only [addAllFrom, AddOrdered, hc, Bool.not_false, if_true]
    rw [GoMap.set_of_get_none _ _ _ hnone, ih _ _ _ hnd2]
    · simp [indexFrom]
    · intro y hy
      simp only [GoMap.keys, List.map_append, List.map_cons, List.map_nil, List.mem_append,
        List.mem_singleton]
      rintro (h | h)
      · exact hfresh y (List.mem_cons_of_mem _ hy) h
      · exact hx (h ▸ hy)

theorem foldl_Add_fresh (xs : List String) :
    ∀ (set : SortedStringSet), xs.Nodup → (∀ x ∈ xs, x ∉ GoMap.keys set.content) →
      xs.foldl (fun set x => (set.Add x).1) set
        = ⟨set.content ++ indexFrom (GoMap.len set.content : Int) xs⟩ := by
  induction xs with
  | nil => intro set _ _; simp [indexFrom]
  | cons x xs ih =>
    intro set hnd hfresh
    have hx : x ∉ xs := (List.nodup_cons.mp hnd).1
    have hnd2 : xs.Nodup := (List.nodup_cons.mp hnd).2
    have hnone : GoMap.get set.content x = none :=
      (GoMap.get_none_iff _ _).mpr (hfresh x (List.mem_cons_self _ _))
    have hstep : (set.Add x).1 = ⟨set.content ++ [(x, (GoMap.len set.content : Int))]⟩ := by
      simp only [Add, AddOrdered]
      rw [GoMap.set_of_get_none _ _ _ hnone]
    rw [List.foldl_cons, hstep, ih _ hnd2]
    · simp [indexFrom, GoMap.len]
    · intro y hy
      simp only [GoMap.keys, List.map_append, List.map_cons, List.map_nil, List.mem_append,
        List.mem_singleton]
      rintro (h | h)
      · exact hfresh y (List.mem_cons_of_mem _ hy) h
      · exact hx (h ▸ hy)

theorem foldl_AddOrdered_fresh (P : GoMap Int) :
    ∀ (set : SortedStringSet), GoMap.WF P → (∀ x ∈ GoMap.keys P, x ∉ GoMap.keys set.content) →
      P.foldl (fun set e => (set.AddOrdered e.1 e.2).1) set = ⟨set.content ++ P⟩ := by
  induction P with
  | nil => intro set _ _; simp
  | cons e P ih =>
    intro set hwf hfresh
    obtain ⟨k, v⟩ := e
    have hnd : k ∉ GoMap.keys P ∧ GoMap.WF P := by
      simpa [GoMap.WF, GoMap.keys] using hwf
    have hnone : GoMap.get set.content k = none :=
      (GoMap.get_none_iff _ _).mpr (hfresh k (by simp [GoMap.keys]))
    have hstep : (set.AddOrdered k v).1 = ⟨set.content ++ [(k, v)]⟩ := by
      simp only [AddOrdered]
      rw [GoMap.set_of_get_none _ _ _ hnone]
    rw [List.foldl_cons, hstep, ih _ hnd.2]
    · simp
    · intro y hy
      simp only [GoMap.keys, List.map_append, List.map_cons, List.map_nil, List.mem_append,
        List.mem_singleton]
      rintro (h | h)
      · exact hfresh y (by simp only [GoMap.keys, List.map_cons, List.mem_cons]; exact Or.inr hy) h
      · exact hnd.1 (h ▸ hy)

theorem values_indexFrom (iter : GoMap Int → GoMap Int) (hiter : IterationOrder iter)
    (xs : List String) (hnd : xs.Nodup) (i : Int) :
    Values iter ⟨indexFrom i xs⟩ = xs :=
  values_eq iter hiter ⟨indexFrom i xs⟩ xs (by rw [keys_indexFrom]) (indexFrom_strict xs hnd i)

end SortedStringSet

/-- C24: for every order in which Go ranges over the map, `Values()` lists the members
in ascending order of their index; on a new set, `AddAll(xs...)` and `Add` of each
element of `xs` in turn give `Values()` equal to `xs` when the strings of `xs` are
pairwise distinct; and distinct strings given distinct positions with `AddOrdered`
come out in the order of the positions, in whatever order they were inserted. -/
theorem stringSet_order (iter : GoMap Int → GoMap Int) (hiter : IterationOrder iter) :
    (∀ set : SortedStringSet,
      (SortedStringSet.Values iter set).Pairwise (fun a b =>
        (GoMap.get set.content a).getD 0 ≤ (GoMap.get set.content b).getD 0)) ∧
    (∀ xs : List String, xs.Nodup →
      SortedStringSet.Values iter (NewStringSet.AddAll xs).1 = xs ∧
      (NewStringSet.AddAll xs).2 = [] ∧
      SortedStringSet.Values iter (xs.foldl (fun set x => (set.Add x).1) NewStringSet) = xs) ∧
    (∀ P inserted : GoMap Int, GoMap.WF P → P.Pairwise (fun a b => a.2 < b.2) →
      inserted.Perm P →
      SortedStringSet.Values iter
        (inserted.foldl (fun set e => (set.AddOrdered e.1 e.2).1) NewStringSet)
        = P.map Prod.fst) := by
  refine ⟨fun set => SortedStringSet.values_sorted iter set, ?_, ?_⟩
  · intro xs hnd
    have h1 := SortedStringSet.addAllFrom_fresh xs NewStringSet 0 [] hnd
      (fun x _ => by simp [NewStringSet, GoMap.keys])
    have h2 := SortedStringSet.foldl_Add_fresh xs NewStringSet hnd
      (fun x _ => by simp [NewStringSet, GoMap.keys])
    refine ⟨?_, ?_, ?_⟩
    · unfold SortedStringSet.AddAll
      rw [h1]
      exact SortedStringSet.values_indexFrom iter hiter xs hnd 0
    · unfold SortedStringSet.AddAll
      rw [h1]
    · rw [h2]
      exact SortedStringSet.values_indexFrom iter hiter xs hnd _
  · intro P inserted hwf hpos hperm
    have hwf2 : GoMap.WF inserted := (hperm.map Prod.fst).nodup_iff.mpr hwf
    rw [SortedStringSet.foldl_AddOrdered_fresh inserted NewStringSet hwf2
      (fun x _ => by simp [NewStringSet, GoMap.keys])]
    apply SortedStringSet.values_eq iter hiter
    · exact hperm.map Prod.fst
    · rw [List.pairwise_map]
      refine hpos.imp_of_mem ?_
      intro a b ha hb hab
      have hga : GoMap.get inserted a.1 = some a.2 :=
        GoMap.get_of_mem inserted hwf2 a.1 a.2 (hperm.mem_iff.mpr ha)
      have hgb : GoMap.get inserted b.1 = some b.2 :=
        GoMap.get_of_mem inserted hwf2 b.1 b.2 (hperm.mem_iff.mpr hb)
      simp only [NewStringSet, List.nil_append, hga, hgb, Option.getD_some]
      exact hab

/-- Witness for C24, the order test of the repository's `TestStringSet`: `Add("a")`,
`Add("b")`, `AddOrdered("d", 3)`, `AddOrdered("c", 2)` give the values `a`, `b`, `c`,
`d`, as `AddAll("a", "b", "c", "d")` does. -/
theorem stringSet_order_witness :
    SortedStringSet.Values List.reverse
      (applyOps [SetOp.add "a", SetOp.add "b", SetOp.addOrdered "d" 3, SetOp.addOrdered "c" 2])
      = ["a", "b", "c", "d"] ∧
    SortedStringSet.Values List.reverse (NewStringSet.AddAll ["a", "b", "c", "d"]).1
      = ["a", "b", "c", "d"] ∧
    SortedStringSet.Values List.reverse
      ([("d", 3), ("c", 2), ("a", 0)].foldl (fun set e => (set.AddOrdered e.1 e.2).1)
        NewStringSet)
      = [("a", 0), ("c", 2), ("d", 3)].map Prod.fst :=
  ⟨by decide,
    ((stringSet_order List.reverse (fun m => List.reverse_perm m)).2.1 ["a", "b", "c", "d"]
      (by decide)).1,
    (stringSet_order List.reverse (fun m => List.reverse_perm m)).2.2
      [("a", 0), ("c", 2), ("d", 3)] [("d", 3), ("c", 2), ("a", 0)]
      (by simp [GoMap.WF, GoMap.keys]) (by decide) (by decide)⟩

/-! ### Merging of duplicate cards -/

namespace GoMap

theorem mem_set_cases (m : GoMap V) (hwf : WF m) (k : String) (v : V) (e : String × V)
    (h : e ∈ set m k v) : e = (k, v) ∨ (e ∈ m ∧ e.1 ≠ k) := by
  induction m with
  | nil =>
    left
    simpa [set] using h
  | cons x m ih =>
    obtain ⟨k', v'⟩ := x
    have hnd : k' ∉ keys m ∧ WF m := by simpa [WF, keys] using hwf
    by_cases hk : k' = k
    · simp only [set, hk, if_true, List.mem_cons] at h
      rcases h with h | h
      · exact Or.inl h
      · right
        refine ⟨List.mem_cons_of_mem _ h, ?_⟩
        intro he
        apply hnd.1
        rw [hk, ← he]
        exact List.mem_map_of_mem Prod.fst h
    · simp only [set, hk, if_false, List.mem_cons] at h
      rcases h with h | h
      · right
        rw [h]
        exact ⟨List.mem_cons_self _ _, hk⟩
      · rcases ih hnd.2 h with h2 | h2
        · exact Or.inl h2
        · exact Or.inr ⟨List.mem_cons_of_mem _ h2.1, h2.2⟩

end GoMap

theorem mergedInv_mergeCard (cards : List Card) (cardMap : GoMap CardData) (hasError : Bool)
    (card : Card) (h : MergedInv cards cardMap) :
    MergedInv (cards ++ [card]) (mergeCard (cardMap, hasError) card).1 := by
  obtain ⟨hwf, hkeys, hent⟩ := h
  have hsets : GoMap.WF ((GoMap.get cardMap card.Question).getD
        ⟨NewStringSet, NewStringSet⟩).answers.content ∧
      ∀ a, a ∈ GoMap.keys ((GoMap.get cardMap card.Question).getD
          ⟨NewStringSet, NewStringSet⟩).answers.content
        ↔ ∃ c ∈ cards, c.Question = card.Question ∧ a ∈ c.Answers := by
    cases hg : GoMap.get cardMap card.Question with
    | none =>
      refine ⟨GoMap.WF_nil, fun a => ?_⟩
      have hnk : card.Question ∉ GoMap.keys cardMap := (GoMap.get_none_iff _ _).mp hg
      constructor
      · intro ha
        simp [NewStringSet, GoMap.keys] at ha
      · rintro ⟨c, hc, hq, _⟩
        exact absurd ((hkeys card.Question).mpr ⟨c, hc, hq⟩) hnk
    | some d => exact hent (card.Question, d) (GoMap.mem_of_get _ _ _ hg)
  refine ⟨GoMap.WF_set _ _ _ hwf, fun q => ?_, fun e he => ?_⟩
  · simp only [mergeCard, GoMap.mem_keys_set, hkeys, List.mem_append, List.mem_singleton]
    constructor
    · rintro (h1 | ⟨c, hc, hq⟩)
      · exact ⟨card, Or.inr rfl, h1.symm⟩
      · exact ⟨c, Or.inl hc, hq⟩
    · rintro ⟨c, hc | hc, hq⟩
      · exact Or.inr ⟨c, hc, hq⟩
      · left
        rw [← hq, hc]
  · rcases GoMap.mem_set_cases cardMap hwf _ _ e he with h1 | ⟨h1, h2⟩
    · rw [h1]
      refine ⟨SortedStringSet.addAllFrom_WF _ _ _ _ hsets.1, fun a => ?_⟩
      simp only [SortedStringSet.AddAll, SortedStringSet.addAllFrom_keys, hsets.2,
        List.mem_append, List.mem_singleton]
      constructor
      · rintro (h3 | ⟨c, hc, hq, ha⟩)
        · exact ⟨card, Or.inr rfl, rfl, h3⟩
        · exact ⟨c, Or.inl hc, hq, ha⟩
      · rintro ⟨c, hc | hc, hq, ha⟩
        · exact Or.inr ⟨c, hc, hq, ha⟩
        · left
          rw [← hc]
          exact ha
    · refine ⟨(hent e h1).1, fun a => ?_⟩
      rw [(hent e h1).2 a]
      constructor
      · rintro ⟨c, hc, hq, ha⟩
        exact ⟨c, List.mem_append.mpr (Or.inl hc), hq, ha⟩
      · rintro ⟨c, hc, hq, ha⟩
        rcases List.mem_append.mp hc with hc | hc
        · exact ⟨c, hc, hq, ha⟩
        · rw [List.mem_singleton] at hc
          rw [hc] at hq
          exact absurd hq.symm h2

theorem mergedInv_foldl (deck : List Card) :
    ∀ (cards : List Card) (acc : GoMap CardData × Bool), MergedInv cards acc.1 →
      MergedInv (cards ++ deck) (deck.foldl mergeCard acc).1 := by
  induction deck with
  | nil => intro cards acc h; simpa using h
  | cons c deck ih =>
    intro cards acc h
    have := ih (cards ++ [c]) (mergeCard acc c) (mergedInv_mergeCard cards acc.1 acc.2 c h)
    simpa using this

theorem mergedInv_deck (deck : List Card) :
    MergedInv deck (deck.foldl mergeCard ([], false)).1 := by
  have := mergedInv_foldl deck [] ([], false)
    ⟨GoMap.WF_nil, fun q => by simp [GoMap.keys], fun e he => by simp at he⟩
  simpa using this

/-- The deck of the quiz `checkDuplicates` returns is an arrangement of the cards made
of the entries of its map. -/
theorem checkDuplicates_deck_perm (iterSet : GoMap Int → GoMap Int)
    (iterMap : GoMap CardData → GoMap CardData) (hM : IterationOrder iterMap) (quiz : Quiz) :
    (checkDuplicates iterSet iterMap quiz).1.Deck.Perm
      ((quiz.Deck.foldl mergeCard ([], false)).1.map (fixedCard iterSet)) :=
  (sortSlice_perm _ _).trans ((hM _).map (fixedCard iterSet))

/-- The deck of the quiz `checkDuplicates` returns is in strictly ascending order of the
questions. -/
theorem checkDuplicates_deck_sorted (iterSet : GoMap Int → GoMap Int)
    (iterMap : GoMap CardData → GoMap CardData) (hM : IterationOrder iterMap) (quiz : Quiz) :
    (checkDuplicates iterSet iterMap quiz).1.Deck.Pairwise
      (fun a b => goLess a.Question b.Question = true) := by
  have hinv := mergedInv_deck quiz.Deck
  have hp := checkDuplicates_deck_perm iterSet iterMap hM quiz
  have hq : ((checkDuplicates iterSet iterMap quiz).1.Deck.map Card.Question).Perm
      (GoMap.keys (quiz.Deck.foldl mergeCard ([], false)).1) := by
    have := hp.map Card.Question
    simpa [GoMap.keys, fixedCard, Function.comp_def] using this
  have hnd : ((checkDuplicates iterSet iterMap quiz).1.Deck.map Card.Question).Nodup :=
    hq.nodup_iff.mpr hinv.1
  have hne : (checkDuplicates iterSet iterMap quiz).1.Deck.Pairwise
      (fun a b => a.Question ≠ b.Question) := by
    rw [List.Nodup, List.pairwise_map] at hnd
    exact hnd
  have hs : (checkDuplicates iterSet iterMap quiz).1.Deck.Pairwise
      (fun a b => goLess b.Question a.Question = false) :=
    sortSlice_sorted (fun (a b : Card) => goLess a.Question b.Question) _
      (fun a b => goLess_total a.Question b.Question)
      (fun a b c => goLess_trans a.Question b.Question c.Question)
  refine (hs.and hne).imp ?_
  intro a b hab
  by_contra hcon
  have hf : goLess a.Question b.Question = false := by
    cases hx : goLess a.Question b.Question
    · rfl
    · exact absurd hx hcon
  exact hab.2 (goLess_connex _ _ hf hab.1)

/-- The answers of a card of the quiz `checkDuplicates` returns are, each once, the
answers of the cards of the input with the same question. -/
theorem checkDuplicates_answers (iterSet : GoMap Int → GoMap Int)
    (iterMap : GoMap CardData → GoMap CardData) (hS : IterationOrder iterSet)
    (hM : IterationOrder iterMap) (quiz : Quiz) (c : Card)
    (hc : c ∈ (checkDuplicates iterSet iterMap quiz).1.Deck) :
    c.Answers.Nodup ∧
    ∀ a, a ∈ c.Answers ↔ ∃ d ∈ quiz.Deck, d.Question = c.Question ∧ a ∈ d.Answers := by
  have hinv := mergedInv_deck quiz.Deck
  have hp := checkDuplicates_deck_perm iterSet iterMap hM quiz
  obtain ⟨e, he, rfl⟩ := List.mem_map.mp (hp.mem_iff.mp hc)
  have hv := SortedStringSet.values_perm iterSet hS e.2.answers
  obtain ⟨hwf, hk⟩ := hinv.2.2 e he
  refine ⟨hv.nodup_iff.mpr hwf, fun a => ?_⟩
  show a ∈ SortedStringSet.Values iterSet e.2.answers ↔ _
  rw [hv.mem_iff, hk a]
  rfl

/-- C22: for every quiz and every order in which Go ranges over its maps,
`checkDuplicates` returns a quiz with the same description, type and timeout; its deck
is in strictly ascending order of the questions, so no question occurs twice, and its
questions are those of the input; the answers of each card are, without repetition, the
answers of all cards of the input with that question. -/
theorem checkDuplicates_merges (iterSet : GoMap Int → GoMap Int)
    (iterMap : GoMap CardData → GoMap CardData) (hS : IterationOrder iterSet)
    (hM : IterationOrder iterMap) (quiz : Quiz) :
    (checkDuplicates iterSet iterMap quiz).1.Description = quiz.Description ∧
    (checkDuplicates iterSet iterMap quiz).1.Type_ = quiz.Type_ ∧
    (checkDuplicates iterSet iterMap quiz).1.Timeout = quiz.Timeout ∧
    (checkDuplicates iterSet iterMap quiz).1.Deck.Pairwise
      (fun a b => goLess a.Question b.Question = true) ∧
    (∀ q, q ∈ (checkDuplicates iterSet iterMap quiz).1.Deck.map Card.Question
      ↔ q ∈ quiz.Deck.map Card.Question) ∧
    ∀ c ∈ (checkDuplicates iterSet iterMap quiz).1.Deck,
      c.Answers.Nodup ∧
      ∀ a, a ∈ c.Answers ↔ ∃ d ∈ quiz.Deck, d.Question = c.Question ∧ a ∈ d.Answers := by
  refine ⟨rfl, rfl, rfl, checkDuplicates_deck_sorted iterSet iterMap hM quiz, fun q => ?_,
    fun c hc => checkDuplicates_answers iterSet iterMap hS hM quiz c hc⟩
  have hinv := mergedInv_deck quiz.Deck
  have hp := (checkDuplicates_deck_perm iterSet iterMap hM quiz).map Card.Question
  rw [hp.mem_iff]
  have hk := hinv.2.1 q
  simp only [GoMap.keys, List.mem_map] at hk ⊢
  constructor
  · rintro ⟨c, ⟨e, he, rfl⟩, hq⟩
    obtain ⟨d, hd, hdq⟩ := hk.mp ⟨e, he, hq⟩
    exact ⟨d, hd, hdq⟩
  · rintro ⟨d, hd, hdq⟩
    obtain ⟨e, he, heq⟩ := hk.mpr ⟨d, hd, hdq⟩
    exact ⟨fixedCard iterSet e, ⟨e, he, rfl⟩, heq⟩

/-- Witness for C22 on `demoDuplicates`: the two cards with the question `q2` are merged,
the cards come out in the order of the questions, and the error flag is set. -/
theorem checkDuplicates_merges_witness :
    checkDuplicates List.reverse List.reverse demoDuplicates
      = (⟨"Test quiz with duplicates", "text", 0,
          [⟨"q1", ["bbb", "aaa"], "c1"⟩, ⟨"q2", ["ccc", "ddd", "eee"], "c3"⟩]⟩, true) ∧
    (checkDuplicates List.reverse List.reverse demoDuplicates).1.Deck.Pairwise
      (fun a b => goLess a.Question b.Question = true) :=
  ⟨by decide,
    (checkDuplicates_merges List.reverse List.reverse (fun m => List.reverse_perm m)
      (fun m => List.reverse_perm m) demoDuplicates).2.2.2.1⟩

/-! ### A quiz without duplicates -/

theorem mergeCard_fresh (cardMap : GoMap CardData) (c : Card)
    (hq : c.Question ∉ GoMap.keys cardMap) (ha : c.Answers.Nodup) :
    mergeCard (cardMap, false) c = (cardMap ++ [freshEntry c], false) := by
  have hnone : GoMap.get cardMap c.Question = none := (GoMap.get_none_iff _ _).mpr hq
  have hall := SortedStringSet.addAllFrom_fresh c.Answers NewStringSet 0 [] ha
    (fun x _ => by simp [NewStringSet, GoMap.keys])
  simp only [mergeCard, hnone, Option.getD_none, Option.isSome_none, SortedStringSet.AddAll,
    hall, GoMap.set_of_get_none _ _ _ hnone]
  simp [freshEntry, NewStringSet, SortedStringSet.Add, SortedStringSet.AddOrdered, GoMap.set,
    GoMap.len]

theorem foldl_mergeCard_fresh (deck : List Card) :
    ∀ cardMap : GoMap CardData, (deck.map Card.Question).Nodup →
      (∀ c ∈ deck, c.Question ∉ GoMap.keys cardMap) → (∀ c ∈ deck, c.Answers.Nodup) →
      deck.foldl mergeCard (cardMap, false) = (cardMap ++ deck.map freshEntry, false) := by
  induction deck with
  | nil => intro cardMap _ _ _; simp
  | cons c deck ih =>
    intro cardMap hnd hfresh hans
    have hc : c.Question ∉ deck.map Card.Question := (List.nodup_cons.mp hnd).1
    have hnd2 : (deck.map Card.Question).Nodup := (List.nodup_cons.mp hnd).2
    rw [List.foldl_cons, mergeCard_fresh cardMap c (hfresh c (List.mem_cons_self _ _))
      (hans c (List.mem_cons_self _ _)), ih _ hnd2]
    · simp
    · intro d hd
      simp only [GoMap.keys, List.map_append, List.map_cons, List.map_nil, List.mem_append,
        List.mem_singleton, freshEntry]
      rintro (h | h)
      · exact hfresh d (List.mem_cons_of_mem _ hd) h
      · exact hc (h ▸ List.mem_map_of_mem Card.Question hd)
    · exact fun d hd => hans d (List.mem_cons_of_mem _ hd)

theorem fixedCard_freshEntry (iterSet : GoMap Int → GoMap Int) (hS : IterationOrder iterSet)
    (c : Card) (ha : c.Answers.Nodup) : fixedCard iterSet (freshEntry c) = c := by
  have h1 : SortedStringSet.Values iterSet ⟨indexFrom 0 c.Answers⟩ = c.Answers :=
    SortedStringSet.values_indexFrom iterSet hS c.Answers ha 0
  have h2 : SortedStringSet.Values iterSet ⟨[(c.Comment, 0)]⟩ = [c.Comment] :=
    SortedStringSet.values_indexFrom iterSet hS [c.Comment] (by simp) 0
  obtain ⟨q, as, cm⟩ := c
  simp only [fixedCard, freshEntry] at h1 h2 ⊢
  rw [h1, h2]
  simp [String.intercalate, String.intercalate.go]

/-- On a quiz whose questions are in strictly ascending order and whose cards have no
answer twice, `checkDuplicates` finds no error and returns the quiz as it is. -/
theorem checkDuplicates_clean (iterSet : GoMap Int → GoMap Int)
    (iterMap : GoMap CardData → GoMap CardData) (hS : IterationOrder iterSet)
    (hM : IterationOrder iterMap) (quiz : Quiz)
    (hsorted : quiz.Deck.Pairwise (fun a b => goLess a.Question b.Question = true))
    (hans : ∀ c ∈ quiz.Deck, c.Answers.Nodup) :
    checkDuplicates iterSet iterMap quiz = (quiz, false) := by
  have hnd : (quiz.Deck.map Card.Question).Nodup := by
    rw [List.Nodup, List.pairwise_map]
    refine hsorted.imp ?_
    intro a b hab heq
    rw [heq] at hab
    rcases goLess_total b.Question b.Question with h | h <;> rw [h] at hab <;> cases hab
  have hfold := foldl_mergeCard_fresh quiz.Deck [] hnd (fun c _ => by simp [GoMap.keys]) hans
  have hmap : (quiz.Deck.map freshEntry).map (fixedCard iterSet) = quiz.Deck := by
    rw [List.map_map]
    conv_rhs => rw [← List.map_id quiz.Deck]
    apply List.map_congr_left
    intro c hc
    exact fixedCard_freshEntry iterSet hS c (hans c hc)
  have hdeck : sortSlice (fun (a b : Card) => goLess a.Question b.Question)
      ((iterMap (quiz.Deck.foldl mergeCard ([], false)).1).map (fixedCard iterSet))
      = quiz.Deck := by
    apply sortSlice_eq_of_perm
    · exact fun a b => goLess_total a.Question b.Question
    · exact fun a b c => goLess_trans a.Question b.Question c.Question
    · rw [hfold]
      have := (hM ([] ++ quiz.Deck.map freshEntry)).map (fixedCard iterSet)
      simpa [hmap] using this
    · exact hsorted
  unfold checkDuplicates
  simp only [hdeck]
  rw [hfold]

/-- C30: for every quiz and every order in which Go ranges over its maps, in the first
call and in the second, `checkDuplicates` applied to the quiz that `checkDuplicates`
returned reports no error and returns that quiz unchanged. -/
theorem checkDuplicates_idempotent (iterSet1 iterSet2 : GoMap Int → GoMap Int)
    (iterMap1 iterMap2 : GoMap CardData → GoMap CardData)
    (hS1 : IterationOrder iterSet1) (hM1 : IterationOrder iterMap1)
    (hS2 : IterationOrder iterSet2) (hM2 : IterationOrder iterMap2) (quiz : Quiz) :
    checkDuplicates iterSet2 iterMap2 (checkDuplicates iterSet1 iterMap1 quiz).1
      = ((checkDuplicates iterSet1 iterMap1 quiz).1, false) := by
  apply checkDuplicates_clean iterSet2 iterMap2 hS2 hM2
  · exact checkDuplicates_deck_sorted iterSet1 iterMap1 hM1 quiz
  · intro c hc
    exact (checkDuplicates_answers iterSet1 iterMap1 hS1 hM1 quiz c hc).1

/-- Witness for C30 on `demoDuplicates`: the first call merges the duplicates and reports
an error; the second call, with the maps gone over in another order, reports none and
returns the same quiz. -/
theorem checkDuplicates_idempotent_witness :
    (checkDuplicates List.reverse List.reverse demoDuplicates).2 = true ∧
    checkDuplicates id id (checkDuplicates List.reverse List.reverse demoDuplicates).1
      = ((checkDuplicates List.reverse List.reverse demoDuplicates).1, false) :=
  ⟨by decide,
    checkDuplicates_idempotent List.reverse id List.reverse id
      (fun m => List.reverse_perm m) (fun m => List.reverse_perm m)
      (fun m => List.Perm.refl m) (fun m => List.Perm.refl m) demoDuplicates⟩

/-! ### The scramble dictionary as a partition -/

theorem flatten_set_append (dict : GoMap (List String)) (k w : String) :
    ((GoMap.set dict k ((GoMap.get dict k).getD [] ++ [w])).map Prod.snd).flatten.Perm
      ((dict.map Prod.snd).flatten ++ [w]) := by
  induction dict with
  | nil => simp [GoMap.set, GoMap.get]
  | cons e dict ih =>
    obtain ⟨k', g⟩ := e
    by_cases h : k' = k
    · simp only [GoMap.set, GoMap.get, h, if_true, Option.getD_some, List.map_cons,
        List.flatten_cons, List.append_assoc]
      exact List.Perm.append_left g List.perm_append_comm
    · simp only [GoMap.set, GoMap.get, h, if_false, List.map_cons, List.flatten_cons,
        List.append_assoc]
      exact List.Perm.append_left g ih

theorem collectWord_WF (dict : GoMap (List String)) (word : String) (h : GoMap.WF dict) :
    GoMap.WF (collectWord dict word) := by
  unfold collectWord
  split
  · exact GoMap.WF_set _ _ _ h
  · exact h

theorem collectWord_flatten (dict : GoMap (List String)) (word : String) :
    ((collectWord dict word).map Prod.snd).flatten.Perm
      ((dict.map Prod.snd).flatten ++ [word].filter (fun w => decide (strLen w > 0))) := by
  unfold collectWord
  by_cases h : strLen word > 0
  · simp only [h, if_true, List.filter_cons_of_pos, decide_True, List.filter_nil]
    exact flatten_set_append dict (sortedChars word) word
  · simp [h]

theorem foldl_collectWord (lines : List String) :
    ∀ dict : GoMap (List String), GoMap.WF dict →
      GoMap.WF (lines.foldl collectWord dict) ∧
      ((lines.foldl collectWord dict).map Prod.snd).flatten.Perm
        ((dict.map Prod.snd).flatten ++ lines.filter (fun w => decide (strLen w > 0))) := by
  induction lines with
  | nil => intro dict h; exact ⟨h, by simp⟩
  | cons w ws ih =>
    intro dict h
    obtain ⟨h1, h2⟩ := ih (collectWord dict w) (collectWord_WF dict w h)
    refine ⟨h1, h2.trans ?_⟩
    have h3 := (collectWord_flatten dict w).append_right
      (ws.filter (fun w => decide (strLen w > 0)))
    refine h3.trans ?_
    rw [List.append_assoc, ← List.filter_append]
    simp

theorem sortedChars_eq_iff (w v : String) :
    sortedChars w = sortedChars v ↔ w.data.Perm v.data := by
  constructor
  · intro h
    have hd : w.data.insertionSort (fun a b => a ≤ b) = v.data.insertionSort (fun a b => a ≤ b) :=
      congrArg String.data h
    have h1 := List.perm_insertionSort (fun (a b : Char) => a ≤ b) w.data
    have h2 := List.perm_insertionSort (fun (a b : Char) => a ≤ b) v.data
    exact h1.symm.trans (hd ▸ h2)
  · intro h
    unfold sortedChars
    congr 1
    apply List.eq_of_perm_of_sorted (r := fun (a b : Char) => a ≤ b)
    · exact (List.perm_insertionSort _ _).trans (h.trans (List.perm_insertionSort _ _).symm)
    · exact List.sorted_insertionSort _ _
    · exact List.sorted_insertionSort _ _

/-- C21: `loadScrambleDictionary` partitions the non-empty lines by `sortedChars`: the
groups together hold each non-empty line once per occurrence; no group is empty, so each
has a first word; a word is in one group only; two non-empty lines are in the same group
iff their sorted character strings are equal, that is iff they are anagrams of each
other. -/
theorem dictionary_partition (lines : List String) :
    (loadScrambleDictionary lines).flatten.Perm
      (lines.filter (fun w => decide (strLen w > 0))) ∧
    (∀ g ∈ loadScrambleDictionary lines, g ≠ [] ∧ ∃ w, g.head? = some w) ∧
    (∀ (i j : Nat) (g h : List String) (w : String),
      (loadScrambleDictionary lines)[i]? = some g →
      (loadScrambleDictionary lines)[j]? = some h → w ∈ g → w ∈ h → i = j) ∧
    (∀ w v : String, w ∈ lines → v ∈ lines → strLen w > 0 → strLen v > 0 →
      ((∃ g ∈ loadScrambleDictionary lines, w ∈ g ∧ v ∈ g)
        ↔ sortedChars w = sortedChars v)) ∧
    (∀ w v : String, sortedChars w = sortedChars v ↔ w.data.Perm v.data) := by
  obtain ⟨hwf, hperm⟩ := foldl_collectWord lines [] GoMap.WF_nil
  have hsorted := groupsSorted_foldl lines [] (fun e he => by simp at he)
  simp only [List.map_nil, List.flatten_nil, List.nil_append] at hperm
  refine ⟨hperm, ?_, ?_, ?_, sortedChars_eq_iff⟩
  · intro g hg
    have hne := (loadScrambleDictionary_groups lines g hg).1
    refine ⟨hne, ?_⟩
    cases g with
    | nil => exact absurd rfl hne
    | cons w ws => exact ⟨w, rfl⟩
  · intro i j g h w hi hj hwg hwh
    unfold loadScrambleDictionary at hi hj
    rw [List.getElem?_map] at hi hj
    cases hei : (lines.foldl collectWord [])[i]? with
    | none => simp [hei] at hi
    | some e =>
      cases hej : (lines.foldl collectWord [])[j]? with
      | none => simp [hej] at hj
      | some e' =>
        simp only [hei, hej, Option.map_some', Option.some.injEq] at hi hj
        have hk1 : e.1 = sortedChars w :=
          ((hsorted e (List.getElem?_mem hei)).2 w (hi ▸ hwg)).symm
        have hk2 : e'.1 = sortedChars w :=
          ((hsorted e' (List.getElem?_mem hej)).2 w (hj ▸ hwh)).symm
        have hki : (GoMap.keys (lines.foldl collectWord []))[i]? = some (sortedChars w) := by
          simp [GoMap.keys, List.getElem?_map, hei, hk1]
        have hkj : (GoMap.keys (lines.foldl collectWord []))[j]? = some (sortedChars w) := by
          simp [GoMap.keys, List.getElem?_map, hej, hk2]
        obtain ⟨hi1, hi2⟩ := List.getElem?_eq_some_iff.mp hki
        obtain ⟨hj1, hj2⟩ := List.getElem?_eq_some_iff.mp hkj
        exact (List.Nodup.getElem_inj_iff hwf).mp (hi2.trans hj2.symm)
  · intro w v hw hv hwl hvl
    constructor
    · rintro ⟨g, hg, hwg, hvg⟩
      exact ((loadScrambleDictionary_groups lines g hg).2 w hwg v hvg).1
    · intro heq
      have hwin : w ∈ (loadScrambleDictionary lines).flatten :=
        hperm.mem_iff.mpr (List.mem_filter.mpr ⟨hw, by simpa using hwl⟩)
      have hvin : v ∈ (loadScrambleDictionary lines).flatten :=
        hperm.mem_iff.mpr (List.mem_filter.mpr ⟨hv, by simpa using hvl⟩)
      obtain ⟨g, hg, hwg⟩ := List.mem_flatten.mp hwin
      obtain ⟨h, hh, hvh⟩ := List.mem_flatten.mp hvin
      refine ⟨g, hg, hwg, ?_⟩
      unfold loadScrambleDictionary at hg hh
      obtain ⟨e, he, rfl⟩ := List.mem_map.mp hg
      obtain ⟨e', he', rfl⟩ := List.mem_map.mp hh
      have hk1 : sortedChars w = e.1 := (hsorted e he).2 w hwg
      have hk2 : sortedChars v = e'.1 := (hsorted e' he').2 v hvh
      have hg1 := GoMap.get_of_mem _ hwf e.1 e.2 he
      have hg2 := GoMap.get_of_mem _ hwf e'.1 e'.2 he'
      rw [← hk1, heq, hk2, hg2] at hg1
      rw [← Option.some.inj hg1]
      exact hvh

/-! ### Passing on a question -/

namespace QuizState

theorem step_pass (toLower : Char → Char) (s : QuizState) (m : Message)
    (hm : m.Content = ".." ∨ m.Content = "。。") :
    step toLower s (Event.msg m) = { s with timer := 0 } ∧
    stepSequential toLower s (Event.msg m) = { s with timer := 0 } := by
  simp [step, stepSequential, onMessage, hm]

theorem step_timeout_empty (toLower : Char → Char) (s : QuizState)
    (hlen : GoMap.len s.scoreKeeper = 0) :
    step toLower s Event.timeout
      = if s.timeoutCount + 1 ≥ timeoutLimit then abort (noteTimeout s)
        else present (noteTimeout s) := by
  have h1 : ¬ GoMap.len s.scoreKeeper > 0 := by omega
  have h2 : ¬ GoMap.len (noteTimeout s).scoreKeeper > 0 := h1
  simp only [step, h1, if_false, closeRound, h2]
  rfl

theorem stepSequential_timeout_empty (toLower : Char → Char) (s : QuizState)
    (hlen : GoMap.len s.scoreKeeper = 0) :
    stepSequential toLower s Event.timeout
      = if s.timeoutCount + 1 ≥ timeoutLimit then abort (noteTimeout s)
        else presentSequential { noteTimeout s with idx := s.idx + 1 } := by
  have h1 : ¬ GoMap.len s.scoreKeeper > 0 := by omega
  have h2 : ¬ GoMap.len (noteTimeout s).scoreKeeper > 0 := h1
  simp only [stepSequential, h1, if_false, closeRoundSequential, h2]
  rfl

theorem freshRound_present (c : Int) (k : Nat) (s : QuizState) (htc : s.timeoutCount = c)
    (hk : k + 1 ≤ s.quiz.Deck.length) : FreshRound c k (present s) := by
  rcases List.eq_nil_or_concat s.quiz.Deck with hd | ⟨init, last, hd⟩
  · rw [hd] at hk
    simp at hk
  · rw [List.concat_eq_append] at hd
    have hlen : k ≤ init.length := by
      rw [hd] at hk
      simp at hk
      omega
    have hl : s.quiz.Deck.getLast? = some last := by rw [hd]; simp
    have hdl : s.quiz.Deck.dropLast = init := by rw [hd]; simp
    unfold present
    rw [hl]
    exact ⟨rfl, rfl, htc, by simp only [hdl]; exact hlen⟩

theorem freshRound_presentSequential (c : Int) (k : Nat) (s : QuizState)
    (htc : s.timeoutCount = c) (hk : k + 1 ≤ s.quiz.Deck.length) :
    FreshRound c k (presentSequential s) := by
  unfold presentSequential
  cases hd : s.quiz.Deck with
  | nil =>
    rw [hd] at hk
    simp at hk
  | cons current rest =>
    rw [hd] at hk
    simp only [List.length_cons] at hk
    exact ⟨rfl, rfl, htc, by simp only []; omega⟩

/-- Questions passed on one after the other, fewer than are left to the limit of
timeouts in a row: each is closed as a timeout and the next question is presented. -/
theorem freshRound_skipRounds (toLower : Char → Char) (ms : List Message)
    (hms : ∀ m ∈ ms, m.Content = ".." ∨ m.Content = "。。") :
    ∀ (c : Int) (k : Nat) (s : QuizState), FreshRound c (k + ms.length) s →
      c + ms.length < timeoutLimit →
      FreshRound (c + ms.length) k (run toLower s (skipRounds ms)) ∧
      FreshRound (c + ms.length) k (runSequential toLower s (skipRounds ms)) := by
  induction ms with
  | nil =>
    intro c k s h _
    simpa [skipRounds, run, runSequential] using h
  | cons m ms ih =>
    intro c k s h hc
    obtain ⟨hr, hsk, htc, hk⟩ := h
    have hm := hms m (List.mem_cons_self _ _)
    have hlen : GoMap.len ({ s with timer := 0 } : QuizState).scoreKeeper = 0 := by
      simp [hsk, GoMap.len]
    simp only [List.length_cons, Nat.cast_add, Nat.cast_one] at hc hk ⊢
    have hnot : ¬ ({ s with timer := 0 } : QuizState).timeoutCount + 1 ≥ timeoutLimit := by
      show ¬ s.timeoutCount + 1 ≥ timeoutLimit
      have : (0 : Int) ≤ (ms.length : Int) := Int.natCast_nonneg _
      omega
    have h1 : FreshRound (c + 1) (k + ms.length)
        (present (noteTimeout { s with timer := 0 })) :=
      freshRound_present _ _ _ (by simp [noteTimeout, htc])
        (by simp only [noteTimeout]; omega)
    have h2 : FreshRound (c + 1) (k + ms.length)
        (presentSequential { noteTimeout { s with timer := 0 } with idx := s.idx + 1 }) :=
      freshRound_presentSequential _ _ _ (by simp [noteTimeout, htc])
        (by simp only [noteTimeout]; omega)
    have hc2 : c + 1 + (ms.length : Int) < timeoutLimit := by omega
    have ih1 := (ih (fun x hx => hms x (List.mem_cons_of_mem _ hx)) (c + 1) k _ h1 hc2).1
    have ih2 := (ih (fun x hx => hms x (List.mem_cons_of_mem _ hx)) (c + 1) k _ h2 hc2).2
    have e1 : c + 1 + (ms.length : Int) = c + ((ms.length : Int) + 1) := by omega
    rw [e1] at ih1 ih2
    constructor
    · simp only [skipRounds]
      rw [run_cons, if_pos hr, (step_pass toLower s m hm).1, run_cons,
        if_pos (show ({ s with timer := 0 } : QuizState).running = true from hr),
        step_timeout_empty toLower _ hlen, if_neg hnot]
      exact ih1
    · simp only [skipRounds]
      rw [runSequential_cons, if_pos hr, (step_pass toLower s m hm).2, runSequential_cons,
        if_pos (show ({ s with timer := 0 } : QuizState).running = true from hr),
        stepSequential_timeout_empty toLower _ hlen, if_neg hnot]
      exact ih2

end QuizState

theorem skipRounds_append (ms : List Message) (m : Message) :
    skipRounds (ms ++ [m]) = skipRounds ms ++ [Event.msg m, Event.timeout] := by
  induction ms with
  | nil => rfl
  | cons x xs ih => simp [skipRounds, ih]

namespace QuizState

theorem mem_sent_present (s : QuizState) (o : Output) (h : o ∈ s.sent) :
    o ∈ (present s).sent := by
  unfold present
  split
  · exact h
  · exact List.mem_append_left _ h

theorem mem_sent_presentSequential (s : QuizState) (o : Output) (h : o ∈ s.sent) :
    o ∈ (presentSequential s).sent := by
  unfold presentSequential
  split
  · exact h
  · exact List.mem_append_left _ h

theorem timeoutCount_presentSequential (s : QuizState) :
    (presentSequential s).timeoutCount = s.timeoutCount := by
  unfold presentSequential; split <;> rfl

/-- A timer event in a round in which nobody has scored: the timeout is counted, the card
goes to the failed cards and the timeout is announced; at the limit the session is
aborted. -/
theorem timeout_unanswered (toLower : Char → Char) (s : QuizState)
    (hlen : GoMap.len s.scoreKeeper = 0) :
    ((step toLower s Event.timeout).timeoutCount = s.timeoutCount + 1 ∧
      (s.failed ++ [s.current]) <+: (step toLower s Event.timeout).failed ∧
      Output.timedOut s.current ∈ (step toLower s Event.timeout).sent ∧
      (s.timeoutCount + 1 ≥ timeoutLimit →
        (step toLower s Event.timeout).running = false ∧
        Output.tooManyTimeouts ∈ (step toLower s Event.timeout).sent)) ∧
    ((stepSequential toLower s Event.timeout).timeoutCount = s.timeoutCount + 1 ∧
      (s.failed ++ [s.current]) <+: (stepSequential toLower s Event.timeout).failed ∧
      Output.timedOut s.current ∈ (stepSequential toLower s Event.timeout).sent ∧
      (s.timeoutCount + 1 ≥ timeoutLimit →
        (stepSequential toLower s Event.timeout).running = false ∧
        Output.tooManyTimeouts ∈ (stepSequential toLower s Event.timeout).sent)) := by
  have hmem : Output.timedOut s.current ∈ (noteTimeout s).sent := by
    simp [noteTimeout]
  have hab : (s.failed ++ [s.current]) <+: (abort (noteTimeout s)).failed := by
    simp only [abort, noteTimeout]
    split
    · exact List.prefix_append _ _
    · exact List.prefix_refl _
  constructor
  · rw [step_timeout_empty toLower s hlen]
    by_cases h : s.timeoutCount + 1 ≥ timeoutLimit
    · rw [if_pos h]
      exact ⟨rfl, hab, by simp [abort, noteTimeout], fun _ => ⟨rfl, by simp [abort]⟩⟩
    · rw [if_neg h]
      refine ⟨by rw [timeoutCount_present]; rfl, ?_, mem_sent_present _ _ hmem,
        fun h2 => absurd h2 h⟩
      rw [failed_present]
      exact List.prefix_refl _
  · rw [stepSequential_timeout_empty toLower s hlen]
    by_cases h : s.timeoutCount + 1 ≥ timeoutLimit
    · rw [if_pos h]
      exact ⟨rfl, hab, by simp [abort, noteTimeout], fun _ => ⟨rfl, by simp [abort]⟩⟩
    · rw [if_neg h]
      refine ⟨by rw [timeoutCount_presentSequential]; rfl, ?_,
        mem_sent_presentSequential _ _ hmem, fun h2 => absurd h2 h⟩
      rw [failed_presentSequential]
      exact List.prefix_refl _

end QuizState

/-- C27 (amended): in a round of `runQuiz` or `runQuizSequential`, a message whose text is
`..` or `。。` only rearms the round timer to zero and is never counted as an answer.  At
the timer event that follows, if nobody has scored the round is handled as a timeout:
the timeout is counted, the card is appended to the failed cards and the timeout is
announced, so that five questions passed on in a row abort the session; if somebody has
scored, the round is closed and each scorer gains a point. -/
theorem pass_skips_question (toLower : Char → Char) (s : QuizState) (m : Message)
    (hm : m.Content = ".." ∨ m.Content = "。。") :
    (QuizState.step toLower s (Event.msg m) = { s with timer := 0 } ∧
      QuizState.stepSequential toLower s (Event.msg m) = { s with timer := 0 }) ∧
    (GoMap.len s.scoreKeeper = 0 →
      ((QuizState.step toLower (QuizState.step toLower s (Event.msg m))
          Event.timeout).timeoutCount = s.timeoutCount + 1 ∧
        (s.failed ++ [s.current]) <+:
          (QuizState.step toLower (QuizState.step toLower s (Event.msg m))
            Event.timeout).failed ∧
        Output.timedOut s.current ∈
          (QuizState.step toLower (QuizState.step toLower s (Event.msg m))
            Event.timeout).sent) ∧
      ((QuizState.stepSequential toLower (QuizState.stepSequential toLower s (Event.msg m))
          Event.timeout).timeoutCount = s.timeoutCount + 1 ∧
        (s.failed ++ [s.current]) <+:
          (QuizState.stepSequential toLower (QuizState.stepSequential toLower s (Event.msg m))
            Event.timeout).failed ∧
        Output.timedOut s.current ∈
          (QuizState.stepSequential toLower (QuizState.stepSequential toLower s (Event.msg m))
            Event.timeout).sent)) ∧
    (GoMap.len s.scoreKeeper > 0 → GoMap.WF s.scoreKeeper → ∀ p,
      standing (QuizState.step toLower (QuizState.step toLower s (Event.msg m))
          Event.timeout).players p
        = standing s.players p + (if p ∈ GoMap.keys s.scoreKeeper then 1 else 0) ∧
      standing (QuizState.stepSequential toLower
          (QuizState.stepSequential toLower s (Event.msg m)) Event.timeout).players p
        = standing s.players p + (if p ∈ GoMap.keys s.scoreKeeper then 1 else 0)) ∧
    (∀ ms : List Message, ms.length = 4 → (∀ x ∈ ms, x.Content = ".." ∨ x.Content = "。。") →
      QuizState.FreshRound 0 4 s →
      ((QuizState.run toLower s (skipRounds (ms ++ [m]))).running = false ∧
        Output.tooManyTimeouts ∈ (QuizState.run toLower s (skipRounds (ms ++ [m]))).sent) ∧
      ((QuizState.runSequential toLower s (skipRounds (ms ++ [m]))).running = false ∧
        Output.tooManyTimeouts ∈
          (QuizState.runSequential toLower s (skipRounds (ms ++ [m]))).sent)) := by
  obtain ⟨hp1, hp2⟩ := QuizState.step_pass toLower s m hm
  refine ⟨⟨hp1, hp2⟩, ?_, ?_, ?_⟩
  · intro hlen
    rw [hp1, hp2]
    have h := QuizState.timeout_unanswered toLower { s with timer := 0 } hlen
    exact ⟨⟨h.1.1, h.1.2.1, h.1.2.2.1⟩, ⟨h.2.1, h.2.2.1, h.2.2.2.1⟩⟩
  · intro hlen hwf p
    rw [hp1, hp2]
    have hlen2 : GoMap.len ({ s with timer := 0 } : QuizState).scoreKeeper > 0 := hlen
    constructor
    · simp only [QuizState.step, if_pos hlen2]
      rw [QuizState.players_closeRound _ hlen2]
      exact standing_tally _ _ _ hwf p
    · simp only [QuizState.stepSequential, if_pos hlen2]
      rw [QuizState.players_closeRoundSequential _ hlen2]
      exact standing_tally _ _ _ hwf p
  · intro ms hlen hms hfresh
    have h4 : QuizState.FreshRound 0 (0 + ms.length) s := by
      rw [hlen]; exact hfresh
    have hlim : (0 : Int) + (ms.length : Int) < timeoutLimit := by
      rw [hlen]; decide
    obtain ⟨f1, f2⟩ := QuizState.freshRound_skipRounds toLower ms hms 0 0 s h4 hlim
    rw [skipRounds_append]
    constructor
    · rw [QuizState.run_append]
      obtain ⟨hr, hsk, htc, _⟩ := f1
      rw [QuizState.run_cons, if_pos hr,
        (QuizState.step_pass toLower _ m hm).1, QuizState.run_cons,
        if_pos (show ({ QuizState.run toLower s (skipRounds ms) with timer := 0 }
          : QuizState).running = true from hr)]
      have hl : GoMap.len ({ QuizState.run toLower s (skipRounds ms) with timer := 0 }
          : QuizState).scoreKeeper = 0 := by
        show GoMap.len (QuizState.run toLower s (skipRounds ms)).scoreKeeper = 0
        rw [hsk]; rfl
      have h := (QuizState.timeout_unanswered toLower
        { QuizState.run toLower s (skipRounds ms) with timer := 0 } hl).1.2.2.2
        (by
          show (QuizState.run toLower s (skipRounds ms)).timeoutCount + 1 ≥ timeoutLimit
          rw [htc, hlen]; decide)
      simp only [QuizState.run, List.foldl_nil]
      exact h
    · rw [QuizState.runSequential_append]
      obtain ⟨hr, hsk, htc, _⟩ := f2
      rw [QuizState.runSequential_cons, if_pos hr,
        (QuizState.step_pass toLower _ m hm).2, QuizState.runSequential_cons,
        if_pos (show ({ QuizState.runSequential toLower s (skipRounds ms) with timer := 0 }
          : QuizState).running = true from hr)]
      have hl : GoMap.len ({ QuizState.runSequential toLower s (skipRounds ms) with timer := 0 }
          : QuizState).scoreKeeper = 0 := by
        show GoMap.len (QuizState.runSequential toLower s (skipRounds ms)).scoreKeeper = 0
        rw [hsk]; rfl
      have h := (QuizState.timeout_unanswered toLower
        { QuizState.runSequential toLower s (skipRounds ms) with timer := 0 } hl).2.2.2.2
        (by
          show (QuizState.runSequential toLower s (skipRounds ms)).timeoutCount + 1
            ≥ timeoutLimit
          rw [htc, hlen]; decide)
      simp only [QuizState.runSequential, List.foldl_nil]
      exact h

/-- Counterexample for C27: in the scramble round on the group of `abc`, a single-answer
round, the message `..` leaves everything as it is; the timer stays at 30 seconds. -/
theorem pass_skips_question_counterexample :
    (ScrambleState.advance Char.toLower demoDictionary demoDraws demoScramble [0]).running
      = true ∧
    (ScrambleState.advance Char.toLower demoDictionary demoDraws demoScramble [0]).group
      = ["abc", "cab"] ∧
    ScrambleState.step Char.toLower demoDictionary demoDraws
      (ScrambleState.advance Char.toLower demoDictionary demoDraws demoScramble [0])
      (Event.msg ⟨"A", ".."⟩)
      = ScrambleState.advance Char.toLower demoDictionary demoDraws demoScramble [0] ∧
    (ScrambleState.step Char.toLower demoDictionary demoDraws
      (ScrambleState.advance Char.toLower demoDictionary demoDraws demoScramble [0])
      (Event.msg ⟨"A", ".."⟩)).timer = 30 * Second ∧
    ¬ (ScrambleState.step Char.toLower demoDictionary demoDraws
      (ScrambleState.advance Char.toLower demoDictionary demoDraws demoScramble [0])
      (Event.msg ⟨"A", ".."⟩)).timer = 0 := by
  decide

/-- Witness for C27 on the seven cards of `demoSeven`: the message `..` sets the timer to
zero, and five questions passed on in a row end the session with the abort message. -/
theorem pass_skips_question_witness :
    (QuizState.step Char.toLower demoSeven (Event.msg ⟨"A", ".."⟩)).timer = 0 ∧
    (QuizState.run Char.toLower demoSeven
      (skipRounds ([⟨"A", ".."⟩, ⟨"B", "。。"⟩, ⟨"A", ".."⟩, ⟨"A", ".."⟩] ++ [⟨"A", ".."⟩]))).failed.length
      = 5 ∧
    (QuizState.run Char.toLower demoSeven
      (skipRounds ([⟨"A", ".."⟩, ⟨"B", "。。"⟩, ⟨"A", ".."⟩, ⟨"A", ".."⟩] ++ [⟨"A", ".."⟩]))).running
      = false ∧
    Output.tooManyTimeouts ∈ (QuizState.run Char.toLower demoSeven
      (skipRounds ([⟨"A", ".."⟩, ⟨"B", "。。"⟩, ⟨"A", ".."⟩, ⟨"A", ".."⟩] ++ [⟨"A", ".."⟩]))).sent :=
  ⟨by decide, by decide,
    ((pass_skips_question Char.toLower demoSeven ⟨"A", ".."⟩ (by decide)).2.2.2
      [⟨"A", ".."⟩, ⟨"B", "。。"⟩, ⟨"A", ".."⟩, ⟨"A", ".."⟩] (by decide) (by decide)
      ⟨by decide, by decide, by decide, by decide⟩).1.1,
    ((pass_skips_question Char.toLower demoSeven ⟨"A", ".."⟩ (by decide)).2.2.2
      [⟨"A", ".."⟩, ⟨"B", "。。"⟩, ⟨"A", ".."⟩, ⟨"A", ".."⟩] (by decide) (by decide)
      ⟨by decide, by decide, by decide, by decide⟩).1.2⟩

/-! ### No card of a review session is lost -/

namespace QuizState

theorem reviewInv_present (deck done : List Card) (s : QuizState)
    (hq : s.quizname = "review") (hw : s.winLimit = (deck.length : Int))
    (hb : ∀ p, standing s.players p ≤ (done.length : Int))
    (hp : deck.Perm (done ++ s.failed ++ s.quiz.Deck)) :
    ReviewInv deck done (present s) := by
  rcases List.eq_nil_or_concat s.quiz.Deck with hd | ⟨init, last, hd⟩
  · have hpr : present s = { s with running := false } := by
      unfold present; rw [hd]; rfl
    rw [hpr]
    refine ⟨hq, hw, fun h => by simp at h, fun _ => ?_⟩
    rw [hd, List.append_nil] at hp
    exact hp
  · rw [List.concat_eq_append] at hd
    have hl : s.quiz.Deck.getLast? = some last := by rw [hd]; simp
    have hdl : s.quiz.Deck.dropLast = init := by rw [hd]; simp
    unfold present
    rw [hl]
    refine ⟨hq, hw, fun _ => ⟨GoMap.WF_nil, ?_, ?_⟩, fun h => by simp at h⟩
    · intro p
      simpa [GoMap.len] using hb p
    · simp only [GoMap.len, List.length_nil, if_true, hdl]
      rw [hd] at hp
      refine hp.trans ?_
      rw [List.append_assoc (done ++ s.failed)]
      exact List.Perm.append_left _ List.perm_append_comm

theorem reviewInv_closeRound (deck done : List Card) (s : QuizState)
    (h : ReviewInv deck done s) (hr : s.running = true)
    (hlen : GoMap.len s.scoreKeeper > 0) : ReviewInv deck done (closeRound s) := by
  obtain ⟨hq, hw, hrun, _⟩ := h
  obtain ⟨hwf, hb, hp⟩ := hrun hr
  have hne : ¬ GoMap.len s.scoreKeeper = 0 := by omega
  simp only [hne, if_false, List.append_nil] at hb hp
  have hst := standing_tally s.winLimit s.players s.scoreKeeper hwf
  by_cases hwin : (tally s.winLimit s.players s.scoreKeeper).winnerExists = true
  · simp only [closeRound, hlen, hwin, if_true]
    refine ⟨hq, hw, fun h => by simp at h, fun _ => ?_⟩
    obtain ⟨p, _, hge⟩ := (tally_spec s.winLimit s.players s.scoreKeeper hwf).2.mp hwin
    have h1 := hb p
    have h2 := hp.length_eq
    simp only [List.length_append] at h2
    have h3 : s.quiz.Deck.length = 0 := by
      rw [hw] at hge
      omega
    have h4 : s.quiz.Deck = [] := List.length_eq_zero.mp h3
    rw [h4, List.append_nil] at hp
    exact hp
  · simp only [closeRound, hlen, hwin, if_true, if_false, Bool.false_eq_true]
    apply reviewInv_present
    · exact hq
    · exact hw
    · intro p
      show standing (tally s.winLimit s.players s.scoreKeeper).players p ≤ _
      rw [hst p]
      have := hb p
      split <;> omega
    · exact hp

theorem reviewInv_step (toLower : Char → Char) (deck done : List Card) (s : QuizState)
    (e : Event) (h : ReviewInv deck done s) (hr : s.running = true) :
    ReviewInv deck (done ++ firstAnswer toLower s e) (step toLower s e) := by
  obtain ⟨hq, hw, hrun, hstop⟩ := h
  obtain ⟨hwf, hb, hp⟩ := hrun hr
  cases e with
  | quit =>
    simp only [firstAnswer, List.append_nil, step]
    refine ⟨hq, hw, fun h => by simp [onQuit] at h, fun _ => ?_⟩
    simp only [onQuit, hq, if_true]
    refine hp.trans ?_
    by_cases h0 : GoMap.len s.scoreKeeper = 0
    · simp [h0]
    · simp [h0]
  | timeout =>
    simp only [firstAnswer, List.append_nil, step]
    by_cases hlen : GoMap.len s.scoreKeeper > 0
    · rw [if_pos hlen]
      exact reviewInv_closeRound deck done s ⟨hq, hw, hrun, hstop⟩ hr hlen
    · rw [if_neg hlen]
      have h0 : GoMap.len s.scoreKeeper = 0 := by omega
      simp only [h0, if_true, add_zero] at hb hp
      by_cases hab : (noteTimeout s).timeoutCount ≥ timeoutLimit
      · rw [if_pos hab]
        refine ⟨hq, hw, fun h => by simp [abort] at h, fun _ => ?_⟩
        simp only [abort, noteTimeout, hq, if_true]
        refine hp.trans ?_
        simp
      · rw [if_neg hab]
        have hl2 : ¬ GoMap.len (noteTimeout s).scoreKeeper > 0 := hlen
        simp only [closeRound, hl2, if_false]
        apply reviewInv_present
        · exact hq
        · exact hw
        · exact hb
        · simp only [noteTimeout]
          refine hp.trans ?_
          simp
  | msg m =>
    simp only [step]
    by_cases hpass : m.Content = ".." ∨ m.Content = "。。"
    · have hacc : accepts toLower s m = false := by simp [accepts, hpass]
      simp only [firstAnswer, hacc, Bool.false_eq_true, false_and, if_false, List.append_nil,
        onMessage, hpass, if_true]
      exact ⟨hq, hw, fun _ => ⟨hwf, hb, hp⟩, fun h => absurd (show s.running = false from h) (by simp [hr])⟩
    · by_cases hhas : hasString toLower s.answers (k2h m.Content) = true
      · have hacc : accepts toLower s m = true := by simp [accepts, hpass, hhas]
        have hsk : ¬ GoMap.len (if GoMap.contains s.scoreKeeper m.AuthorID = true
            then s.scoreKeeper
            else GoMap.set s.scoreKeeper m.AuthorID ((GoMap.len s.scoreKeeper : Int) + 1))
            = 0 := by
          by_cases h0 : GoMap.len s.scoreKeeper = 0
          · have hnil : s.scoreKeeper = [] := List.length_eq_zero.mp h0
            simp [hnil, GoMap.contains, GoMap.get, GoMap.set, GoMap.len]
          · split
            · exact h0
            · intro h1
              have := GoMap.get_set_self s.scoreKeeper m.AuthorID
                ((GoMap.len s.scoreKeeper : Int) + 1)
              rw [List.length_eq_zero.mp h1] at this
              simp [GoMap.get] at this
        have hwf2 := keeper_onMessage toLower s m hwf
        simp only [onMessage, hpass, hhas, if_true, if_false] at hwf2 ⊢
        refine ⟨hq, hw, fun _ => ⟨hwf2, ?_, ?_⟩, fun h => absurd (show s.running = false from h) (by simp [hr])⟩
        · intro p
          simp only [hsk, if_false]
          have := hb p
          by_cases h0 : GoMap.len s.scoreKeeper = 0
          · simp only [firstAnswer, hacc, h0, and_self, if_true, List.length_append,
              List.length_singleton] at this ⊢
            push_cast
            omega
          · simp only [firstAnswer, hacc, h0, and_false, if_false, List.append_nil] at this ⊢
            exact this
        · simp only [hsk, if_false, List.append_nil]
          by_cases h0 : GoMap.len s.scoreKeeper = 0
          · simp only [firstAnswer, hacc, h0, and_self, if_true] at hp ⊢
            refine hp.trans ?_
            simp only [List.append_assoc]
            refine List.Perm.append_left done ?_
            rw [← List.append_assoc, ← List.append_assoc [s.current]]
            exact List.Perm.append_right _ List.perm_append_comm
          · simp only [firstAnswer, hacc, h0, and_false, if_false, List.append_nil] at hp ⊢
            exact hp
      · have hacc : accepts toLower s m = false := by simp [accepts, hhas]
        simp only [firstAnswer, hacc, Bool.false_eq_true, false_and, if_false,
          List.append_nil, onMessage, hpass, hhas]
        exact ⟨hq, hw, fun _ => ⟨hwf, hb, hp⟩, fun h => absurd (show s.running = false from h) (by simp [hr])⟩

theorem reviewInv_run (toLower : Char → Char) (deck : List Card) (events : List Event) :
    ∀ (done : List Card) (s : QuizState), ReviewInv deck done s →
      ReviewInv deck (done ++ answered toLower s events) (run toLower s events) := by
  induction events with
  | nil =>
    intro done s h
    simpa [answered, run] using h
  | cons e es ih =>
    intro done s h
    by_cases hr : s.running = true
    · rw [run_cons, if_pos hr]
      simp only [answered, hr, if_true]
      rw [← List.append_assoc]
      exact ih _ _ (reviewInv_step toLower deck done s e h hr)
    · have hf : s.running = false := by simpa using hr
      rw [run_stopped toLower s _ hf]
      simp only [answered, hf, Bool.false_eq_true, if_false, List.append_nil]
      exact h

end QuizState

namespace QuizState

theorem reviewSeq_present (deck done : List Card) (s : QuizState)
    (hq : s.quizname = "review") (hp : deck.Perm (done ++ s.failed ++ s.quiz.Deck)) :
    ReviewSeqInv deck done (presentSequential s) := by
  unfold presentSequential
  cases hd : s.quiz.Deck with
  | nil =>
    refine ⟨hq, fun h => by simp at h, fun _ => ?_⟩
    rw [hd, List.append_nil] at hp
    exact hp
  | cons current rest =>
    refine ⟨hq, fun _ => ?_, fun h => by simp at h⟩
    simp only [GoMap.len, List.length_nil, if_true]
    rw [hd] at hp
    simpa [List.append_assoc] using hp

theorem reviewSeq_closeRound (deck done : List Card) (s : QuizState)
    (hq : s.quizname = "review") (hp : deck.Perm (done ++ s.failed ++ s.quiz.Deck)) :
    ReviewSeqInv deck done (closeRoundSequential s) := by
  unfold closeRoundSequential
  simp only []
  apply reviewSeq_present
  · show (if GoMap.len s.scoreKeeper > 0 then _ else s).quizname = "review"
    split
    · exact hq
    · exact hq
  · by_cases hlen : GoMap.len s.scoreKeeper > 0
    · simp only [hlen, if_true]
      exact hp
    · simp only [hlen, if_false]
      exact hp

theorem reviewSeq_step (toLower : Char → Char) (deck done : List Card) (s : QuizState)
    (e : Event) (h : ReviewSeqInv deck done s) (hr : s.running = true) :
    ReviewSeqInv deck (done ++ firstAnswer toLower s e) (stepSequential toLower s e) := by
  obtain ⟨hq, hrun, hstop⟩ := h
  have hp := hrun hr
  cases e with
  | quit =>
    simp only [firstAnswer, List.append_nil, stepSequential]
    refine ⟨hq, fun h => by simp [onQuit] at h, fun _ => ?_⟩
    simp only [onQuit, hq, if_true]
    refine hp.trans ?_
    by_cases h0 : GoMap.len s.scoreKeeper = 0
    · simp [h0]
    · simp [h0]
  | timeout =>
    simp only [firstAnswer, List.append_nil, stepSequential]
    by_cases hlen : GoMap.len s.scoreKeeper > 0
    · rw [if_pos hlen]
      have hne : ¬ GoMap.len s.scoreKeeper = 0 := by omega
      simp only [hne, if_false, List.append_nil] at hp
      exact reviewSeq_closeRound deck done s hq hp
    · rw [if_neg hlen]
      have h0 : GoMap.len s.scoreKeeper = 0 := by omega
      simp only [h0, if_true] at hp
      by_cases hab : (noteTimeout s).timeoutCount ≥ timeoutLimit
      · rw [if_pos hab]
        refine ⟨hq, fun h => by simp [abort] at h, fun _ => ?_⟩
        simp only [abort, noteTimeout, hq, if_true]
        refine hp.trans ?_
        simp
      · rw [if_neg hab]
        apply reviewSeq_closeRound
        · exact hq
        · simp only [noteTimeout]
          refine hp.trans ?_
          simp
  | msg m =>
    simp only [stepSequential]
    by_cases hpass : m.Content = ".." ∨ m.Content = "。。"
    · have hacc : accepts toLower s m = false := by simp [accepts, hpass]
      simp only [firstAnswer, hacc, Bool.false_eq_true, false_and, if_false, List.append_nil,
        onMessage, hpass, if_true]
      exact ⟨hq, fun _ => hp, fun h => absurd (show s.running = false from h) (by simp [hr])⟩
    · by_cases hhas : hasString toLower s.answers (k2h m.Content) = true
      · have hacc : accepts toLower s m = true := by simp [accepts, hpass, hhas]
        have hsk : ¬ GoMap.len (if GoMap.contains s.scoreKeeper m.AuthorID = true
            then s.scoreKeeper
            else GoMap.set s.scoreKeeper m.AuthorID ((GoMap.len s.scoreKeeper : Int) + 1))
            = 0 := by
          by_cases h0 : GoMap.len s.scoreKeeper = 0
          · have hnil : s.scoreKeeper = [] := List.length_eq_zero.mp h0
            simp [hnil, GoMap.contains, GoMap.get, GoMap.set, GoMap.len]
          · split
            · exact h0
            · intro h1
              have := GoMap.get_set_self s.scoreKeeper m.AuthorID
                ((GoMap.len s.scoreKeeper : Int) + 1)
              rw [List.length_eq_zero.mp h1] at this
              simp [GoMap.get] at this
        simp only [onMessage, hpass, hhas, if_true, if_false]
        refine ⟨hq, fun _ => ?_,
          fun h => absurd (show s.running = false from h) (by simp [hr])⟩
        simp only [hsk, if_false, List.append_nil]
        by_cases h0 : GoMap.len s.scoreKeeper = 0
        · simp only [firstAnswer, hacc, h0, and_self, if_true] at hp ⊢
          refine hp.trans ?_
          simp only [List.append_assoc]
          refine List.Perm.append_left done ?_
          rw [← List.append_assoc, ← List.append_assoc [s.current]]
          exact List.Perm.append_right _ List.perm_append_comm
        · simp only [firstAnswer, hacc, h0, and_false, if_false, List.append_nil] at hp ⊢
          exact hp
      · have hacc : accepts toLower s m = false := by simp [accepts, hhas]
        simp only [firstAnswer, hacc, Bool.false_eq_true, false_and, if_false,
          List.append_nil, onMessage, hpass, hhas]
        exact ⟨hq, fun _ => hp, fun h => absurd (show s.running = false from h) (by simp [hr])⟩

theorem reviewSeq_run (toLower : Char → Char) (deck : List Card) (events : List Event) :
    ∀ (done : List Card) (s : QuizState), ReviewSeqInv deck done s →
      ReviewSeqInv deck (done ++ answeredSequential toLower s events)
        (runSequential toLower s events) := by
  induction events with
  | nil =>
    intro done s h
    simpa [answeredSequential, runSequential] using h
  | cons e es ih =>
    intro done s h
    by_cases hr : s.running = true
    · rw [runSequential_cons, if_pos hr]
      simp only [answeredSequential, hr, if_true]
      rw [← List.append_assoc]
      exact ih _ _ (reviewSeq_step toLower deck done s e h hr)
    · have hf : s.running = false := by simpa using hr
      have hstop : runSequential toLower s (e :: es) = s := by
        rw [runSequential_cons, if_neg hr]
        clear ih
        induction es with
        | nil => rfl
        | cons x xs ihx => rw [runSequential_cons, if_neg hr]; exact ihx
      rw [hstop]
      simp only [answeredSequential, hf, Bool.false_eq_true, if_false, List.append_nil]
      exact h

end QuizState

/-- C29 (amended): in a review session started without a win limit, in standard mode
(`runQuiz` with a win-limit argument that is not an integer) or in sequential mode
(`runQuizSequential`) from start offset 0, whatever messages, timeouts and stop signals
the loop takes, once the call has returned the loop has ended, and the cards of the
review deck taken from the store are, as a multiset, the cards for which some
participant gave a correct answer together with the failure set; the failure set is the
deck stored back as the review deck of the channel.  So every card nobody answered
correctly is in the new review deck exactly as often as it was in the old one, and no
answered card is.  In sequential mode from any start offset this holds of the cards
from the offset on. -/
theorem review_no_card_lost (toLower : Char → Char) (g : Globals) (quizChannel : String)
    (waitTimeGiven : Int) (loaded : Quiz) (draw : Nat → Nat) (events : List Event)
    (s : QuizState) :
    (∀ winLimitGiven : String, (Atoi winLimitGiven).2 = false →
      (runQuiz toLower g quizChannel "review" winLimitGiven waitTimeGiven loaded draw
        events).session = some s →
      (runQuiz toLower g quizChannel "review" winLimitGiven waitTimeGiven loaded draw
        events).returned = true →
      s = QuizState.run toLower (reviewStart g quizChannel waitTimeGiven draw) events ∧
      s.running = false ∧
      ((GoMap.get g.Review quizChannel).getD Quiz.zero).Deck.Perm
        (QuizState.answered toLower (reviewStart g quizChannel waitTimeGiven draw) events
          ++ s.failed) ∧
      (GoMap.get (runQuiz toLower g quizChannel "review" winLimitGiven waitTimeGiven loaded
        draw events).globals.Review quizChannel).map (fun q => q.Deck) = some s.failed) ∧
    (∀ startIndex text : String, startIndexText startIndex = some text →
      (runQuizSequential toLower g quizChannel "review" startIndex waitTimeGiven loaded draw
        events).session = some s →
      (runQuizSequential toLower g quizChannel "review" startIndex waitTimeGiven loaded draw
        events).returned = true →
      s = QuizState.runSequential toLower
        (reviewStartSequential g quizChannel waitTimeGiven draw
          (startOffset (getReview g.Review quizChannel draw).2.Deck.length text)) events ∧
      s.running = false ∧
      ((getReview g.Review quizChannel draw).2.Deck.drop
          (startOffset (getReview g.Review quizChannel draw).2.Deck.length text).toNat).Perm
        (QuizState.answeredSequential toLower
          (reviewStartSequential g quizChannel waitTimeGiven draw
            (startOffset (getReview g.Review quizChannel draw).2.Deck.length text)) events
          ++ s.failed) ∧
      (startOffset (getReview g.Review quizChannel draw).2.Deck.length text = 0 →
        ((GoMap.get g.Review quizChannel).getD Quiz.zero).Deck.Perm
          (QuizState.answeredSequential toLower
            (reviewStartSequential g quizChannel waitTimeGiven draw 0) events
            ++ s.failed)) ∧
      (GoMap.get (runQuizSequential toLower g quizChannel "review" startIndex waitTimeGiven
        loaded draw events).globals.Review quizChannel).map (fun q => q.Deck)
        = some s.failed) := by
  have hq : sessionQuiz g quizChannel "review" loaded draw
      = (getReview g.Review quizChannel draw).2 := by
    simp [sessionQuiz]
  constructor
  · intro winLimitGiven hw h hret
    have hpw : parseWinLimit
        (((getReview g.Review quizChannel draw).2.Deck.length : Nat) : Int)
        (getReview g.Review quizChannel draw).2.Deck.length winLimitGiven
        = (((getReview g.Review quizChannel draw).2.Deck.length : Nat) : Int) := by
      simp [parseWinLimit, hw]
    unfold runQuiz at h hret ⊢
    simp only [] at h hret ⊢
    split at h
    · cases h
    · rename_i h1
      rw [if_neg h1] at hret ⊢
      split at h
      · cases h
      · rename_i h2
        rw [if_neg h2] at hret ⊢
        rw [finishRun_session] at h
        have hs := (Option.some.inj h).symm
        simp only [hq, if_true, hpw] at hs hret ⊢
        have hs2 : s = QuizState.run toLower (reviewStart g quizChannel waitTimeGiven draw)
            events := hs
        have hfin := finishRun_returned _ _ _ _ hret
        have hrun : s.running = false := by
          rw [hs]
          cases hr : (QuizState.run toLower _ events).running with
          | false => rfl
          | true =>
            unfold finishRun at hret
            rw [if_pos hr] at hret
            cases hret
        have hinv0 : QuizState.ReviewInv (getReview g.Review quizChannel draw).2.Deck []
            (reviewStart g quizChannel waitTimeGiven draw) := by
          unfold reviewStart
          apply QuizState.reviewInv_present
          · rfl
          · rfl
          · intro p
            simp [QuizState.init, standing, GoMap.get]
          · simp [QuizState.init]
        have hinv := QuizState.reviewInv_run toLower _ events [] _ hinv0
        rw [← hs2, List.nil_append] at hinv
        refine ⟨hs2, hrun, ?_, ?_⟩
        · refine List.Perm.trans ?_ (hinv.2.2.2 hrun)
          exact (shuffle_perm draw _).symm
        · rw [hfin.2.1, ← hs]
          rfl
  · intro startIndex text htext h hret
    unfold runQuizSequential at h hret ⊢
    simp only [htext] at h hret ⊢
    split at h
    · cases h
    · rename_i h1
      rw [if_neg h1] at hret ⊢
      split at h
      · cases h
      · rename_i h2
        rw [if_neg h2] at hret ⊢
        split at h
        · cases h
        · rename_i h3
          rw [if_neg h3] at hret ⊢
          rw [finishRun_session] at h
          have hs := (Option.some.inj h).symm
          simp only [hq] at hs hret ⊢
          have hs2 : s = QuizState.runSequential toLower
              (reviewStartSequential g quizChannel waitTimeGiven draw
                (startOffset (getReview g.Review quizChannel draw).2.Deck.length text))
              events := hs
          have hfin := finishRun_returned _ _ _ _ hret
          have hrun : s.running = false := by
            rw [hs]
            cases hr : (QuizState.runSequential toLower _ events).running with
            | false => rfl
            | true =>
              unfold finishRun at hret
              rw [if_pos hr] at hret
              cases hret
          have hinv0 : QuizState.ReviewSeqInv
              ((getReview g.Review quizChannel draw).2.Deck.drop
                (startOffset (getReview g.Review quizChannel draw).2.Deck.length text).toNat)
              []
              (reviewStartSequential g quizChannel waitTimeGiven draw
                (startOffset (getReview g.Review quizChannel draw).2.Deck.length text)) := by
            unfold reviewStartSequential QuizState.startSequential
            apply QuizState.reviewSeq_present
            · rfl
            · simp [QuizState.init, Quiz.withDeck]
          have hinv := QuizState.reviewSeq_run toLower _ events [] _ hinv0
          rw [← hs2, List.nil_append] at hinv
          refine ⟨hs2, hrun, hinv.2.2 hrun, ?_, ?_⟩
          · intro h0
            have hp := hinv.2.2 hrun
            rw [h0] at hp
            refine List.Perm.trans ?_ hp
            simp only [Int.toNat_zero, List.drop_zero]
            exact (shuffle_perm draw _).symm
          · rw [hfin.2.1, ← hs]
            rfl

/-- Counterexample for C29: a sequential review session on a stored deck of two cards,
started with `1-` and stopped while its only question is open.  The card `Q2` in front
of the start offset is dropped: nobody has answered it, and it is not in the deck stored
back. -/
theorem review_no_card_lost_counterexample :
    (getReview [("ch", demoQuiz)] "ch" (fun _ => 0)).2.Deck
      = [⟨"Q2", ["b"], ""⟩, ⟨"Q1", ["a"], ""⟩] ∧
    (runQuizSequential Char.toLower ⟨[], [("ch", demoQuiz)]⟩ "ch" "review" "1-" 2000
      Quiz.zero (fun _ => 0) [Event.quit]).returned = true ∧
    questionsSent (runQuizSequential Char.toLower ⟨[], [("ch", demoQuiz)]⟩ "ch" "review" "1-"
      2000 Quiz.zero (fun _ => 0) [Event.quit]).sent = [⟨"Q1", ["a"], ""⟩] ∧
    QuizState.answeredSequential Char.toLower
      (reviewStartSequential ⟨[], [("ch", demoQuiz)]⟩ "ch" 2000 (fun _ => 0) 1)
      [Event.quit] = [] ∧
    (GoMap.get (runQuizSequential Char.toLower ⟨[], [("ch", demoQuiz)]⟩ "ch" "review" "1-"
      2000 Quiz.zero (fun _ => 0) [Event.quit]).globals.Review "ch").map (fun q => q.Deck)
      = some [⟨"Q1", ["a"], ""⟩] ∧
    (⟨"Q2", ["b"], ""⟩ : Card) ∉
      QuizState.answeredSequential Char.toLower
        (reviewStartSequential ⟨[], [("ch", demoQuiz)]⟩ "ch" 2000 (fun _ => 0) 1)
        [Event.quit] ++ [⟨"Q1", ["a"], ""⟩] := by
  decide

/-- Witness for C29: review sessions on a stored deck of two cards.  In standard mode,
started without a win limit, `A` answers the card shown first, the second card times out
five times and the session ends: the answered card is `Q1`, and the new review deck is
the card `Q2`.  In sequential mode, started with `0-`, `A` answers the first card and the
session is stopped while the second one is open: the answered card is `Q2`, and the new
review deck is the card `Q1`. -/
theorem review_no_card_lost_witness :
    (Atoi "").2 = false ∧
    (getReview [("ch", demoQuiz)] "ch" (fun _ => 0)).2.Deck
      = [⟨"Q2", ["b"], ""⟩, ⟨"Q1", ["a"], ""⟩] ∧
    QuizState.answered Char.toLower (reviewStart ⟨[], [("ch", demoQuiz)]⟩ "ch" 2000 (fun _ => 0))
      [Event.msg ⟨"A", "a"⟩, Event.timeout, Event.timeout, Event.timeout, Event.timeout,
        Event.timeout, Event.timeout] = [⟨"Q1", ["a"], ""⟩] ∧
    (GoMap.get (runQuiz Char.toLower ⟨[], [("ch", demoQuiz)]⟩ "ch" "review" "" 2000 Quiz.zero
      (fun _ => 0)
      [Event.msg ⟨"A", "a"⟩, Event.timeout, Event.timeout, Event.timeout, Event.timeout,
        Event.timeout, Event.timeout]).globals.Review "ch").map (fun q => q.Deck)
      = some [⟨"Q2", ["b"], ""⟩] ∧
    ((GoMap.get [("ch", demoQuiz)] "ch").getD Quiz.zero).Deck.Perm
      (QuizState.answered Char.toLower
        (reviewStart ⟨[], [("ch", demoQuiz)]⟩ "ch" 2000 (fun _ => 0))
        [Event.msg ⟨"A", "a"⟩, Event.timeout, Event.timeout, Event.timeout, Event.timeout,
          Event.timeout, Event.timeout]
        ++ [⟨"Q2", ["b"], ""⟩]) ∧
    startOffset (getReview [("ch", demoQuiz)] "ch" (fun _ => 0)).2.Deck.length "0" = 0 ∧
    QuizState.answeredSequential Char.toLower
      (reviewStartSequential ⟨[], [("ch", demoQuiz)]⟩ "ch" 2000 (fun _ => 0) 0)
      [Event.msg ⟨"A", "b"⟩, Event.timeout, Event.quit] = [⟨"Q2", ["b"], ""⟩] ∧
    (GoMap.get (runQuizSequential Char.toLower ⟨[], [("ch", demoQuiz)]⟩ "ch" "review" "0-"
      2000 Quiz.zero (fun _ => 0)
      [Event.msg ⟨"A", "b"⟩, Event.timeout, Event.quit]).globals.Review "ch").map
      (fun q => q.Deck) = some [⟨"Q1", ["a"], ""⟩] ∧
    ((GoMap.get [("ch", demoQuiz)] "ch").getD Quiz.zero).Deck.Perm
      (QuizState.answeredSequential Char.toLower
        (reviewStartSequential ⟨[], [("ch", demoQuiz)]⟩ "ch" 2000 (fun _ => 0) 0)
        [Event.msg ⟨"A", "b"⟩, Event.timeout, Event.quit]
        ++ [⟨"Q1", ["a"], ""⟩]) := by
  have hs : (runQuiz Char.toLower ⟨[], [("ch", demoQuiz)]⟩ "ch" "review" "" 2000 Quiz.zero
      (fun _ => 0)
      [Event.msg ⟨"A", "a"⟩, Event.timeout, Event.timeout, Event.timeout, Event.timeout,
        Event.timeout, Event.timeout]).session
      = some (QuizState.run Char.toLower
          (reviewStart ⟨[], [("ch", demoQuiz)]⟩ "ch" 2000 (fun _ => 0))
          [Event.msg ⟨"A", "a"⟩, Event.timeout, Event.timeout, Event.timeout, Event.timeout,
            Event.timeout, Event.timeout]) := by decide
  have hf : (QuizState.run Char.toLower
      (reviewStart ⟨[], [("ch", demoQuiz)]⟩ "ch" 2000 (fun _ => 0))
      [Event.msg ⟨"A", "a"⟩, Event.timeout, Event.timeout, Event.timeout, Event.timeout,
        Event.timeout, Event.timeout]).failed = [⟨"Q2", ["b"], ""⟩] := by decide
  have key := (review_no_card_lost Char.toLower ⟨[], [("ch", demoQuiz)]⟩ "ch" 2000
    Quiz.zero (fun _ => 0)
    [Event.msg ⟨"A", "a"⟩, Event.timeout, Event.timeout, Event.timeout, Event.timeout,
      Event.timeout, Event.timeout] _).1 "" (by decide) hs (by decide)
  rw [hf] at key
  have hs2 : (runQuizSequential Char.toLower ⟨[], [("ch", demoQuiz)]⟩ "ch" "review" "0-"
      2000 Quiz.zero (fun _ => 0)
      [Event.msg ⟨"A", "b"⟩, Event.timeout, Event.quit]).session
      = some (QuizState.runSequential Char.toLower
          (reviewStartSequential ⟨[], [("ch", demoQuiz)]⟩ "ch" 2000 (fun _ => 0) 0)
          [Event.msg ⟨"A", "b"⟩, Event.timeout, Event.quit]) := by decide
  have hf2 : (QuizState.runSequential Char.toLower
      (reviewStartSequential ⟨[], [("ch", demoQuiz)]⟩ "ch" 2000 (fun _ => 0) 0)
      [Event.msg ⟨"A", "b"⟩, Event.timeout, Event.quit]).failed
      = [⟨"Q1", ["a"], ""⟩] := by decide
  have key2 := (review_no_card_lost Char.toLower ⟨[], [("ch", demoQuiz)]⟩ "ch" 2000
    Quiz.zero (fun _ => 0) [Event.msg ⟨"A", "b"⟩, Event.timeout, Event.quit] _).2
    "0-" "0" (by decide) hs2 (by decide)
  rw [hf2] at key2
  exact ⟨by decide, by decide, by decide, key.2.2.2, key.2.2.1, by decide, by decide,
    key2.2.2.2.2, key2.2.2.2.1 (by decide)⟩

/-! ### Concurrent calls of `startQuiz` -/

theorem contains_set_iff (m : GoMap Bool) (k x : String) (v : Bool) :
    GoMap.contains (GoMap.set m k v) x = true ↔ x = k ∨ GoMap.contains m x = true := by
  unfold GoMap.contains
  rw [← GoMap.mem_keys_iff, ← GoMap.mem_keys_iff]
  exact GoMap.mem_keys_set m k x v

namespace StartSystem

theorem set_same {α : Type} (l : List α) (i : Nat) (a : α) (h : l[i]? = some a) :
    l.set i a = l := by
  apply List.ext_getElem?
  intro j
  rw [List.getElem?_set]
  split
  · rename_i hij
    subst hij
    rw [h]
    split
    · rfl
    · rename_i hlt
      have := List.getElem?_eq_some_iff.mp h
      obtain ⟨hl, _⟩ := this
      exact absurd hl hlt
  · rfl

theorem step_absent (sys : StartSystem) (i : Nat) (h : sys.calls[i]? = none) :
    step sys i = sys := by
  unfold step; rw [h]

theorem step_calls (sys : StartSystem) (i j : Nat) (c : StartCall)
    (h : sys.calls[i]? = some c) :
    (step sys i).calls[j]?
      = if j = i then some (c.exec sys.ongoing sys.locked).2.2 else sys.calls[j]? := by
  have hl : i < sys.calls.length := (List.getElem?_eq_some_iff.mp h).1
  unfold step
  rw [h]
  simp only [List.getElem?_set, hl, if_true]
  by_cases hij : j = i
  · simp [hij]
  · have : ¬ i = j := fun e => hij e.symm
    simp [hij, this]

theorem run_nil (sys : StartSystem) : run sys [] = sys := rfl

theorem startSys_run_cons (sys : StartSystem) (i : Nat) (is : List Nat) :
    run sys (i :: is) = run (step sys i) is := rfl

theorem startSys_run_append (sys : StartSystem) (a b : List Nat) :
    run sys (a ++ b) = run (run sys a) b := by
  unfold run; rw [List.foldl_append]

end StartSystem



namespace StartSystem

theorem getElem?_update (l : List StartCall) (i j : Nat) (c c' : StartCall)
    (h : l[i]? = some c) :
    (l.set i c')[j]? = if j = i then some c' else l[j]? := by
  have hl : i < l.length := (List.getElem?_eq_some_iff.mp h).1
  simp only [List.getElem?_set, hl, if_true]
  by_cases hij : j = i
  · simp [hij]
  · have : ¬ i = j := fun e => hij e.symm
    simp [hij, this]

/-- The invariant is kept when call `i` goes from `c` to `c2`, the registry to `o2` and
the mutex to `l2`, under the conditions every statement of `startQuiz` meets. -/
theorem inv_update (R : GoMap Bool) (sys : StartSystem) (i : Nat) (c c2 : StartCall)
    (o2 : GoMap Bool) (l2 : Bool) (h : Inv R sys) (hc : sys.calls[i]? = some c)
    (hch : c2.quizChannel = c.quizChannel)
    (hcrit : c2.critical = true → c.critical = true ∨ sys.locked = false)
    (hlock : l2 = true ↔ (c2.critical = true ∨ (sys.locked = true ∧ c.critical = false)))
    (hvalid : c2.pc = StartPc.branch → c2.exists_ = GoMap.contains o2 c.quizChannel)
    (hreg : (o2 = sys.ongoing ∧ c2.claimed = c.claimed) ∨
      (o2 = GoMap.set sys.ongoing c.quizChannel true ∧ c.critical = true ∧
        c.claimed = false ∧ c2.claimed = true ∧
        GoMap.contains sys.ongoing c.quizChannel = false))
    (hearly : c2.pc.rank ≤ 2 → c2.err = none)
    (hlate : 3 ≤ c2.pc.rank →
      (c2.err = none ∨ c2.err = some "Channel quiz already ongoing") ∧
      GoMap.contains o2 c.quizChannel = true)
    (hrefuse : c2.err ≠ none →
      c.err ≠ none ∨ (GoMap.contains sys.ongoing c.quizChannel = true ∧ c.claimed = false)) :
    Inv R ⟨o2, l2, sys.calls.set i c2⟩ := by
  have hget : ∀ j, (sys.calls.set i c2)[j]? = if j = i then some c2 else sys.calls[j]? :=
    fun j => getElem?_update sys.calls i j c c2 hc
  have hself : (sys.calls.set i c2)[i]? = some c2 := by rw [hget]; simp
  have hother : ∀ j, j ≠ i → (sys.calls.set i c2)[j]? = sys.calls[j]? := by
    intro j hj; rw [hget]; simp [hj]
  have hmono : ∀ x, GoMap.contains sys.ongoing x = true → GoMap.contains o2 x = true := by
    intro x hx
    rcases hreg with ⟨ho, _⟩ | ⟨ho, _⟩
    · rw [ho]; exact hx
    · rw [ho]; exact (contains_set_iff _ _ _ _).mpr (Or.inr hx)
  have hclaim : c.claimed = true → c2.claimed = true := by
    intro hcl
    rcases hreg with ⟨_, h1⟩ | ⟨_, _, h1, _⟩
    · rw [h1]; exact hcl
    · rw [hcl] at h1; cases h1
  constructor
  · -- mutex
    intro a b ca cb ha hb hca hcb
    by_cases hai : a = i <;> by_cases hbi : b = i
    · rw [hai, hbi]
    · subst hai
      rw [hself] at ha; cases ha
      rw [hother b hbi] at hb
      rcases hcrit hca with h1 | h1
      · exact h.mutex a b c cb hc hb h1 hcb
      · have := h.held.mpr ⟨b, cb, hb, hcb⟩
        rw [h1] at this; cases this
    · subst hbi
      rw [hself] at hb; cases hb
      rw [hother a hai] at ha
      rcases hcrit hcb with h1 | h1
      · exact h.mutex a b ca c ha hc hca h1
      · have := h.held.mpr ⟨a, ca, ha, hca⟩
        rw [h1] at this; cases this
    · rw [hother a hai] at ha
      rw [hother b hbi] at hb
      exact h.mutex a b ca cb ha hb hca hcb
  · -- held
    show l2 = true ↔ _
    rw [hlock]
    constructor
    · rintro (h1 | ⟨h1, h2⟩)
      · exact ⟨i, c2, hself, h1⟩
      · obtain ⟨j, cj, hj, hcj⟩ := h.held.mp h1
        have hji : j ≠ i := by
          intro e
          subst e
          rw [hc] at hj; cases hj
          rw [h2] at hcj; cases hcj
        exact ⟨j, cj, by rw [hother j hji]; exact hj, hcj⟩
    · rintro ⟨j, cj, hj, hcj⟩
      by_cases hji : j = i
      · subst hji
        rw [hself] at hj; cases hj
        exact Or.inl hcj
      · rw [hother j hji] at hj
        right
        refine ⟨h.held.mpr ⟨j, cj, hj, hcj⟩, ?_⟩
        cases hcc : c.critical with
        | false => rfl
        | true => exact absurd (h.mutex j i cj c hj hc hcj hcc) hji
  · -- valid
    intro j cj hj hpc
    show cj.exists_ = GoMap.contains o2 cj.quizChannel
    by_cases hji : j = i
    · subst hji
      rw [hself] at hj; cases hj
      rw [hch]
      exact hvalid hpc
    · rw [hother j hji] at hj
      rcases hreg with ⟨ho, _⟩ | ⟨_, hcc, _⟩
      · rw [ho]; exact h.valid j cj hj hpc
      · have hcj : cj.critical = true := by simp [StartCall.critical, hpc, StartPc.rank]
        exact absurd (h.mutex j i cj c hj hc hcj hcc) hji
  · -- registry
    intro ch
    show GoMap.contains o2 ch = true ↔ _
    rcases hreg with ⟨ho, hcl⟩ | ⟨ho, _, hc1, hc2, hno⟩
    · rw [ho, h.registry ch]
      constructor
      · rintro (h1 | ⟨j, cj, hj, hcj, hjc⟩)
        · exact Or.inl h1
        · right
          by_cases hji : j = i
          · subst hji
            rw [hc] at hj; cases hj
            exact ⟨j, c2, hself, by rw [hch]; exact hcj, by rw [hcl]; exact hjc⟩
          · exact ⟨j, cj, by rw [hother j hji]; exact hj, hcj, hjc⟩
      · rintro (h1 | ⟨j, cj, hj, hcj, hjc⟩)
        · exact Or.inl h1
        · right
          by_cases hji : j = i
          · subst hji
            rw [hself] at hj; cases hj
            exact ⟨j, c, hc, by rw [← hch]; exact hcj, by rw [← hcl]; exact hjc⟩
          · rw [hother j hji] at hj
            exact ⟨j, cj, hj, hcj, hjc⟩
    · rw [ho, contains_set_iff, h.registry ch]
      constructor
      · rintro (h1 | h1 | ⟨j, cj, hj, hcj, hjc⟩)
        · exact Or.inr ⟨i, c2, hself, by rw [hch, h1], hc2⟩
        · exact Or.inl h1
        · right
          have hji : j ≠ i := by
            intro e
            subst e
            rw [hc] at hj; cases hj
            rw [hc1] at hjc; cases hjc
          exact ⟨j, cj, by rw [hother j hji]; exact hj, hcj, hjc⟩
      · rintro (h1 | ⟨j, cj, hj, hcj, hjc⟩)
        · exact Or.inr (Or.inl h1)
        · by_cases hji : j = i
          · subst hji
            rw [hself] at hj; cases hj
            left
            rw [← hcj, hch]
          · rw [hother j hji] at hj
            exact Or.inr (Or.inr ⟨j, cj, hj, hcj, hjc⟩)
  · -- early
    intro j cj hj hr
    by_cases hji : j = i
    · subst hji
      rw [hself] at hj; cases hj
      exact hearly hr
    · rw [hother j hji] at hj
      exact h.early j cj hj hr
  · -- late
    intro j cj hj hr
    show _ ∧ GoMap.contains o2 cj.quizChannel = true
    by_cases hji : j = i
    · subst hji
      rw [hself] at hj; cases hj
      rw [hch]
      exact hlate hr
    · rw [hother j hji] at hj
      exact ⟨(h.late j cj hj hr).1, hmono _ (h.late j cj hj hr).2⟩
  · -- fresh
    intro j cj hj hcl
    by_cases hji : j = i
    · subst hji
      rw [hself] at hj; cases hj
      rw [hch]
      rcases hreg with ⟨_, h1⟩ | ⟨_, _, _, _, hno⟩
      · exact h.fresh j c hc (by rw [← h1]; exact hcl)
      · cases hR : GoMap.contains R c.quizChannel with
        | false => rfl
        | true =>
          have := (h.registry c.quizChannel).mpr (Or.inl hR)
          rw [hno] at this; cases this
    · rw [hother j hji] at hj
      exact h.fresh j cj hj hcl
  · -- unique
    intro a b ca cb ha hb hab hca hcb
    by_cases hai : a = i <;> by_cases hbi : b = i
    · rw [hai, hbi]
    · subst hai
      rw [hself] at ha; cases ha
      rw [hother b hbi] at hb
      rcases hreg with ⟨_, h1⟩ | ⟨_, _, _, _, hno⟩
      · exact h.unique a b c cb hc hb (by rw [← hch]; exact hab) (by rw [← h1]; exact hca) hcb
      · have := (h.registry c.quizChannel).mpr
          (Or.inr ⟨b, cb, hb, by rw [← hab, hch], hcb⟩)
        rw [hno] at this; cases this
    · subst hbi
      rw [hself] at hb; cases hb
      rw [hother a hai] at ha
      rcases hreg with ⟨_, h1⟩ | ⟨_, _, _, _, hno⟩
      · exact h.unique a b ca c ha hc (by rw [← hch]; exact hab) hca (by rw [← h1]; exact hcb)
      · have := (h.registry c.quizChannel).mpr
          (Or.inr ⟨a, ca, ha, by rw [hab, hch], hca⟩)
        rw [hno] at this; cases this
    · rw [hother a hai] at ha
      rw [hother b hbi] at hb
      exact h.unique a b ca cb ha hb hab hca hcb
  · -- refused
    intro j cj hj herr
    have lift : ∀ (x : String),
        (GoMap.contains R x = true ∨
          ∃ (k : Nat) (ck : StartCall), k ≠ j ∧ sys.calls[k]? = some ck ∧
            ck.quizChannel = x ∧ ck.claimed = true) →
        (GoMap.contains R x = true ∨
          ∃ (k : Nat) (ck : StartCall), k ≠ j ∧ (sys.calls.set i c2)[k]? = some ck ∧
            ck.quizChannel = x ∧ ck.claimed = true) := by
      rintro x (h1 | ⟨k, ck, hkj, hk, hkc, hkl⟩)
      · exact Or.inl h1
      · right
        by_cases hki : k = i
        · subst hki
          rw [hc] at hk; cases hk
          exact ⟨k, c2, hkj, hself, by rw [hch]; exact hkc, hclaim hkl⟩
        · exact ⟨k, ck, hkj, by rw [hother k hki]; exact hk, hkc, hkl⟩
    by_cases hji : j = i
    · subst hji
      rw [hself] at hj; cases hj
      rw [hch]
      rcases hrefuse herr with h1 | ⟨h1, h2⟩
      · exact lift _ (h.refused j c hc h1)
      · apply lift
        rcases (h.registry c.quizChannel).mp h1 with h3 | ⟨k, ck, hk, hkc, hkl⟩
        · exact Or.inl h3
        · right
          refine ⟨k, ck, ?_, hk, hkc, hkl⟩
          intro e
          subst e
          rw [hc] at hk; cases hk
          rw [h2] at hkl; cases hkl
    · rw [hother j hji] at hj
      exact lift _ (h.refused j cj hj herr)

end StartSystem


namespace StartSystem

theorem inv_step (R : GoMap Bool) (sys : StartSystem) (i : Nat) (h : Inv R sys) :
    Inv R (step sys i) := by
  cases hc : sys.calls[i]? with
  | none => rw [step_absent sys i hc]; exact h
  | some c =>
    have hstep : step sys i = ⟨(c.exec sys.ongoing sys.locked).1,
        (c.exec sys.ongoing sys.locked).2.1,
        sys.calls.set i (c.exec sys.ongoing sys.locked).2.2⟩ := by
      unfold step; rw [hc]
    have hsame : ∀ (l : Bool), l = sys.locked →
        Inv R ⟨sys.ongoing, l, sys.calls.set i c⟩ := by
      intro l hl
      rw [hl, set_same _ _ _ hc]
      exact h
    rw [hstep]
    cases hpc : c.pc with
    | lock =>
      cases hl : sys.locked with
      | true =>
        simp only [StartCall.exec, hpc, hl, if_true]
        exact hsame true hl.symm
      | false =>
        simp only [StartCall.exec, hpc, hl, Bool.false_eq_true, if_false]
        have hcl : c.claimed = false := by simp [StartCall.claimed, hpc, StartPc.rank]
        apply inv_update R sys i c _ _ _ h hc
        · rfl
        · intro _; exact Or.inr hl
        · simp [StartCall.critical, StartPc.rank]
        · intro hb; cases hb
        · left
          refine ⟨rfl, ?_⟩
          rw [hcl]
          simp [StartCall.claimed, StartPc.rank]
        · intro _
          exact h.early i c hc (by rw [hpc]; simp [StartPc.rank])
        · intro hr
          simp [StartPc.rank] at hr
        · intro he
          exact Or.inl he
    | lookup =>
      simp only [StartCall.exec, hpc]
      have hcc : c.critical = true := by simp [StartCall.critical, hpc, StartPc.rank]
      have hcl : c.claimed = false := by simp [StartCall.claimed, hpc, StartPc.rank]
      have hl : sys.locked = true := h.held.mpr ⟨i, c, hc, hcc⟩
      apply inv_update R sys i c _ _ _ h hc
      · rfl
      · intro _; exact Or.inl hcc
      · simp [StartCall.critical, StartPc.rank, hl]
      · intro _; rfl
      · left
        refine ⟨rfl, ?_⟩
        rw [hcl]
        simp [StartCall.claimed, StartPc.rank]
      · intro _
        exact h.early i c hc (by rw [hpc]; simp [StartPc.rank])
      · intro hr
        simp [StartPc.rank] at hr
      · intro he
        exact Or.inl he
    | branch =>
      have hcc : c.critical = true := by simp [StartCall.critical, hpc, StartPc.rank]
      have hcl : c.claimed = false := by simp [StartCall.claimed, hpc, StartPc.rank]
      have hl : sys.locked = true := h.held.mpr ⟨i, c, hc, hcc⟩
      have hv := h.valid i c hc hpc
      have he := h.early i c hc (by rw [hpc]; simp [StartPc.rank])
      cases hex : c.exists_ with
      | false =>
        simp only [StartCall.exec, hpc, hex, Bool.not_false, if_true]
        rw [hex] at hv
        apply inv_update R sys i c _ _ _ h hc
        · rfl
        · intro _; exact Or.inl hcc
        · simp [StartCall.critical, StartPc.rank, hl]
        · intro hb; cases hb
        · right
          refine ⟨rfl, hcc, hcl, ?_, hv.symm⟩
          simp [StartCall.claimed, StartPc.rank, he]
        · intro hr
          simp [StartPc.rank] at hr
        · intro _
          exact ⟨Or.inl he, (contains_set_iff _ _ _ _).mpr (Or.inl rfl)⟩
        · intro hne
          exact absurd he hne
      | true =>
        simp only [StartCall.exec, hpc, hex, Bool.not_true, Bool.false_eq_true, if_false]
        rw [hex] at hv
        apply inv_update R sys i c _ _ _ h hc
        · rfl
        · intro _; exact Or.inl hcc
        · simp [StartCall.critical, StartPc.rank, hl]
        · intro hb; cases hb
        · left
          refine ⟨rfl, ?_⟩
          rw [hcl]
          simp [StartCall.claimed, StartPc.rank]
        · intro hr
          simp [StartPc.rank] at hr
        · intro _
          exact ⟨Or.inr rfl, hv.symm⟩
        · intro _
          exact Or.inr ⟨hv.symm, hcl⟩
    | count =>
      simp only [StartCall.exec, hpc]
      have hcc : c.critical = true := by simp [StartCall.critical, hpc, StartPc.rank]
      have hl : sys.locked = true := h.held.mpr ⟨i, c, hc, hcc⟩
      have hla := h.late i c hc (by rw [hpc]; simp [StartPc.rank])
      apply inv_update R sys i c _ _ _ h hc
      · rfl
      · intro _; exact Or.inl hcc
      · simp [StartCall.critical, StartPc.rank, hl]
      · intro hb; cases hb
      · left
        refine ⟨rfl, ?_⟩
        simp [StartCall.claimed, StartPc.rank, hpc]
      · intro hr
        simp [StartPc.rank] at hr
      · intro _
        exact hla
      · intro he
        exact Or.inl he
    | unlock =>
      simp only [StartCall.exec, hpc]
      have hcc : c.critical = true := by simp [StartCall.critical, hpc, StartPc.rank]
      have hla := h.late i c hc (by rw [hpc]; simp [StartPc.rank])
      apply inv_update R sys i c _ _ _ h hc
      · rfl
      · intro hb
        simp [StartCall.critical, StartPc.rank] at hb
      · simp [StartCall.critical, StartPc.rank, hpc]
      · intro hb; cases hb
      · left
        refine ⟨rfl, ?_⟩
        simp [StartCall.claimed, StartPc.rank, hpc]
      · intro hr
        simp [StartPc.rank] at hr
      · intro _
        exact hla
      · intro he
        exact Or.inl he
    | status =>
      simp only [StartCall.exec, hpc]
      have hcc : c.critical = false := by simp [StartCall.critical, hpc, StartPc.rank]
      have hla := h.late i c hc (by rw [hpc]; simp [StartPc.rank])
      apply inv_update R sys i c _ _ _ h hc
      · rfl
      · intro hb
        simp [StartCall.critical, StartPc.rank] at hb
      · simp [StartCall.critical, StartPc.rank, hpc]
      · intro hb; cases hb
      · left
        refine ⟨rfl, ?_⟩
        simp [StartCall.claimed, StartPc.rank, hpc]
      · intro hr
        simp [StartPc.rank] at hr
      · intro _
        exact hla
      · intro he
        exact Or.inl he
    | done =>
      simp only [StartCall.exec, hpc]
      exact hsame _ rfl

theorem inv_run (R : GoMap Bool) (schedule : List Nat) :
    ∀ sys : StartSystem, Inv R sys → Inv R (run sys schedule) := by
  induction schedule with
  | nil => intro sys h; exact h
  | cons i is ih => intro sys h; exact ih _ (inv_step R sys i h)

theorem start_calls (R : GoMap Bool) (channels : List String) (i : Nat) (c : StartCall)
    (h : (start R channels).calls[i]? = some c) :
    channels[i]? = some c.quizChannel ∧ c.pc = StartPc.lock ∧ c.err = none := by
  simp only [start, List.getElem?_map] at h
  cases hch : channels[i]? with
  | none => rw [hch] at h; cases h
  | some ch =>
    rw [hch] at h
    cases h
    exact ⟨rfl, rfl, rfl⟩

theorem inv_start (R : GoMap Bool) (channels : List String) : Inv R (start R channels) := by
  have hpc : ∀ (i : Nat) (c : StartCall), (start R channels).calls[i]? = some c →
      c.critical = false ∧ c.claimed = false := by
    intro i c hc
    have := (start_calls R channels i c hc).2.1
    simp [StartCall.critical, StartCall.claimed, this, StartPc.rank]
  constructor
  · intro i j ci cj hi _ hci
    rw [(hpc i ci hi).1] at hci; cases hci
  · constructor
    · intro hl; cases hl
    · rintro ⟨i, c, hc, hcc⟩
      rw [(hpc i c hc).1] at hcc; cases hcc
  · intro i c hc hb
    rw [(start_calls R channels i c hc).2.1] at hb; cases hb
  · intro ch
    constructor
    · exact fun hR => Or.inl hR
    · rintro (hR | ⟨i, c, hc, _, hcl⟩)
      · exact hR
      · rw [(hpc i c hc).2] at hcl; cases hcl
  · intro i c hc _
    exact (start_calls R channels i c hc).2.2
  · intro i c hc hr
    rw [(start_calls R channels i c hc).2.1] at hr
    simp [StartPc.rank] at hr
  · intro i c hc hcl
    rw [(hpc i c hc).2] at hcl; cases hcl
  · intro i j ci cj hi _ _ hcl
    rw [(hpc i ci hi).2] at hcl; cases hcl
  · intro i c hc he
    exact absurd (start_calls R channels i c hc).2.2 he

end StartSystem


theorem exec_channel (o : GoMap Bool) (l : Bool) (c : StartCall) :
    (c.exec o l).2.2.quizChannel = c.quizChannel := by
  unfold StartCall.exec
  split
  · split <;> rfl
  · rfl
  · split <;> rfl
  · rfl
  · rfl
  · rfl
  · rfl

/-- A call that is not blocked at `Ongoing.Lock()` and has not returned executes one
statement. -/
theorem exec_rank (o : GoMap Bool) (l : Bool) (c : StartCall)
    (h1 : c.pc ≠ StartPc.done) (h2 : c.pc = StartPc.lock → l = false) :
    (c.exec o l).2.2.pc.rank = c.pc.rank + 1 := by
  unfold StartCall.exec
  split
  · rename_i hpc
    rw [h2 hpc]
    simp [StartPc.rank, hpc]
  · rename_i hpc; simp [StartPc.rank, hpc]
  · rename_i hpc; split <;> simp [StartPc.rank, hpc]
  · rename_i hpc; simp [StartPc.rank, hpc]
  · rename_i hpc; simp [StartPc.rank, hpc]
  · rename_i hpc; simp [StartPc.rank, hpc]
  · rename_i hpc; exact absurd hpc h1

theorem rank_le (p : StartPc) : p.rank ≤ 6 := by
  cases p <;> simp [StartPc.rank]

theorem rank_done (p : StartPc) : p.rank = 6 ↔ p = StartPc.done := by
  cases p <;> simp [StartPc.rank]

theorem sum_map_set (f : StartCall → Nat) (l : List StartCall) (i : Nat) (c c2 : StartCall)
    (h : l[i]? = some c) :
    ((l.set i c2).map f).sum + f c = (l.map f).sum + f c2 := by
  induction l generalizing i with
  | nil => simp at h
  | cons x xs ih =>
    cases i with
    | zero =>
      simp only [List.getElem?_cons_zero, Option.some.injEq] at h
      subst h
      simp only [List.set_cons_zero, List.map_cons, List.sum_cons]
      omega
    | succ k =>
      simp only [List.getElem?_cons_succ] at h
      have := ih k h
      simp only [List.set_cons_succ, List.map_cons, List.sum_cons]
      omega

namespace StartSystem

theorem channels_step (sys : StartSystem) (i : Nat) :
    (step sys i).calls.map StartCall.quizChannel = sys.calls.map StartCall.quizChannel := by
  cases hc : sys.calls[i]? with
  | none => rw [step_absent sys i hc]
  | some c =>
    apply List.ext_getElem?
    intro j
    simp only [List.getElem?_map]
    rw [step_calls sys i j c hc]
    by_cases hji : j = i
    · subst hji
      simp [hc, exec_channel]
    · simp [hji]

theorem channels_run (schedule : List Nat) :
    ∀ sys : StartSystem, (run sys schedule).calls.map StartCall.quizChannel
      = sys.calls.map StartCall.quizChannel := by
  induction schedule with
  | nil => intro sys; rfl
  | cons i is ih =>
    intro sys
    rw [startSys_run_cons, ih, channels_step]

theorem channels_start (R : GoMap Bool) (channels : List String) :
    (start R channels).calls.map StartCall.quizChannel = channels := by
  simp [start, List.map_map, Function.comp_def]

theorem channels_started (R : GoMap Bool) (channels : List String) (schedule : List Nat) :
    (run (start R channels) schedule).calls.map StartCall.quizChannel = channels := by
  rw [channels_run, channels_start]

theorem call_channel (R : GoMap Bool) (channels : List String) (schedule : List Nat)
    (i : Nat) (c : StartCall) (h : (run (start R channels) schedule).calls[i]? = some c) :
    channels[i]? = some c.quizChannel := by
  have := congrArg (fun l => l[i]?) (channels_started R channels schedule)
  simp only [List.getElem?_map, h] at this
  exact this.symm

theorem call_exists (R : GoMap Bool) (channels : List String) (schedule : List Nat)
    (i : Nat) (hi : i < channels.length) :
    ∃ c, (run (start R channels) schedule).calls[i]? = some c := by
  have hlen := congrArg List.length (channels_started R channels schedule)
  rw [List.length_map] at hlen
  have : i < (run (start R channels) schedule).calls.length := by omega
  exact ⟨_, List.getElem?_eq_getElem this⟩

theorem allDone_spec (sys : StartSystem) (h : sys.allDone = true) (i : Nat) (c : StartCall)
    (hc : sys.calls[i]? = some c) : c.pc = StartPc.done := by
  have hm : c ∈ sys.calls := List.getElem?_mem hc
  have := List.all_eq_true.mp h c hm
  simpa [StartCall.returned] using this

/-- No deadlock: while a call has not returned, some call can execute a statement. -/
theorem step_progress (R : GoMap Bool) (sys : StartSystem) (h : Inv R sys)
    (hnd : sys.allDone = false) : ∃ i, remaining (step sys i) < remaining sys := by
  have enabled : ∀ (i : Nat) (c : StartCall), sys.calls[i]? = some c →
      c.pc ≠ StartPc.done → (c.pc = StartPc.lock → sys.locked = false) →
      remaining (step sys i) < remaining sys := by
    intro i c hc h1 h2
    have hr := exec_rank sys.ongoing sys.locked c h1 h2
    have hle := rank_le (c.exec sys.ongoing sys.locked).2.2.pc
    have hs := sum_map_set (fun c => 6 - c.pc.rank) sys.calls i c
      (c.exec sys.ongoing sys.locked).2.2 hc
    have hcalls : (step sys i).calls = sys.calls.set i (c.exec sys.ongoing sys.locked).2.2 := by
      unfold step; rw [hc]
    unfold remaining
    rw [hcalls]
    simp only [] at hs
    omega
  cases hl : sys.locked with
  | true =>
    obtain ⟨i, c, hc, hcc⟩ := h.held.mp hl
    have hr : 1 ≤ c.pc.rank ∧ c.pc.rank ≤ 4 := by simpa [StartCall.critical] using hcc
    refine ⟨i, enabled i c hc ?_ ?_⟩
    · intro e; rw [e] at hr; simp [StartPc.rank] at hr
    · intro e; rw [e] at hr; simp [StartPc.rank] at hr
  | false =>
    have : ∃ c ∈ sys.calls, StartCall.returned c = false := by
      by_contra hne
      have hall : sys.allDone = true := by
        apply List.all_eq_true.mpr
        intro c hm
        cases hret : StartCall.returned c with
        | true => rfl
        | false => exact absurd ⟨c, hm, hret⟩ hne
      rw [hall] at hnd; cases hnd
    obtain ⟨c, hm, hret⟩ := this
    obtain ⟨i, hc⟩ := List.mem_iff_getElem?.mp hm
    refine ⟨i, enabled i c hc ?_ (fun _ => hl)⟩
    simpa [StartCall.returned] using hret

/-- Every interleaving can be continued until all calls have returned. -/
theorem completion (R : GoMap Bool) (n : Nat) :
    ∀ sys : StartSystem, Inv R sys → remaining sys ≤ n →
      ∃ more, (run sys more).allDone = true := by
  induction n with
  | zero =>
    intro sys h hr
    cases hd : sys.allDone with
    | true => exact ⟨[], hd⟩
    | false =>
      obtain ⟨i, hi⟩ := step_progress R sys h hd
      omega
  | succ n ih =>
    intro sys h hr
    cases hd : sys.allDone with
    | true => exact ⟨[], hd⟩
    | false =>
      obtain ⟨i, hi⟩ := step_progress R sys h hd
      obtain ⟨more, hm⟩ := ih (step sys i) (inv_step R sys i h) (by omega)
      exact ⟨i :: more, hm⟩

/-- A call of `startQuiz` that runs alone does what the sequential function says. -/
theorem call_alone (R : GoMap Bool) (ch : String) :
    run (start R [ch]) [0, 0, 0, 0, 0, 0]
      = ⟨(startQuiz R ch).ongoing, false,
          [⟨ch, StartPc.done, GoMap.contains R ch, (startQuiz R ch).err,
            GoMap.len (startQuiz R ch).ongoing, (startQuiz R ch).status⟩]⟩ := by
  cases h : GoMap.contains R ch <;>
    simp [run, start, step, StartCall.exec, startQuiz, h]

end StartSystem


/-- C26: concurrent calls of `startQuiz`, interleaved statement by statement in any
order under the mutex of the registry.  When all calls are for the same channel, which
the registry does not contain, and all have returned, exactly one call has returned no
error and every other call the already-ongoing error.  When the calls are for pairwise
different channels, none of which the registry contains, and all have returned, all have
returned no error.  At every moment of every interleaving no channel of the registry at
the start has been claimed by a call, no channel has been claimed by two calls, and at
most one call is between lock and unlock.  Every interleaving can be continued until
all calls have returned. -/
theorem startQuiz_concurrent (R : GoMap Bool) (schedule : List Nat) :
    (∀ (ch : String) (n : Nat), hasQuiz R ch = false →
      (StartSystem.run (StartSystem.start R (List.replicate (n + 1) ch)) schedule).allDone
        = true →
      ∃ i, i < n + 1 ∧
        ((StartSystem.run (StartSystem.start R (List.replicate (n + 1) ch))
          schedule).calls[i]?.map (fun c => c.err)) = some none ∧
        ∀ j, j < n + 1 → j ≠ i →
          ((StartSystem.run (StartSystem.start R (List.replicate (n + 1) ch))
            schedule).calls[j]?.map (fun c => c.err))
            = some (some "Channel quiz already ongoing")) ∧
    (∀ channels : List String, channels.Nodup → (∀ ch ∈ channels, hasQuiz R ch = false) →
      (StartSystem.run (StartSystem.start R channels) schedule).allDone = true →
      (StartSystem.run (StartSystem.start R channels) schedule).calls.length
        = channels.length ∧
      ∀ c ∈ (StartSystem.run (StartSystem.start R channels) schedule).calls,
        c.err = none) ∧
    (∀ (channels : List String) (i j : Nat) (ci cj : StartCall),
      (StartSystem.run (StartSystem.start R channels) schedule).calls[i]? = some ci →
      (StartSystem.run (StartSystem.start R channels) schedule).calls[j]? = some cj →
      (ci.claimed = true → hasQuiz R ci.quizChannel = false ∧
        hasQuiz (StartSystem.run (StartSystem.start R channels) schedule).ongoing
          ci.quizChannel = true) ∧
      (ci.quizChannel = cj.quizChannel → ci.claimed = true → cj.claimed = true → i = j) ∧
      (ci.critical = true → cj.critical = true → i = j)) ∧
    (∀ channels : List String, ∃ more,
      (StartSystem.run (StartSystem.start R channels) (schedule ++ more)).allDone = true) := by
  refine ⟨?_, ?_, ?_, ?_⟩
  · intro ch n hR hdone
    have hinv := StartSystem.inv_run R schedule _
      (StartSystem.inv_start R (List.replicate (n + 1) ch))
    have hchan : ∀ (i : Nat) (c : StartCall),
        (StartSystem.run (StartSystem.start R (List.replicate (n + 1) ch))
          schedule).calls[i]? = some c → i < n + 1 ∧ c.quizChannel = ch := by
      intro i c hc
      have h1 := StartSystem.call_channel R _ schedule i c hc
      obtain ⟨hlt, hget⟩ := List.getElem?_eq_some_iff.mp h1
      rw [List.length_replicate] at hlt
      rw [List.getElem_replicate] at hget
      exact ⟨hlt, hget.symm⟩
    have hex : ∀ i, i < n + 1 → ∃ c,
        (StartSystem.run (StartSystem.start R (List.replicate (n + 1) ch))
          schedule).calls[i]? = some c := by
      intro i hi
      exact StartSystem.call_exists R _ schedule i (by rw [List.length_replicate]; exact hi)
    obtain ⟨c0, hc0⟩ := hex 0 (Nat.succ_pos n)
    have hd0 := StartSystem.allDone_spec _ hdone 0 c0 hc0
    have hl0 := (hinv.late 0 c0 hc0 (by rw [hd0]; simp [StartPc.rank])).2
    rw [(hchan 0 c0 hc0).2] at hl0
    rcases (hinv.registry ch).mp hl0 with h1 | ⟨i, c, hc, hcc, hcl⟩
    · have hR2 : GoMap.contains R ch = false := hR
      rw [hR2] at h1; cases h1
    · have herr : c.err = none := by
        have : c.err.isNone = true := by
          have := hcl
          simp only [StartCall.claimed, Bool.and_eq_true] at this
          exact this.2
        simpa using this
      refine ⟨i, (hchan i c hc).1, by rw [hc]; simp [herr], ?_⟩
      intro j hj hji
      obtain ⟨cj, hcj⟩ := hex j hj
      have hdj := StartSystem.allDone_spec _ hdone j cj hcj
      have hrj : 3 ≤ cj.pc.rank := by rw [hdj]; simp [StartPc.rank]
      rcases (hinv.late j cj hcj hrj).1 with h2 | h2
      · have hclj : cj.claimed = true := by
          simp [StartCall.claimed, hdj, StartPc.rank, h2]
        exact absurd (hinv.unique j i cj c hcj hc
          (by rw [(hchan j cj hcj).2, hcc]) hclj hcl) hji
      · rw [hcj]; simp [h2]
  · intro channels hnd hR hdone
    have hinv := StartSystem.inv_run R schedule _ (StartSystem.inv_start R channels)
    constructor
    · have := congrArg List.length (StartSystem.channels_started R channels schedule)
      rw [List.length_map] at this
      exact this
    · intro c hm
      obtain ⟨i, hc⟩ := List.mem_iff_getElem?.mp hm
      by_contra herr
      have hci := StartSystem.call_channel R channels schedule i c hc
      rcases hinv.refused i c hc herr with h1 | ⟨j, cj, hji, hcj, hch, _⟩
      · have hmem : c.quizChannel ∈ channels := List.getElem?_mem hci
        have h2 : GoMap.contains R c.quizChannel = false := hR _ hmem
        rw [h2] at h1; cases h1
      · have hcjch := StartSystem.call_channel R channels schedule j cj hcj
        rw [hch] at hcjch
        obtain ⟨hj1, hj2⟩ := List.getElem?_eq_some_iff.mp hcjch
        obtain ⟨hi1, hi2⟩ := List.getElem?_eq_some_iff.mp hci
        exact hji ((List.Nodup.getElem_inj_iff hnd).mp (hj2.trans hi2.symm))
  · intro channels i j ci cj hi hj
    have hinv := StartSystem.inv_run R schedule _ (StartSystem.inv_start R channels)
    refine ⟨fun hcl => ⟨hinv.fresh i ci hi hcl, ?_⟩, hinv.unique i j ci cj hi hj,
      hinv.mutex i j ci cj hi hj⟩
    have hr : 3 ≤ ci.pc.rank := by
      have := hcl
      simp only [StartCall.claimed, Bool.and_eq_true, decide_eq_true_eq] at this
      exact this.1
    exact (hinv.late i ci hi hr).2
  · intro channels
    have hinv := StartSystem.inv_run R schedule _ (StartSystem.inv_start R channels)
    obtain ⟨more, hm⟩ := StartSystem.completion R _ _ hinv (le_refl _)
    exact ⟨more, by rw [StartSystem.startSys_run_append]; exact hm⟩

/-- Witness for C26: two calls for the channel `ch` on the empty registry, interleaved
so that call 0 takes the mutex first and call 1 waits for it; call 0 returns no error and
call 1 the already-ongoing error. -/
theorem startQuiz_concurrent_witness :
    hasQuiz [] "ch" = false ∧
    (StartSystem.run (StartSystem.start [] (List.replicate (1 + 1) "ch"))
      [0, 1, 1, 0, 0, 1, 0, 0, 1, 0, 1, 1, 1, 1, 1]).allDone = true ∧
    ((StartSystem.run (StartSystem.start [] (List.replicate (1 + 1) "ch"))
      [0, 1, 1, 0, 0, 1, 0, 0, 1, 0, 1, 1, 1, 1, 1]).calls.map (fun c => c.err))
      = [none, some "Channel quiz already ongoing"] ∧
    ∃ i, i < 1 + 1 ∧
      ((StartSystem.run (StartSystem.start [] (List.replicate (1 + 1) "ch"))
        [0, 1, 1, 0, 0, 1, 0, 0, 1, 0, 1, 1, 1, 1, 1]).calls[i]?.map (fun c => c.err))
        = some none ∧
      ∀ j, j < 1 + 1 → j ≠ i →
        ((StartSystem.run (StartSystem.start [] (List.replicate (1 + 1) "ch"))
          [0, 1, 1, 0, 0, 1, 0, 0, 1, 0, 1, 1, 1, 1, 1]).calls[j]?.map (fun c => c.err))
          = some (some "Channel quiz already ongoing") :=
  ⟨by decide, by decide, by decide,
    (startQuiz_concurrent [] [0, 1, 1, 0, 0, 1, 0, 0, 1, 0, 1, 1, 1, 1, 1]).1 "ch" 1
      (by decide) (by decide)⟩

end KanjiQuiz
